import Mathlib

/-!
# Audio core: DSP processor, equalizer, audio engine, visualizer

A shallow embedding of the signal-processing sources of the audio core
(`dsp_processor.cpp`, `equalizer.cpp`, `audio_engine.cpp`, `visualizer.cpp`) together
with theorems about them.

Conventions of the embedding:

* `float` samples are elements of a linearly ordered field `α` (the exact-arithmetic
  reading of the code); the operations are generic and computable, so they run on `ℚ`
  and are reasoned about on `ℝ`.
* the C math library (`std::sin`, `std::cos`, `std::sqrt`, `std::pow`, `M_PI`) is the
  parameter `MathLib α`, extended by `std::log10` to `SpectrumMath α` for the visualizer;
  `realMath` and `realSpectrumMath`, the only definitions that are not computable, are
  their exact interpretations on `ℝ`.
* the audio stream of the platform library is a record of its configuration and of the
  requests it received; the results of `openStream` and `requestStart` are parameters of
  `start`.
* a raw buffer `float*` is a `List α`; an access past the end of a buffer or of a
  `std::vector` is a fault, and the operation returns `none`.
* frame and channel counts are natural numbers; indices passed by callers are `Int`.
* function-local `static` variables are explicit fields of a statics record threaded
  through the calls.
* where a claim turns on the rounding of single operations, the source lines are read a
  second time in IEEE 754 arithmetic on the rationals (`roundF32`, `roundF64` and the
  definitions built on them): binary32 for `float`, binary64 for `double`, round to
  nearest, ties to even.
* `bitReversal` and `referenceDFTMagnitude` are the reference definitions of the transform
  (bit-reversal permutation, discrete Fourier transform); `dcGain` and `nyquistGain` measure
  a coefficient set at the two ends of the spectrum, and `successiveCalls` runs a filtering
  method several times on the same statics; every other definition follows the sources.
-/

namespace AudioCore

/-! ## Loops and buffers -/

/-- The counted loop `for (int i = 0; i < n; ++i) body`, threading the state through
the iterations; it stops with `none` as soon as one iteration faults. -/
def forLoop {σ : Type} (n : Nat) (body : Nat → σ → Option σ) (s : σ) : Option σ :=
  (List.range n).foldlM (fun acc i => body i acc) s

/-- The call `std::copy(src, src + count, dst)` on two distinct buffers: the first `count`
elements of `dst` are overwritten; reading or writing past the end faults. -/
def stdCopy {α : Type} (src : List α) (count : Nat) (dst : List α) : Option (List α) :=
  if count ≤ src.length ∧ count ≤ dst.length then
    some (src.take count ++ dst.drop count)
  else none

/-- The call `v.resize(n)` guarded by `v.size() < n`: the vector grows with zeros and
never shrinks. -/
def growTo {α : Type} [Zero α] (v : List α) (n : Nat) : List α :=
  if v.length < n then v ++ List.replicate (n - v.length) 0 else v

/-! ## DSP processor: data model (`dsp_processor.h`) -/

/-- The enumeration `FilterType`. -/
inductive FilterType where
  | LOW_PASS
  | HIGH_PASS
  | BAND_PASS
  | LOW_SHELF
  | HIGH_SHELF
  | PEAKING
  deriving DecidableEq, Repr

/-- The enumeration `EffectType`. -/
inductive EffectType where
  | REVERB
  | DELAY
  | CHORUS
  | STEREO_WIDENER
  | LIMITER
  | COMPRESSOR
  deriving DecidableEq, Repr

/-- The record `FilterParams`. -/
structure FilterParams (α : Type) where
  type : FilterType
  frequency : α
  q : α
  gain : α
  deriving DecidableEq, Repr

/-- The record `EffectParams`. -/
structure EffectParams (α : Type) where
  type : EffectType
  mix : α
  param1 : α
  param2 : α
  param3 : α
  deriving DecidableEq, Repr

/-- The data members of `class DSPProcessor`. -/
structure DSPProcessor (α : Type) where
  filters : List (FilterParams α)
  effects : List (EffectParams α)
  preampGain : α
  limiterThreshold : α
  limiterRatio : α
  sampleRate : Int
  tempBuffer : List α
  deriving DecidableEq, Repr

namespace DSPProcessor

variable {α : Type} [LinearOrderedField α]

/-- The constructor `DSPProcessor::DSPProcessor()`. -/
def new : DSPProcessor α :=
  { filters := [], effects := [], preampGain := 1.0, limiterThreshold := 0.95,
    limiterRatio := 10.0, sampleRate := 48000, tempBuffer := [] }

/-- The body of the loop of `DSPProcessor::applyPreampAndLimiter` on the sample value `x`
read from `buffer[i]`: the value left in `buffer[i]`. -/
def preampLimiterSample (p : DSPProcessor α) (x : α) : α :=
  let x := x * p.preampGain
  let absVal := |x|
  if absVal > p.limiterThreshold then
    let gain := p.limiterThreshold + (absVal - p.limiterThreshold) / p.limiterRatio
    let gain := gain / absVal
    x * gain
  else x

/-- The method `DSPProcessor::applyPreampAndLimiter`. -/
def applyPreampAndLimiter (p : DSPProcessor α) (buffer : List α)
    (numFrames numChannels : Nat) : Option (List α) :=
  forLoop (numFrames * numChannels)
    (fun i buf => (buf[i]?).map (fun x => buf.set i (p.preampLimiterSample x))) buffer

end DSPProcessor

/-! ## Biquad filters -/

/-- The C math library the filter design calls: `M_PI`, `std::sin`, `std::cos`,
`std::sqrt` and `std::pow`. -/
structure MathLib (α : Type) where
  pi : α
  sin : α → α
  cos : α → α
  sqrt : α → α
  pow : α → α → α

/-- The exact interpretation of the math library on the real numbers. -/
noncomputable def realMath : MathLib ℝ :=
  { pi := Real.pi, sin := Real.sin, cos := Real.cos, sqrt := Real.sqrt,
    pow := fun x y => x ^ y }

/-- The six local variables `b0, b1, b2, a0, a1, a2` of the filter design, before the
division by `a0`. -/
structure RawCoeffs (α : Type) where
  b0 : α
  b1 : α
  b2 : α
  a0 : α
  a1 : α
  a2 : α
  deriving DecidableEq, Repr

/-- The record `Equalizer::FilterCoeffs`: the coefficients after normalization. -/
structure FilterCoeffs (α : Type) where
  b0 : α
  b1 : α
  b2 : α
  a1 : α
  a2 : α
  deriving DecidableEq, Repr

/-- The histories `x1, x2, y1, y2` declared as function-local statics next to each
biquad loop: four vectors indexed by the channel. -/
structure BiquadHistory (α : Type) where
  x1 : List α
  x2 : List α
  y1 : List α
  y2 : List α
  deriving DecidableEq, Repr

section Biquad

variable {α : Type} [LinearOrderedField α]

/-- The initial value of the static histories: `std::vector<float> x1(2, 0.0f)` and
likewise `x2`, `y1`, `y2`. -/
def BiquadHistory.init : BiquadHistory α :=
  { x1 := [0, 0], x2 := [0, 0], y1 := [0, 0], y2 := [0, 0] }

/-- The normalization step `b0 /= a0; b1 /= a0; b2 /= a0; a1 /= a0; a2 /= a0`. -/
def RawCoeffs.normalize (r : RawCoeffs α) : FilterCoeffs α :=
  { b0 := r.b0 / r.a0, b1 := r.b1 / r.a0, b2 := r.b2 / r.a0,
    a1 := r.a1 / r.a0, a2 := r.a2 / r.a0 }

/-- The angular frequency `w0 = 2.0f * M_PI * frequency / sampleRate_`. -/
def omega0 (m : MathLib α) (sampleRate : Int) (frequency : α) : α :=
  2 * m.pi * frequency / (sampleRate : α)

/-- The low-pass design (case `LOW_PASS`), with `alpha = sin(w0) / (2 q)`. -/
def lowPassRaw (m : MathLib α) (w0 q : α) : RawCoeffs α :=
  let alpha := m.sin w0 / (2 * q)
  let cosw0 := m.cos w0
  { b0 := (1 - cosw0) / 2, b1 := 1 - cosw0, b2 := (1 - cosw0) / 2,
    a0 := 1 + alpha, a1 := -2 * cosw0, a2 := 1 - alpha }

/-- The high-pass design (case `HIGH_PASS`). -/
def highPassRaw (m : MathLib α) (w0 q : α) : RawCoeffs α :=
  let alpha := m.sin w0 / (2 * q)
  let cosw0 := m.cos w0
  { b0 := (1 + cosw0) / 2, b1 := -(1 + cosw0), b2 := (1 + cosw0) / 2,
    a0 := 1 + alpha, a1 := -2 * cosw0, a2 := 1 - alpha }

/-- The low-shelf design (case `LOW_SHELF` and `Equalizer::designLowShelf`, whose
formulas are the same text), with the slope `S = 1`. -/
def lowShelfRaw (m : MathLib α) (w0 gain : α) : RawCoeffs α :=
  let A := m.pow 10 (gain / 40)
  let cosw0 := m.cos w0
  let sinw0 := m.sin w0
  let S : α := 1
  let alpha := sinw0 / 2 * m.sqrt ((A + 1 / A) * (1 / S - 1) + 2)
  { b0 := A * ((A + 1) - (A - 1) * cosw0 + 2 * m.sqrt A * alpha),
    b1 := 2 * A * ((A - 1) - (A + 1) * cosw0),
    b2 := A * ((A + 1) - (A - 1) * cosw0 - 2 * m.sqrt A * alpha),
    a0 := (A + 1) + (A - 1) * cosw0 + 2 * m.sqrt A * alpha,
    a1 := -2 * ((A - 1) + (A + 1) * cosw0),
    a2 := (A + 1) + (A - 1) * cosw0 - 2 * m.sqrt A * alpha }

/-- The high-shelf design (case `HIGH_SHELF` and `Equalizer::designHighShelf`). -/
def highShelfRaw (m : MathLib α) (w0 gain : α) : RawCoeffs α :=
  let A := m.pow 10 (gain / 40)
  let cosw0 := m.cos w0
  let sinw0 := m.sin w0
  let S : α := 1
  let alpha := sinw0 / 2 * m.sqrt ((A + 1 / A) * (1 / S - 1) + 2)
  { b0 := A * ((A + 1) + (A - 1) * cosw0 + 2 * m.sqrt A * alpha),
    b1 := -2 * A * ((A - 1) + (A + 1) * cosw0),
    b2 := A * ((A + 1) + (A - 1) * cosw0 - 2 * m.sqrt A * alpha),
    a0 := (A + 1) - (A - 1) * cosw0 + 2 * m.sqrt A * alpha,
    a1 := 2 * ((A - 1) - (A + 1) * cosw0),
    a2 := (A + 1) - (A - 1) * cosw0 - 2 * m.sqrt A * alpha }

/-- The peaking design (case `PEAKING` and `Equalizer::designPeaking`). -/
def peakingRaw (m : MathLib α) (w0 gain q : α) : RawCoeffs α :=
  let A := m.pow 10 (gain / 40)
  let cosw0 := m.cos w0
  let sinw0 := m.sin w0
  let alpha := sinw0 / (2 * q)
  { b0 := 1 + alpha * A, b1 := -2 * cosw0, b2 := 1 - alpha * A,
    a0 := 1 + alpha / A, a1 := -2 * cosw0, a2 := 1 - alpha / A }

/-- One iteration of the inner loop of the biquad recurrence, for the sample at
`frame * numChannels + ch`: it reads the sample and the history of channel `ch`, shifts
the history and stores `y0` in the buffer. -/
def biquadSample (c : FilterCoeffs α) (numChannels frame ch : Nat)
    (s : BiquadHistory α × List α) : Option (BiquadHistory α × List α) := do
  let idx := frame * numChannels + ch
  let x0 ← s.2[idx]?
  let x1 ← s.1.x1[ch]?
  let x2 ← s.1.x2[ch]?
  let y1 ← s.1.y1[ch]?
  let y2 ← s.1.y2[ch]?
  let y0 := c.b0 * x0 + c.b1 * x1 + c.b2 * x2 - c.a1 * y1 - c.a2 * y2
  some ({ x2 := s.1.x2.set ch x1, x1 := s.1.x1.set ch x0,
          y2 := s.1.y2.set ch y1, y1 := s.1.y1.set ch y0 }, s.2.set idx y0)

/-- The biquad recurrence over a whole interleaved buffer: the loop over the frames and,
inside it, over the channels. -/
def biquadLoop (c : FilterCoeffs α) (numFrames numChannels : Nat)
    (s : BiquadHistory α × List α) : Option (BiquadHistory α × List α) :=
  forLoop numFrames (fun frame s1 =>
    forLoop numChannels (fun ch s2 => biquadSample c numChannels frame ch s2) s1) s

end Biquad

/-! ## DSP processor: operations (`dsp_processor.cpp`) -/

/-- The function-local statics of `dsp_processor.cpp`: the biquad histories of
`applyFilters`, and the delay line and write index of the `REVERB` case and of the
`DELAY` case of `applyEffects`. -/
structure DSPStatics (α : Type) where
  filterHistory : BiquadHistory α
  reverbBuffer : List α
  reverbIndex : Nat
  delayBuffer : List α
  delayIndex : Nat
  deriving DecidableEq, Repr

/-- The value of the conversion of a negative `int` to `size_t` wraps modulo this
number (a 64-bit `size_t`). -/
def sizeModulus : Int := 2 ^ 64

/-- What `DSPProcessor::processAudio` leaves behind: the processor, the statics, and
the two caller buffers. -/
structure ProcessResult (α : Type) where
  processor : DSPProcessor α
  statics : DSPStatics α
  input : List α
  output : List α
  deriving DecidableEq, Repr

namespace DSPProcessor

variable {α : Type} [LinearOrderedField α]

/-- The statics at program start: zero histories, two zeroed delay lines of 44100
samples, write indices 0. -/
def initStatics : DSPStatics α :=
  { filterHistory := BiquadHistory.init,
    reverbBuffer := List.replicate 44100 0, reverbIndex := 0,
    delayBuffer := List.replicate 44100 0, delayIndex := 0 }

/-- The method `DSPProcessor::addFilter`. -/
def addFilter (p : DSPProcessor α) (params : FilterParams α) : DSPProcessor α :=
  { p with filters := p.filters ++ [params] }

/-- The method `DSPProcessor::removeFilter`. -/
def removeFilter (p : DSPProcessor α) (index : Int) : DSPProcessor α :=
  if index ≥ 0 ∧ index < (p.filters.length : Int) then
    { p with filters := p.filters.eraseIdx index.toNat }
  else p

/-- The method `DSPProcessor::updateFilter`. -/
def updateFilter (p : DSPProcessor α) (index : Int) (params : FilterParams α) :
    DSPProcessor α :=
  if index ≥ 0 ∧ index < (p.filters.length : Int) then
    { p with filters := p.filters.set index.toNat params }
  else p

/-- The method `DSPProcessor::clearFilters`. -/
def clearFilters (p : DSPProcessor α) : DSPProcessor α :=
  { p with filters := [] }

/-- The method `DSPProcessor::addEffect`. -/
def addEffect (p : DSPProcessor α) (params : EffectParams α) : DSPProcessor α :=
  { p with effects := p.effects ++ [params] }

/-- The method `DSPProcessor::removeEffect`. -/
def removeEffect (p : DSPProcessor α) (index : Int) : DSPProcessor α :=
  if index ≥ 0 ∧ index < (p.effects.length : Int) then
    { p with effects := p.effects.eraseIdx index.toNat }
  else p

/-- The method `DSPProcessor::updateEffect`. -/
def updateEffect (p : DSPProcessor α) (index : Int) (params : EffectParams α) :
    DSPProcessor α :=
  if index ≥ 0 ∧ index < (p.effects.length : Int) then
    { p with effects := p.effects.set index.toNat params }
  else p

/-- The method `DSPProcessor::clearEffects`. -/
def clearEffects (p : DSPProcessor α) : DSPProcessor α :=
  { p with effects := [] }

/-- The method `DSPProcessor::setPreamp`. -/
def setPreamp (p : DSPProcessor α) (gain : α) : DSPProcessor α :=
  { p with preampGain := gain }

/-- The method `DSPProcessor::setLimiterThreshold`. -/
def setLimiterThreshold (p : DSPProcessor α) (threshold : α) : DSPProcessor α :=
  { p with limiterThreshold := threshold }

/-- The method `DSPProcessor::setLimiterRatio`. -/
def setLimiterRatio (p : DSPProcessor α) (ratio : α) : DSPProcessor α :=
  { p with limiterRatio := ratio }

/-- The method `DSPProcessor::setSampleRate`. -/
def setSampleRate (p : DSPProcessor α) (sampleRate : Int) : DSPProcessor α :=
  { p with sampleRate := sampleRate }

/-- The `switch (filter.type)` of `DSPProcessor::applyFilters`: the six coefficients of
a filter before normalization, or `none` on the `default: continue` branch. -/
def designFilter (m : MathLib α) (sampleRate : Int) (filter : FilterParams α) :
    Option (RawCoeffs α) :=
  let w0 := omega0 m sampleRate filter.frequency
  match filter.type with
  | FilterType.LOW_PASS => some (lowPassRaw m w0 filter.q)
  | FilterType.HIGH_PASS => some (highPassRaw m w0 filter.q)
  | FilterType.LOW_SHELF => some (lowShelfRaw m w0 filter.gain)
  | FilterType.HIGH_SHELF => some (highShelfRaw m w0 filter.gain)
  | FilterType.PEAKING => some (peakingRaw m w0 filter.gain filter.q)
  | FilterType.BAND_PASS => none

/-- The body of the loop over `filters_` in `DSPProcessor::applyFilters`: design,
normalize, then run the recurrence on the static histories. -/
def applyFilter (m : MathLib α) (sampleRate : Int) (numFrames numChannels : Nat)
    (s : BiquadHistory α × List α) (filter : FilterParams α) :
    Option (BiquadHistory α × List α) :=
  match designFilter m sampleRate filter with
  | none => some s
  | some raw => biquadLoop raw.normalize numFrames numChannels s

/-- The method `DSPProcessor::applyFilters`. -/
def applyFilters (m : MathLib α) (p : DSPProcessor α) (numFrames numChannels : Nat)
    (s : BiquadHistory α × List α) : Option (BiquadHistory α × List α) :=
  p.filters.foldlM (applyFilter m p.sampleRate numFrames numChannels) s

/-- The conversion `static_cast<int>(x)` of a float: truncation toward zero. -/
def truncToInt [FloorRing α] (x : α) : Int :=
  if 0 ≤ x then ⌊x⌋ else ⌈x⌉

/-- One iteration of the loop of the `REVERB` case on sample `i`. -/
def reverbSample (effect : EffectParams α) (i : Nat) (s : DSPStatics α × List α) :
    Option (DSPStatics α × List α) := do
  let delayed ← s.1.reverbBuffer[s.1.reverbIndex]?
  let x ← s.2[i]?
  some ({ s.1 with
            reverbBuffer := s.1.reverbBuffer.set s.1.reverbIndex x,
            reverbIndex := (s.1.reverbIndex + 1) % s.1.reverbBuffer.length },
        s.2.set i (x * (1 - effect.mix) + delayed * effect.mix * 0.5))

/-- The index read in the `DELAY` case,
`(delayIndex - delaySamples + delayBuffer.size()) % delayBuffer.size()`: the signed
difference is converted to `size_t` before the sum and the remainder. -/
def delayReadIndex (delayIndex : Nat) (delaySamples : Int) (size : Nat) : Nat :=
  ((((delayIndex : Int) - delaySamples + (size : Int)) % sizeModulus) % (size : Int)).toNat

/-- One iteration of the loop of the `DELAY` case on sample `i`. -/
def delaySample (effect : EffectParams α) (delaySamples : Int) (i : Nat)
    (s : DSPStatics α × List α) : Option (DSPStatics α × List α) := do
  let delayed ←
    s.1.delayBuffer[delayReadIndex s.1.delayIndex delaySamples s.1.delayBuffer.length]?
  let x ← s.2[i]?
  if s.1.delayIndex < s.1.delayBuffer.length then
    some ({ s.1 with
              delayBuffer := s.1.delayBuffer.set s.1.delayIndex x,
              delayIndex := (s.1.delayIndex + 1) % s.1.delayBuffer.length },
          s.2.set i (x + delayed * effect.mix))
  else none

/-- One iteration of the loop of the `STEREO_WIDENER` case on frame `frame`. -/
def widenFrame (effect : EffectParams α) (frame : Nat) (buffer : List α) :
    Option (List α) := do
  let left ← buffer[frame * 2]?
  let right ← buffer[frame * 2 + 1]?
  let mid := (left + right) * 0.5
  let side := (left - right) * 0.5
  let side := side * effect.param1
  some ((buffer.set (frame * 2) (mid + side)).set (frame * 2 + 1) (mid - side))

/-- One iteration of the loop of the `LIMITER` case on sample `i`. -/
def limiterSample (p : DSPProcessor α) (i : Nat) (buffer : List α) : Option (List α) := do
  let x ← buffer[i]?
  let absVal := |x|
  if absVal > p.limiterThreshold then
    let gain := p.limiterThreshold / absVal
    some (buffer.set i (x * gain))
  else some buffer

/-- The body of the loop over `effects_` in `DSPProcessor::applyEffects`: the
`switch (effect.type)`. -/
def applyEffect [FloorRing α] (p : DSPProcessor α) (numFrames numChannels : Nat)
    (s : DSPStatics α × List α) (effect : EffectParams α) :
    Option (DSPStatics α × List α) :=
  match effect.type with
  | EffectType.REVERB =>
      forLoop (numFrames * numChannels) (reverbSample effect) s
  | EffectType.DELAY =>
      let delaySamples := truncToInt (effect.param1 * (p.sampleRate : α))
      forLoop (numFrames * numChannels) (delaySample effect delaySamples) s
  | EffectType.STEREO_WIDENER =>
      if numChannels = 2 then
        (forLoop numFrames (widenFrame effect) s.2).map (fun buf => (s.1, buf))
      else some s
  | EffectType.LIMITER =>
      (forLoop (numFrames * numChannels) (limiterSample p) s.2).map (fun buf => (s.1, buf))
  | EffectType.CHORUS => some s
  | EffectType.COMPRESSOR => some s

/-- The method `DSPProcessor::applyEffects`. -/
def applyEffects [FloorRing α] (p : DSPProcessor α) (numFrames numChannels : Nat)
    (s : DSPStatics α × List α) : Option (DSPStatics α × List α) :=
  p.effects.foldlM (applyEffect p numFrames numChannels) s

/-- The method `DSPProcessor::processAudio`, called with two distinct buffers `input`
and `output`. -/
def processAudio [FloorRing α] (m : MathLib α) (p : DSPProcessor α) (st : DSPStatics α)
    (input output : List α) (numFrames numChannels : Nat) : Option (ProcessResult α) := do
  let temp := growTo p.tempBuffer (numFrames * numChannels)
  let temp ← stdCopy input (numFrames * numChannels) temp
  let filtered ← applyFilters m p numFrames numChannels (st.filterHistory, temp)
  let affected ← applyEffects p numFrames numChannels
    ({ st with filterHistory := filtered.1 }, filtered.2)
  let temp ← applyPreampAndLimiter p affected.2 numFrames numChannels
  let out ← stdCopy temp (numFrames * numChannels) output
  some { processor := { p with tempBuffer := temp }, statics := affected.1,
         input := input, output := out }

end DSPProcessor

/-! ## Equalizer (`equalizer.h`, `equalizer.cpp`) -/

/-- The record `ParametricBand`. -/
structure ParametricBand (α : Type) where
  frequency : α
  q : α
  gain : α
  enabled : Bool
  deriving DecidableEq, Repr

/-- The data members of `class Equalizer`; the two `std::array<_, 10>` members are
functions on `Fin 10`. -/
structure Equalizer (α : Type) where
  graphicEQGains : Fin 10 → α
  parametricBands : List (ParametricBand α)
  sampleRate : Int
  enabled : Bool
  graphicEQCoeffs : Fin 10 → FilterCoeffs α

/-- The function-local statics of `equalizer.cpp`: the biquad histories declared in
`applyGraphicEQ` and those declared in `applyParametricEQ`. -/
structure EqStatics (α : Type) where
  graphicHistory : BiquadHistory α
  parametricHistory : BiquadHistory α
  deriving DecidableEq, Repr

/-- What `Equalizer::processAudio` leaves behind: the equalizer object, the statics and
the output buffer. -/
structure EqResult (α : Type) where
  equalizer : Equalizer α
  statics : EqStatics α
  output : List α

/-- The public operations of `class Equalizer` that are not `const`. -/
inductive EqOp (α : Type) where
  | setGraphicEQBand (band : Int) (gain : α)
  | setGraphicEQBands (gains : Fin 10 → α)
  | resetGraphicEQ
  | addParametricBand (band : ParametricBand α)
  | removeParametricBand (index : Int)
  | updateParametricBand (index : Int) (band : ParametricBand α)
  | clearParametricBands
  | processAudio (input output : List α) (numFrames numChannels : Nat)
  | setSampleRate (sampleRate : Int)
  | setEnabled (enabled : Bool)
  | loadPreset (name : String)
  | savePreset (name : String)

section EqualizerDefs

variable {α : Type} [LinearOrderedField α]

/-- The constant table `GRAPHIC_EQ_FREQUENCIES`. -/
def GRAPHIC_EQ_FREQUENCIES : Fin 10 → α :=
  ![31.25, 62.5, 125.0, 250.0, 500.0, 1000.0, 2000.0, 4000.0, 8000.0, 16000.0]

/-- The library function `std::clamp(v, lo, hi)`. -/
def stdClamp (v lo hi : α) : α :=
  if v < lo then lo else if hi < v then hi else v

end EqualizerDefs

namespace Equalizer

variable {α : Type} [LinearOrderedField α]

/-- The method `Equalizer::designLowShelf`; the parameter `q` is not used. -/
def designLowShelf (m : MathLib α) (eq : Equalizer α) (frequency gain _q : α) :
    FilterCoeffs α :=
  (lowShelfRaw m (omega0 m eq.sampleRate frequency) gain).normalize

/-- The method `Equalizer::designHighShelf`; the parameter `q` is not used. -/
def designHighShelf (m : MathLib α) (eq : Equalizer α) (frequency gain _q : α) :
    FilterCoeffs α :=
  (highShelfRaw m (omega0 m eq.sampleRate frequency) gain).normalize

/-- The method `Equalizer::designPeaking`. -/
def designPeaking (m : MathLib α) (eq : Equalizer α) (frequency gain q : α) :
    FilterCoeffs α :=
  (peakingRaw m (omega0 m eq.sampleRate frequency) gain q).normalize

/-- The value assigned to `graphicEQCoeffs_[i]` by iteration `i` of the loop of
`Equalizer::updateGraphicEQCoeffs`. -/
def graphicBandCoeffs (m : MathLib α) (eq : Equalizer α) (i : Fin 10) : FilterCoeffs α :=
  let frequency : α := GRAPHIC_EQ_FREQUENCIES i
  let gain := eq.graphicEQGains i
  if |gain| < 0.1 then
    { b0 := 1.0, b1 := 0.0, b2 := 0.0, a1 := 0.0, a2 := 0.0 }
  else if frequency < 1000.0 then
    designLowShelf m eq frequency gain 1.0
  else
    designHighShelf m eq frequency gain 1.0

/-- The method `Equalizer::updateGraphicEQCoeffs`: the loop over the ten bands, each
iteration storing one entry of the cache. -/
def updateGraphicEQCoeffs (m : MathLib α) (eq : Equalizer α) : Equalizer α :=
  (List.finRange 10).foldl
    (fun e i => { e with
      graphicEQCoeffs := Function.update e.graphicEQCoeffs i (graphicBandCoeffs m e i) })
    eq

/-- The method `Equalizer::updateParametricEQCoeffs`, whose body is empty. -/
def updateParametricEQCoeffs (eq : Equalizer α) : Equalizer α := eq

/-- The constructor `Equalizer::Equalizer()`; the cache has no initial value in the
source and is filled by the call of `updateGraphicEQCoeffs`. -/
def new (m : MathLib α) : Equalizer α :=
  updateGraphicEQCoeffs m
    { graphicEQGains := fun _ => 0.0, parametricBands := [], sampleRate := 48000,
      enabled := false,
      graphicEQCoeffs := fun _ => { b0 := 0, b1 := 0, b2 := 0, a1 := 0, a2 := 0 } }

/-- The method `Equalizer::setGraphicEQBand`. -/
def setGraphicEQBand (m : MathLib α) (eq : Equalizer α) (band : Int) (gain : α) :
    Equalizer α :=
  if h : band ≥ 0 ∧ band < 10 then
    updateGraphicEQCoeffs m
      { eq with
        graphicEQGains :=
          Function.update eq.graphicEQGains ⟨band.toNat, by omega⟩ (stdClamp gain (-12.0) 12.0) }
  else eq

/-- The method `Equalizer::getGraphicEQBand`. -/
def getGraphicEQBand (eq : Equalizer α) (band : Int) : α :=
  if h : band ≥ 0 ∧ band < 10 then eq.graphicEQGains ⟨band.toNat, by omega⟩ else 0.0

/-- The method `Equalizer::setGraphicEQBands`. -/
def setGraphicEQBands (m : MathLib α) (eq : Equalizer α) (gains : Fin 10 → α) :
    Equalizer α :=
  updateGraphicEQCoeffs m
    { eq with graphicEQGains := fun i => stdClamp (gains i) (-12.0) 12.0 }

/-- The method `Equalizer::getGraphicEQBands`. -/
def getGraphicEQBands (eq : Equalizer α) : Fin 10 → α := eq.graphicEQGains

/-- The method `Equalizer::resetGraphicEQ`. -/
def resetGraphicEQ (m : MathLib α) (eq : Equalizer α) : Equalizer α :=
  updateGraphicEQCoeffs m { eq with graphicEQGains := fun _ => 0.0 }

/-- The method `Equalizer::addParametricBand`. -/
def addParametricBand (eq : Equalizer α) (band : ParametricBand α) : Equalizer α :=
  updateParametricEQCoeffs { eq with parametricBands := eq.parametricBands ++ [band] }

/-- The method `Equalizer::removeParametricBand`. -/
def removeParametricBand (eq : Equalizer α) (index : Int) : Equalizer α :=
  if index ≥ 0 ∧ index < (eq.parametricBands.length : Int) then
    updateParametricEQCoeffs
      { eq with parametricBands := eq.parametricBands.eraseIdx index.toNat }
  else eq

/-- The method `Equalizer::updateParametricBand`. -/
def updateParametricBand (eq : Equalizer α) (index : Int) (band : ParametricBand α) :
    Equalizer α :=
  if index ≥ 0 ∧ index < (eq.parametricBands.length : Int) then
    updateParametricEQCoeffs
      { eq with parametricBands := eq.parametricBands.set index.toNat band }
  else eq

/-- The method `Equalizer::clearParametricBands`. -/
def clearParametricBands (eq : Equalizer α) : Equalizer α :=
  { eq with parametricBands := [] }

/-- The method `Equalizer::setSampleRate`. -/
def setSampleRate (m : MathLib α) (eq : Equalizer α) (sampleRate : Int) : Equalizer α :=
  updateParametricEQCoeffs (updateGraphicEQCoeffs m { eq with sampleRate := sampleRate })

/-- The method `Equalizer::setEnabled`. -/
def setEnabled (eq : Equalizer α) (enabled : Bool) : Equalizer α :=
  { eq with enabled := enabled }

/-- The method `Equalizer::isEnabled`. -/
def isEnabled (eq : Equalizer α) : Bool := eq.enabled

/-- The method `Equalizer::loadPreset`. -/
def loadPreset (m : MathLib α) (eq : Equalizer α) (_name : String) : Equalizer α :=
  clearParametricBands (resetGraphicEQ m eq)

/-- The method `Equalizer::savePreset`, whose body is empty. -/
def savePreset (eq : Equalizer α) (_name : String) : Equalizer α := eq

/-- The test `std::abs(coeffs.b0 - 1.0f) < 0.001f && ...` of `applyGraphicEQ` that makes
a band be skipped. -/
def isFlat (coeffs : FilterCoeffs α) : Bool :=
  decide (|coeffs.b0 - 1.0| < 0.001) && decide (|coeffs.b1| < 0.001) &&
    decide (|coeffs.b2| < 0.001) && decide (|coeffs.a1| < 0.001) &&
    decide (|coeffs.a2| < 0.001)

/-- The method `Equalizer::applyGraphicEQ`, on the statics declared in it. -/
def applyGraphicEQ (eq : Equalizer α) (numFrames numChannels : Nat)
    (s : BiquadHistory α × List α) : Option (BiquadHistory α × List α) :=
  (List.finRange 10).foldlM
    (fun acc band =>
      let coeffs := eq.graphicEQCoeffs band
      if isFlat coeffs then some acc
      else biquadLoop coeffs numFrames numChannels acc)
    s

/-- The method `Equalizer::applyParametricEQ`, on the statics declared in it. -/
def applyParametricEQ (m : MathLib α) (eq : Equalizer α) (numFrames numChannels : Nat)
    (s : BiquadHistory α × List α) : Option (BiquadHistory α × List α) :=
  eq.parametricBands.foldlM
    (fun acc band =>
      if !band.enabled then some acc
      else
        let coeffs := designPeaking m eq band.frequency band.gain band.q
        biquadLoop coeffs numFrames numChannels acc)
    s

/-- The method `Equalizer::processAudio`, called with two distinct buffers. -/
def processAudio (m : MathLib α) (eq : Equalizer α) (st : EqStatics α)
    (input output : List α) (numFrames numChannels : Nat) : Option (EqResult α) :=
  if !eq.enabled then do
    let out ← stdCopy input (numFrames * numChannels) output
    some { equalizer := eq, statics := st, output := out }
  else do
    let out ← stdCopy input (numFrames * numChannels) output
    let g ← applyGraphicEQ eq numFrames numChannels (st.graphicHistory, out)
    let q ← applyParametricEQ m eq numFrames numChannels (st.parametricHistory, g.2)
    some { equalizer := eq, statics := { graphicHistory := g.1, parametricHistory := q.1 },
           output := q.2 }

/-- The statics of `equalizer.cpp` at program start. -/
def initStatics : EqStatics α :=
  { graphicHistory := BiquadHistory.init, parametricHistory := BiquadHistory.init }

/-- The effect of one public operation on the equalizer object and the statics; `none`
when the operation faults. -/
def exec (m : MathLib α) (op : EqOp α) (s : Equalizer α × EqStatics α) :
    Option (Equalizer α × EqStatics α) :=
  match op with
  | EqOp.setGraphicEQBand band gain => some (setGraphicEQBand m s.1 band gain, s.2)
  | EqOp.setGraphicEQBands gains => some (setGraphicEQBands m s.1 gains, s.2)
  | EqOp.resetGraphicEQ => some (resetGraphicEQ m s.1, s.2)
  | EqOp.addParametricBand band => some (addParametricBand s.1 band, s.2)
  | EqOp.removeParametricBand index => some (removeParametricBand s.1 index, s.2)
  | EqOp.updateParametricBand index band => some (updateParametricBand s.1 index band, s.2)
  | EqOp.clearParametricBands => some (clearParametricBands s.1, s.2)
  | EqOp.processAudio input output numFrames numChannels =>
      (processAudio m s.1 s.2 input output numFrames numChannels).map
        (fun r => (r.equalizer, r.statics))
  | EqOp.setSampleRate sampleRate => some (setSampleRate m s.1 sampleRate, s.2)
  | EqOp.setEnabled enabled => some (setEnabled s.1 enabled, s.2)
  | EqOp.loadPreset name => some (loadPreset m s.1 name, s.2)
  | EqOp.savePreset name => some (savePreset s.1 name, s.2)

/-- The states reachable from construction by a sequence of public operations. -/
inductive Reachable (m : MathLib α) : Equalizer α × EqStatics α → Prop where
  | init : Reachable m (Equalizer.new m, initStatics)
  | step (op : EqOp α) (s t : Equalizer α × EqStatics α) :
      Reachable m s → exec m op s = some t → Reachable m t

end Equalizer

/-! ## Invariants -/

namespace Equalizer

variable {α : Type} [LinearOrderedField α]

/-- The invariant of the gain array: every gain is between -12 and 12. -/
def GainsInRange (eq : Equalizer α) : Prop :=
  ∀ i : Fin 10, -12 ≤ eq.graphicEQGains i ∧ eq.graphicEQGains i ≤ 12

/-- The invariant of the cache: every entry is the design for the current gain and
sample rate. -/
def CacheConsistent (m : MathLib α) (eq : Equalizer α) : Prop :=
  ∀ i : Fin 10, eq.graphicEQCoeffs i = graphicBandCoeffs m eq i

end Equalizer

section BiquadInvariant

variable {α : Type} [LinearOrderedField α]

/-- What the biquad loop maintains after `k` samples: the buffer keeps its length, the
samples not yet processed are those of the original buffer `buf0`, the processed ones
satisfy `Pout`, the four history vectors have two entries, and the history of every
channel satisfies `J`. -/
def BiquadInv (buf0 : List α) (Pout : α → Prop) (J : α → α → α → α → Prop) (k : Nat)
    (s : BiquadHistory α × List α) : Prop :=
  s.2.length = buf0.length ∧
  (∀ i, k ≤ i → s.2[i]? = buf0[i]?) ∧
  (∀ i y, i < k → s.2[i]? = some y → Pout y) ∧
  s.1.x1.length = 2 ∧ s.1.x2.length = 2 ∧ s.1.y1.length = 2 ∧ s.1.y2.length = 2 ∧
  (∀ (ch : Nat) (a b c d : α), s.1.x1[ch]? = some a → s.1.x2[ch]? = some b → s.1.y1[ch]? = some c →
    s.1.y2[ch]? = some d → J a b c d)

end BiquadInvariant

section StaticsInvariant

variable {α : Type}

/-- The invariant of the statics of `dsp_processor.cpp`: the four history vectors have
their two entries, and each delay line's write index is inside the line. -/
def StaticsOK (st : DSPStatics α) : Prop :=
  st.filterHistory.x1.length = 2 ∧ st.filterHistory.x2.length = 2 ∧
  st.filterHistory.y1.length = 2 ∧ st.filterHistory.y2.length = 2 ∧
  st.reverbIndex < st.reverbBuffer.length ∧ st.delayIndex < st.delayBuffer.length

end StaticsInvariant

/-! ## Audio engine (`audio_engine.h`, `audio_engine.cpp`) -/

/-- The sample formats of the audio library, `oboe::AudioFormat`. -/
inductive AudioFormat where
  | Invalid
  | Unspecified
  | I16
  | Float
  | I24
  | I32
  deriving DecidableEq, Repr

/-- The outcome of a library call, `oboe::Result`: `OK` or an error. -/
inductive StreamResult where
  | OK
  | Error
  deriving DecidableEq, Repr

/-- The value a data callback returns, `oboe::DataCallbackResult`. -/
inductive DataCallbackResult where
  | Continue
  | Stop
  deriving DecidableEq, Repr

/-- The calls the engine issues on its stream. -/
inductive StreamCall where
  | requestStart
  | requestStop
  | requestPause
  | close
  | setSampleRate (sampleRate : Int)
  deriving DecidableEq, Repr

/-- The stream object behind `audioStream_`: the settings of the builder that opened it
and the calls issued on it since, oldest first. -/
structure AudioStream where
  channelCount : Int
  format : AudioFormat
  sampleRate : Int
  calls : List StreamCall
  deriving DecidableEq, Repr

/-- The data members of `class AudioEngine`; `audioStream_` is `none` when the pointer
is null. The mutex is not represented: calls are taken one at a time. -/
structure AudioEngine (α : Type) where
  audioStream : Option AudioStream
  audioBuffer : List α
  sampleRate : Int
  channelCount : Int
  audioFormat : AudioFormat
  volume : α
  isPlaying : Bool
  highResEnabled : Bool
  deriving DecidableEq, Repr

/-- The public operations of `class AudioEngine`; `start` carries the results that the
library returns for `openStream` and `requestStart`. -/
inductive EngineOp (α : Type) where
  | onAudioReady (audioData : List α) (numFrames : Nat)
  | start (openResult startResult : StreamResult)
  | stop
  | pause
  | resume
  | setSampleRate (sampleRate : Int)
  | setChannelCount (channelCount : Int)
  | setAudioFormat (format : AudioFormat)
  | isHighResSupported
  | enableHighRes (enable : Bool)
  | setVolume (volume : α)
  | setAudioData (data : List α)
  | clearAudioData

/-- The call `std::fill_n(buffer, count, 0.0f)`: the first `count` elements are set to
zero; writing past the end faults. -/
def fillZero {α : Type} [Zero α] (buffer : List α) (count : Nat) : Option (List α) :=
  if count ≤ buffer.length then some (List.replicate count 0 ++ buffer.drop count) else none

namespace AudioEngine

variable {α : Type} [LinearOrderedField α]

/-- The constant `HIGH_RES_SAMPLE_RATE`. -/
def HIGH_RES_SAMPLE_RATE : Int := 192000

/-- The constructor `AudioEngine::AudioEngine()`. -/
def new : AudioEngine α :=
  { audioStream := none, audioBuffer := [], sampleRate := 48000, channelCount := 2,
    audioFormat := AudioFormat.Float, volume := 1.0, isPlaying := false,
    highResEnabled := false }

/-- The first loop of `onAudioReady` on sample `i`: `output[i] = audioBuffer_[i] * volume_`. -/
def copySample (e : AudioEngine α) (i : Nat) (output : List α) : Option (List α) := do
  let x ← e.audioBuffer[i]?
  if i < output.length then some (output.set i (x * e.volume)) else none

/-- The second loop of `onAudioReady` on sample `i`: `output[i] = 0.0f`. -/
def silenceSample (i : Nat) (output : List α) : Option (List α) :=
  if i < output.length then some (output.set i 0.0) else none

/-- The callback `AudioEngine::onAudioReady`, with `numFrames ≥ 0`; it faults on the
division by a zero channel count. With a negative channel count every bound is negative
and no loop runs. -/
def onAudioReady (e : AudioEngine α) (audioData : List α) (numFrames : Nat) :
    Option (List α × DataCallbackResult) :=
  if !e.isPlaying || e.audioBuffer.isEmpty then
    (fillZero audioData ((numFrames : Int) * e.channelCount).toNat).map
      (fun out => (out, DataCallbackResult.Continue))
  else if e.channelCount = 0 then none
  else
    let framesToCopy : Nat :=
      min numFrames (if 0 < e.channelCount then e.audioBuffer.length / e.channelCount.toNat
        else 0)
    let copyEnd : Nat := ((framesToCopy : Int) * e.channelCount).toNat
    let total : Nat := ((numFrames : Int) * e.channelCount).toNat
    (forLoop copyEnd (copySample e) audioData).bind (fun out1 =>
      (forLoop (total - copyEnd) (fun j out => silenceSample (copyEnd + j) out) out1).map
        (fun out2 => (out2, DataCallbackResult.Continue)))

/-- The method `AudioEngine::start`; the second component is the returned flag. A failed
`openStream` leaves `audioStream_` as it was. -/
def start (e : AudioEngine α) (openResult startResult : StreamResult) :
    AudioEngine α × Bool :=
  if e.isPlaying then (e, true)
  else
    if openResult ≠ StreamResult.OK then (e, false)
    else
      let stream : AudioStream :=
        { channelCount := e.channelCount,
          format := if e.highResEnabled then AudioFormat.Float else e.audioFormat,
          sampleRate := if e.highResEnabled then HIGH_RES_SAMPLE_RATE else e.sampleRate,
          calls := [StreamCall.requestStart] }
      if startResult ≠ StreamResult.OK then ({ e with audioStream := some stream }, false)
      else ({ e with audioStream := some stream, isPlaying := true }, true)

/-- The method `AudioEngine::stop`. -/
def stop (e : AudioEngine α) : AudioEngine α :=
  if !e.isPlaying then e
  else
    match e.audioStream with
    | some _ => { e with audioStream := none, isPlaying := false }
    | none => { e with isPlaying := false }

/-- The method `AudioEngine::pause`. -/
def pause (e : AudioEngine α) : AudioEngine α :=
  match e.audioStream with
  | some stream =>
      if e.isPlaying then
        { e with
          audioStream := some { stream with calls := stream.calls ++ [StreamCall.requestPause] },
          isPlaying := false }
      else e
  | none => e

/-- The method `AudioEngine::resume`. -/
def resume (e : AudioEngine α) : AudioEngine α :=
  match e.audioStream with
  | some stream =>
      if !e.isPlaying then
        { e with
          audioStream := some { stream with calls := stream.calls ++ [StreamCall.requestStart] },
          isPlaying := true }
      else e
  | none => e

/-- The method `AudioEngine::setSampleRate`. -/
def setSampleRate (e : AudioEngine α) (sampleRate : Int) : AudioEngine α :=
  match e.audioStream with
  | some stream =>
      { e with
        sampleRate := sampleRate,
        audioStream :=
          some { stream with calls := stream.calls ++ [StreamCall.setSampleRate sampleRate] } }
  | none => { e with sampleRate := sampleRate }

/-- The method `AudioEngine::setChannelCount`. -/
def setChannelCount (e : AudioEngine α) (channelCount : Int) : AudioEngine α :=
  { e with channelCount := channelCount }

/-- The method `AudioEngine::setAudioFormat`. -/
def setAudioFormat (e : AudioEngine α) (format : AudioFormat) : AudioEngine α :=
  { e with audioFormat := format }

/-- The method `AudioEngine::enableHighRes`. -/
def enableHighRes (e : AudioEngine α) (enable : Bool) : AudioEngine α :=
  if enable then
    { e with highResEnabled := enable, sampleRate := HIGH_RES_SAMPLE_RATE,
             audioFormat := AudioFormat.Float }
  else
    { e with highResEnabled := enable, sampleRate := 48000,
             audioFormat := AudioFormat.Float }

/-- The method `AudioEngine::setVolume`. -/
def setVolume (e : AudioEngine α) (volume : α) : AudioEngine α :=
  { e with volume := stdClamp volume 0.0 1.0 }

/-- The method `AudioEngine::getVolume`. -/
def getVolume (e : AudioEngine α) : α := e.volume

/-- The method `AudioEngine::setAudioData`. -/
def setAudioData (e : AudioEngine α) (data : List α) : AudioEngine α :=
  { e with audioBuffer := data }

/-- The method `AudioEngine::clearAudioData`. -/
def clearAudioData (e : AudioEngine α) : AudioEngine α :=
  { e with audioBuffer := [] }

/-- The effect of one public operation on the engine; `none` when the operation faults.
`onAudioReady` and `isHighResSupported` assign no member. -/
def exec (op : EngineOp α) (e : AudioEngine α) : Option (AudioEngine α) :=
  match op with
  | EngineOp.onAudioReady audioData numFrames =>
      (onAudioReady e audioData numFrames).map (fun _ => e)
  | EngineOp.start openResult startResult => some (start e openResult startResult).1
  | EngineOp.stop => some (stop e)
  | EngineOp.pause => some (pause e)
  | EngineOp.resume => some (resume e)
  | EngineOp.setSampleRate sampleRate => some (setSampleRate e sampleRate)
  | EngineOp.setChannelCount channelCount => some (setChannelCount e channelCount)
  | EngineOp.setAudioFormat format => some (setAudioFormat e format)
  | EngineOp.isHighResSupported => some e
  | EngineOp.enableHighRes enable => some (enableHighRes e enable)
  | EngineOp.setVolume volume => some (setVolume e volume)
  | EngineOp.setAudioData data => some (setAudioData e data)
  | EngineOp.clearAudioData => some (clearAudioData e)

/-- The engine states reachable from construction by a sequence of public operations. -/
inductive Reachable : AudioEngine α → Prop where
  | init : Reachable AudioEngine.new
  | step (op : EngineOp α) (e f : AudioEngine α) :
      Reachable e → exec op e = some f → Reachable f

end AudioEngine

/-! ## Visualizer (`visualizer.h`, `visualizer.cpp`) -/

/-- The constant `FFT_SIZE`. -/
def FFT_SIZE : Nat := 2048

/-- The constant `SPECTRUM_BANDS`. -/
def SPECTRUM_BANDS : Nat := 64

/-- The math library as `visualizer.cpp` uses it: the functions of `MathLib` and
`std::log10`. -/
structure SpectrumMath (α : Type) extends MathLib α where
  log10 : α → α

/-- The exact interpretation on the real numbers, with the logarithm to base ten. -/
noncomputable def realSpectrumMath : SpectrumMath ℝ :=
  { toMathLib := realMath, log10 := fun x => Real.logb 10 x }

/-- A value of `std::complex<float>`. -/
structure ComplexF (α : Type) where
  re : α
  im : α
  deriving DecidableEq, Repr

/-- The data members of `class Visualizer`; the `std::array<float, SPECTRUM_BANDS>` member
is a function on `Fin SPECTRUM_BANDS`. -/
structure Visualizer (α : Type) where
  spectrum : Fin SPECTRUM_BANDS → α
  waveform : List α
  fftBuffer : List α
  fftOutput : List (ComplexF α)
  sampleRate : Int
  smoothing : α
  windowType : Int
  enabled : Bool
  leftPeak : α
  rightPeak : α
  rms : α

/-- The function-local static of `visualizer.cpp`: `waveformIndex`, declared in
`Visualizer::processAudio`. -/
structure VisualizerStatics where
  waveformIndex : Nat
  deriving DecidableEq, Repr

/-- The three local accumulators of `Visualizer::updatePeaks`. -/
structure PeakAcc (α : Type) where
  leftMax : α
  rightMax : α
  sum : α
  deriving DecidableEq, Repr

/-- The public operations of `class Visualizer` that are not `const`. -/
inductive VisualizerOp (α : Type) where
  | processAudio (input : List α) (numFrames numChannels : Nat)
  | setSampleRate (sampleRate : Int)
  | setSmoothing (smoothing : α)
  | setWindowType (windowType : Int)
  | setEnabled (enabled : Bool)

/-- The loop `for (int i = start; i < stop; i += stride) body` with a positive stride,
run over its trip count. -/
def forLoopStride {σ : Type} (start stop stride : Nat) (body : Nat → σ → Option σ) (s : σ) :
    Option σ :=
  forLoop ((stop - start + stride - 1) / stride) (fun k acc => body (start + k * stride) acc) s

namespace ComplexF

variable {α : Type} [LinearOrderedField α]

/-- The sum `a + b` of `std::complex`. -/
def add (a b : ComplexF α) : ComplexF α :=
  { re := a.re + b.re, im := a.im + b.im }

/-- The difference `a - b` of `std::complex`. -/
def sub (a b : ComplexF α) : ComplexF α :=
  { re := a.re - b.re, im := a.im - b.im }

/-- The product `a * b` of `std::complex`. -/
def mul (a b : ComplexF α) : ComplexF α :=
  { re := a.re * b.re - a.im * b.im, im := a.re * b.im + a.im * b.re }

end ComplexF

namespace Visualizer

variable {α : Type} [LinearOrderedField α]

/-- The constructor `Visualizer::Visualizer()`; `resize` value-initialises the three
vectors. -/
def new : Visualizer α :=
  { sampleRate := 48000, smoothing := 0.8, windowType := 1, enabled := false,
    leftPeak := 0.0, rightPeak := 0.0, rms := 0.0,
    fftBuffer := List.replicate FFT_SIZE 0,
    fftOutput := List.replicate FFT_SIZE { re := 0, im := 0 },
    waveform := List.replicate FFT_SIZE 0,
    spectrum := fun _ => 0.0 }

/-- The statics of `visualizer.cpp` at program start. -/
def initStatics : VisualizerStatics := { waveformIndex := 0 }

/-- The method `Visualizer::getSpectrum`. -/
def getSpectrum (v : Visualizer α) : Fin SPECTRUM_BANDS → α := v.spectrum

/-- The method `Visualizer::getWaveform`. -/
def getWaveform (v : Visualizer α) : List α := v.waveform

/-- The method `Visualizer::getLeftPeak`. -/
def getLeftPeak (v : Visualizer α) : α := v.leftPeak

/-- The method `Visualizer::getRightPeak`. -/
def getRightPeak (v : Visualizer α) : α := v.rightPeak

/-- The method `Visualizer::getRMS`. -/
def getRMS (v : Visualizer α) : α := v.rms

/-- The method `Visualizer::setSampleRate`. -/
def setSampleRate (v : Visualizer α) (sampleRate : Int) : Visualizer α :=
  { v with sampleRate := sampleRate }

/-- The method `Visualizer::setSmoothing`. -/
def setSmoothing (v : Visualizer α) (smoothing : α) : Visualizer α :=
  { v with smoothing := stdClamp smoothing 0.0 1.0 }

/-- The method `Visualizer::setWindowType`. -/
def setWindowType (v : Visualizer α) (windowType : Int) : Visualizer α :=
  { v with windowType := windowType }

/-- The method `Visualizer::setEnabled`. -/
def setEnabled (v : Visualizer α) (enabled : Bool) : Visualizer α :=
  { v with enabled := enabled }

/-- The method `Visualizer::isEnabled`. -/
def isEnabled (v : Visualizer α) : Bool := v.enabled

/-- The local `window` of `Visualizer::applyWindow` at index `i`: the
`switch (windowType_)`. -/
def windowValue (m : SpectrumMath α) (windowType : Int) (i : Nat) : α :=
  if windowType = 1 then
    0.5 * (1.0 - m.cos (2.0 * m.pi * (i : α) / ((FFT_SIZE - 1 : Nat) : α)))
  else if windowType = 2 then
    0.54 - 0.46 * m.cos (2.0 * m.pi * (i : α) / ((FFT_SIZE - 1 : Nat) : α))
  else 1.0

/-- The method `Visualizer::applyWindow`. -/
def applyWindow (m : SpectrumMath α) (v : Visualizer α) (buffer : List α) :
    Option (List α) :=
  forLoop FFT_SIZE
    (fun i buf => do
      let x ← buf[i]?
      some (buf.set i (x * windowValue m v.windowType i)))
    buffer

/-- The inner loop of the bit-reversal step of `Visualizer::performFFT`: sixteen rounds of
`j = (j << 1) | (temp & 1); temp >>= 1`, started at `j = 0`, `temp = i`; the value is the
final `j`. -/
def reverseBits (i : Nat) : Nat :=
  ((List.range 16).foldl
    (fun (s : Nat × Nat) _ => ((s.1 <<< 1) ||| (s.2 &&& 1), s.2 >>> 1)) (0, i)).1

/-- One iteration of the bit-reversal loop of `Visualizer::performFFT` at index `i`. -/
def bitReverseStep (i : Nat) (buf : List α) : Option (List α) :=
  let j := reverseBits i
  if j < i then do
    let a ← buf[i]?
    let b ← buf[j]?
    some ((buf.set i b).set j a)
  else some buf

/-- One iteration of the `pair` loop of `Visualizer::performFFT`; the state is
`fftBuffer_`, `fftOutput_` and the local `w_temp`. -/
def butterfly (step pair : Nat) (wn : ComplexF α)
    (s : (List α × List (ComplexF α)) × ComplexF α) :
    Option ((List α × List (ComplexF α)) × ComplexF α) := do
  let hi ← s.1.1[pair + step]?
  let temp := s.2.mul { re := hi, im := 0.0 }
  let lo ← s.1.1[pair]?
  if pair < s.1.2.length ∧ pair + step < s.1.2.length then
    some ((s.1.1,
           (s.1.2.set pair (ComplexF.add { re := lo, im := 0.0 } temp)).set (pair + step)
             (ComplexF.sub { re := lo, im := 0.0 } temp)),
          s.2.mul wn)
  else none

/-- One iteration of the `step` loop of `Visualizer::performFFT`: the loop over the
groups, then the copy of the real parts back to `fftBuffer_`. -/
def fftStage (m : SpectrumMath α) (n step : Nat) (s : List α × List (ComplexF α)) :
    Option (List α × List (ComplexF α)) := do
  let angle : α := -m.pi / (step : α)
  let wn : ComplexF α := { re := m.cos angle, im := m.sin angle }
  let s ← forLoopStride 0 n (2 * step)
    (fun group s =>
      (forLoop step (fun k t => butterfly step (group + k) wn t)
        (s, { re := 1.0, im := 0.0 })).map Prod.fst)
    s
  let fb ← forLoop n
    (fun i fb => do
      let z ← s.2[i]?
      if i < fb.length then some (fb.set i z.re) else none)
    s.1
  some (fb, s.2)

/-- The loop `for (int step = 1; step < n; step <<= 1)` of `Visualizer::performFFT`,
entered with the current `step`; `fuel` bounds the number of iterations, and running out
of it is reported as `none`. -/
def fftStages (m : SpectrumMath α) (n : Nat) :
    Nat → Nat → List α × List (ComplexF α) → Option (List α × List (ComplexF α))
  | 0, step, s => if step < n then none else some s
  | fuel + 1, step, s =>
      if step < n then do
        let t ← fftStage m n step s
        fftStages m n fuel (step <<< 1) t
      else some s

/-- The inner loop of `Visualizer::calculateSpectrum` for one band: the largest bin
magnitude of the band. -/
def bandMagnitude (m : SpectrumMath α) (fftBuffer : List α) (band : Nat) : Option α :=
  let binsPerBand := FFT_SIZE / 2 / SPECTRUM_BANDS
  let startBin := band * binsPerBand
  let endBin := startBin + binsPerBand
  forLoop (min endBin (FFT_SIZE / 2) - startBin)
    (fun k magnitude => do
      let bin := startBin + k
      let real ← fftBuffer[bin]?
      let imag ← if bin < FFT_SIZE / 2 then fftBuffer[bin + FFT_SIZE / 2]? else some 0.0
      let mag := m.sqrt (real * real + imag * imag)
      some (max magnitude mag))
    0.0

/-- The method `Visualizer::calculateSpectrum`. -/
def calculateSpectrum (m : SpectrumMath α) (v : Visualizer α) : Option (Visualizer α) :=
  (List.finRange SPECTRUM_BANDS).foldlM
    (fun v (band : Fin SPECTRUM_BANDS) => do
      let magnitude ← bandMagnitude m v.fftBuffer band.val
      let db := 20.0 * m.log10 (magnitude + 1e-10)
      let db := stdClamp db (-60.0) 0.0
      let value := v.smoothing * v.spectrum band + (1.0 - v.smoothing) * (db + 60.0) / 60.0
      some { v with spectrum := Function.update v.spectrum band value })
    v

/-- The method `Visualizer::performFFT`. -/
def performFFT (m : SpectrumMath α) (v : Visualizer α) : Option (Visualizer α) := do
  let windowed ← applyWindow m v v.fftBuffer
  let n := FFT_SIZE
  let permuted ← forLoop n bitReverseStep windowed
  let s ← fftStages m n n 1 (permuted, v.fftOutput)
  calculateSpectrum m { v with fftBuffer := s.1, fftOutput := s.2 }

/-- One iteration of the frame loop of `Visualizer::updatePeaks`. -/
def updatePeaksFrame (buffer : List α) (numChannels i : Nat) (acc : PeakAcc α) :
    Option (PeakAcc α) := do
  let acc ←
    if 1 ≤ numChannels then do
      let x ← buffer[i * numChannels]?
      let left := |x|
      some { acc with leftMax := max acc.leftMax left }
    else some acc
  let acc ←
    if 2 ≤ numChannels then do
      let x ← buffer[i * numChannels + 1]?
      let right := |x|
      some { acc with rightMax := max acc.rightMax right }
    else some acc
  forLoop numChannels
    (fun ch a => do
      let x ← buffer[i * numChannels + ch]?
      some { a with sum := a.sum + x * x })
    acc

/-- The method `Visualizer::updatePeaks`. -/
def updatePeaks (m : SpectrumMath α) (v : Visualizer α) (buffer : List α)
    (numFrames numChannels : Nat) : Option (Visualizer α) := do
  let acc ← forLoop numFrames (updatePeaksFrame buffer numChannels)
    { leftMax := 0.0, rightMax := 0.0, sum := 0.0 }
  let smoothing : α := 0.95
  some { v with
    leftPeak := smoothing * v.leftPeak + (1.0 - smoothing) * acc.leftMax,
    rightPeak := smoothing * v.rightPeak + (1.0 - smoothing) * acc.rightMax,
    rms := m.sqrt (acc.sum / ((numFrames * numChannels : Nat) : α)) }

/-- One iteration of the waveform loop of `Visualizer::processAudio`; the state is
`waveform_` and the static `waveformIndex`. -/
def waveformFrame (input : List α) (numChannels i : Nat) (s : List α × Nat) :
    Option (List α × Nat) := do
  let sample ← forLoop numChannels
    (fun ch sample => do
      let x ← input[i * numChannels + ch]?
      some (sample + x))
    (0.0 : α)
  let sample := sample / (numChannels : α)
  if s.2 < s.1.length then some (s.1.set s.2 sample, (s.2 + 1) % FFT_SIZE) else none

/-- The method `Visualizer::processAudio`, on the static declared in it. -/
def processAudio (m : SpectrumMath α) (v : Visualizer α) (st : VisualizerStatics)
    (input : List α) (numFrames numChannels : Nat) :
    Option (Visualizer α × VisualizerStatics) :=
  if !v.enabled then some (v, st)
  else do
    let v ← updatePeaks m v input numFrames numChannels
    let w ← forLoop (min numFrames FFT_SIZE) (waveformFrame input numChannels)
      (v.waveform, st.waveformIndex)
    let fb ← forLoop FFT_SIZE
      (fun i fb => do
        let x ← w.1[i]?
        if i < fb.length then some (fb.set i x) else none)
      v.fftBuffer
    let v ← performFFT m { v with waveform := w.1, fftBuffer := fb }
    some (v, { waveformIndex := w.2 })

/-- The effect of one public operation on the visualizer object and the static; `none`
when the operation faults. -/
def exec (m : SpectrumMath α) (op : VisualizerOp α) (s : Visualizer α × VisualizerStatics) :
    Option (Visualizer α × VisualizerStatics) :=
  match op with
  | VisualizerOp.processAudio input numFrames numChannels =>
      processAudio m s.1 s.2 input numFrames numChannels
  | VisualizerOp.setSampleRate sampleRate => some (setSampleRate s.1 sampleRate, s.2)
  | VisualizerOp.setSmoothing smoothing => some (setSmoothing s.1 smoothing, s.2)
  | VisualizerOp.setWindowType windowType => some (setWindowType s.1 windowType, s.2)
  | VisualizerOp.setEnabled enabled => some (setEnabled s.1 enabled, s.2)

/-- The states reachable from construction by a sequence of public operations. -/
inductive Reachable (m : SpectrumMath α) : Visualizer α × VisualizerStatics → Prop where
  | init : Reachable m (Visualizer.new, initStatics)
  | step (op : VisualizerOp α) (s t : Visualizer α × VisualizerStatics) :
      Reachable m s → exec m op s = some t → Reachable m t

end Visualizer

namespace Visualizer

variable {α : Type} [LinearOrderedField α]

/-- The representation invariant of the analyzer: the three vectors have the size the
constructor gave them, and the static write index is inside the waveform. -/
def SizesOK (s : Visualizer α × VisualizerStatics) : Prop :=
  s.1.waveform.length = FFT_SIZE ∧ s.1.fftBuffer.length = FFT_SIZE ∧
  s.1.fftOutput.length = FFT_SIZE ∧ s.2.waveformIndex < FFT_SIZE

/-- The value stored in `spectrum_[band]` by one iteration of the band loop of
`Visualizer::calculateSpectrum`, as a function of the band magnitude. -/
def bandValue (m : SpectrumMath α) (smoothing old magnitude : α) : α :=
  let db := 20.0 * m.log10 (magnitude + 1e-10)
  let db := stdClamp db (-60.0) 0.0
  smoothing * old + (1.0 - smoothing) * (db + 60.0) / 60.0

end Visualizer

/-- The reversal of the low `bits` bits of the index `i`: the index map of the bit-reversal
permutation on `2 ^ bits` points, as the transform of the spec requires it. -/
def bitReversal (bits i : Nat) : Nat :=
  (List.range bits).foldl (fun acc k => acc + i / 2 ^ k % 2 * 2 ^ (bits - 1 - k)) 0

namespace Visualizer

variable {α : Type} [LinearOrderedField α]

/-- The magnitude that the inner loop of `Visualizer::calculateSpectrum` computes for one
bin: the local `mag`, from `real = fftBuffer_[bin]` and
`imag = fftBuffer_[bin + FFT_SIZE / 2]`. -/
def binMagnitude (m : SpectrumMath α) (fftBuffer : List α) (bin : Nat) : Option α := do
  let real ← fftBuffer[bin]?
  let imag ← if bin < FFT_SIZE / 2 then fftBuffer[bin + FFT_SIZE / 2]? else some 0.0
  some (m.sqrt (real * real + imag * imag))

end Visualizer

section Reference

variable {α : Type} [LinearOrderedField α]

/-- The reference transform of the spec: the magnitude of bin `k` of the `N`-point DFT of
the window `x`, `|Σ x[n] exp(-2πikn/N)|` with `N` the length of `x`, written with its
cosine sum and its sine sum. -/
def referenceDFTMagnitude (m : MathLib α) (x : List α) (k : Nat) : α :=
  let re := ∑ n ∈ Finset.range x.length,
    x.getD n 0 * m.cos (2 * m.pi * (k : α) * (n : α) / (x.length : α))
  let im := ∑ n ∈ Finset.range x.length,
    -(x.getD n 0 * m.sin (2 * m.pi * (k : α) * (n : α) / (x.length : α)))
  m.sqrt (re * re + im * im)

end Reference

/-! ## Measurements and call sequences -/

section Gains

variable {α : Type} [LinearOrderedField α]

end Gains

section Calls

variable {α : Type}

/-- Successive calls of a method that filters a buffer in place on function-local static
histories: each call `(buffer, numFrames, numChannels)` starts from the histories that the
call before it left. The result is the histories after the last call and the buffers as
the calls left them, in order. -/
def successiveCalls
    (method : Nat → Nat → BiquadHistory α × List α → Option (BiquadHistory α × List α)) :
    List (List α × Nat × Nat) → BiquadHistory α → Option (BiquadHistory α × List (List α))
  | [], h => some (h, [])
  | call :: rest, h => do
    let r ← method call.2.1 call.2.2 (h, call.1)
    let t ← successiveCalls method rest r.1
    some (t.1, r.2 :: t.2)

end Calls

/-! ## The binary32 reading

The definitions above read `float` as an exact field. Where a claim turns on the rounding
of single operations, the same source lines are read here in IEEE 754 arithmetic on the
rationals: every operation of the source is followed by the rounding to the format of its
C type, round to nearest, ties to even. -/

/-- The integer nearest to `q`, the even one of the two when `q` is halfway. -/
def roundHalfEven (q : ℚ) : Int :=
  let f := ⌊q⌋
  if q - f < 1 / 2 then f
  else if 1 / 2 < q - f then f + 1
  else if f % 2 = 0 then f else f + 1

/-- The rounding of the rational `x` to the binary floating-point format with `p`
significand bits and least normal exponent `emin`: round to nearest, ties to even, with
gradual underflow. Results past the largest finite value of the format (where the machine
gives an infinity) are outside the model. -/
def roundBinary (p : Nat) (emin : Int) (x : ℚ) : ℚ :=
  let e := max (Int.log 2 |x|) emin - ((p : Int) - 1)
  (roundHalfEven (x / 2 ^ e) : ℚ) * 2 ^ e

/-- The rounding to `float` (binary32). -/
def roundF32 (x : ℚ) : ℚ := roundBinary 24 (-126) x

/-- The rounding to `double` (binary64). -/
def roundF64 (x : ℚ) : ℚ := roundBinary 53 (-1022) x

/-- The constant `M_PI` of `<cmath>`: the `double` nearest to π. -/
def M_PI : ℚ := 884279719003555 / 281474976710656

/-- The line `float w0 = 2.0f * M_PI * filter.frequency / sampleRate_;` in machine
arithmetic: `M_PI` is a `double`, so the two products and the quotient are computed in
binary64, and the initialization of the `float` rounds the result to binary32. -/
def omega0F32 (sampleRate : Int) (frequency : ℚ) : ℚ :=
  roundF32 (roundF64 (roundF64 (roundF64 (2 * M_PI) * frequency) / (sampleRate : ℚ)))

/-- The low-pass design (case `LOW_PASS`) in binary32; `m.sin` and `m.cos` are the `float`
overloads of `std::sin` and `std::cos`. -/
def lowPassRawF32 (m : MathLib ℚ) (w0 q : ℚ) : RawCoeffs ℚ :=
  let alpha := roundF32 (m.sin w0 / roundF32 (2 * q))
  let cosw0 := m.cos w0
  { b0 := roundF32 (roundF32 (1 - cosw0) / 2), b1 := roundF32 (1 - cosw0),
    b2 := roundF32 (roundF32 (1 - cosw0) / 2),
    a0 := roundF32 (1 + alpha), a1 := roundF32 (-2 * cosw0), a2 := roundF32 (1 - alpha) }

/-- The normalization step `b0 /= a0; ...; a2 /= a0` in binary32. -/
def RawCoeffs.normalizeF32 (r : RawCoeffs ℚ) : FilterCoeffs ℚ :=
  { b0 := roundF32 (r.b0 / r.a0), b1 := roundF32 (r.b1 / r.a0), b2 := roundF32 (r.b2 / r.a0),
    a1 := roundF32 (r.a1 / r.a0), a2 := roundF32 (r.a2 / r.a0) }

namespace DSPProcessor

/-- One iteration of the loop of the `LIMITER` case on sample `i`, in binary32: the
quotient `limiterThreshold_ / absVal` and the product `buffer[i] * gain` are rounded. -/
def limiterSampleF32 (p : DSPProcessor ℚ) (i : Nat) (buffer : List ℚ) : Option (List ℚ) := do
  let x ← buffer[i]?
  let absVal := |x|
  if absVal > p.limiterThreshold then
    let gain := roundF32 (p.limiterThreshold / absVal)
    some (buffer.set i (roundF32 (x * gain)))
  else some buffer

/-- The loop of the `LIMITER` case of `DSPProcessor::applyEffects`, in binary32. -/
def limiterCaseF32 (p : DSPProcessor ℚ) (numFrames numChannels : Nat) (buffer : List ℚ) :
    Option (List ℚ) :=
  forLoop (numFrames * numChannels) (limiterSampleF32 p) buffer

/-- The first line of the `DELAY` case,
`int delaySamples = static_cast<int>(effect.param1 * sampleRate_)`, in binary32:
`sampleRate_` is converted to `float`, the product is rounded to `float`, and the cast
truncates it. -/
def delaySamplesF32 (effect : EffectParams ℚ) (sampleRate : Int) : Int :=
  truncToInt (roundF32 (effect.param1 * roundF32 (sampleRate : ℚ)))

/-- The `DELAY` case of `DSPProcessor::applyEffects` with the delay amount of the binary32
reading; the loop under it is `delaySample`, whose sample values stay exact. -/
def delayCase (p : DSPProcessor ℚ) (numFrames numChannels : Nat)
    (s : DSPStatics ℚ × List ℚ) (effect : EffectParams ℚ) :
    Option (DSPStatics ℚ × List ℚ) :=
  forLoop (numFrames * numChannels)
    (delaySample effect (delaySamplesF32 effect p.sampleRate)) s

end DSPProcessor

namespace Visualizer

/-- The value stored in `spectrum_[band]` by one iteration of the band loop of
`Visualizer::calculateSpectrum`, in binary32; `m.log10` is the `float` overload of
`std::log10`. -/
def bandValueF32 (m : SpectrumMath ℚ) (smoothing old magnitude : ℚ) : ℚ :=
  let db := roundF32 (20.0 * m.log10 (roundF32 (magnitude + roundF32 1e-10)))
  let db := stdClamp db (-60.0) 0.0
  roundF32 (roundF32 (smoothing * old) +
    roundF32 (roundF32 (roundF32 (1.0 - smoothing) * roundF32 (db + 60.0)) / 60.0))

end Visualizer

/-! # Theorems -/

/-! ## Loop lemmas -/

section LoopLemmas

variable {σ : Type}

theorem forLoop_zero (body : Nat → σ → Option σ) (s : σ) : forLoop 0 body s = some s := by
  simp [forLoop]

theorem forLoop_succ (n : Nat) (body : Nat → σ → Option σ) (s : σ) :
    forLoop (n + 1) body s = (forLoop n body s).bind (body n) := by
  simp [forLoop, List.range_succ, List.foldlM_append]

/-- A loop that rewrites `buffer[i]` as a function of its own value maps that function
over the first `n` samples, and faults exactly when the buffer is shorter than `n`. -/
theorem forLoop_pointwise {β : Type} (f : β → β) (n : Nat) (buf : List β) :
    forLoop n (fun i b => (b[i]?).map (fun x => b.set i (f x))) buf =
      if n ≤ buf.length then some ((buf.take n).map f ++ buf.drop n) else none := by
  induction n with
  | zero => simp [forLoop_zero]
  | succ k ih =>
    rw [forLoop_succ, ih]
    by_cases hk : k + 1 ≤ buf.length
    · have hk1 : k ≤ buf.length := by omega
      have hk2 : k < buf.length := by omega
      simp only [hk1, hk, if_true, Option.some_bind]
      have hget : ((buf.take k).map f ++ buf.drop k)[k]? = some buf[k] := by
        rw [List.getElem?_append_right (by simp [hk1])]
        simp [hk1, hk2]
      rw [hget]
      simp only [Option.map_some']
      congr 1
      have hlen : ((buf.take k).map f).length = k := by simp [hk1]
      rw [List.set_append_right _ _ (by omega), hlen, Nat.sub_self,
        List.drop_eq_getElem_cons hk2, List.set_cons_zero, List.take_succ,
        List.getElem?_eq_getElem hk2]
      simp only [Option.toList, List.map_append, List.map_cons, List.map_nil,
        List.append_assoc, List.singleton_append]
    · by_cases hk1 : k ≤ buf.length
      · have : buf.length = k := by omega
        simp [hk1, hk, this]
      · simp [hk1, hk]

theorem foldlM_skip {β γ : Type} (f : γ → β → Option γ) (l : List β) (s : γ)
    (h : ∀ x ∈ l, ∀ acc, f acc x = some acc) : l.foldlM f s = some s := by
  induction l generalizing s with
  | nil => rfl
  | cons x xs ih =>
    rw [List.foldlM_cons, h x (List.mem_cons_self _ _) s]
    exact ih s (fun y hy acc => h y (List.mem_cons_of_mem _ hy) acc)

theorem stdCopy_eq_some {β : Type} (src dst : List β) (count : Nat)
    (h1 : count ≤ src.length) (h2 : count ≤ dst.length) :
    stdCopy src count dst = some (src.take count ++ dst.drop count) := by
  simp [stdCopy, h1, h2]

end LoopLemmas

/-! ## Dynamics stage -/

namespace DSPProcessor

variable {α : Type} [LinearOrderedField α]

theorem applyPreampAndLimiter_eq (p : DSPProcessor α) (buffer : List α)
    (numFrames numChannels : Nat) :
    applyPreampAndLimiter p buffer numFrames numChannels =
      if numFrames * numChannels ≤ buffer.length then
        some ((buffer.take (numFrames * numChannels)).map p.preampLimiterSample ++
          buffer.drop (numFrames * numChannels))
      else none :=
  forLoop_pointwise _ _ _

theorem preampLimiterSample_le (p : DSPProcessor α) (x : α)
    (h : |x * p.preampGain| ≤ p.limiterThreshold) :
    p.preampLimiterSample x = x * p.preampGain := by
  simp [preampLimiterSample, not_lt.mpr h]

theorem preampLimiterSample_gt (p : DSPProcessor α) (x : α)
    (h : |x * p.preampGain| > p.limiterThreshold) :
    p.preampLimiterSample x =
      x * p.preampGain *
        ((p.limiterThreshold + (|x * p.preampGain| - p.limiterThreshold) / p.limiterRatio) /
          |x * p.preampGain|) := by
  simp [preampLimiterSample, h]

theorem preampLimiterSample_abs (p : DSPProcessor α) (x : α)
    (ht : 0 < p.limiterThreshold) (hr : 0 < p.limiterRatio)
    (h : |x * p.preampGain| > p.limiterThreshold) :
    |p.preampLimiterSample x| =
      p.limiterThreshold + (|x * p.preampGain| - p.limiterThreshold) / p.limiterRatio := by
  rw [preampLimiterSample_gt p x h]
  have hs : 0 < |x * p.preampGain| := lt_trans ht h
  have hG : 0 < p.limiterThreshold +
      (|x * p.preampGain| - p.limiterThreshold) / p.limiterRatio :=
    add_pos_of_pos_of_nonneg ht (div_nonneg (sub_nonneg.mpr h.le) hr.le)
  rw [abs_mul, abs_div, abs_abs, abs_of_pos hG]
  field_simp
  ring

theorem preampLimiterSample_abs_le (p : DSPProcessor α) (x M : α)
    (ht : 0 < p.limiterThreshold) (hr : 0 < p.limiterRatio)
    (hM : |x * p.preampGain| ≤ M) (hMt : p.limiterThreshold < M) :
    |p.preampLimiterSample x| ≤
      p.limiterThreshold + (M - p.limiterThreshold) / p.limiterRatio := by
  rcases le_or_lt |x * p.preampGain| p.limiterThreshold with h | h
  · rw [preampLimiterSample_le p x h]
    have : 0 ≤ (M - p.limiterThreshold) / p.limiterRatio :=
      div_nonneg (sub_nonneg.mpr hMt.le) hr.le
    linarith
  · rw [preampLimiterSample_abs p x ht hr h]
    have : (|x * p.preampGain| - p.limiterThreshold) / p.limiterRatio ≤
        (M - p.limiterThreshold) / p.limiterRatio :=
      div_le_div_of_nonneg_right (by linarith) hr.le
    linarith

theorem applyPreampAndLimiter_getElem? (p : DSPProcessor α) (buffer : List α)
    (numFrames numChannels : Nat) (hlen : numFrames * numChannels ≤ buffer.length) :
    ∃ out, applyPreampAndLimiter p buffer numFrames numChannels = some out ∧
      out.length = buffer.length ∧
      ∀ i, i < numFrames * numChannels →
        out[i]? = (buffer[i]?).map p.preampLimiterSample := by
  refine ⟨_, by rw [applyPreampAndLimiter_eq, if_pos hlen], ?_, ?_⟩
  · simp
    omega
  · intro i hi
    rw [List.getElem?_append_left (by simp; omega)]
    simp [List.getElem?_take, hi]

/-- C1. Dynamics stage, per sample: with `s = x * preampGain`, a threshold `t > 0` and a
ratio `r > 0`, `applyPreampAndLimiter` succeeds on every buffer that holds the
`numFrames * numChannels` samples, keeps the buffer length, and leaves in position `i`
exactly `s` when `|s| ≤ t`, and `s * (t + (|s| - t) / r) / |s|` when `|s| > t`: a value of
magnitude exactly `t + (|s| - t) / r` with the sign of `s`. -/
theorem applyPreampAndLimiter_sample (p : DSPProcessor α) (buffer : List α)
    (numFrames numChannels : Nat)
    (ht : 0 < p.limiterThreshold) (hr : 0 < p.limiterRatio)
    (hlen : numFrames * numChannels ≤ buffer.length) :
    ∃ out, applyPreampAndLimiter p buffer numFrames numChannels = some out ∧
      out.length = buffer.length ∧
      ∀ i, i < numFrames * numChannels → ∀ x, buffer[i]? = some x →
        ∃ y, out[i]? = some y ∧
          (|x * p.preampGain| ≤ p.limiterThreshold → y = x * p.preampGain) ∧
          (|x * p.preampGain| > p.limiterThreshold →
            y = x * p.preampGain *
                (p.limiterThreshold +
                  (|x * p.preampGain| - p.limiterThreshold) / p.limiterRatio) /
                |x * p.preampGain| ∧
            |y| = p.limiterThreshold +
                  (|x * p.preampGain| - p.limiterThreshold) / p.limiterRatio ∧
            (0 < x * p.preampGain → 0 < y) ∧ (x * p.preampGain < 0 → y < 0)) := by
  obtain ⟨out, hout, hl, hget⟩ :=
    applyPreampAndLimiter_getElem? p buffer numFrames numChannels hlen
  refine ⟨out, hout, hl, ?_⟩
  · intro i hi x hx
    refine ⟨p.preampLimiterSample x, ?_, ?_, ?_⟩
    · rw [hget i hi, hx]
      rfl
    · exact preampLimiterSample_le p x
    · intro h
      have hs : 0 < |x * p.preampGain| := lt_trans ht h
      have hG : 0 < p.limiterThreshold +
          (|x * p.preampGain| - p.limiterThreshold) / p.limiterRatio :=
        add_pos_of_pos_of_nonneg ht (div_nonneg (sub_nonneg.mpr h.le) hr.le)
      have hq : 0 < (p.limiterThreshold +
          (|x * p.preampGain| - p.limiterThreshold) / p.limiterRatio) /
          |x * p.preampGain| := div_pos hG hs
      refine ⟨?_, preampLimiterSample_abs p x ht hr h, ?_, ?_⟩
      · rw [preampLimiterSample_gt p x h, mul_div_assoc]
      · intro hpos
        rw [preampLimiterSample_gt p x h]
        exact mul_pos hpos hq
      · intro hneg
        rw [preampLimiterSample_gt p x h]
        exact mul_neg_of_neg_of_pos hneg hq

/-- An instance of C1 on the default settings (gain 1, threshold 0.95, ratio 10) and the
stereo frame `(2, 1/2)`. -/
theorem applyPreampAndLimiter_sample_witness :
    ∃ out, applyPreampAndLimiter (DSPProcessor.new : DSPProcessor ℚ) [2, 1 / 2] 1 2 = some out ∧
      out.length = [(2 : ℚ), 1 / 2].length ∧
      ∀ i, i < 1 * 2 → ∀ x, [(2 : ℚ), 1 / 2][i]? = some x →
        ∃ y, out[i]? = some y ∧
          (|x * (DSPProcessor.new : DSPProcessor ℚ).preampGain| ≤
              (DSPProcessor.new : DSPProcessor ℚ).limiterThreshold →
            y = x * (DSPProcessor.new : DSPProcessor ℚ).preampGain) ∧
          (|x * (DSPProcessor.new : DSPProcessor ℚ).preampGain| >
              (DSPProcessor.new : DSPProcessor ℚ).limiterThreshold →
            y = x * (DSPProcessor.new : DSPProcessor ℚ).preampGain *
                ((DSPProcessor.new : DSPProcessor ℚ).limiterThreshold +
                  (|x * (DSPProcessor.new : DSPProcessor ℚ).preampGain| -
                    (DSPProcessor.new : DSPProcessor ℚ).limiterThreshold) /
                    (DSPProcessor.new : DSPProcessor ℚ).limiterRatio) /
                |x * (DSPProcessor.new : DSPProcessor ℚ).preampGain| ∧
            |y| = (DSPProcessor.new : DSPProcessor ℚ).limiterThreshold +
                  (|x * (DSPProcessor.new : DSPProcessor ℚ).preampGain| -
                    (DSPProcessor.new : DSPProcessor ℚ).limiterThreshold) /
                    (DSPProcessor.new : DSPProcessor ℚ).limiterRatio ∧
            (0 < x * (DSPProcessor.new : DSPProcessor ℚ).preampGain → 0 < y) ∧
            (x * (DSPProcessor.new : DSPProcessor ℚ).preampGain < 0 → y < 0)) :=
  applyPreampAndLimiter_sample (DSPProcessor.new : DSPProcessor ℚ) [2, 1 / 2] 1 2
    (by norm_num [DSPProcessor.new]) (by norm_num [DSPProcessor.new]) (by simp)

/-- C2. Limiter monotonicity over a buffer: with a threshold `t > 0` and a ratio `r > 0`,
if `M` bounds the magnitude after preamp of every processed sample (as the largest of
these magnitudes does) and `M > t`, every processed output sample has magnitude at most
`t + (M - t) / r`. -/
theorem applyPreampAndLimiter_bound (p : DSPProcessor α) (buffer : List α)
    (numFrames numChannels : Nat) (M : α)
    (ht : 0 < p.limiterThreshold) (hr : 0 < p.limiterRatio)
    (hlen : numFrames * numChannels ≤ buffer.length)
    (hM : ∀ i x, i < numFrames * numChannels → buffer[i]? = some x →
      |x * p.preampGain| ≤ M)
    (hMt : p.limiterThreshold < M) :
    ∃ out, applyPreampAndLimiter p buffer numFrames numChannels = some out ∧
      ∀ i y, i < numFrames * numChannels → out[i]? = some y →
        |y| ≤ p.limiterThreshold + (M - p.limiterThreshold) / p.limiterRatio := by
  obtain ⟨out, hout, -, hget⟩ :=
    applyPreampAndLimiter_getElem? p buffer numFrames numChannels hlen
  refine ⟨out, hout, ?_⟩
  intro i y hi hy
  rw [hget i hi] at hy
  obtain ⟨x, hx, rfl⟩ := Option.map_eq_some'.mp hy
  exact preampLimiterSample_abs_le p x M ht hr (hM i x hi hx) hMt

/-- An instance of C2 on the default settings and the stereo frame `(2, 1/2)`, whose
largest magnitude after preamp is `2`. -/
theorem applyPreampAndLimiter_bound_witness :
    ∃ out, applyPreampAndLimiter (DSPProcessor.new : DSPProcessor ℚ) [2, 1 / 2] 1 2 = some out ∧
      ∀ i y, i < 1 * 2 → out[i]? = some y →
        |y| ≤ (DSPProcessor.new : DSPProcessor ℚ).limiterThreshold +
          (2 - (DSPProcessor.new : DSPProcessor ℚ).limiterThreshold) /
            (DSPProcessor.new : DSPProcessor ℚ).limiterRatio :=
  applyPreampAndLimiter_bound (DSPProcessor.new : DSPProcessor ℚ) [2, 1 / 2] 1 2 2
    (by norm_num [DSPProcessor.new]) (by norm_num [DSPProcessor.new]) (by simp)
    (by
      intro i x hi hx
      have h2 : i = 0 ∨ i = 1 := by omega
      rcases h2 with rfl | rfl
      · simp at hx
        subst hx
        norm_num [DSPProcessor.new]
      · simp at hx
        subst hx
        norm_num [DSPProcessor.new, abs_of_pos])
    (by norm_num [DSPProcessor.new])

end DSPProcessor

/-! ## Equalizer: cache and gains -/

namespace Equalizer

variable {α : Type} [LinearOrderedField α]

theorem finRange_ten : List.finRange 10 = [0, 1, 2, 3, 4, 5, 6, 7, 8, 9] := by
  rfl

theorem graphicBandCoeffs_congr (m : MathLib α) (e e2 : Equalizer α) (i : Fin 10)
    (hg : e2.graphicEQGains = e.graphicEQGains) (hs : e2.sampleRate = e.sampleRate) :
    graphicBandCoeffs m e2 i = graphicBandCoeffs m e i := by
  simp [graphicBandCoeffs, designLowShelf, designHighShelf, hg, hs]

/-- The loop of `updateGraphicEQCoeffs` stores in every entry of the cache the design
for the current gain and sample rate, and touches no other member. -/
theorem updateGraphicEQCoeffs_eq (m : MathLib α) (eq : Equalizer α) :
    updateGraphicEQCoeffs m eq =
      { eq with graphicEQCoeffs := fun i => graphicBandCoeffs m eq i } := by
  unfold updateGraphicEQCoeffs
  rw [finRange_ten]
  simp only [List.foldl_cons, List.foldl_nil]
  congr 1
  funext i
  fin_cases i <;> simp [Function.update] <;> exact graphicBandCoeffs_congr m _ _ _ rfl rfl

theorem stdClamp_eq (v lo hi : α) (h : lo ≤ hi) : stdClamp v lo hi = max lo (min v hi) := by
  unfold stdClamp
  split_ifs with h1 h2
  · rw [min_eq_left (le_trans h1.le h), max_eq_left h1.le]
  · rw [min_eq_right h2.le, max_eq_right h]
  · rw [min_eq_left (not_lt.mp h2), max_eq_right (not_lt.mp h1)]

theorem stdClamp_mem (v : α) : -12.0 ≤ stdClamp v (-12.0) 12.0 ∧ stdClamp v (-12.0) 12.0 ≤ 12.0 := by
  unfold stdClamp
  split_ifs with h1 h2
  · norm_num
  · norm_num
  · exact ⟨not_lt.mp h1, not_lt.mp h2⟩

theorem processAudio_equalizer (m : MathLib α) (eq : Equalizer α) (st : EqStatics α)
    (input output : List α) (numFrames numChannels : Nat) (r : EqResult α)
    (h : processAudio m eq st input output numFrames numChannels = some r) :
    r.equalizer = eq := by
  unfold processAudio at h
  split_ifs at h
  · simp only [Option.bind_eq_bind, Option.bind_eq_some] at h
    obtain ⟨_, _, h⟩ := h
    cases h
    rfl
  · simp only [Option.bind_eq_bind, Option.bind_eq_some] at h
    obtain ⟨_, _, _, _, _, _, h⟩ := h
    cases h
    rfl

theorem exec_gainsInRange (m : MathLib α) (op : EqOp α) (s t : Equalizer α × EqStatics α)
    (hs : GainsInRange s.1) (h : exec m op s = some t) : GainsInRange t.1 := by
  cases op <;> simp only [exec, Option.some.injEq, Option.map_eq_some'] at h
  case setGraphicEQBand band gain =>
    subst h
    simp only [setGraphicEQBand]
    split_ifs with hb
    · rw [updateGraphicEQCoeffs_eq]
      intro i
      simp only [Function.update]
      split_ifs with hi
      · have := stdClamp_mem gain
        norm_num at this ⊢
        exact this
      · exact hs i
    · exact hs
  case setGraphicEQBands gains =>
    subst h
    simp only [setGraphicEQBands]
    rw [updateGraphicEQCoeffs_eq]
    intro i
    have := stdClamp_mem (gains i)
    norm_num at this ⊢
    exact this
  case resetGraphicEQ =>
    subst h
    simp only [resetGraphicEQ]
    rw [updateGraphicEQCoeffs_eq]
    intro i
    norm_num
  case addParametricBand band =>
    subst h
    exact hs
  case removeParametricBand index =>
    subst h
    simp only [removeParametricBand]
    split_ifs
    · exact hs
    · exact hs
  case updateParametricBand index band =>
    subst h
    simp only [updateParametricBand]
    split_ifs
    · exact hs
    · exact hs
  case clearParametricBands =>
    subst h
    exact hs
  case processAudio input output numFrames numChannels =>
    obtain ⟨r, hr, rfl⟩ := h
    rw [processAudio_equalizer m _ _ _ _ _ _ r hr]
    exact hs
  case setSampleRate sampleRate =>
    subst h
    simp only [setSampleRate, updateParametricEQCoeffs]
    rw [updateGraphicEQCoeffs_eq]
    exact hs
  case setEnabled enabled =>
    subst h
    exact hs
  case loadPreset name =>
    subst h
    simp only [loadPreset, clearParametricBands, resetGraphicEQ]
    rw [updateGraphicEQCoeffs_eq]
    intro i
    norm_num
  case savePreset name =>
    subst h
    exact hs

theorem reachable_gainsInRange (m : MathLib α) (s : Equalizer α × EqStatics α)
    (h : Reachable m s) : GainsInRange s.1 := by
  induction h with
  | init =>
    simp only [Equalizer.new]
    rw [updateGraphicEQCoeffs_eq]
    intro i
    norm_num
  | step op s t _ hexec ih => exact exec_gainsInRange m op s t ih hexec

theorem updateGraphicEQCoeffs_consistent (m : MathLib α) (eq : Equalizer α) :
    CacheConsistent m (updateGraphicEQCoeffs m eq) := by
  intro i
  rw [updateGraphicEQCoeffs_eq]
  exact (graphicBandCoeffs_congr m eq _ i rfl rfl).symm

theorem exec_cacheConsistent (m : MathLib α) (op : EqOp α) (s t : Equalizer α × EqStatics α)
    (hs : CacheConsistent m s.1) (h : exec m op s = some t) : CacheConsistent m t.1 := by
  cases op <;> simp only [exec, Option.some.injEq, Option.map_eq_some'] at h
  case setGraphicEQBand band gain =>
    subst h
    simp only [setGraphicEQBand]
    split_ifs with hb
    · exact updateGraphicEQCoeffs_consistent m _
    · exact hs
  case setGraphicEQBands gains =>
    subst h
    exact updateGraphicEQCoeffs_consistent m _
  case resetGraphicEQ =>
    subst h
    exact updateGraphicEQCoeffs_consistent m _
  case addParametricBand band =>
    subst h
    intro i
    exact (hs i).trans (graphicBandCoeffs_congr m _ _ i rfl rfl).symm
  case removeParametricBand index =>
    subst h
    simp only [removeParametricBand]
    split_ifs
    · intro i
      exact (hs i).trans (graphicBandCoeffs_congr m _ _ i rfl rfl).symm
    · exact hs
  case updateParametricBand index band =>
    subst h
    simp only [updateParametricBand]
    split_ifs
    · intro i
      exact (hs i).trans (graphicBandCoeffs_congr m _ _ i rfl rfl).symm
    · exact hs
  case clearParametricBands =>
    subst h
    intro i
    exact (hs i).trans (graphicBandCoeffs_congr m _ _ i rfl rfl).symm
  case processAudio input output numFrames numChannels =>
    obtain ⟨r, hr, rfl⟩ := h
    rw [processAudio_equalizer m _ _ _ _ _ _ r hr]
    exact hs
  case setSampleRate sampleRate =>
    subst h
    exact updateGraphicEQCoeffs_consistent m _
  case setEnabled enabled =>
    subst h
    intro i
    exact (hs i).trans (graphicBandCoeffs_congr m _ _ i rfl rfl).symm
  case loadPreset name =>
    subst h
    intro i
    simp only [loadPreset, clearParametricBands]
    exact (updateGraphicEQCoeffs_consistent m _ i).trans
      (graphicBandCoeffs_congr m _ _ i rfl rfl).symm
  case savePreset name =>
    subst h
    exact hs

theorem reachable_cacheConsistent (m : MathLib α) (s : Equalizer α × EqStatics α)
    (h : Reachable m s) : CacheConsistent m s.1 := by
  induction h with
  | init => exact updateGraphicEQCoeffs_consistent m _
  | step op s t _ hexec ih => exact exec_cacheConsistent m op s t ih hexec

/-- C10. Graphic gain range invariant: in every state reachable from construction all
ten gains lie in `[-12, 12]`; `setGraphicEQBand b g` with `0 ≤ b < 10` makes
`getGraphicEQBand b` return `g` clamped to `[-12, 12]` and keeps the gain of every other
band; `setGraphicEQBands gs` stores the element-wise clamp of `gs`; and
`setGraphicEQBand` with `b` outside `0..9` changes nothing. -/
theorem graphic_gain_range (m : MathLib α) :
    (∀ s : Equalizer α × EqStatics α, Reachable m s →
      ∀ i : Fin 10, -12 ≤ s.1.graphicEQGains i ∧ s.1.graphicEQGains i ≤ 12) ∧
    (∀ (eq : Equalizer α) (b : Int) (g : α), 0 ≤ b ∧ b < 10 →
      getGraphicEQBand (setGraphicEQBand m eq b g) b = max (-12) (min g 12) ∧
      ∀ b2 : Int, b2 ≠ b →
        getGraphicEQBand (setGraphicEQBand m eq b g) b2 = getGraphicEQBand eq b2) ∧
    (∀ (eq : Equalizer α) (gs : Fin 10 → α) (i : Fin 10),
      (setGraphicEQBands m eq gs).graphicEQGains i = max (-12) (min (gs i) 12)) ∧
    (∀ (eq : Equalizer α) (b : Int) (g : α), ¬ (0 ≤ b ∧ b < 10) →
      setGraphicEQBand m eq b g = eq) := by
  refine ⟨fun s hs => reachable_gainsInRange m s hs, ?_, ?_, ?_⟩
  · intro eq b g hb
    have hb2 : b ≥ 0 ∧ b < 10 := hb
    constructor
    · simp only [getGraphicEQBand, setGraphicEQBand, dif_pos hb2]
      rw [updateGraphicEQCoeffs_eq]
      simp only [Function.update_same]
      rw [stdClamp_eq _ _ _ (by norm_num)]
      norm_num
    · intro b2 hne
      simp only [getGraphicEQBand, setGraphicEQBand, dif_pos hb2]
      rw [updateGraphicEQCoeffs_eq]
      split_ifs with h2
      · have hne2 : (⟨b2.toNat, by omega⟩ : Fin 10) ≠ ⟨b.toNat, by omega⟩ := by
          intro hc
          have := congrArg Fin.val hc
          simp only at this
          omega
        simp only [Function.update_noteq hne2]
      · rfl
  · intro eq gs i
    simp only [setGraphicEQBands]
    rw [updateGraphicEQCoeffs_eq]
    simp only
    rw [stdClamp_eq _ _ _ (by norm_num)]
    norm_num
  · intro eq b g hb
    have hb2 : ¬ (b ≥ 0 ∧ b < 10) := hb
    simp only [setGraphicEQBand, dif_neg hb2]

theorem isFlat_identity :
    isFlat ({ b0 := 1.0, b1 := 0.0, b2 := 0.0, a1 := 0.0, a2 := 0.0 } : FilterCoeffs α) = true := by
  simp [isFlat]
  norm_num

/-- C9. Equalizer bypass: when `enabled` is false (as it is after construction),
`processAudio` succeeds on every input and output buffer that hold the
`numFrames * numChannels` samples, writes the input samples verbatim over the first
`numFrames * numChannels` positions of the output, and changes neither the equalizer
object nor the filter histories, whatever the gains and the parametric bands are. -/
theorem processAudio_bypass (m : MathLib α) :
    (Equalizer.new m).enabled = false ∧
    ∀ (eq : Equalizer α) (st : EqStatics α) (input output : List α)
      (numFrames numChannels : Nat),
      eq.enabled = false →
      numFrames * numChannels ≤ input.length →
      numFrames * numChannels ≤ output.length →
      ∃ r, processAudio m eq st input output numFrames numChannels = some r ∧
        r.equalizer = eq ∧ r.statics = st ∧
        r.output.length = output.length ∧
        (∀ i, i < numFrames * numChannels → r.output[i]? = input[i]?) ∧
        (∀ i, numFrames * numChannels ≤ i → r.output[i]? = output[i]?) := by
  constructor
  · simp only [Equalizer.new]
    rw [updateGraphicEQCoeffs_eq]
  · intro eq st input output numFrames numChannels hen hin hout
    refine ⟨{ equalizer := eq, statics := st,
              output := input.take (numFrames * numChannels) ++
                output.drop (numFrames * numChannels) }, ?_, rfl, rfl, ?_, ?_, ?_⟩
    · simp [processAudio, hen, stdCopy_eq_some _ _ _ hin hout]
    · simp
      omega
    · intro i hi
      simp only
      rw [List.getElem?_append_left (by simp; omega)]
      simp [List.getElem?_take, hi]
    · intro i hi
      simp only
      rw [List.getElem?_append_right (by simp; omega)]
      simp [hin]
      congr 1
      omega

/-- C8. Flat graphic bands are exact pass-through: in every reachable state in which the
equalizer is enabled, all ten stored gains satisfy `|gain| < 0.1` and no parametric band
is enabled, each cached biquad is exactly `(1, 0, 0, 0, 0)`, each band passes the skip
test of `applyGraphicEQ`, and `processAudio` succeeds and writes the input samples
unchanged to the output, with the filter histories untouched. -/
theorem processAudio_flat (m : MathLib α) (s : Equalizer α × EqStatics α)
    (hreach : Reachable m s) (hen : s.1.enabled = true)
    (hflat : ∀ i : Fin 10, |s.1.graphicEQGains i| < 0.1)
    (hpar : ∀ b ∈ s.1.parametricBands, b.enabled = false) :
    (∀ i : Fin 10,
      s.1.graphicEQCoeffs i = { b0 := 1, b1 := 0, b2 := 0, a1 := 0, a2 := 0 } ∧
      isFlat (s.1.graphicEQCoeffs i) = true) ∧
    ∀ (input output : List α) (numFrames numChannels : Nat),
      numFrames * numChannels ≤ input.length →
      numFrames * numChannels ≤ output.length →
      ∃ r, processAudio m s.1 s.2 input output numFrames numChannels = some r ∧
        r.equalizer = s.1 ∧ r.statics = s.2 ∧
        r.output.length = output.length ∧
        (∀ i, i < numFrames * numChannels → r.output[i]? = input[i]?) ∧
        (∀ i, numFrames * numChannels ≤ i → r.output[i]? = output[i]?) := by
  have hcache : ∀ i : Fin 10,
      s.1.graphicEQCoeffs i = { b0 := 1.0, b1 := 0.0, b2 := 0.0, a1 := 0.0, a2 := 0.0 } := by
    intro i
    rw [reachable_cacheConsistent m s hreach i]
    simp only [graphicBandCoeffs, if_pos (hflat i)]
  have hskip : ∀ i : Fin 10, isFlat (s.1.graphicEQCoeffs i) = true := by
    intro i
    rw [hcache i]
    exact isFlat_identity
  constructor
  · intro i
    refine ⟨?_, hskip i⟩
    rw [hcache i]
    norm_num
  · intro input output numFrames numChannels hin hout
    refine ⟨{ equalizer := s.1, statics := s.2,
              output := input.take (numFrames * numChannels) ++
                output.drop (numFrames * numChannels) }, ?_, rfl, rfl, ?_, ?_, ?_⟩
    · have hg : ∀ acc, applyGraphicEQ s.1 numFrames numChannels acc = some acc := by
        intro acc
        apply foldlM_skip
        intro band _ acc2
        simp [hskip band]
      have hp : ∀ acc, applyParametricEQ m s.1 numFrames numChannels acc = some acc := by
        intro acc
        apply foldlM_skip
        intro band hband acc2
        simp [hpar band hband]
      simp [processAudio, hen, stdCopy_eq_some _ _ _ hin hout, hg, hp]
    · simp
      omega
    · intro i hi
      simp only
      rw [List.getElem?_append_left (by simp; omega)]
      simp [List.getElem?_take, hi]
    · intro i hi
      simp only
      rw [List.getElem?_append_right (by simp; omega)]
      simp [hin]
      congr 1
      omega

/-- An instance of C9: the freshly constructed equalizer copies the stereo frame
`(1, 2)` to the output. -/
theorem processAudio_bypass_witness :
    ∃ r, processAudio realMath (Equalizer.new realMath) initStatics [1, 2] [0, 0] 1 2 = some r ∧
      r.equalizer = Equalizer.new realMath ∧ r.statics = initStatics ∧
      r.output.length = [(0 : ℝ), 0].length ∧
      (∀ i, i < 1 * 2 → r.output[i]? = [(1 : ℝ), 2][i]?) ∧
      (∀ i, 1 * 2 ≤ i → r.output[i]? = [(0 : ℝ), 0][i]?) :=
  (processAudio_bypass realMath).2 (Equalizer.new realMath) initStatics [1, 2] [0, 0] 1 2
    (processAudio_bypass realMath).1 (by simp) (by simp)

/-- An instance of C8: the freshly constructed equalizer, once enabled, has ten flat
bands and copies the stereo frame `(1, 2)` to the output. -/
theorem processAudio_flat_witness :
    (∀ i : Fin 10,
      (setEnabled (Equalizer.new realMath) true).graphicEQCoeffs i =
        { b0 := 1, b1 := 0, b2 := 0, a1 := 0, a2 := 0 } ∧
      isFlat ((setEnabled (Equalizer.new realMath) true).graphicEQCoeffs i) = true) ∧
    ∀ (input output : List ℝ) (numFrames numChannels : Nat),
      numFrames * numChannels ≤ input.length →
      numFrames * numChannels ≤ output.length →
      ∃ r, processAudio realMath (setEnabled (Equalizer.new realMath) true) initStatics
          input output numFrames numChannels = some r ∧
        r.equalizer = setEnabled (Equalizer.new realMath) true ∧ r.statics = initStatics ∧
        r.output.length = output.length ∧
        (∀ i, i < numFrames * numChannels → r.output[i]? = input[i]?) ∧
        (∀ i, numFrames * numChannels ≤ i → r.output[i]? = output[i]?) :=
  processAudio_flat realMath (setEnabled (Equalizer.new realMath) true, initStatics)
    (Reachable.step (EqOp.setEnabled true) (Equalizer.new realMath, initStatics) _
      Reachable.init rfl)
    rfl
    (by
      intro i
      simp only [setEnabled, Equalizer.new]
      rw [updateGraphicEQCoeffs_eq]
      norm_num)
    (by
      intro b hb
      simp only [setEnabled, Equalizer.new] at hb
      rw [updateGraphicEQCoeffs_eq] at hb
      simp at hb)

/-- An instance of C10: on the freshly constructed equalizer, band 3 set to 20 dB reads
back 12 dB, and a write to band 10 changes nothing. -/
theorem graphic_gain_range_witness :
    (∀ i : Fin 10, -12 ≤ (Equalizer.new realMath).graphicEQGains i ∧
      (Equalizer.new realMath).graphicEQGains i ≤ 12) ∧
    getGraphicEQBand (setGraphicEQBand realMath (Equalizer.new realMath) 3 20) 3 =
      max (-12) (min 20 12) ∧
    getGraphicEQBand (setGraphicEQBand realMath (Equalizer.new realMath) 3 20) 4 =
      getGraphicEQBand (Equalizer.new realMath) 4 ∧
    setGraphicEQBand realMath (Equalizer.new realMath) 10 5 = Equalizer.new realMath :=
  ⟨(graphic_gain_range realMath).1 (Equalizer.new realMath, initStatics) Reachable.init,
   ((graphic_gain_range realMath).2.1 (Equalizer.new realMath) 3 20 (by decide)).1,
   ((graphic_gain_range realMath).2.1 (Equalizer.new realMath) 3 20 (by decide)).2 4
     (by decide),
   (graphic_gain_range realMath).2.2.2 (Equalizer.new realMath) 10 5 (by decide)⟩

end Equalizer

/-! ## Filter and effect lists -/

namespace DSPProcessor

variable {α : Type}

/-- C5 as stated fails: on the freshly constructed processor (sample rate 48000),
`addFilter` with frequency 24000 (the Nyquist frequency) and Q = 0 changes the filter
list, and so does `updateFilter` on an existing slot. -/
theorem addFilter_invalid_counterexample :
    ((24000 : ℚ) ≥ ((DSPProcessor.new : DSPProcessor ℚ).sampleRate : ℚ) / 2 ∧ (0 : ℚ) ≤ 0) ∧
    (addFilter (DSPProcessor.new : DSPProcessor ℚ)
        { type := FilterType.LOW_PASS, frequency := 24000, q := 0, gain := 0 }).filters ≠
      (DSPProcessor.new : DSPProcessor ℚ).filters ∧
    (updateFilter
        (addFilter (DSPProcessor.new : DSPProcessor ℚ)
          { type := FilterType.LOW_PASS, frequency := 1000, q := 1, gain := 0 }) 0
        { type := FilterType.LOW_PASS, frequency := 24000, q := 0, gain := 0 }).filters ≠
      (addFilter (DSPProcessor.new : DSPProcessor ℚ)
          { type := FilterType.LOW_PASS, frequency := 1000, q := 1, gain := 0 }).filters := by
  refine ⟨⟨?_, le_refl _⟩, ?_, ?_⟩
  · norm_num [DSPProcessor.new]
  · simp [addFilter, DSPProcessor.new]
  · simp [addFilter, updateFilter, DSPProcessor.new]

/-- C5, amended. No filter parameter is validated: `addFilter` appends the parameters it
is given, whatever the frequency and the Q, and changes no other member;
`updateFilter i` stores them in slot `i` whenever `0 ≤ i < size`, and is a no-op exactly
when `i` is out of range. -/
theorem addFilter_updateFilter_unvalidated (p : DSPProcessor α) (params : FilterParams α)
    (i : Int) :
    addFilter p params = { p with filters := p.filters ++ [params] } ∧
    (addFilter p params).filters.length = p.filters.length + 1 ∧
    (addFilter p params).filters.getLast? = some params ∧
    (0 ≤ i ∧ i < (p.filters.length : Int) →
      (updateFilter p i params).filters[i.toNat]? = some params ∧
      (updateFilter p i params).filters.length = p.filters.length ∧
      (∀ j, j ≠ i.toNat → (updateFilter p i params).filters[j]? = p.filters[j]?) ∧
      updateFilter p i params = { p with filters := p.filters.set i.toNat params }) ∧
    (¬ (0 ≤ i ∧ i < (p.filters.length : Int)) → updateFilter p i params = p) := by
  refine ⟨rfl, by simp [addFilter], by simp [addFilter], ?_, ?_⟩
  · intro hi
    have hi2 : i ≥ 0 ∧ i < (p.filters.length : Int) := hi
    have hlt : i.toNat < p.filters.length := by omega
    have hupd : updateFilter p i params = { p with filters := p.filters.set i.toNat params } := by
      simp only [updateFilter, if_pos hi2]
    rw [hupd]
    refine ⟨?_, by simp, ?_, rfl⟩
    · simp [List.getElem?_set, hlt]
    · intro j hj
      simp [List.getElem?_set, Ne.symm hj]
  · intro hi
    have hi2 : ¬ (i ≥ 0 ∧ i < (p.filters.length : Int)) := hi
    simp only [updateFilter, if_neg hi2]

/-- An instance of the amended C5: slot 0 of a one-filter list takes parameters with
Q = 0, and index 1 is out of range. -/
theorem addFilter_updateFilter_unvalidated_witness :
    (updateFilter
        (addFilter (DSPProcessor.new : DSPProcessor ℚ)
          { type := FilterType.LOW_PASS, frequency := 1000, q := 1, gain := 0 }) 0
        { type := FilterType.LOW_PASS, frequency := 24000, q := 0, gain := 0 }).filters[0]? =
      some { type := FilterType.LOW_PASS, frequency := 24000, q := 0, gain := 0 } ∧
    updateFilter (DSPProcessor.new : DSPProcessor ℚ) 1
        { type := FilterType.LOW_PASS, frequency := 24000, q := 0, gain := 0 } =
      (DSPProcessor.new : DSPProcessor ℚ) :=
  ⟨((addFilter_updateFilter_unvalidated
      (addFilter (DSPProcessor.new : DSPProcessor ℚ)
        { type := FilterType.LOW_PASS, frequency := 1000, q := 1, gain := 0 })
      { type := FilterType.LOW_PASS, frequency := 24000, q := 0, gain := 0 } 0).2.2.2.1
      (by simp [addFilter, DSPProcessor.new])).1,
   (addFilter_updateFilter_unvalidated (DSPProcessor.new : DSPProcessor ℚ)
      { type := FilterType.LOW_PASS, frequency := 24000, q := 0, gain := 0 } 1).2.2.2.2
      (by simp [DSPProcessor.new])⟩

/-- C6. Index-guarded mutators: with an index `i < 0` or `i ≥ size`, `removeFilter`,
`updateFilter`, `removeEffect`, `updateEffect`, `removeParametricBand` and
`updateParametricBand` return the state they were given; with `0 ≤ i < size`, remove
yields the elements before `i` followed by the elements after `i`, update yields the
elements before `i`, the new element, and the elements after `i`, and no other member
changes. -/
theorem index_guarded_mutators (p : DSPProcessor α) (eq : Equalizer α) (i : Int)
    (fp : FilterParams α) (ep : EffectParams α) (pb : ParametricBand α) :
    ((i < 0 ∨ i ≥ (p.filters.length : Int)) →
      removeFilter p i = p ∧ updateFilter p i fp = p) ∧
    ((i < 0 ∨ i ≥ (p.effects.length : Int)) →
      removeEffect p i = p ∧ updateEffect p i ep = p) ∧
    ((i < 0 ∨ i ≥ (eq.parametricBands.length : Int)) →
      Equalizer.removeParametricBand eq i = eq ∧
      Equalizer.updateParametricBand eq i pb = eq) ∧
    ((0 ≤ i ∧ i < (p.filters.length : Int)) →
      removeFilter p i =
        { p with filters := p.filters.take i.toNat ++ p.filters.drop (i.toNat + 1) } ∧
      updateFilter p i fp =
        { p with filters := p.filters.take i.toNat ++ fp :: p.filters.drop (i.toNat + 1) }) ∧
    ((0 ≤ i ∧ i < (p.effects.length : Int)) →
      removeEffect p i =
        { p with effects := p.effects.take i.toNat ++ p.effects.drop (i.toNat + 1) } ∧
      updateEffect p i ep =
        { p with effects := p.effects.take i.toNat ++ ep :: p.effects.drop (i.toNat + 1) }) ∧
    ((0 ≤ i ∧ i < (eq.parametricBands.length : Int)) →
      Equalizer.removeParametricBand eq i =
        { eq with parametricBands :=
            eq.parametricBands.take i.toNat ++ eq.parametricBands.drop (i.toNat + 1) } ∧
      Equalizer.updateParametricBand eq i pb =
        { eq with parametricBands :=
            eq.parametricBands.take i.toNat ++ pb :: eq.parametricBands.drop (i.toNat + 1) }) := by
  refine ⟨?_, ?_, ?_, ?_, ?_, ?_⟩
  · intro h
    have h2 : ¬ (i ≥ 0 ∧ i < (p.filters.length : Int)) := by omega
    simp only [removeFilter, updateFilter, if_neg h2, and_self]
  · intro h
    have h2 : ¬ (i ≥ 0 ∧ i < (p.effects.length : Int)) := by omega
    simp only [removeEffect, updateEffect, if_neg h2, and_self]
  · intro h
    have h2 : ¬ (i ≥ 0 ∧ i < (eq.parametricBands.length : Int)) := by omega
    simp only [Equalizer.removeParametricBand, Equalizer.updateParametricBand, if_neg h2,
      and_self]
  · intro h
    have h2 : i ≥ 0 ∧ i < (p.filters.length : Int) := h
    have hlt : i.toNat < p.filters.length := by omega
    simp only [removeFilter, updateFilter, if_pos h2, List.eraseIdx_eq_take_drop_succ,
      List.set_eq_take_append_cons_drop, if_pos hlt, and_self]
  · intro h
    have h2 : i ≥ 0 ∧ i < (p.effects.length : Int) := h
    have hlt : i.toNat < p.effects.length := by omega
    simp only [removeEffect, updateEffect, if_pos h2, List.eraseIdx_eq_take_drop_succ,
      List.set_eq_take_append_cons_drop, if_pos hlt, and_self]
  · intro h
    have h2 : i ≥ 0 ∧ i < (eq.parametricBands.length : Int) := h
    have hlt : i.toNat < eq.parametricBands.length := by omega
    simp only [Equalizer.removeParametricBand, Equalizer.updateParametricBand, if_pos h2,
      List.eraseIdx_eq_take_drop_succ, List.set_eq_take_append_cons_drop, if_pos hlt,
      Equalizer.updateParametricEQCoeffs, and_self]

/-- An instance of C6 on a processor with one filter: index 5 is out of range and
changes nothing, index 0 removes, respectively replaces, the only filter. -/
theorem index_guarded_mutators_witness :
    (removeFilter
        (addFilter (DSPProcessor.new : DSPProcessor ℚ)
          { type := FilterType.PEAKING, frequency := 1000, q := 1, gain := 3 }) 5 =
      addFilter (DSPProcessor.new : DSPProcessor ℚ)
          { type := FilterType.PEAKING, frequency := 1000, q := 1, gain := 3 } ∧
     updateFilter
        (addFilter (DSPProcessor.new : DSPProcessor ℚ)
          { type := FilterType.PEAKING, frequency := 1000, q := 1, gain := 3 }) 5
        { type := FilterType.LOW_PASS, frequency := 200, q := 2, gain := 0 } =
      addFilter (DSPProcessor.new : DSPProcessor ℚ)
          { type := FilterType.PEAKING, frequency := 1000, q := 1, gain := 3 }) ∧
    (removeFilter
        (addFilter (DSPProcessor.new : DSPProcessor ℚ)
          { type := FilterType.PEAKING, frequency := 1000, q := 1, gain := 3 }) 0 =
      { addFilter (DSPProcessor.new : DSPProcessor ℚ)
          { type := FilterType.PEAKING, frequency := 1000, q := 1, gain := 3 } with
        filters :=
          (addFilter (DSPProcessor.new : DSPProcessor ℚ)
            { type := FilterType.PEAKING, frequency := 1000, q := 1, gain := 3 }).filters.take
              (0 : Int).toNat ++
          (addFilter (DSPProcessor.new : DSPProcessor ℚ)
            { type := FilterType.PEAKING, frequency := 1000, q := 1, gain := 3 }).filters.drop
              ((0 : Int).toNat + 1) } ∧
     updateFilter
        (addFilter (DSPProcessor.new : DSPProcessor ℚ)
          { type := FilterType.PEAKING, frequency := 1000, q := 1, gain := 3 }) 0
        { type := FilterType.LOW_PASS, frequency := 200, q := 2, gain := 0 } =
      { addFilter (DSPProcessor.new : DSPProcessor ℚ)
          { type := FilterType.PEAKING, frequency := 1000, q := 1, gain := 3 } with
        filters :=
          (addFilter (DSPProcessor.new : DSPProcessor ℚ)
            { type := FilterType.PEAKING, frequency := 1000, q := 1, gain := 3 }).filters.take
              (0 : Int).toNat ++
          { type := FilterType.LOW_PASS, frequency := 200, q := 2, gain := 0 } ::
          (addFilter (DSPProcessor.new : DSPProcessor ℚ)
            { type := FilterType.PEAKING, frequency := 1000, q := 1, gain := 3 }).filters.drop
              ((0 : Int).toNat + 1) }) :=
  ⟨(index_guarded_mutators
      (addFilter (DSPProcessor.new : DSPProcessor ℚ)
        { type := FilterType.PEAKING, frequency := 1000, q := 1, gain := 3 })
      { graphicEQGains := fun _ => 0, parametricBands := [], sampleRate := 48000,
        enabled := false,
        graphicEQCoeffs := fun _ => { b0 := 1, b1 := 0, b2 := 0, a1 := 0, a2 := 0 } }
      5 { type := FilterType.LOW_PASS, frequency := 200, q := 2, gain := 0 }
      { type := EffectType.LIMITER, mix := 1, param1 := 0, param2 := 0, param3 := 0 }
      { frequency := 1000, q := 1, gain := 0, enabled := true }).1
      (by simp [addFilter, DSPProcessor.new]),
   (index_guarded_mutators
      (addFilter (DSPProcessor.new : DSPProcessor ℚ)
        { type := FilterType.PEAKING, frequency := 1000, q := 1, gain := 3 })
      { graphicEQGains := fun _ => 0, parametricBands := [], sampleRate := 48000,
        enabled := false,
        graphicEQCoeffs := fun _ => { b0 := 1, b1 := 0, b2 := 0, a1 := 0, a2 := 0 } }
      0 { type := FilterType.LOW_PASS, frequency := 200, q := 2, gain := 0 }
      { type := EffectType.LIMITER, mix := 1, param1 := 0, param2 := 0, param3 := 0 }
      { frequency := 1000, q := 1, gain := 0, enabled := true }).2.2.2.1
      (by simp [addFilter, DSPProcessor.new])⟩

end DSPProcessor

/-! ## Loop invariants -/

section LoopInvariants

variable {σ : Type}

/-- Invariant rule for the counted loop: an invariant indexed by the iteration count that
every iteration re-establishes, without faulting, holds at the end, and the loop does
not fault. -/
theorem forLoop_invariant (I : Nat → σ → Prop) (n : Nat) (body : Nat → σ → Option σ) (s : σ)
    (h0 : I 0 s)
    (hstep : ∀ i t, i < n → I i t → ∃ u, body i t = some u ∧ I (i + 1) u) :
    ∃ t, forLoop n body s = some t ∧ I n t := by
  induction n with
  | zero => exact ⟨s, forLoop_zero body s, h0⟩
  | succ k ih =>
    obtain ⟨t, ht, hI⟩ := ih (fun i t hi => hstep i t (Nat.lt_succ_of_lt hi))
    obtain ⟨u, hu, hIu⟩ := hstep k t (Nat.lt_succ_self k) hI
    exact ⟨u, by rw [forLoop_succ, ht]; exact hu, hIu⟩

/-- Invariant rule for a loop over a list of items. -/
theorem foldlM_invariant {β : Type} (I : σ → Prop) (f : σ → β → Option σ) (l : List β) (s : σ)
    (h0 : I s) (hstep : ∀ x ∈ l, ∀ t, I t → ∃ u, f t x = some u ∧ I u) :
    ∃ t, l.foldlM f s = some t ∧ I t := by
  induction l generalizing s with
  | nil => exact ⟨s, rfl, h0⟩
  | cons x xs ih =>
    obtain ⟨u, hu, hIu⟩ := hstep x (List.mem_cons_self _ _) s h0
    obtain ⟨t, ht, hIt⟩ := ih u hIu (fun y hy t ht => hstep y (List.mem_cons_of_mem _ hy) t ht)
    exact ⟨t, by rw [List.foldlM_cons, hu]; exact ht, hIt⟩

end LoopInvariants

section BiquadLemmas

variable {α : Type} [LinearOrderedField α]

theorem biquadSample_inv (co : FilterCoeffs α) (buf0 : List α) (Pin Pout : α → Prop)
    (J : α → α → α → α → Prop) (numFrames numChannels frame ch : Nat)
    (s : BiquadHistory α × List α)
    (hnc : numChannels ≤ 2) (hlen : numFrames * numChannels ≤ buf0.length)
    (hin : ∀ i x, i < numFrames * numChannels → buf0[i]? = some x → Pin x)
    (hJ : ∀ x0 a b c d, Pin x0 → J a b c d →
      J x0 a (co.b0 * x0 + co.b1 * a + co.b2 * b - co.a1 * c - co.a2 * d) c ∧
      Pout (co.b0 * x0 + co.b1 * a + co.b2 * b - co.a1 * c - co.a2 * d))
    (hframe : frame < numFrames) (hch : ch < numChannels)
    (hs : BiquadInv buf0 Pout J (frame * numChannels + ch) s) :
    ∃ u, biquadSample co numChannels frame ch s = some u ∧
      BiquadInv buf0 Pout J (frame * numChannels + ch + 1) u := by
  obtain ⟨hl, hrest, hdone, h1, h2, h3, h4, hhist⟩ := hs
  have hidx : frame * numChannels + ch < numFrames * numChannels := by
    calc frame * numChannels + ch < frame * numChannels + numChannels := by omega
      _ = (frame + 1) * numChannels := by ring
      _ ≤ numFrames * numChannels := Nat.mul_le_mul_right _ hframe
  have hidx2 : frame * numChannels + ch < s.2.length := by omega
  have hc2 : ch < 2 := by omega
  have e0 : s.2[frame * numChannels + ch]? = some s.2[frame * numChannels + ch] :=
    List.getElem?_eq_getElem hidx2
  have b1 : ch < s.1.x1.length := by omega
  have b2 : ch < s.1.x2.length := by omega
  have b3 : ch < s.1.y1.length := by omega
  have b4 : ch < s.1.y2.length := by omega
  have e1 : s.1.x1[ch]? = some s.1.x1[ch] := List.getElem?_eq_getElem b1
  have e2 : s.1.x2[ch]? = some s.1.x2[ch] := List.getElem?_eq_getElem b2
  have e3 : s.1.y1[ch]? = some s.1.y1[ch] := List.getElem?_eq_getElem b3
  have e4 : s.1.y2[ch]? = some s.1.y2[ch] := List.getElem?_eq_getElem b4
  have hPin : Pin s.2[frame * numChannels + ch] :=
    hin _ _ hidx (by rw [← hrest _ (le_refl _)]; exact e0)
  have hstep := hJ _ _ _ _ _ hPin (hhist ch _ _ _ _ e1 e2 e3 e4)
  refine ⟨_, by simp only [biquadSample, e0, e1, e2, e3, e4, Option.bind_eq_bind,
    Option.some_bind]; rfl, ?_⟩
  refine ⟨by simp [hl], ?_, ?_, by simp [h1], by simp [h2], by simp [h3], by simp [h4], ?_⟩
  · intro i hi
    simp only
    rw [List.getElem?_set_ne (by omega)]
    exact hrest i (by omega)
  · intro i y hi hy
    simp only at hy
    rcases Nat.lt_or_ge i (frame * numChannels + ch) with hlt | hge
    · rw [List.getElem?_set_ne (by omega)] at hy
      exact hdone i y hlt hy
    · have hie : i = frame * numChannels + ch := by omega
      subst hie
      rw [List.getElem?_set_self hidx2] at hy
      cases hy
      exact hstep.2
  · intro c2 a b c d ha hb hc hd
    simp only at ha hb hc hd
    by_cases hcc : c2 = ch
    · subst hcc
      rw [List.getElem?_set_self (by omega)] at ha hb hc hd
      cases ha; cases hb; cases hc; cases hd
      exact hstep.1
    · rw [List.getElem?_set_ne (Ne.symm hcc)] at ha hb hc hd
      exact hhist c2 a b c d ha hb hc hd

theorem biquadLoop_inv (co : FilterCoeffs α) (buf0 : List α) (Pin Pout : α → Prop)
    (J : α → α → α → α → Prop) (numFrames numChannels : Nat)
    (s : BiquadHistory α × List α)
    (hnc : numChannels ≤ 2) (hlen : numFrames * numChannels ≤ buf0.length)
    (hin : ∀ i x, i < numFrames * numChannels → buf0[i]? = some x → Pin x)
    (hJ : ∀ x0 a b c d, Pin x0 → J a b c d →
      J x0 a (co.b0 * x0 + co.b1 * a + co.b2 * b - co.a1 * c - co.a2 * d) c ∧
      Pout (co.b0 * x0 + co.b1 * a + co.b2 * b - co.a1 * c - co.a2 * d))
    (hs : BiquadInv buf0 Pout J 0 s) :
    ∃ u, biquadLoop co numFrames numChannels s = some u ∧
      BiquadInv buf0 Pout J (numFrames * numChannels) u := by
  unfold biquadLoop
  apply forLoop_invariant (fun frame t => BiquadInv buf0 Pout J (frame * numChannels) t)
  · simpa using hs
  · intro frame t hframe ht
    have hinner := forLoop_invariant
      (fun ch t2 => BiquadInv buf0 Pout J (frame * numChannels + ch) t2) numChannels
      (fun ch s2 => biquadSample co numChannels frame ch s2) t (by simpa using ht)
      (fun ch t2 hch ht2 => biquadSample_inv co buf0 Pin Pout J numFrames numChannels frame ch
        t2 hnc hlen hin hJ hframe hch ht2)
    obtain ⟨u, hu, hIu⟩ := hinner
    refine ⟨u, hu, ?_⟩
    have he : (frame + 1) * numChannels = frame * numChannels + numChannels := by ring
    simp only [he]
    exact hIu

end BiquadLemmas

/-! ## Stability of the designed filters -/

section Stability

/-- Denominator coefficients inside the stability triangle have both poles strictly
inside the unit circle. -/
theorem exists_poles (a1 a2 : ℝ) (h2 : |a2| < 1) (h1 : |a1| < 1 + a2) :
    ∃ p1 p2 : ℂ, p1 + p2 = -(a1 : ℂ) ∧ p1 * p2 = (a2 : ℂ) ∧ ‖p1‖ < 1 ∧ ‖p2‖ < 1 := by
  obtain ⟨h2l, h2u⟩ := abs_lt.mp h2
  obtain ⟨h1l, h1u⟩ := abs_lt.mp h1
  rcases le_or_lt 0 (a1 ^ 2 - 4 * a2) with hD | hD
  · have hs := Real.sq_sqrt hD
    have hs0 := Real.sqrt_nonneg (a1 ^ 2 - 4 * a2)
    refine ⟨(((-a1 + Real.sqrt (a1 ^ 2 - 4 * a2)) / 2 : ℝ) : ℂ),
      (((-a1 - Real.sqrt (a1 ^ 2 - 4 * a2)) / 2 : ℝ) : ℂ), ?_, ?_, ?_, ?_⟩
    · rw [← Complex.ofReal_add, ← Complex.ofReal_neg]
      congr 1
      ring
    · rw [← Complex.ofReal_mul]
      congr 1
      nlinarith
    · rw [Complex.norm_real, Real.norm_eq_abs, abs_lt]
      constructor <;> nlinarith
    · rw [Complex.norm_real, Real.norm_eq_abs, abs_lt]
      constructor <;> nlinarith
  · have hneg : 0 ≤ 4 * a2 - a1 ^ 2 := by linarith
    have hs := Real.sq_sqrt hneg
    have hs0 := Real.sqrt_nonneg (4 * a2 - a1 ^ 2)
    have hnorm : ∀ e : ℝ, e ^ 2 = (4 * a2 - a1 ^ 2) / 4 → ‖(⟨-a1 / 2, e⟩ : ℂ)‖ < 1 := by
      intro e he
      rw [Complex.norm_eq_abs, Complex.abs_apply, Complex.normSq_mk]
      rw [show (1 : ℝ) = Real.sqrt 1 by simp]
      apply Real.sqrt_lt_sqrt
      · nlinarith
      · nlinarith
    refine ⟨⟨-a1 / 2, Real.sqrt (4 * a2 - a1 ^ 2) / 2⟩,
      ⟨-a1 / 2, -(Real.sqrt (4 * a2 - a1 ^ 2) / 2)⟩, ?_, ?_, ?_, ?_⟩
    · apply Complex.ext
      · simp only [Complex.add_re, Complex.neg_re, Complex.ofReal_re]
        ring
      · simp only [Complex.add_im, Complex.neg_im, Complex.ofReal_im]
        ring
    · apply Complex.ext
      · simp only [Complex.mul_re, Complex.ofReal_re]
        nlinarith
      · simp only [Complex.mul_im, Complex.ofReal_im]
        ring
    · exact hnorm _ (by nlinarith)
    · exact hnorm _ (by nlinarith)

theorem geometric_fixpoint (U r : ℝ) (hr : r < 1) : U + r * (U / (1 - r)) = U / (1 - r) := by
  have h : 1 - r ≠ 0 := by linarith
  field_simp
  ring

theorem init_getElem? (ch : Nat) (a : ℝ)
    (h : ([0, 0] : List ℝ)[ch]? = some a) : a = 0 := by
  rcases ch with _ | _ | ch
  · simpa using h.symm
  · simpa using h.symm
  · simp at h

/-- Coefficients inside the stability triangle give a bounded response: one bound `B`
holds for every buffer length, for mono and stereo, when the input is bounded by 1 and
the histories start at zero. -/
theorem biquadLoop_bounded (co : FilterCoeffs ℝ) (h2 : |co.a2| < 1) (h1 : |co.a1| < 1 + co.a2) :
    ∃ B : ℝ, ∀ (numFrames numChannels : Nat) (buf : List ℝ),
      numChannels ≤ 2 → numFrames * numChannels ≤ buf.length →
      (∀ i x, i < numFrames * numChannels → buf[i]? = some x → |x| ≤ 1) →
      ∃ u, biquadLoop co numFrames numChannels (BiquadHistory.init, buf) = some u ∧
        u.2.length = buf.length ∧
        ∀ i y, i < numFrames * numChannels → u.2[i]? = some y → |y| ≤ B := by
  obtain ⟨p1, p2, hsum, hprod, hp1, hp2⟩ := exists_poles co.a1 co.a2 h2 h1
  have hU : 0 ≤ |co.b0| + |co.b1| + |co.b2| := by positivity
  have hr1 : 0 < 1 - ‖p1‖ := by linarith
  have hr2 : 0 < 1 - ‖p2‖ := by linarith
  have hV : 0 ≤ (|co.b0| + |co.b1| + |co.b2|) / (1 - ‖p1‖) := div_nonneg hU hr1.le
  have hY : 0 ≤ (|co.b0| + |co.b1| + |co.b2|) / (1 - ‖p1‖) / (1 - ‖p2‖) :=
    div_nonneg hV hr2.le
  have hVeq : |co.b0| + |co.b1| + |co.b2| +
      ‖p1‖ * ((|co.b0| + |co.b1| + |co.b2|) / (1 - ‖p1‖)) =
      (|co.b0| + |co.b1| + |co.b2|) / (1 - ‖p1‖) := geometric_fixpoint _ _ hp1
  have hYeq : (|co.b0| + |co.b1| + |co.b2|) / (1 - ‖p1‖) +
      ‖p2‖ * ((|co.b0| + |co.b1| + |co.b2|) / (1 - ‖p1‖) / (1 - ‖p2‖)) =
      (|co.b0| + |co.b1| + |co.b2|) / (1 - ‖p1‖) / (1 - ‖p2‖) :=
    geometric_fixpoint _ _ hp2
  refine ⟨(|co.b0| + |co.b1| + |co.b2|) / (1 - ‖p1‖) / (1 - ‖p2‖), ?_⟩
  intro numFrames numChannels buf hnc hlen hin
  have hJ : ∀ x0 a b c d : ℝ, |x0| ≤ 1 →
      (|a| ≤ 1 ∧ |b| ≤ 1 ∧
        ‖(c : ℂ) - p2 * (d : ℂ)‖ ≤ (|co.b0| + |co.b1| + |co.b2|) / (1 - ‖p1‖) ∧
        |c| ≤ (|co.b0| + |co.b1| + |co.b2|) / (1 - ‖p1‖) / (1 - ‖p2‖)) →
      (|x0| ≤ 1 ∧ |a| ≤ 1 ∧
        ‖((co.b0 * x0 + co.b1 * a + co.b2 * b - co.a1 * c - co.a2 * d : ℝ) : ℂ) -
            p2 * (c : ℂ)‖ ≤ (|co.b0| + |co.b1| + |co.b2|) / (1 - ‖p1‖) ∧
        |co.b0 * x0 + co.b1 * a + co.b2 * b - co.a1 * c - co.a2 * d| ≤
          (|co.b0| + |co.b1| + |co.b2|) / (1 - ‖p1‖) / (1 - ‖p2‖)) ∧
      |co.b0 * x0 + co.b1 * a + co.b2 * b - co.a1 * c - co.a2 * d| ≤
          (|co.b0| + |co.b1| + |co.b2|) / (1 - ‖p1‖) / (1 - ‖p2‖) := by
    intro x0 a b c d hx0 ⟨ha, hb, hv, hc⟩
    have hu : |co.b0 * x0 + co.b1 * a + co.b2 * b| ≤ |co.b0| + |co.b1| + |co.b2| := by
      have e1 : |co.b0 * x0| ≤ |co.b0| := by
        rw [abs_mul]; exact mul_le_of_le_one_right (abs_nonneg _) hx0
      have e2 : |co.b1 * a| ≤ |co.b1| := by
        rw [abs_mul]; exact mul_le_of_le_one_right (abs_nonneg _) ha
      have e3 : |co.b2 * b| ≤ |co.b2| := by
        rw [abs_mul]; exact mul_le_of_le_one_right (abs_nonneg _) hb
      calc |co.b0 * x0 + co.b1 * a + co.b2 * b|
          ≤ |co.b0 * x0 + co.b1 * a| + |co.b2 * b| := abs_add _ _
        _ ≤ |co.b0 * x0| + |co.b1 * a| + |co.b2 * b| := by
            have := abs_add (co.b0 * x0) (co.b1 * a)
            linarith
        _ ≤ |co.b0| + |co.b1| + |co.b2| := by linarith
    have ha1 : (co.a1 : ℂ) = -(p1 + p2) := by rw [hsum]; ring
    have hrec : ((co.b0 * x0 + co.b1 * a + co.b2 * b - co.a1 * c - co.a2 * d : ℝ) : ℂ) -
        p2 * (c : ℂ) =
        ((co.b0 * x0 + co.b1 * a + co.b2 * b : ℝ) : ℂ) + p1 * ((c : ℂ) - p2 * (d : ℂ)) := by
      push_cast
      rw [ha1, ← hprod]
      ring
    have hv2 : ‖((co.b0 * x0 + co.b1 * a + co.b2 * b - co.a1 * c - co.a2 * d : ℝ) : ℂ) -
        p2 * (c : ℂ)‖ ≤ (|co.b0| + |co.b1| + |co.b2|) / (1 - ‖p1‖) := by
      rw [hrec]
      calc ‖((co.b0 * x0 + co.b1 * a + co.b2 * b : ℝ) : ℂ) + p1 * ((c : ℂ) - p2 * (d : ℂ))‖
          ≤ ‖((co.b0 * x0 + co.b1 * a + co.b2 * b : ℝ) : ℂ)‖ +
              ‖p1 * ((c : ℂ) - p2 * (d : ℂ))‖ := norm_add_le _ _
        _ ≤ |co.b0| + |co.b1| + |co.b2| +
              ‖p1‖ * ((|co.b0| + |co.b1| + |co.b2|) / (1 - ‖p1‖)) := by
            rw [Complex.norm_real, Real.norm_eq_abs, norm_mul]
            exact add_le_add hu (mul_le_mul_of_nonneg_left hv (norm_nonneg _))
        _ = (|co.b0| + |co.b1| + |co.b2|) / (1 - ‖p1‖) := hVeq
    have hy : |co.b0 * x0 + co.b1 * a + co.b2 * b - co.a1 * c - co.a2 * d| ≤
        (|co.b0| + |co.b1| + |co.b2|) / (1 - ‖p1‖) / (1 - ‖p2‖) := by
      have hsplit : ((co.b0 * x0 + co.b1 * a + co.b2 * b - co.a1 * c - co.a2 * d : ℝ) : ℂ) =
          (((co.b0 * x0 + co.b1 * a + co.b2 * b - co.a1 * c - co.a2 * d : ℝ) : ℂ) -
            p2 * (c : ℂ)) + p2 * (c : ℂ) := by ring
      rw [← Real.norm_eq_abs, ← Complex.norm_real, hsplit]
      calc ‖(((co.b0 * x0 + co.b1 * a + co.b2 * b - co.a1 * c - co.a2 * d : ℝ) : ℂ) -
            p2 * (c : ℂ)) + p2 * (c : ℂ)‖
          ≤ ‖((co.b0 * x0 + co.b1 * a + co.b2 * b - co.a1 * c - co.a2 * d : ℝ) : ℂ) -
            p2 * (c : ℂ)‖ + ‖p2 * (c : ℂ)‖ := norm_add_le _ _
        _ ≤ (|co.b0| + |co.b1| + |co.b2|) / (1 - ‖p1‖) +
              ‖p2‖ * ((|co.b0| + |co.b1| + |co.b2|) / (1 - ‖p1‖) / (1 - ‖p2‖)) := by
            rw [norm_mul, Complex.norm_real, Real.norm_eq_abs]
            exact add_le_add hv2 (mul_le_mul_of_nonneg_left hc (norm_nonneg _))
        _ = _ := hYeq
    exact ⟨⟨hx0, ha, hv2, hy⟩, hy⟩
  have hinit : BiquadInv buf
      (fun y => |y| ≤ (|co.b0| + |co.b1| + |co.b2|) / (1 - ‖p1‖) / (1 - ‖p2‖))
      (fun a b c d => |a| ≤ 1 ∧ |b| ≤ 1 ∧
        ‖(c : ℂ) - p2 * (d : ℂ)‖ ≤ (|co.b0| + |co.b1| + |co.b2|) / (1 - ‖p1‖) ∧
        |c| ≤ (|co.b0| + |co.b1| + |co.b2|) / (1 - ‖p1‖) / (1 - ‖p2‖)) 0
      (BiquadHistory.init, buf) := by
    refine ⟨rfl, fun i _ => rfl, fun i y hi _ => absurd hi (Nat.not_lt_zero i),
      rfl, rfl, rfl, rfl, ?_⟩
    intro ch a b c d ha hb hc hd
    have ea := init_getElem? ch a ha
    have eb := init_getElem? ch b hb
    have ec := init_getElem? ch c hc
    have ed := init_getElem? ch d hd
    subst ea eb ec ed
    simp only [abs_zero, Complex.ofReal_zero, mul_zero, sub_zero, norm_zero]
    exact ⟨zero_le_one, zero_le_one, hV, hY⟩
  obtain ⟨u, hu, hinv⟩ := biquadLoop_inv co buf (fun x => |x| ≤ 1) _ _ numFrames numChannels
    (BiquadHistory.init, buf) hnc hlen hin hJ hinit
  exact ⟨u, hu, hinv.1, hinv.2.2.1⟩

end Stability

section DesignStability

/-- The shape shared by the five designs: `a0 = P + β`, `a1 = -2 N`, `a2 = P - β` with
`P > 0`, `β > 0` and `|N| < P` puts the normalized denominator inside the stability
triangle. -/
theorem triangle_of_parts {α : Type} [LinearOrderedField α] (P β N : α)
    (hP : 0 < P) (hβ : 0 < β) (hN : |N| < P) :
    0 < P + β ∧ |(P - β) / (P + β)| < 1 ∧ |(-2 * N) / (P + β)| < 1 + (P - β) / (P + β) := by
  have h0 : 0 < P + β := add_pos hP hβ
  obtain ⟨hNl, hNu⟩ := abs_lt.mp hN
  refine ⟨h0, ?_, ?_⟩
  · rw [abs_lt]
    constructor
    · rw [lt_div_iff₀ h0]; linarith
    · rw [div_lt_iff₀ h0]; linarith
  · have hsum : 1 + (P - β) / (P + β) = (2 * P) / (P + β) := by
      field_simp
      ring
    rw [hsum, abs_lt]
    constructor
    · rw [← neg_div, div_lt_div_iff_of_pos_right h0]; linarith
    · rw [div_lt_div_iff_of_pos_right h0]; linarith

theorem omega0_pos (fs : Int) (f : ℝ) (hfs : 0 < fs) (hf : 0 < f) :
    0 < omega0 realMath fs f := by
  have hfs2 : (0 : ℝ) < (fs : ℝ) := by exact_mod_cast hfs
  simp only [omega0, realMath]
  positivity

theorem omega0_lt_pi (fs : Int) (f : ℝ) (hfs : 0 < fs) (hny : f < (fs : ℝ) / 2) :
    omega0 realMath fs f < Real.pi := by
  have hfs2 : (0 : ℝ) < (fs : ℝ) := by exact_mod_cast hfs
  simp only [omega0, realMath]
  rw [div_lt_iff₀ hfs2]
  have := Real.pi_pos
  nlinarith

theorem abs_cos_lt_one (w : ℝ) (h0 : 0 < w) (hpi : w < Real.pi) : |Real.cos w| < 1 := by
  have hs := Real.sin_pos_of_pos_of_lt_pi h0 hpi
  have hsq := Real.sin_sq_add_cos_sq w
  rw [abs_lt]
  constructor <;> nlinarith

theorem lowPassRaw_stable (w q : ℝ) (h0 : 0 < w) (hpi : w < Real.pi) (hq : 0 < q) :
    0 < (lowPassRaw realMath w q).a0 ∧ |(lowPassRaw realMath w q).normalize.a2| < 1 ∧
      |(lowPassRaw realMath w q).normalize.a1| <
        1 + (lowPassRaw realMath w q).normalize.a2 := by
  have hs := Real.sin_pos_of_pos_of_lt_pi h0 hpi
  exact triangle_of_parts 1 (Real.sin w / (2 * q)) (Real.cos w) one_pos (by positivity)
    (abs_cos_lt_one w h0 hpi)

theorem highPassRaw_stable (w q : ℝ) (h0 : 0 < w) (hpi : w < Real.pi) (hq : 0 < q) :
    0 < (highPassRaw realMath w q).a0 ∧ |(highPassRaw realMath w q).normalize.a2| < 1 ∧
      |(highPassRaw realMath w q).normalize.a1| <
        1 + (highPassRaw realMath w q).normalize.a2 := by
  have hs := Real.sin_pos_of_pos_of_lt_pi h0 hpi
  exact triangle_of_parts 1 (Real.sin w / (2 * q)) (Real.cos w) one_pos (by positivity)
    (abs_cos_lt_one w h0 hpi)

theorem peakingRaw_stable (w gain q : ℝ) (h0 : 0 < w) (hpi : w < Real.pi) (hq : 0 < q) :
    0 < (peakingRaw realMath w gain q).a0 ∧
      |(peakingRaw realMath w gain q).normalize.a2| < 1 ∧
      |(peakingRaw realMath w gain q).normalize.a1| <
        1 + (peakingRaw realMath w gain q).normalize.a2 := by
  have hs := Real.sin_pos_of_pos_of_lt_pi h0 hpi
  have hA : 0 < (10 : ℝ) ^ (gain / 40) := Real.rpow_pos_of_pos (by norm_num) _
  exact triangle_of_parts 1 (Real.sin w / (2 * q) / (10 : ℝ) ^ (gain / 40)) (Real.cos w)
    one_pos (by positivity) (abs_cos_lt_one w h0 hpi)

theorem shelf_alpha_pos (w A : ℝ) (h0 : 0 < w) (hpi : w < Real.pi) (hA : 0 < A) :
    0 < 2 * Real.sqrt A * (Real.sin w / 2 * Real.sqrt ((A + 1 / A) * (1 / 1 - 1) + 2)) := by
  have hs := Real.sin_pos_of_pos_of_lt_pi h0 hpi
  have h1 : 0 < Real.sqrt A := Real.sqrt_pos.mpr hA
  have h2 : 0 < Real.sqrt ((A + 1 / A) * (1 / 1 - 1) + 2) :=
    Real.sqrt_pos.mpr (by norm_num)
  positivity

theorem lowShelfRaw_stable (w gain : ℝ) (h0 : 0 < w) (hpi : w < Real.pi) :
    0 < (lowShelfRaw realMath w gain).a0 ∧ |(lowShelfRaw realMath w gain).normalize.a2| < 1 ∧
      |(lowShelfRaw realMath w gain).normalize.a1| <
        1 + (lowShelfRaw realMath w gain).normalize.a2 := by
  have hA : 0 < (10 : ℝ) ^ (gain / 40) := Real.rpow_pos_of_pos (by norm_num) _
  obtain ⟨hcl, hcu⟩ := abs_lt.mp (abs_cos_lt_one w h0 hpi)
  have hP : 0 < ((10 : ℝ) ^ (gain / 40) + 1) + ((10 : ℝ) ^ (gain / 40) - 1) * Real.cos w := by
    nlinarith
  have hN : |((10 : ℝ) ^ (gain / 40) - 1) + ((10 : ℝ) ^ (gain / 40) + 1) * Real.cos w| <
      ((10 : ℝ) ^ (gain / 40) + 1) + ((10 : ℝ) ^ (gain / 40) - 1) * Real.cos w := by
    rw [abs_lt]
    constructor <;> nlinarith
  exact triangle_of_parts _ _ _ hP (shelf_alpha_pos w _ h0 hpi hA) hN

theorem highShelfRaw_stable (w gain : ℝ) (h0 : 0 < w) (hpi : w < Real.pi) :
    0 < (highShelfRaw realMath w gain).a0 ∧
      |(highShelfRaw realMath w gain).normalize.a2| < 1 ∧
      |(highShelfRaw realMath w gain).normalize.a1| <
        1 + (highShelfRaw realMath w gain).normalize.a2 := by
  have hA : 0 < (10 : ℝ) ^ (gain / 40) := Real.rpow_pos_of_pos (by norm_num) _
  obtain ⟨hcl, hcu⟩ := abs_lt.mp (abs_cos_lt_one w h0 hpi)
  have hP : 0 < ((10 : ℝ) ^ (gain / 40) + 1) - ((10 : ℝ) ^ (gain / 40) - 1) * Real.cos w := by
    nlinarith
  have hN : |-(((10 : ℝ) ^ (gain / 40) - 1) - ((10 : ℝ) ^ (gain / 40) + 1) * Real.cos w)| <
      ((10 : ℝ) ^ (gain / 40) + 1) - ((10 : ℝ) ^ (gain / 40) - 1) * Real.cos w := by
    rw [abs_lt]
    constructor <;> nlinarith
  have h := triangle_of_parts _ _ _ hP (shelf_alpha_pos w _ h0 hpi hA) hN
  have e : -2 * -(((10 : ℝ) ^ (gain / 40) - 1) - ((10 : ℝ) ^ (gain / 40) + 1) * Real.cos w) =
      2 * (((10 : ℝ) ^ (gain / 40) - 1) - ((10 : ℝ) ^ (gain / 40) + 1) * Real.cos w) := by
    ring
  rw [e] at h
  exact h

/-- C4, amended. Stability of every designed filter in exact real arithmetic: for a sample
rate `fs > 0`, a frequency `0 < f < fs / 2`, `Q > 0` and any gain, each of the five design
formulas of `DSPProcessor::applyFilters` (every kind but band-pass) and each of
`Equalizer::designLowShelf`, `designHighShelf`, `designPeaking`, evaluated without
rounding, has `a0 > 0` before normalization and normalized coefficients with `|a2| < 1` and
`|a1| < 1 + a2`; the two poles (the numbers with sum `-a1` and product `a2`) lie strictly
inside the unit circle; and the biquad loop in exact arithmetic, started from zero
histories on a mono or stereo buffer bounded by 1, never faults and keeps every output
below one bound `B` that does not depend on the buffer or its length. -/
theorem designed_filters_stable (fs : Int) (f q gain : ℝ)
    (hfs : 0 < fs) (hf : 0 < f) (hny : f < (fs : ℝ) / 2) (hq : 0 < q) :
    (∀ kind : FilterType, kind ≠ FilterType.BAND_PASS →
      ∃ raw, DSPProcessor.designFilter realMath fs
          { type := kind, frequency := f, q := q, gain := gain } = some raw ∧
        0 < raw.a0 ∧ |raw.normalize.a2| < 1 ∧ |raw.normalize.a1| < 1 + raw.normalize.a2 ∧
        (∃ p1 p2 : ℂ, p1 + p2 = -(raw.normalize.a1 : ℂ) ∧ p1 * p2 = (raw.normalize.a2 : ℂ) ∧
          ‖p1‖ < 1 ∧ ‖p2‖ < 1) ∧
        ∃ B : ℝ, ∀ (numFrames numChannels : Nat) (buf : List ℝ),
          numChannels ≤ 2 → numFrames * numChannels ≤ buf.length →
          (∀ i x, i < numFrames * numChannels → buf[i]? = some x → |x| ≤ 1) →
          ∃ u, biquadLoop raw.normalize numFrames numChannels (BiquadHistory.init, buf) =
              some u ∧
            u.2.length = buf.length ∧
            ∀ i y, i < numFrames * numChannels → u.2[i]? = some y → |y| ≤ B) ∧
    (∀ eq : Equalizer ℝ, eq.sampleRate = fs →
      0 < (lowShelfRaw realMath (omega0 realMath eq.sampleRate f) gain).a0 ∧
      0 < (highShelfRaw realMath (omega0 realMath eq.sampleRate f) gain).a0 ∧
      0 < (peakingRaw realMath (omega0 realMath eq.sampleRate f) gain q).a0 ∧
      ∀ c ∈ [Equalizer.designLowShelf realMath eq f gain q,
             Equalizer.designHighShelf realMath eq f gain q,
             Equalizer.designPeaking realMath eq f gain q],
        |c.a2| < 1 ∧ |c.a1| < 1 + c.a2 ∧
        (∃ p1 p2 : ℂ, p1 + p2 = -(c.a1 : ℂ) ∧ p1 * p2 = (c.a2 : ℂ) ∧ ‖p1‖ < 1 ∧ ‖p2‖ < 1) ∧
        ∃ B : ℝ, ∀ (numFrames numChannels : Nat) (buf : List ℝ),
          numChannels ≤ 2 → numFrames * numChannels ≤ buf.length →
          (∀ i x, i < numFrames * numChannels → buf[i]? = some x → |x| ≤ 1) →
          ∃ u, biquadLoop c numFrames numChannels (BiquadHistory.init, buf) = some u ∧
            u.2.length = buf.length ∧
            ∀ i y, i < numFrames * numChannels → u.2[i]? = some y → |y| ≤ B) := by
  have h0 := omega0_pos fs f hfs hf
  have hpi := omega0_lt_pi fs f hfs hny
  have hlp := lowPassRaw_stable _ q h0 hpi hq
  have hhp := highPassRaw_stable _ q h0 hpi hq
  have hls := lowShelfRaw_stable _ gain h0 hpi
  have hhs := highShelfRaw_stable _ gain h0 hpi
  have hpk := peakingRaw_stable _ gain q h0 hpi hq
  constructor
  · intro kind hkind
    cases kind
    case BAND_PASS => exact absurd rfl hkind
    case LOW_PASS =>
      exact ⟨_, rfl, hlp.1, hlp.2.1, hlp.2.2, exists_poles _ _ hlp.2.1 hlp.2.2,
        biquadLoop_bounded _ hlp.2.1 hlp.2.2⟩
    case HIGH_PASS =>
      exact ⟨_, rfl, hhp.1, hhp.2.1, hhp.2.2, exists_poles _ _ hhp.2.1 hhp.2.2,
        biquadLoop_bounded _ hhp.2.1 hhp.2.2⟩
    case LOW_SHELF =>
      exact ⟨_, rfl, hls.1, hls.2.1, hls.2.2, exists_poles _ _ hls.2.1 hls.2.2,
        biquadLoop_bounded _ hls.2.1 hls.2.2⟩
    case HIGH_SHELF =>
      exact ⟨_, rfl, hhs.1, hhs.2.1, hhs.2.2, exists_poles _ _ hhs.2.1 hhs.2.2,
        biquadLoop_bounded _ hhs.2.1 hhs.2.2⟩
    case PEAKING =>
      exact ⟨_, rfl, hpk.1, hpk.2.1, hpk.2.2, exists_poles _ _ hpk.2.1 hpk.2.2,
        biquadLoop_bounded _ hpk.2.1 hpk.2.2⟩
  · intro eq heq
    rw [heq]
    refine ⟨hls.1, hhs.1, hpk.1, ?_⟩
    intro c hc
    simp only [List.mem_cons, List.mem_singleton, List.mem_nil_iff, or_false] at hc
    rcases hc with rfl | rfl | rfl
    · simp only [Equalizer.designLowShelf, heq]
      exact ⟨hls.2.1, hls.2.2, exists_poles _ _ hls.2.1 hls.2.2,
        biquadLoop_bounded _ hls.2.1 hls.2.2⟩
    · simp only [Equalizer.designHighShelf, heq]
      exact ⟨hhs.2.1, hhs.2.2, exists_poles _ _ hhs.2.1 hhs.2.2,
        biquadLoop_bounded _ hhs.2.1 hhs.2.2⟩
    · simp only [Equalizer.designPeaking, heq]
      exact ⟨hpk.2.1, hpk.2.2, exists_poles _ _ hpk.2.1 hpk.2.2,
        biquadLoop_bounded _ hpk.2.1 hpk.2.2⟩

/-- An instance of the amended C4: the low-pass design at 48 kHz, 1 kHz, Q = 1. -/
theorem designed_filters_stable_witness :
    ∃ raw, DSPProcessor.designFilter realMath 48000
        { type := FilterType.LOW_PASS, frequency := 1000, q := 1, gain := 6 } = some raw ∧
      0 < raw.a0 ∧ |raw.normalize.a2| < 1 ∧ |raw.normalize.a1| < 1 + raw.normalize.a2 ∧
      (∃ p1 p2 : ℂ, p1 + p2 = -(raw.normalize.a1 : ℂ) ∧ p1 * p2 = (raw.normalize.a2 : ℂ) ∧
        ‖p1‖ < 1 ∧ ‖p2‖ < 1) ∧
      ∃ B : ℝ, ∀ (numFrames numChannels : Nat) (buf : List ℝ),
        numChannels ≤ 2 → numFrames * numChannels ≤ buf.length →
        (∀ i x, i < numFrames * numChannels → buf[i]? = some x → |x| ≤ 1) →
        ∃ u, biquadLoop raw.normalize numFrames numChannels (BiquadHistory.init, buf) =
            some u ∧
          u.2.length = buf.length ∧
          ∀ i y, i < numFrames * numChannels → u.2[i]? = some y → |y| ≤ B :=
  (designed_filters_stable 48000 1000 1 6 (by norm_num) (by norm_num) (by norm_num)
    (by norm_num)).1 FilterType.LOW_PASS (by decide)

end DesignStability

/-! ## Flat-gain designs -/

section FlatGain

theorem gain_factor_bounds (g : ℝ) (hg : |g| < 0.1) :
    0.9942 < (10 : ℝ) ^ (g / 40) ∧ (10 : ℝ) ^ (g / 40) < 1.0058 := by
  obtain ⟨hl, hu⟩ := abs_lt.mp hg
  have h10 : (1 : ℝ) < 10 := by norm_num
  have hup : (10 : ℝ) ^ (g / 40) < (10 : ℝ) ^ ((1 : ℝ) / 400) :=
    Real.rpow_lt_rpow_of_exponent_lt h10 (by linarith)
  have hlo : (10 : ℝ) ^ (-(1 : ℝ) / 400) < (10 : ℝ) ^ (g / 40) :=
    Real.rpow_lt_rpow_of_exponent_lt h10 (by linarith)
  have e1 : ((10 : ℝ) ^ ((1 : ℝ) / 400)) ^ (400 : ℕ) = 10 := by
    rw [← Real.rpow_natCast, ← Real.rpow_mul (by norm_num)]
    norm_num
  have e2 : ((10 : ℝ) ^ (-(1 : ℝ) / 400)) ^ (400 : ℕ) = 1 / 10 := by
    rw [← Real.rpow_natCast, ← Real.rpow_mul (by norm_num)]
    norm_num
  have h1 : (10 : ℝ) ^ ((1 : ℝ) / 400) < 1.0058 := by
    apply lt_of_pow_lt_pow_left₀ 400 (by norm_num)
    rw [e1]
    norm_num
  have h2 : (0.9942 : ℝ) < (10 : ℝ) ^ (-(1 : ℝ) / 400) := by
    apply lt_of_pow_lt_pow_left₀ 400 (Real.rpow_nonneg (by norm_num) _)
    rw [e2]
    norm_num
  exact ⟨lt_trans h2 hlo, lt_trans hup h1⟩

theorem abs_div_lt_of (d a0 e : ℝ) (h0 : 0 < a0) (h : |d| < e * a0) : |d / a0| < e := by
  rw [abs_div, abs_of_pos h0, div_lt_iff₀ h0]
  exact h

theorem gain_factor_sq_bounds (A : ℝ) (hA1 : 0.9942 < A) (hA2 : A < 1.0058) :
    0.9884 < A * A ∧ A * A < 1.0117 := by
  constructor <;> nlinarith

theorem peakingRaw_flat (w gain q : ℝ) (h0 : 0 < w) (hpi : w < Real.pi) (hq : 0 < q)
    (hg : |gain| < 0.1) :
    |(peakingRaw realMath w gain q).normalize.b0 - 1| < 0.025 ∧
    |(peakingRaw realMath w gain q).normalize.b1 -
      (peakingRaw realMath w gain q).normalize.a1| < 0.025 ∧
    |(peakingRaw realMath w gain q).normalize.b2 -
      (peakingRaw realMath w gain q).normalize.a2| < 0.025 := by
  have hs := Real.sin_pos_of_pos_of_lt_pi h0 hpi
  obtain ⟨hA1, hA2⟩ := gain_factor_bounds gain hg
  have hA : 0 < (10 : ℝ) ^ (gain / 40) := by linarith
  have ha0 := (peakingRaw_stable w gain q h0 hpi hq).1
  simp only [peakingRaw, realMath, RawCoeffs.normalize] at ha0 ⊢
  generalize (10 : ℝ) ^ (gain / 40) = A at *
  obtain ⟨hAA1, hAA2⟩ := gain_factor_sq_bounds A hA1 hA2
  have hk : 0 < Real.sin w / (2 * q) / A := by positivity
  have hkA : Real.sin w / (2 * q) * A = Real.sin w / (2 * q) / A * (A * A) := by
    field_simp
    ring
  rw [hkA]
  generalize Real.sin w / (2 * q) / A = k at *
  have h3 : 0 < k * (A * A - 0.9884) := mul_pos hk (by linarith)
  have h4 : 0 < k * (1.0117 - A * A) := mul_pos hk (by linarith)
  refine ⟨?_, ?_, ?_⟩
  · rw [div_sub_one ha0.ne']
    apply abs_div_lt_of _ _ _ ha0
    rw [abs_lt]
    constructor <;> nlinarith
  · simp
    norm_num
  · rw [← sub_div]
    apply abs_div_lt_of _ _ _ ha0
    rw [abs_lt]
    constructor <;> nlinarith

/-- With the gain factor `A = 1` the three gain-dependent designs have the same numerator
and denominator. -/
theorem raw_flat_exact (w q : ℝ) (h0 : 0 < w) (hpi : w < Real.pi) (hq : 0 < q) :
    ((peakingRaw realMath w 0 q).normalize.b0 = 1 ∧
      (peakingRaw realMath w 0 q).normalize.b1 = (peakingRaw realMath w 0 q).normalize.a1 ∧
      (peakingRaw realMath w 0 q).normalize.b2 = (peakingRaw realMath w 0 q).normalize.a2) ∧
    ((lowShelfRaw realMath w 0).normalize.b0 = 1 ∧
      (lowShelfRaw realMath w 0).normalize.b1 = (lowShelfRaw realMath w 0).normalize.a1 ∧
      (lowShelfRaw realMath w 0).normalize.b2 = (lowShelfRaw realMath w 0).normalize.a2) ∧
    ((highShelfRaw realMath w 0).normalize.b0 = 1 ∧
      (highShelfRaw realMath w 0).normalize.b1 = (highShelfRaw realMath w 0).normalize.a1 ∧
      (highShelfRaw realMath w 0).normalize.b2 = (highShelfRaw realMath w 0).normalize.a2) := by
  have hpk := (peakingRaw_stable w 0 q h0 hpi hq).1
  have hls := (lowShelfRaw_stable w 0 h0 hpi).1
  have hhs := (highShelfRaw_stable w 0 h0 hpi).1
  simp only [peakingRaw, lowShelfRaw, highShelfRaw, realMath, RawCoeffs.normalize, zero_div,
    Real.rpow_zero, Real.sqrt_one] at hpk hls hhs ⊢
  refine ⟨⟨?_, ?_, ?_⟩, ⟨?_, ?_, ?_⟩, ⟨?_, ?_, ?_⟩⟩
  · rw [div_eq_one_iff_eq hpk.ne']; ring
  · trivial
  · congr 1; ring
  · rw [div_eq_one_iff_eq hls.ne']; ring
  · congr 1; ring
  · congr 1; ring
  · rw [div_eq_one_iff_eq hhs.ne']; ring
  · congr 1; ring
  · congr 1; ring

theorem lowShelfRaw_flat (w gain : ℝ) (h0 : 0 < w) (hpi : w < Real.pi)
    (hg : |gain| < 0.1) :
    |(lowShelfRaw realMath w gain).normalize.b0 - 1| < 0.025 ∧
    |(lowShelfRaw realMath w gain).normalize.b1 -
      (lowShelfRaw realMath w gain).normalize.a1| < 0.025 ∧
    |(lowShelfRaw realMath w gain).normalize.b2 -
      (lowShelfRaw realMath w gain).normalize.a2| < 0.025 := by
  obtain ⟨hA1, hA2⟩ := gain_factor_bounds gain hg
  have hA : 0 < (10 : ℝ) ^ (gain / 40) := by linarith
  have ha0 := (lowShelfRaw_stable w gain h0 hpi).1
  have hβ := shelf_alpha_pos w _ h0 hpi hA
  obtain ⟨hcl, hcu⟩ := abs_lt.mp (abs_cos_lt_one w h0 hpi)
  simp only [lowShelfRaw, realMath, RawCoeffs.normalize] at ha0 ⊢
  generalize (10 : ℝ) ^ (gain / 40) = A at *
  obtain ⟨hAA1, hAA2⟩ := gain_factor_sq_bounds A hA1 hA2
  generalize 2 * Real.sqrt A * (Real.sin w / 2 * Real.sqrt ((A + 1 / A) * (1 / 1 - 1) + 2)) = β
    at *
  generalize Real.cos w = c at *
  have m1 : 0 < (1 - c) * (0.025 - 2 * (A * A - 1)) := mul_pos (by linarith) (by linarith)
  have m2 : 0 < (1 - c) * (0.025 + 2 * (A * A - 1)) := mul_pos (by linarith) (by linarith)
  have m3 : 0 < β * (0.025 - (A - 1)) := mul_pos hβ (by linarith)
  have m4 : 0 < β * (0.025 + (A - 1)) := mul_pos hβ (by linarith)
  have m5 : 0 < A * (1 + c) := mul_pos hA (by linarith)
  have m6 : 0 < (1 - c) * (A * A - 0.9884) := mul_pos (by linarith) (by linarith)
  have m7 : 0 < (1 - c) * (1.0117 - A * A) := mul_pos (by linarith) (by linarith)
  refine ⟨?_, ?_, ?_⟩
  · rw [div_sub_one ha0.ne']
    apply abs_div_lt_of _ _ _ ha0
    rw [abs_lt]
    constructor <;> nlinarith
  · rw [← sub_div]
    apply abs_div_lt_of _ _ _ ha0
    rw [abs_lt]
    constructor <;> nlinarith
  · rw [← sub_div]
    apply abs_div_lt_of _ _ _ ha0
    rw [abs_lt]
    constructor <;> nlinarith

theorem highShelfRaw_flat (w gain : ℝ) (h0 : 0 < w) (hpi : w < Real.pi)
    (hg : |gain| < 0.1) :
    |(highShelfRaw realMath w gain).normalize.b0 - 1| < 0.025 ∧
    |(highShelfRaw realMath w gain).normalize.b1 -
      (highShelfRaw realMath w gain).normalize.a1| < 0.025 ∧
    |(highShelfRaw realMath w gain).normalize.b2 -
      (highShelfRaw realMath w gain).normalize.a2| < 0.025 := by
  obtain ⟨hA1, hA2⟩ := gain_factor_bounds gain hg
  have hA : 0 < (10 : ℝ) ^ (gain / 40) := by linarith
  have ha0 := (highShelfRaw_stable w gain h0 hpi).1
  have hβ := shelf_alpha_pos w _ h0 hpi hA
  obtain ⟨hcl, hcu⟩ := abs_lt.mp (abs_cos_lt_one w h0 hpi)
  simp only [highShelfRaw, realMath, RawCoeffs.normalize] at ha0 ⊢
  generalize (10 : ℝ) ^ (gain / 40) = A at *
  obtain ⟨hAA1, hAA2⟩ := gain_factor_sq_bounds A hA1 hA2
  generalize 2 * Real.sqrt A * (Real.sin w / 2 * Real.sqrt ((A + 1 / A) * (1 / 1 - 1) + 2)) = β
    at *
  generalize Real.cos w = c at *
  have m1 : 0 < (1 + c) * (0.025 - 2 * (A * A - 1)) := mul_pos (by linarith) (by linarith)
  have m2 : 0 < (1 + c) * (0.025 + 2 * (A * A - 1)) := mul_pos (by linarith) (by linarith)
  have m3 : 0 < β * (0.025 - (A - 1)) := mul_pos hβ (by linarith)
  have m4 : 0 < β * (0.025 + (A - 1)) := mul_pos hβ (by linarith)
  have m5 : 0 < A * (1 - c) := mul_pos hA (by linarith)
  have m6 : 0 < (1 + c) * (A * A - 0.9884) := mul_pos (by linarith) (by linarith)
  have m7 : 0 < (1 + c) * (1.0117 - A * A) := mul_pos (by linarith) (by linarith)
  refine ⟨?_, ?_, ?_⟩
  · rw [div_sub_one ha0.ne']
    apply abs_div_lt_of _ _ _ ha0
    rw [abs_lt]
    constructor <;> nlinarith
  · rw [← sub_div]
    apply abs_div_lt_of _ _ _ ha0
    rw [abs_lt]
    constructor <;> nlinarith
  · rw [← sub_div]
    apply abs_div_lt_of _ _ _ ha0
    rw [abs_lt]
    constructor <;> nlinarith

end FlatGain
section FlatGainClaim

theorem new_sampleRate (m : MathLib ℝ) : (Equalizer.new m).sampleRate = 48000 := by
  simp only [Equalizer.new]
  rw [Equalizer.updateGraphicEQCoeffs_eq]

theorem peaking_a1_far (s : ℝ) (h0 : 0 < s) (h1 : s ≤ 1) :
    ¬ |(-2 * (1 / 2 : ℝ)) / (1 + s / (2 * 1) / 1)| < 0.001 := by
  have hd : 0 < 1 + s / (2 * 1) / 1 := by positivity
  rw [abs_div, abs_of_pos hd, not_lt]
  rw [le_div_iff₀ hd]
  norm_num
  linarith

/-- C7 as stated fails: at 48 kHz the peaking design for 8 kHz, Q = 1 and gain 0 dB has a
normalized `a1` (and `b1`) farther than 0.001 from 0, in `DSPProcessor::applyFilters` and
in `Equalizer::designPeaking` alike. -/
theorem flat_gain_identity_counterexample :
    ((0 : ℝ) < 8000 ∧ (8000 : ℝ) < ((48000 : Int) : ℝ) / 2 ∧ (0 : ℝ) < 1 ∧ |(0 : ℝ)| < 0.1) ∧
    (∃ raw, DSPProcessor.designFilter realMath 48000
        { type := FilterType.PEAKING, frequency := 8000, q := 1, gain := 0 } = some raw ∧
      ¬ |raw.normalize.a1| < 0.001 ∧ ¬ |raw.normalize.b1| < 0.001) ∧
    ¬ |(Equalizer.designPeaking realMath (Equalizer.new realMath) 8000 0 1).a1| < 0.001 := by
  have hw : omega0 realMath 48000 8000 = Real.pi / 3 := by
    simp only [omega0, realMath]
    push_cast
    ring
  have hs0 : 0 < Real.sin (Real.pi / 3) :=
    Real.sin_pos_of_pos_of_lt_pi (by positivity) (by linarith [Real.pi_pos])
  have hs1 : Real.sin (Real.pi / 3) ≤ 1 := Real.sin_le_one _
  have key := peaking_a1_far _ hs0 hs1
  refine ⟨⟨by norm_num, by norm_num, by norm_num, by norm_num⟩, ⟨_, rfl, ?_, ?_⟩, ?_⟩
  · simp only [peakingRaw, RawCoeffs.normalize, hw]
    simp only [realMath, Real.cos_pi_div_three, zero_div, Real.rpow_zero]
    exact key
  · simp only [peakingRaw, RawCoeffs.normalize, hw]
    simp only [realMath, Real.cos_pi_div_three, zero_div, Real.rpow_zero]
    exact key
  · simp only [Equalizer.designPeaking, new_sampleRate, peakingRaw, RawCoeffs.normalize, hw]
    simp only [realMath, Real.cos_pi_div_three, zero_div, Real.rpow_zero]
    exact key

/-- C7, amended. For a sample rate `fs > 0`, `0 < f < fs / 2`, `Q > 0` and `|gain| < 0.1`,
the low-shelf, high-shelf and peaking designs of `DSPProcessor::applyFilters`, and
`Equalizer::designPeaking`, give normalized coefficients whose numerator is within 0.025
of the denominator, `|b0 - 1| < 0.025`, `|b1 - a1| < 0.025`, `|b2 - a2| < 0.025`, and equal
to it when the gain is exactly 0 (`b0 = 1`, `b1 = a1`, `b2 = a2`); nothing makes `a1` and
`a2` small. -/
theorem flat_gain_numerator_near_denominator (fs : Int) (f q gain : ℝ)
    (hfs : 0 < fs) (hf : 0 < f) (hny : f < (fs : ℝ) / 2) (hq : 0 < q) (hg : |gain| < 0.1) :
    (∀ kind ∈ [FilterType.LOW_SHELF, FilterType.HIGH_SHELF, FilterType.PEAKING],
      ∃ raw, DSPProcessor.designFilter realMath fs
          { type := kind, frequency := f, q := q, gain := gain } = some raw ∧
        |raw.normalize.b0 - 1| < 0.025 ∧
        |raw.normalize.b1 - raw.normalize.a1| < 0.025 ∧
        |raw.normalize.b2 - raw.normalize.a2| < 0.025 ∧
        (gain = 0 → raw.normalize.b0 = 1 ∧ raw.normalize.b1 = raw.normalize.a1 ∧
          raw.normalize.b2 = raw.normalize.a2)) ∧
    (∀ eq : Equalizer ℝ, eq.sampleRate = fs →
      |(Equalizer.designPeaking realMath eq f gain q).b0 - 1| < 0.025 ∧
      |(Equalizer.designPeaking realMath eq f gain q).b1 -
        (Equalizer.designPeaking realMath eq f gain q).a1| < 0.025 ∧
      |(Equalizer.designPeaking realMath eq f gain q).b2 -
        (Equalizer.designPeaking realMath eq f gain q).a2| < 0.025 ∧
      (gain = 0 →
        (Equalizer.designPeaking realMath eq f gain q).b0 = 1 ∧
        (Equalizer.designPeaking realMath eq f gain q).b1 =
          (Equalizer.designPeaking realMath eq f gain q).a1 ∧
        (Equalizer.designPeaking realMath eq f gain q).b2 =
          (Equalizer.designPeaking realMath eq f gain q).a2)) := by
  have h0 := omega0_pos fs f hfs hf
  have hpi := omega0_lt_pi fs f hfs hny
  have hpk := peakingRaw_flat _ gain q h0 hpi hq hg
  have hls := lowShelfRaw_flat _ gain h0 hpi hg
  have hhs := highShelfRaw_flat _ gain h0 hpi hg
  have hex := raw_flat_exact _ q h0 hpi hq
  constructor
  · intro kind hkind
    simp only [List.mem_cons, List.mem_singleton, List.mem_nil_iff, or_false] at hkind
    rcases hkind with rfl | rfl | rfl
    · refine ⟨_, rfl, hls.1, hls.2.1, hls.2.2, ?_⟩
      intro hz
      subst hz
      exact hex.2.1
    · refine ⟨_, rfl, hhs.1, hhs.2.1, hhs.2.2, ?_⟩
      intro hz
      subst hz
      exact hex.2.2
    · refine ⟨_, rfl, hpk.1, hpk.2.1, hpk.2.2, ?_⟩
      intro hz
      subst hz
      exact hex.1
  · intro eq heq
    simp only [Equalizer.designPeaking, heq]
    refine ⟨hpk.1, hpk.2.1, hpk.2.2, ?_⟩
    intro hz
    subst hz
    exact hex.1

/-- An instance of the amended C7: the peaking design at 48 kHz, 8 kHz, Q = 1, 0 dB. -/
theorem flat_gain_numerator_near_denominator_witness :
    ∃ raw, DSPProcessor.designFilter realMath 48000
        { type := FilterType.PEAKING, frequency := 8000, q := 1, gain := 0 } = some raw ∧
      |raw.normalize.b0 - 1| < 0.025 ∧
      |raw.normalize.b1 - raw.normalize.a1| < 0.025 ∧
      |raw.normalize.b2 - raw.normalize.a2| < 0.025 ∧
      ((0 : ℝ) = 0 → raw.normalize.b0 = 1 ∧ raw.normalize.b1 = raw.normalize.a1 ∧
        raw.normalize.b2 = raw.normalize.a2) :=
  (flat_gain_numerator_near_denominator 48000 8000 1 0 (by norm_num) (by norm_num)
    (by norm_num) (by norm_num) (by norm_num)).1 FilterType.PEAKING (by simp)

end FlatGainClaim

/-! ## Locality of the stages -/

section Locality

variable {τ : Type}

/-- A loop commutes with a transformation of the state that every iteration commutes
with, as long as the iterations keep the side condition `G`. -/
theorem forLoop_comm (app : τ → τ) (G : τ → Prop) (n : Nat) (body : Nat → τ → Option τ)
    (h : ∀ i, i < n → ∀ t, G t →
      body i (app t) = (body i t).map app ∧ ∀ r, body i t = some r → G r) :
    ∀ t, G t → forLoop n body (app t) = (forLoop n body t).map app ∧
      ∀ r, forLoop n body t = some r → G r := by
  induction n with
  | zero =>
    intro t ht
    simp only [forLoop_zero, Option.map_some', true_and]
    intro r hr
    cases hr
    exact ht
  | succ k ih =>
    intro t ht
    obtain ⟨e, hG⟩ := ih (fun i hi => h i (Nat.lt_succ_of_lt hi)) t ht
    rw [forLoop_succ, forLoop_succ, e]
    cases hk : forLoop k body t with
    | none => simp
    | some u =>
      have := h k (Nat.lt_succ_self k) u (hG u hk)
      simp only [Option.map_some', Option.some_bind]
      exact this

/-- The same for a loop over a list of items. -/
theorem foldlM_comm {β : Type} (app : τ → τ) (G : τ → Prop) (f : τ → β → Option τ)
    (l : List β)
    (h : ∀ x ∈ l, ∀ t, G t → f (app t) x = (f t x).map app ∧ ∀ r, f t x = some r → G r) :
    ∀ t, G t → l.foldlM f (app t) = (l.foldlM f t).map app ∧
      ∀ r, l.foldlM f t = some r → G r := by
  induction l with
  | nil =>
    intro t ht
    refine ⟨rfl, ?_⟩
    intro r hr
    cases hr
    exact ht
  | cons x xs ih =>
    intro t ht
    obtain ⟨e, hG⟩ := h x (List.mem_cons_self _ _) t ht
    rw [List.foldlM_cons, List.foldlM_cons, e]
    cases hx : f t x with
    | none => simp
    | some u =>
      simp only [Option.map_some', Option.some_bind]
      exact ih (fun y hy => h y (List.mem_cons_of_mem _ hy)) u (hG u hx)

end Locality

section StageLocality

variable {α : Type} [LinearOrderedField α]

theorem biquadSample_append (co : FilterCoeffs α) (tail : List α)
    (K numChannels frame ch : Nat) (hidx : frame * numChannels + ch < K)
    (t : BiquadHistory α × List α) (ht : K ≤ t.2.length) :
    biquadSample co numChannels frame ch (t.1, t.2 ++ tail) =
      (biquadSample co numChannels frame ch t).map (fun r => (r.1, r.2 ++ tail)) ∧
    ∀ r, biquadSample co numChannels frame ch t = some r → K ≤ r.2.length := by
  have hi : frame * numChannels + ch < t.2.length := by omega
  constructor
  · simp only [biquadSample, List.getElem?_append_left hi, List.getElem?_eq_getElem hi,
      Option.bind_eq_bind, Option.some_bind, List.set_append_left _ _ hi]
    cases t.1.x1[ch]? <;> cases t.1.x2[ch]? <;> cases t.1.y1[ch]? <;> cases t.1.y2[ch]? <;> rfl
  · intro r hr
    simp only [biquadSample, Option.bind_eq_bind, Option.bind_eq_some] at hr
    obtain ⟨_, _, _, _, _, _, _, _, _, _, hr⟩ := hr
    cases hr
    simpa using ht

theorem biquadLoop_append (co : FilterCoeffs α) (tail : List α)
    (numFrames numChannels : Nat) (t : BiquadHistory α × List α)
    (ht : numFrames * numChannels ≤ t.2.length) :
    biquadLoop co numFrames numChannels (t.1, t.2 ++ tail) =
      (biquadLoop co numFrames numChannels t).map (fun r => (r.1, r.2 ++ tail)) ∧
    ∀ r, biquadLoop co numFrames numChannels t = some r →
      numFrames * numChannels ≤ r.2.length := by
  unfold biquadLoop
  refine forLoop_comm (fun r : BiquadHistory α × List α => (r.1, r.2 ++ tail))
    (fun r => numFrames * numChannels ≤ r.2.length) numFrames _ ?_ t ht
  intro frame hframe u hu
  refine forLoop_comm (fun r : BiquadHistory α × List α => (r.1, r.2 ++ tail))
    (fun r => numFrames * numChannels ≤ r.2.length) numChannels _ ?_ u hu
  intro ch hch v hv
  have hidx : frame * numChannels + ch < numFrames * numChannels := by
    calc frame * numChannels + ch < frame * numChannels + numChannels := by omega
      _ = (frame + 1) * numChannels := by ring
      _ ≤ numFrames * numChannels := Nat.mul_le_mul_right _ hframe
  exact biquadSample_append co tail _ numChannels frame ch hidx v hv

theorem applyFilters_append (m : MathLib α) (p : DSPProcessor α) (tail : List α)
    (numFrames numChannels : Nat) (t : BiquadHistory α × List α)
    (ht : numFrames * numChannels ≤ t.2.length) :
    DSPProcessor.applyFilters m p numFrames numChannels (t.1, t.2 ++ tail) =
      (DSPProcessor.applyFilters m p numFrames numChannels t).map
        (fun r => (r.1, r.2 ++ tail)) := by
  unfold DSPProcessor.applyFilters
  refine (foldlM_comm (fun r : BiquadHistory α × List α => (r.1, r.2 ++ tail))
    (fun r => numFrames * numChannels ≤ r.2.length) _ p.filters ?_ t ht).1
  intro filter _ u hu
  unfold DSPProcessor.applyFilter
  cases DSPProcessor.designFilter m p.sampleRate filter with
  | none =>
    refine ⟨rfl, ?_⟩
    intro r hr
    cases hr
    exact hu
  | some raw => exact biquadLoop_append raw.normalize tail numFrames numChannels u hu

theorem reverbSample_append (effect : EffectParams α) (tail : List α) (K i : Nat)
    (hi : i < K) (t : DSPStatics α × List α) (ht : K ≤ t.2.length) :
    DSPProcessor.reverbSample effect i (t.1, t.2 ++ tail) =
      (DSPProcessor.reverbSample effect i t).map (fun r => (r.1, r.2 ++ tail)) ∧
    ∀ r, DSPProcessor.reverbSample effect i t = some r → K ≤ r.2.length := by
  have hi2 : i < t.2.length := by omega
  constructor
  · simp only [DSPProcessor.reverbSample, List.getElem?_append_left hi2,
      List.getElem?_eq_getElem hi2, Option.bind_eq_bind, Option.some_bind,
      List.set_append_left _ _ hi2]
    cases t.1.reverbBuffer[t.1.reverbIndex]? <;> rfl
  · intro r hr
    simp only [DSPProcessor.reverbSample, Option.bind_eq_bind, Option.bind_eq_some] at hr
    obtain ⟨_, _, _, _, hr⟩ := hr
    cases hr
    simpa using ht

theorem delaySample_append (effect : EffectParams α) (delaySamples : Int) (tail : List α)
    (K i : Nat) (hi : i < K) (t : DSPStatics α × List α) (ht : K ≤ t.2.length) :
    DSPProcessor.delaySample effect delaySamples i (t.1, t.2 ++ tail) =
      (DSPProcessor.delaySample effect delaySamples i t).map (fun r => (r.1, r.2 ++ tail)) ∧
    ∀ r, DSPProcessor.delaySample effect delaySamples i t = some r → K ≤ r.2.length := by
  have hi2 : i < t.2.length := by omega
  constructor
  · simp only [DSPProcessor.delaySample, List.getElem?_append_left hi2,
      List.getElem?_eq_getElem hi2, Option.bind_eq_bind, Option.some_bind,
      List.set_append_left _ _ hi2]
    cases t.1.delayBuffer[DSPProcessor.delayReadIndex t.1.delayIndex delaySamples
      t.1.delayBuffer.length]? with
    | none => rfl
    | some d =>
      simp only [Option.some_bind]
      split_ifs <;> rfl
  · intro r hr
    simp only [DSPProcessor.delaySample, Option.bind_eq_bind, Option.bind_eq_some] at hr
    obtain ⟨_, _, _, _, hr⟩ := hr
    split_ifs at hr
    cases hr
    simpa using ht

theorem widenFrame_append (effect : EffectParams α) (tail : List α) (K frame : Nat)
    (hi : frame * 2 + 1 < K) (t : List α) (ht : K ≤ t.length) :
    DSPProcessor.widenFrame effect frame (t ++ tail) =
      (DSPProcessor.widenFrame effect frame t).map (fun r => r ++ tail) ∧
    ∀ r, DSPProcessor.widenFrame effect frame t = some r → K ≤ r.length := by
  have h1 : frame * 2 < t.length := by omega
  have h2 : frame * 2 + 1 < t.length := by omega
  constructor
  · simp only [DSPProcessor.widenFrame, List.getElem?_append_left h1,
      List.getElem?_append_left h2, List.getElem?_eq_getElem h1, List.getElem?_eq_getElem h2,
      Option.bind_eq_bind, Option.some_bind, Option.map_some', Option.some.injEq]
    rw [List.set_append_left _ _ h1, List.set_append_left _ _ (by simpa using h2)]
  · intro r hr
    simp only [DSPProcessor.widenFrame, Option.bind_eq_bind, Option.bind_eq_some] at hr
    obtain ⟨_, _, _, _, hr⟩ := hr
    cases hr
    simpa using ht

theorem limiterSample_append (p : DSPProcessor α) (tail : List α) (K i : Nat)
    (hi : i < K) (t : List α) (ht : K ≤ t.length) :
    DSPProcessor.limiterSample p i (t ++ tail) =
      (DSPProcessor.limiterSample p i t).map (fun r => r ++ tail) ∧
    ∀ r, DSPProcessor.limiterSample p i t = some r → K ≤ r.length := by
  have hi2 : i < t.length := by omega
  constructor
  · simp only [DSPProcessor.limiterSample, List.getElem?_append_left hi2,
      List.getElem?_eq_getElem hi2, Option.bind_eq_bind, Option.some_bind]
    split_ifs
    · simp only [Option.map_some', List.set_append_left _ _ hi2]
    · rfl
  · intro r hr
    simp only [DSPProcessor.limiterSample, List.getElem?_eq_getElem hi2, Option.bind_eq_bind,
      Option.some_bind] at hr
    split_ifs at hr <;> cases hr
    · simpa using ht
    · exact ht

theorem applyEffects_append [FloorRing α] (p : DSPProcessor α) (tail : List α)
    (numFrames numChannels : Nat) (t : DSPStatics α × List α)
    (ht : numFrames * numChannels ≤ t.2.length) :
    DSPProcessor.applyEffects p numFrames numChannels (t.1, t.2 ++ tail) =
      (DSPProcessor.applyEffects p numFrames numChannels t).map
        (fun r => (r.1, r.2 ++ tail)) := by
  unfold DSPProcessor.applyEffects
  refine (foldlM_comm (fun r : DSPStatics α × List α => (r.1, r.2 ++ tail))
    (fun r => numFrames * numChannels ≤ r.2.length) _ p.effects ?_ t ht).1
  intro effect _ u hu
  unfold DSPProcessor.applyEffect
  cases effect.type
  case REVERB =>
    exact forLoop_comm (fun r : DSPStatics α × List α => (r.1, r.2 ++ tail))
      (fun r => numFrames * numChannels ≤ r.2.length) _ _
      (fun i hi v hv => reverbSample_append effect tail _ i hi v hv) u hu
  case DELAY =>
    exact forLoop_comm (fun r : DSPStatics α × List α => (r.1, r.2 ++ tail))
      (fun r => numFrames * numChannels ≤ r.2.length) _ _
      (fun i hi v hv => delaySample_append effect _ tail _ i hi v hv) u hu
  case CHORUS =>
    refine ⟨rfl, ?_⟩
    intro r hr
    cases hr
    exact hu
  case STEREO_WIDENER =>
    simp only
    split_ifs with hc
    · subst hc
      obtain ⟨e, hG⟩ := forLoop_comm (fun r : List α => r ++ tail)
        (fun r => numFrames * 2 ≤ r.length) numFrames (DSPProcessor.widenFrame effect)
        (fun i hi v hv => widenFrame_append effect tail _ i (by omega) v hv) u.2 hu
      rw [e]
      constructor
      · cases forLoop numFrames (DSPProcessor.widenFrame effect) u.2 <;> rfl
      · intro r hr
        obtain ⟨buf, hbuf, rfl⟩ := Option.map_eq_some'.mp hr
        exact hG buf hbuf
    · refine ⟨rfl, ?_⟩
      intro r hr
      cases hr
      exact hu
  case LIMITER =>
    obtain ⟨e, hG⟩ := forLoop_comm (fun r : List α => r ++ tail)
      (fun r => numFrames * numChannels ≤ r.length) (numFrames * numChannels)
      (DSPProcessor.limiterSample p)
      (fun i hi v hv => limiterSample_append p tail _ i hi v hv) u.2 hu
    simp only
    rw [e]
    constructor
    · cases forLoop (numFrames * numChannels) (DSPProcessor.limiterSample p) u.2 <;> rfl
    · intro r hr
      obtain ⟨buf, hbuf, rfl⟩ := Option.map_eq_some'.mp hr
      exact hG buf hbuf
  case COMPRESSOR =>
    refine ⟨rfl, ?_⟩
    intro r hr
    cases hr
    exact hu

theorem applyPreampAndLimiter_append (p : DSPProcessor α) (tail : List α)
    (numFrames numChannels : Nat) (buf : List α)
    (ht : numFrames * numChannels ≤ buf.length) :
    DSPProcessor.applyPreampAndLimiter p (buf ++ tail) numFrames numChannels =
      (DSPProcessor.applyPreampAndLimiter p buf numFrames numChannels).map
        (fun r => r ++ tail) := by
  rw [DSPProcessor.applyPreampAndLimiter_eq, DSPProcessor.applyPreampAndLimiter_eq,
    if_pos ht, if_pos (by simp; omega)]
  simp only [Option.map_some', Option.some.injEq]
  rw [List.take_append_of_le_length ht, List.drop_append_of_le_length ht, List.append_assoc]

end StageLocality

/-! ## Processing pipeline -/

namespace DSPProcessor

variable {α : Type} [LinearOrderedField α]

theorem growTo_length_ge (v : List α) (n : Nat) : n ≤ (growTo v n).length := by
  unfold growTo
  split_ifs with h
  · simp
    omega
  · omega

theorem initStatics_ok : StaticsOK (initStatics : DSPStatics α) := by
  refine ⟨rfl, rfl, rfl, rfl, ?_, ?_⟩ <;>
    simp only [initStatics, List.length_replicate] <;> norm_num

/-- A designed filter runs without fault on a mono or stereo buffer and keeps the buffer
length and the shape of the histories. -/
theorem biquadLoop_shape (co : FilterCoeffs α) (numFrames numChannels : Nat)
    (s : BiquadHistory α × List α) (hnc : numChannels ≤ 2)
    (hlen : numFrames * numChannels ≤ s.2.length)
    (h1 : s.1.x1.length = 2) (h2 : s.1.x2.length = 2) (h3 : s.1.y1.length = 2)
    (h4 : s.1.y2.length = 2) :
    ∃ u, biquadLoop co numFrames numChannels s = some u ∧ u.2.length = s.2.length ∧
      u.1.x1.length = 2 ∧ u.1.x2.length = 2 ∧ u.1.y1.length = 2 ∧ u.1.y2.length = 2 := by
  obtain ⟨u, hu, hinv⟩ := biquadLoop_inv co s.2 (fun _ => True) (fun _ => True)
    (fun _ _ _ _ => True) numFrames numChannels s hnc hlen (fun _ _ _ _ => trivial)
    (fun _ _ _ _ _ _ _ => ⟨trivial, trivial⟩)
    ⟨rfl, fun _ _ => rfl, fun _ _ _ _ => trivial, h1, h2, h3, h4,
      fun _ _ _ _ _ _ _ _ _ => trivial⟩
  exact ⟨u, hu, hinv.1, hinv.2.2.2.1, hinv.2.2.2.2.1, hinv.2.2.2.2.2.1, hinv.2.2.2.2.2.2.1⟩

theorem applyFilters_shape (m : MathLib α) (p : DSPProcessor α) (numFrames numChannels : Nat)
    (s : BiquadHistory α × List α)
    (hnc : numChannels ≤ 2 ∨ ∀ f ∈ p.filters, f.type = FilterType.BAND_PASS)
    (hlen : numFrames * numChannels ≤ s.2.length)
    (h1 : s.1.x1.length = 2) (h2 : s.1.x2.length = 2) (h3 : s.1.y1.length = 2)
    (h4 : s.1.y2.length = 2) :
    ∃ u, applyFilters m p numFrames numChannels s = some u ∧ u.2.length = s.2.length ∧
      u.1.x1.length = 2 ∧ u.1.x2.length = 2 ∧ u.1.y1.length = 2 ∧ u.1.y2.length = 2 := by
  unfold applyFilters
  apply foldlM_invariant (fun t : BiquadHistory α × List α => t.2.length = s.2.length ∧
      t.1.x1.length = 2 ∧ t.1.x2.length = 2 ∧ t.1.y1.length = 2 ∧ t.1.y2.length = 2)
  · exact ⟨rfl, h1, h2, h3, h4⟩
  · intro filter hmem t ht
    unfold applyFilter
    cases hd : designFilter m p.sampleRate filter with
    | none => exact ⟨t, rfl, ht⟩
    | some raw =>
      rcases hnc with hnc | hnone
      · obtain ⟨u, hu, hl, g1, g2, g3, g4⟩ := biquadLoop_shape raw.normalize numFrames
          numChannels t hnc (by rw [ht.1]; exact hlen) ht.2.1 ht.2.2.1 ht.2.2.2.1 ht.2.2.2.2
        exact ⟨u, hu, by rw [hl, ht.1], g1, g2, g3, g4⟩
      · simp [designFilter, hnone filter hmem] at hd

theorem reverb_shape (effect : EffectParams α) (count : Nat) (s : DSPStatics α × List α)
    (hlen : count ≤ s.2.length) (hok : StaticsOK s.1) :
    ∃ u, forLoop count (reverbSample effect) s = some u ∧ u.2.length = s.2.length ∧
      StaticsOK u.1 := by
  apply forLoop_invariant
    (fun _ (t : DSPStatics α × List α) => t.2.length = s.2.length ∧ StaticsOK t.1)
  · exact ⟨rfl, hok⟩
  · intro i t hi ⟨hl, h1, h2, h3, h4, h5, h6⟩
    have hi2 : i < t.2.length := by omega
    refine ⟨_, by simp only [reverbSample, List.getElem?_eq_getElem h5,
      List.getElem?_eq_getElem hi2, Option.bind_eq_bind, Option.some_bind]; rfl, ?_, ?_⟩
    · simp [hl]
    · refine ⟨h1, h2, h3, h4, ?_, ?_⟩
      · simp only [List.length_set]
        exact Nat.mod_lt _ (by omega)
      · exact h6

theorem delayReadIndex_lt (delayIndex : Nat) (delaySamples : Int) (size : Nat)
    (h : 0 < size) : delayReadIndex delayIndex delaySamples size < size := by
  unfold delayReadIndex
  have hs : (0 : Int) < (size : Int) := by exact_mod_cast h
  have h1 := Int.emod_nonneg
    ((((delayIndex : Int) - delaySamples + (size : Int)) % sizeModulus)) hs.ne'
  have h2 := Int.emod_lt_of_pos
    ((((delayIndex : Int) - delaySamples + (size : Int)) % sizeModulus)) hs
  omega

theorem delay_shape (effect : EffectParams α) (delaySamples : Int) (count : Nat)
    (s : DSPStatics α × List α) (hlen : count ≤ s.2.length) (hok : StaticsOK s.1) :
    ∃ u, forLoop count (delaySample effect delaySamples) s = some u ∧
      u.2.length = s.2.length ∧ StaticsOK u.1 := by
  apply forLoop_invariant
    (fun _ (t : DSPStatics α × List α) => t.2.length = s.2.length ∧ StaticsOK t.1)
  · exact ⟨rfl, hok⟩
  · intro i t hi ⟨hl, h1, h2, h3, h4, h5, h6⟩
    have hi2 : i < t.2.length := by omega
    have hr := delayReadIndex_lt t.1.delayIndex delaySamples t.1.delayBuffer.length
      (by omega)
    refine ⟨_, by simp only [delaySample, List.getElem?_eq_getElem hr,
      List.getElem?_eq_getElem hi2, Option.bind_eq_bind, Option.some_bind, if_pos h6]; rfl,
      ?_, ?_⟩
    · simp [hl]
    · refine ⟨h1, h2, h3, h4, h5, ?_⟩
      simp only [List.length_set]
      exact Nat.mod_lt _ (by omega)

theorem widen_shape (effect : EffectParams α) (numFrames : Nat) (buf : List α)
    (hlen : numFrames * 2 ≤ buf.length) :
    ∃ out, forLoop numFrames (widenFrame effect) buf = some out ∧
      out.length = buf.length := by
  apply forLoop_invariant (fun _ (t : List α) => t.length = buf.length)
  · rfl
  · intro i t hi hl
    have hi1 : i * 2 < t.length := by omega
    have hi2 : i * 2 + 1 < t.length := by omega
    refine ⟨_, by simp only [widenFrame, List.getElem?_eq_getElem hi1,
      List.getElem?_eq_getElem hi2, Option.bind_eq_bind, Option.some_bind]; rfl, ?_⟩
    simp [hl]

theorem limiter_shape (p : DSPProcessor α) (count : Nat) (buf : List α)
    (hlen : count ≤ buf.length) :
    ∃ out, forLoop count (limiterSample p) buf = some out ∧ out.length = buf.length := by
  apply forLoop_invariant (fun _ (t : List α) => t.length = buf.length)
  · rfl
  · intro i t hi hl
    have hi1 : i < t.length := by omega
    simp only [limiterSample, List.getElem?_eq_getElem hi1, Option.bind_eq_bind,
      Option.some_bind]
    split_ifs
    · exact ⟨_, rfl, by simp [hl]⟩
    · exact ⟨_, rfl, hl⟩

theorem applyEffects_shape [FloorRing α] (p : DSPProcessor α) (numFrames numChannels : Nat)
    (s : DSPStatics α × List α) (hlen : numFrames * numChannels ≤ s.2.length)
    (hok : StaticsOK s.1) :
    ∃ u, applyEffects p numFrames numChannels s = some u ∧ u.2.length = s.2.length ∧
      StaticsOK u.1 := by
  unfold applyEffects
  apply foldlM_invariant
    (fun t : DSPStatics α × List α => t.2.length = s.2.length ∧ StaticsOK t.1)
  · exact ⟨rfl, hok⟩
  · intro effect _ t ⟨hl, htok⟩
    have hlen2 : numFrames * numChannels ≤ t.2.length := by omega
    unfold applyEffect
    cases effect.type
    case REVERB =>
      obtain ⟨u, hu, h1, h2⟩ := reverb_shape effect _ t hlen2 htok
      exact ⟨u, hu, by omega, h2⟩
    case DELAY =>
      obtain ⟨u, hu, h1, h2⟩ := delay_shape effect
        (truncToInt (effect.param1 * (p.sampleRate : α))) _ t hlen2 htok
      exact ⟨u, hu, by omega, h2⟩
    case CHORUS => exact ⟨t, rfl, hl, htok⟩
    case STEREO_WIDENER =>
      simp only
      split_ifs with hc
      · subst hc
        obtain ⟨out, hout, h1⟩ := widen_shape effect numFrames t.2 hlen2
        exact ⟨(t.1, out), by rw [hout]; rfl, by simp only; omega, htok⟩
      · exact ⟨t, rfl, hl, htok⟩
    case LIMITER =>
      obtain ⟨out, hout, h1⟩ := limiter_shape p _ t.2 hlen2
      exact ⟨(t.1, out), by simp only [hout]; rfl, by simp only; omega, htok⟩
    case COMPRESSOR => exact ⟨t, rfl, hl, htok⟩

theorem biquadLoop_three_channels (co : FilterCoeffs ℝ) :
    biquadLoop co 1 3 ((BiquadHistory.init : BiquadHistory ℝ), [0, 0, 0]) = none := by
  simp only [biquadLoop, forLoop_succ, forLoop_zero, Option.some_bind, biquadSample,
    BiquadHistory.init, Option.bind_eq_bind]
  simp

/-- C3, at the failing input. With one low-pass filter configured, a call on one frame of
three channels indexes the two-entry history vector `x1` at channel 2: the filter stage
faults and `processAudio` produces no output, where the claim has it write the result of
the three stages. -/
theorem processAudio_three_channels_faults :
    processAudio realMath
      (addFilter (DSPProcessor.new : DSPProcessor ℝ)
        { type := FilterType.LOW_PASS, frequency := 1000, q := 1, gain := 0 })
      initStatics [0, 0, 0] [0, 0, 0] 1 3 = none := by
  have hcopy : stdCopy ([0, 0, 0] : List ℝ) (1 * 3)
      (growTo (addFilter (DSPProcessor.new : DSPProcessor ℝ)
        { type := FilterType.LOW_PASS, frequency := 1000, q := 1, gain := 0 }).tempBuffer
        (1 * 3)) = some [0, 0, 0] := by
    simp [stdCopy, growTo, addFilter, DSPProcessor.new]
  have hfil : applyFilters realMath
      (addFilter (DSPProcessor.new : DSPProcessor ℝ)
        { type := FilterType.LOW_PASS, frequency := 1000, q := 1, gain := 0 }) 1 3
      ((initStatics : DSPStatics ℝ).filterHistory, [0, 0, 0]) = none := by
    simp only [applyFilters, addFilter, DSPProcessor.new, List.nil_append, List.foldlM_cons,
      applyFilter, designFilter, initStatics, biquadLoop_three_channels]
    rfl
  simp only [processAudio, hcopy, hfil, Option.bind_eq_bind, Option.some_bind,
    Option.none_bind]

/-- Pipeline order for mono and stereo. For every filter list, effect list, dynamics
setting and frame count, and every channel count that is at most 2 or comes with no
filter of a designed kind, on statics that satisfy their invariant and buffers that hold
`numFrames * numChannels` samples, `processAudio` succeeds and the samples it writes are
`applyPreampAndLimiter` of `applyEffects` of `applyFilters` of the
`numFrames * numChannels` input samples, in this order; the output keeps its length, the
input buffer is returned as it was, the statics are those left by the effects stage, and
they satisfy their invariant again. -/
theorem processAudio_pipeline [FloorRing α] (m : MathLib α) (p : DSPProcessor α)
    (st : DSPStatics α) (input output : List α) (numFrames numChannels : Nat)
    (hnc : numChannels ≤ 2 ∨ ∀ f ∈ p.filters, f.type = FilterType.BAND_PASS)
    (hok : StaticsOK st)
    (hin : numFrames * numChannels ≤ input.length)
    (hout : numFrames * numChannels ≤ output.length) :
    ∃ filtered affected limited,
      applyFilters m p numFrames numChannels
        (st.filterHistory, input.take (numFrames * numChannels)) = some filtered ∧
      applyEffects p numFrames numChannels
        ({ st with filterHistory := filtered.1 }, filtered.2) = some affected ∧
      applyPreampAndLimiter p affected.2 numFrames numChannels = some limited ∧
      limited.length = numFrames * numChannels ∧
      ∃ r, processAudio m p st input output numFrames numChannels = some r ∧
        r.output = limited ++ output.drop (numFrames * numChannels) ∧
        r.output.length = output.length ∧
        r.input = input ∧
        r.statics = affected.1 ∧ StaticsOK r.statics ∧
        r.processor =
          { p with
            tempBuffer :=
              limited ++ List.drop (numFrames * numChannels)
                (growTo p.tempBuffer (numFrames * numChannels)) } := by
  have hg := growTo_length_ge p.tempBuffer (numFrames * numChannels)
  have hcopy := stdCopy_eq_some input (growTo p.tempBuffer (numFrames * numChannels))
    (numFrames * numChannels) hin hg
  have hbl : (input.take (numFrames * numChannels)).length = numFrames * numChannels := by
    simp
    omega
  obtain ⟨filtered, hfil, hfl, g1, g2, g3, g4⟩ := applyFilters_shape m p numFrames numChannels
    (st.filterHistory, input.take (numFrames * numChannels))
    hnc (by simp only [hbl]; exact le_refl _) hok.1 hok.2.1 hok.2.2.1 hok.2.2.2.1
  simp only [hbl] at hfl
  obtain ⟨affected, haff, hal, haok⟩ := applyEffects_shape p numFrames numChannels
    ({ st with filterHistory := filtered.1 }, filtered.2) (by simp only; omega)
    ⟨g1, g2, g3, g4, hok.2.2.2.2.1, hok.2.2.2.2.2⟩
  simp only at hal
  obtain ⟨limited, hlim, hll, -⟩ := applyPreampAndLimiter_getElem? p affected.2 numFrames
    numChannels (by omega)
  have hlen : limited.length = numFrames * numChannels := by omega
  have e1 := applyFilters_append m p
    ((growTo p.tempBuffer (numFrames * numChannels)).drop (numFrames * numChannels))
    numFrames numChannels (st.filterHistory, input.take (numFrames * numChannels))
    (by simp only [hbl]; exact le_refl _)
  rw [hfil] at e1
  have e2 := applyEffects_append p
    ((growTo p.tempBuffer (numFrames * numChannels)).drop (numFrames * numChannels))
    numFrames numChannels ({ st with filterHistory := filtered.1 }, filtered.2)
    (by simp only; omega)
  rw [haff] at e2
  have e3 := applyPreampAndLimiter_append p
    ((growTo p.tempBuffer (numFrames * numChannels)).drop (numFrames * numChannels))
    numFrames numChannels affected.2 (by omega)
  rw [hlim] at e3
  simp only [Option.map_some'] at e1 e2 e3
  have hcopy2 := stdCopy_eq_some
    (limited ++ (growTo p.tempBuffer (numFrames * numChannels)).drop
      (numFrames * numChannels))
    output (numFrames * numChannels) (by simp; omega) hout
  rw [List.take_append_of_le_length (by omega), List.take_of_length_le (by omega)] at hcopy2
  refine ⟨filtered, affected, limited, hfil, haff, hlim, hlen,
    { processor :=
        { p with
          tempBuffer :=
            limited ++ List.drop (numFrames * numChannels)
              (growTo p.tempBuffer (numFrames * numChannels)) },
      statics := affected.1, input := input,
      output := limited ++ output.drop (numFrames * numChannels) },
    ?_, rfl, ?_, rfl, rfl, haok, rfl⟩
  · simp only [processAudio, hcopy, e1, e2, e3, hcopy2, Option.bind_eq_bind,
      Option.some_bind]
  · simp
    omega

/-- An instance of the pipeline order: the freshly constructed processor on one stereo
frame. -/
theorem processAudio_pipeline_witness :
    ∃ filtered affected limited,
      applyFilters realMath (DSPProcessor.new : DSPProcessor ℝ) 1 2
        ((initStatics : DSPStatics ℝ).filterHistory, ([1, 2] : List ℝ).take (1 * 2)) =
        some filtered ∧
      applyEffects (DSPProcessor.new : DSPProcessor ℝ) 1 2
        ({ (initStatics : DSPStatics ℝ) with filterHistory := filtered.1 }, filtered.2) =
        some affected ∧
      applyPreampAndLimiter (DSPProcessor.new : DSPProcessor ℝ) affected.2 1 2 =
        some limited ∧
      limited.length = 1 * 2 ∧
      ∃ r, processAudio realMath (DSPProcessor.new : DSPProcessor ℝ) initStatics [1, 2] [0, 0]
          1 2 = some r ∧
        r.output = limited ++ ([0, 0] : List ℝ).drop (1 * 2) ∧
        r.output.length = ([0, 0] : List ℝ).length ∧
        r.input = [1, 2] ∧
        r.statics = affected.1 ∧ StaticsOK r.statics ∧
        r.processor =
          { (DSPProcessor.new : DSPProcessor ℝ) with
            tempBuffer :=
              limited ++ List.drop (1 * 2)
                (growTo (DSPProcessor.new : DSPProcessor ℝ).tempBuffer (1 * 2)) } :=
  processAudio_pipeline realMath (DSPProcessor.new : DSPProcessor ℝ) initStatics [1, 2] [0, 0]
    1 2 (Or.inl (by decide)) initStatics_ok (by simp) (by simp)

end DSPProcessor

/-! ## Reset of the graphic section -/

namespace Equalizer

variable {α : Type} [LinearOrderedField α]

theorem graphicBandCoeffs_flat (m : MathLib α) (eq : Equalizer α) (i : Fin 10)
    (h : eq.graphicEQGains i = 0) :
    graphicBandCoeffs m eq i = { b0 := 1, b1 := 0, b2 := 0, a1 := 0, a2 := 0 } := by
  have h01 : |(0 : α)| < 0.1 := by norm_num
  simp only [graphicBandCoeffs, h, if_pos h01]
  norm_num

theorem resetGraphicEQ_eq (m : MathLib α) (eq : Equalizer α) :
    resetGraphicEQ m eq =
      { eq with
        graphicEQGains := fun _ => 0,
        graphicEQCoeffs := fun _ => { b0 := 1, b1 := 0, b2 := 0, a1 := 0, a2 := 0 } } := by
  have hz : (0.0 : α) = 0 := by norm_num
  simp only [resetGraphicEQ, hz]
  rw [updateGraphicEQCoeffs_eq]
  congr 1
  funext i
  exact graphicBandCoeffs_flat m _ i rfl

/-- C11. `resetGraphicEQ` is idempotent and yields the flat state: applying it twice gives
the state it gives once; in that state all ten gains are 0 and all ten cached biquads are
`(1, 0, 0, 0, 0)`, and the sample rate, the enabled flag and the parametric bands are
those of the state before; `loadPreset`, for any name, gives the same state with an empty
list of parametric bands. -/
theorem resetGraphicEQ_idempotent (m : MathLib α) (eq : Equalizer α) (name : String) :
    resetGraphicEQ m (resetGraphicEQ m eq) = resetGraphicEQ m eq ∧
    (∀ i : Fin 10, (resetGraphicEQ m eq).graphicEQGains i = 0) ∧
    (∀ i : Fin 10, (resetGraphicEQ m eq).graphicEQCoeffs i =
      { b0 := 1, b1 := 0, b2 := 0, a1 := 0, a2 := 0 }) ∧
    (resetGraphicEQ m eq).sampleRate = eq.sampleRate ∧
    (resetGraphicEQ m eq).enabled = eq.enabled ∧
    (resetGraphicEQ m eq).parametricBands = eq.parametricBands ∧
    loadPreset m eq name = { resetGraphicEQ m eq with parametricBands := [] } ∧
    (loadPreset m eq name).parametricBands = [] := by
  refine ⟨?_, ?_, ?_, ?_, ?_, ?_, rfl, rfl⟩
  · rw [resetGraphicEQ_eq m (resetGraphicEQ m eq), resetGraphicEQ_eq m eq]
  · intro i
    rw [resetGraphicEQ_eq]
  · intro i
    rw [resetGraphicEQ_eq]
  · rw [resetGraphicEQ_eq]
  · rw [resetGraphicEQ_eq]
  · rw [resetGraphicEQ_eq]

end Equalizer
/-! ## Effect chain -/

namespace DSPProcessor

variable {α : Type} [LinearOrderedField α]

theorem applyEffect_effects [FloorRing α] (p : DSPProcessor α) (l : List (EffectParams α))
    (numFrames numChannels : Nat) :
    applyEffect { p with effects := l } numFrames numChannels =
      applyEffect p numFrames numChannels := by
  funext s effect
  rfl

theorem applyEffects_eq_foldlM [FloorRing α] (p : DSPProcessor α)
    (l : List (EffectParams α)) (numFrames numChannels : Nat) (s : DSPStatics α × List α) :
    applyEffects { p with effects := l } numFrames numChannels s =
      l.foldlM (applyEffect p numFrames numChannels) s := by
  simp only [applyEffects, applyEffect_effects]

/-- C14. Unknown effect kinds are no-ops: an effect of kind `CHORUS` or `COMPRESSOR`,
whatever its parameters, the buffer, the frame count and the channel count, returns the
buffer and the statics it was given, without fault; and a chain that contains it gives
the same result as the chain without it, so the effects after it run as they would
otherwise. -/
theorem unknown_effect_noop [FloorRing α] (p : DSPProcessor α) (effect : EffectParams α)
    (numFrames numChannels : Nat) (s : DSPStatics α × List α)
    (h : effect.type = EffectType.CHORUS ∨ effect.type = EffectType.COMPRESSOR) :
    applyEffect p numFrames numChannels s effect = some s ∧
    ∀ before after : List (EffectParams α),
      applyEffects { p with effects := before ++ effect :: after } numFrames numChannels s =
        applyEffects { p with effects := before ++ after } numFrames numChannels s := by
  have hnoop : ∀ t, applyEffect p numFrames numChannels t effect = some t := by
    intro t
    rcases h with h | h <;> simp only [applyEffect, h]
  refine ⟨hnoop s, ?_⟩
  intro before after
  rw [applyEffects_eq_foldlM, applyEffects_eq_foldlM, List.foldlM_append, List.foldlM_append]
  congr 1
  funext t
  rw [List.foldlM_cons, hnoop t]
  rfl

/-- An instance of C14: a `CHORUS` effect between a limiter and a widener, on one stereo
frame. -/
theorem unknown_effect_noop_witness :
    applyEffect (DSPProcessor.new : DSPProcessor ℚ) 1 2 (initStatics, [1, 0])
        { type := EffectType.CHORUS, mix := 1, param1 := 3, param2 := 0, param3 := 0 } =
      some (initStatics, [1, 0]) ∧
    applyEffects
        { (DSPProcessor.new : DSPProcessor ℚ) with
          effects :=
            [{ type := EffectType.LIMITER, mix := 1, param1 := 0, param2 := 0, param3 := 0 }] ++
            { type := EffectType.CHORUS, mix := 1, param1 := 3, param2 := 0, param3 := 0 } ::
            [{ type := EffectType.STEREO_WIDENER, mix := 1, param1 := 2, param2 := 0,
               param3 := 0 }] }
        1 2 (initStatics, [1, 0]) =
      applyEffects
        { (DSPProcessor.new : DSPProcessor ℚ) with
          effects :=
            [{ type := EffectType.LIMITER, mix := 1, param1 := 0, param2 := 0, param3 := 0 }] ++
            [{ type := EffectType.STEREO_WIDENER, mix := 1, param1 := 2, param2 := 0,
               param3 := 0 }] }
        1 2 (initStatics, [1, 0]) :=
  ⟨(unknown_effect_noop (DSPProcessor.new : DSPProcessor ℚ)
      { type := EffectType.CHORUS, mix := 1, param1 := 3, param2 := 0, param3 := 0 } 1 2
      (initStatics, [1, 0]) (Or.inl rfl)).1,
   (unknown_effect_noop (DSPProcessor.new : DSPProcessor ℚ)
      { type := EffectType.CHORUS, mix := 1, param1 := 3, param2 := 0, param3 := 0 } 1 2
      (initStatics, [1, 0]) (Or.inl rfl)).2 _ _⟩

theorem widenFrame_zero (effect : EffectParams ℚ) (l r : ℚ) :
    widenFrame effect 0 [l, r] =
      some [(l + r) * 0.5 + (l - r) * 0.5 * effect.param1,
            (l + r) * 0.5 - (l - r) * 0.5 * effect.param1] := by
  simp [widenFrame]

/-- C15. Effects run in the caller's list order and the order is observable: `addEffect`
appends, the chain applies a newly appended effect to the result of the effects before
it, and on the stereo frame `(1, 0)` with threshold 0.95 the chain widener (width 2) then
limiter gives `(0.95, -0.5)` while limiter then widener gives `(1.425, -0.475)`. -/
theorem effect_order_observable [FloorRing α] :
    (∀ (p : DSPProcessor α) (e : EffectParams α), (addEffect p e).effects = p.effects ++ [e]) ∧
    (∀ (p : DSPProcessor α) (l : List (EffectParams α)) (e : EffectParams α)
        (numFrames numChannels : Nat) (s : DSPStatics α × List α),
      applyEffects { p with effects := l ++ [e] } numFrames numChannels s =
        (applyEffects { p with effects := l } numFrames numChannels s).bind
          (fun t => applyEffect p numFrames numChannels t e)) ∧
    applyEffects
        (addEffect
          (addEffect (DSPProcessor.new : DSPProcessor ℚ)
            { type := EffectType.STEREO_WIDENER, mix := 1, param1 := 2, param2 := 0,
              param3 := 0 })
          { type := EffectType.LIMITER, mix := 1, param1 := 0, param2 := 0, param3 := 0 })
        1 2 (initStatics, [1, 0]) = some (initStatics, [19 / 20, -1 / 2]) ∧
    applyEffects
        (addEffect
          (addEffect (DSPProcessor.new : DSPProcessor ℚ)
            { type := EffectType.LIMITER, mix := 1, param1 := 0, param2 := 0, param3 := 0 })
          { type := EffectType.STEREO_WIDENER, mix := 1, param1 := 2, param2 := 0,
            param3 := 0 })
        1 2 (initStatics, [1, 0]) = some (initStatics, [57 / 40, -19 / 40]) ∧
    ([19 / 20, -1 / 2] : List ℚ) ≠ [57 / 40, -19 / 40] := by
  refine ⟨fun _ _ => rfl, ?_, ?_, ?_, by norm_num⟩
  · intro p l e numFrames numChannels s
    rw [applyEffects_eq_foldlM, applyEffects_eq_foldlM, List.foldlM_append]
    congr 1
    funext t
    rw [List.foldlM_cons]
    cases applyEffect p numFrames numChannels t e <;> rfl
  · simp only [applyEffects, addEffect, DSPProcessor.new, List.nil_append, List.cons_append,
      List.foldlM_cons, List.foldlM_nil, applyEffect, forLoop_succ, forLoop_zero,
      Option.some_bind, widenFrame_zero, Option.map_some', if_true, Nat.one_mul,
      Option.bind_eq_bind]
    simp only [limiterSample]
    norm_num [abs_of_pos, abs_of_neg]
  · simp only [applyEffects, addEffect, DSPProcessor.new, List.nil_append, List.cons_append,
      List.foldlM_cons, List.foldlM_nil, applyEffect, forLoop_succ, forLoop_zero,
      Option.some_bind, Option.map_some', if_true, Nat.one_mul, Option.bind_eq_bind]
    simp only [limiterSample]
    norm_num [abs_of_pos, abs_of_neg, widenFrame_zero]

end DSPProcessor
namespace DSPProcessor

variable {α : Type} [LinearOrderedField α]

theorem set_getElem_same {β : Type} (b : List β) (i : Nat) (hi : i < b.length) :
    b.set i b[i] = b := by
  apply List.ext_getElem?
  intro j
  by_cases hj : i = j
  · subst hj
    rw [List.getElem?_set_self hi, List.getElem?_eq_getElem hi]
  · rw [List.getElem?_set_ne hj]

theorem limiterSample_eq (p : DSPProcessor α) :
    limiterSample p = fun i b => (b[i]?).map (fun x => b.set i
      (if |x| > p.limiterThreshold then x * (p.limiterThreshold / |x|) else x)) := by
  funext i b
  unfold limiterSample
  rcases Nat.lt_or_ge i b.length with hi | hi
  · simp only [List.getElem?_eq_getElem hi, Option.bind_eq_bind, Option.some_bind,
      Option.map_some']
    split_ifs with h
    · rfl
    · rw [set_getElem_same b i hi]
  · simp [List.getElem?_eq_none hi]

theorem limiter_loop_eq (p : DSPProcessor α) (count : Nat) (buffer : List α) :
    forLoop count (limiterSample p) buffer =
      if count ≤ buffer.length then
        some ((buffer.take count).map
          (fun x => if |x| > p.limiterThreshold then x * (p.limiterThreshold / |x|) else x) ++
          buffer.drop count)
      else none := by
  rw [limiterSample_eq]
  exact forLoop_pointwise _ _ _

theorem limiter_value_abs (t x : α) (ht : 0 < t) (h : |x| > t) :
    |x * (t / |x|)| = t := by
  have hx : 0 < |x| := lt_trans ht h
  rw [abs_mul, abs_div, abs_abs, abs_of_pos ht]
  field_simp

theorem limiter_value_le (t x : α) (ht : 0 < t) :
    |(if |x| > t then x * (t / |x|) else x)| ≤ t := by
  split_ifs with h
  · exact (limiter_value_abs t x ht h).le
  · exact not_lt.mp h

theorem limiter_value_idem (t x : α) (ht : 0 < t) :
    (fun y : α => if |y| > t then y * (t / |y|) else y)
      ((fun y : α => if |y| > t then y * (t / |y|) else y) x) =
    (fun y : α => if |y| > t then y * (t / |y|) else y) x := by
  have h := limiter_value_le t x ht
  simp only
  rw [if_neg (not_lt.mpr h)]

/-- C12, amended. Hard-knee effect limiter in exact arithmetic: with a threshold `t > 0`,
the `LIMITER` effect succeeds on every buffer that holds the `numFrames * numChannels`
samples, leaves the statics and the buffer length as they were, multiplies each processed
sample `x` with `|x| > t` by `t / |x|`, which without rounding is `t * x / |x|` (magnitude
exactly `t`, sign of `x`), leaves each processed sample with `|x| ≤ t` unchanged, so that
without rounding every processed output has magnitude at most `t`; and applying the effect
to its own output changes nothing. -/
theorem limiter_effect [FloorRing α] (p : DSPProcessor α) (effect : EffectParams α)
    (numFrames numChannels : Nat) (st : DSPStatics α) (buffer : List α)
    (ht : 0 < p.limiterThreshold) (htype : effect.type = EffectType.LIMITER)
    (hlen : numFrames * numChannels ≤ buffer.length) :
    ∃ out, applyEffect p numFrames numChannels (st, buffer) effect = some (st, out) ∧
      out.length = buffer.length ∧
      (∀ i x, i < numFrames * numChannels → buffer[i]? = some x →
        ∃ y, out[i]? = some y ∧
          (|x| > p.limiterThreshold →
            y = p.limiterThreshold * x / |x| ∧ |y| = p.limiterThreshold ∧
            (0 < x → 0 < y) ∧ (x < 0 → y < 0)) ∧
          (|x| ≤ p.limiterThreshold → y = x) ∧
          |y| ≤ p.limiterThreshold) ∧
      (∀ i, numFrames * numChannels ≤ i → out[i]? = buffer[i]?) ∧
      applyEffect p numFrames numChannels (st, out) effect = some (st, out) := by
  have hlen2 : numFrames * numChannels ≤
      ((buffer.take (numFrames * numChannels)).map
        (fun x => if |x| > p.limiterThreshold then x * (p.limiterThreshold / |x|) else x) ++
        buffer.drop (numFrames * numChannels)).length := by
    simp
    omega
  refine ⟨(buffer.take (numFrames * numChannels)).map
      (fun x => if |x| > p.limiterThreshold then x * (p.limiterThreshold / |x|) else x) ++
      buffer.drop (numFrames * numChannels), ?_, ?_, ?_, ?_, ?_⟩
  · simp only [applyEffect, htype, limiter_loop_eq, if_pos hlen, Option.map_some']
  · simp
    omega
  · intro i x hi hx
    refine ⟨if |x| > p.limiterThreshold then x * (p.limiterThreshold / |x|) else x,
      ?_, ?_, ?_, limiter_value_le _ x ht⟩
    · rw [List.getElem?_append_left (by simp; omega)]
      simp [List.getElem?_take, hi, hx]
    · intro h
      have hx0 : 0 < |x| := lt_trans ht h
      have hq : 0 < p.limiterThreshold / |x| := div_pos ht hx0
      rw [if_pos h]
      refine ⟨by ring, limiter_value_abs _ x ht h, fun hpos => mul_pos hpos hq,
        fun hneg => mul_neg_of_neg_of_pos hneg hq⟩
    · intro h
      rw [if_neg (not_lt.mpr h)]
  · intro i hi
    rw [List.getElem?_append_right (by simp; omega)]
    simp [hlen]
    congr 1
    omega
  · simp only [applyEffect, htype, limiter_loop_eq, if_pos hlen2, Option.map_some',
      Option.some.injEq, Prod.mk.injEq, true_and]
    rw [List.take_append_of_le_length (by simp; omega),
      List.drop_append_of_le_length (by simp; omega)]
    rw [List.take_of_length_le (by simp), List.drop_of_length_le (by simp),
      List.nil_append, List.map_map]
    congr 1
    apply List.map_congr_left
    intro x _
    exact limiter_value_idem _ x ht

/-- An instance of the amended C12: the default threshold 0.95 on the stereo frame
`(2, 1/2)`. -/
theorem limiter_effect_witness :
    ∃ out, applyEffect (DSPProcessor.new : DSPProcessor ℚ) 1 2 (initStatics, [2, 1 / 2])
        { type := EffectType.LIMITER, mix := 1, param1 := 0, param2 := 0, param3 := 0 } =
        some (initStatics, out) ∧
      out.length = [(2 : ℚ), 1 / 2].length ∧
      (∀ i x, i < 1 * 2 → [(2 : ℚ), 1 / 2][i]? = some x →
        ∃ y, out[i]? = some y ∧
          (|x| > (DSPProcessor.new : DSPProcessor ℚ).limiterThreshold →
            y = (DSPProcessor.new : DSPProcessor ℚ).limiterThreshold * x / |x| ∧
            |y| = (DSPProcessor.new : DSPProcessor ℚ).limiterThreshold ∧
            (0 < x → 0 < y) ∧ (x < 0 → y < 0)) ∧
          (|x| ≤ (DSPProcessor.new : DSPProcessor ℚ).limiterThreshold → y = x) ∧
          |y| ≤ (DSPProcessor.new : DSPProcessor ℚ).limiterThreshold) ∧
      (∀ i, 1 * 2 ≤ i → out[i]? = [(2 : ℚ), 1 / 2][i]?) ∧
      applyEffect (DSPProcessor.new : DSPProcessor ℚ) 1 2 (initStatics, out)
        { type := EffectType.LIMITER, mix := 1, param1 := 0, param2 := 0, param3 := 0 } =
        some (initStatics, out) :=
  limiter_effect (DSPProcessor.new : DSPProcessor ℚ)
    { type := EffectType.LIMITER, mix := 1, param1 := 0, param2 := 0, param3 := 0 } 1 2
    initStatics [2, 1 / 2] (by norm_num [DSPProcessor.new]) rfl (by simp)

end DSPProcessor
namespace DSPProcessor

variable {α : Type} [LinearOrderedField α]

theorem widen_loop (effect : EffectParams α) (numFrames : Nat) (buf : List α)
    (hlen : numFrames * 2 ≤ buf.length) :
    ∃ out, forLoop numFrames (widenFrame effect) buf = some out ∧
      out.length = buf.length ∧
      (∀ i, numFrames * 2 ≤ i → out[i]? = buf[i]?) ∧
      (∀ f L R, f < numFrames → buf[f * 2]? = some L → buf[f * 2 + 1]? = some R →
        out[f * 2]? = some ((L + R) * 0.5 + (L - R) * 0.5 * effect.param1) ∧
        out[f * 2 + 1]? = some ((L + R) * 0.5 - (L - R) * 0.5 * effect.param1)) := by
  apply forLoop_invariant (fun k (t : List α) => t.length = buf.length ∧
    (∀ i, k * 2 ≤ i → t[i]? = buf[i]?) ∧
    (∀ f L R, f < k → buf[f * 2]? = some L → buf[f * 2 + 1]? = some R →
      t[f * 2]? = some ((L + R) * 0.5 + (L - R) * 0.5 * effect.param1) ∧
      t[f * 2 + 1]? = some ((L + R) * 0.5 - (L - R) * 0.5 * effect.param1)))
  · exact ⟨rfl, fun _ _ => rfl, fun f _ _ hf => absurd hf (Nat.not_lt_zero f)⟩
  · intro k t hk ⟨hl, hrest, hdone⟩
    have h1 : k * 2 < t.length := by omega
    have h2 : k * 2 + 1 < t.length := by omega
    have e1 : t[k * 2]? = some t[k * 2] := List.getElem?_eq_getElem h1
    have e2 : t[k * 2 + 1]? = some t[k * 2 + 1] := List.getElem?_eq_getElem h2
    refine ⟨_, by simp only [widenFrame, e1, e2, Option.bind_eq_bind, Option.some_bind]; rfl,
      by simp [hl], ?_, ?_⟩
    · intro i hi
      rw [List.getElem?_set_ne (by omega), List.getElem?_set_ne (by omega)]
      exact hrest i (by omega)
    · intro f L R hf hL hR
      rcases Nat.lt_or_ge f k with hlt | hge
      · rw [List.getElem?_set_ne (by omega), List.getElem?_set_ne (by omega),
          List.getElem?_set_ne (by omega), List.getElem?_set_ne (by omega)]
        exact hdone f L R hlt hL hR
      · have hfk : f = k := by omega
        subst hfk
        have hL2 : t[f * 2] = L := by
          have := hrest (f * 2) (le_refl _)
          rw [e1, hL] at this
          exact Option.some.inj this
        have hR2 : t[f * 2 + 1] = R := by
          have := hrest (f * 2 + 1) (by omega)
          rw [e2, hR] at this
          exact Option.some.inj this
        constructor
        · rw [List.getElem?_set_ne (by omega), List.getElem?_set_self h1, hL2, hR2]
        · rw [List.getElem?_set_self (by simpa using h2), hL2, hR2]

/-- C13. Stereo widener: with two channels, on a buffer that holds the frames, the
`STEREO_WIDENER` effect succeeds, leaves the statics and the buffer length as they were,
and turns every frame `(L, R)` into `L' = mid + w * side`, `R' = mid - w * side` with
`mid = (L + R) / 2`, `side = (L - R) / 2` and `w = param1`, so that `L' + R' = L + R` and
`w = 1` gives back `(L, R)`; with any other channel count the effect returns the buffer
and the statics unchanged. -/
theorem stereo_widener [FloorRing α] (p : DSPProcessor α) (effect : EffectParams α)
    (numFrames numChannels : Nat) (st : DSPStatics α) (buffer : List α)
    (htype : effect.type = EffectType.STEREO_WIDENER) :
    (numChannels = 2 → numFrames * 2 ≤ buffer.length →
      ∃ out, applyEffect p numFrames numChannels (st, buffer) effect = some (st, out) ∧
        out.length = buffer.length ∧
        (∀ i, numFrames * 2 ≤ i → out[i]? = buffer[i]?) ∧
        (∀ f L R, f < numFrames → buffer[f * 2]? = some L → buffer[f * 2 + 1]? = some R →
          out[f * 2]? = some ((L + R) / 2 + effect.param1 * ((L - R) / 2)) ∧
          out[f * 2 + 1]? = some ((L + R) / 2 - effect.param1 * ((L - R) / 2)) ∧
          ((L + R) / 2 + effect.param1 * ((L - R) / 2)) +
            ((L + R) / 2 - effect.param1 * ((L - R) / 2)) = L + R ∧
          (effect.param1 = 1 →
            (L + R) / 2 + effect.param1 * ((L - R) / 2) = L ∧
            (L + R) / 2 - effect.param1 * ((L - R) / 2) = R))) ∧
    (numChannels ≠ 2 →
      applyEffect p numFrames numChannels (st, buffer) effect = some (st, buffer)) := by
  constructor
  · intro hc hlen
    obtain ⟨out, hout, hl, hrest, hframes⟩ := widen_loop effect numFrames buffer hlen
    refine ⟨out, ?_, hl, hrest, ?_⟩
    · simp only [applyEffect, htype, hc, if_true, hout, Option.map_some']
    · intro f L R hf hL hR
      obtain ⟨h1, h2⟩ := hframes f L R hf hL hR
      have e1 : (L + R) * 0.5 + (L - R) * 0.5 * effect.param1 =
          (L + R) / 2 + effect.param1 * ((L - R) / 2) := by norm_num; ring
      have e2 : (L + R) * 0.5 - (L - R) * 0.5 * effect.param1 =
          (L + R) / 2 - effect.param1 * ((L - R) / 2) := by norm_num; ring
      refine ⟨by rw [h1, e1], by rw [h2, e2], by ring, ?_⟩
      intro hw
      rw [hw]
      constructor <;> ring
  · intro hc
    simp only [applyEffect, htype, if_neg hc]

/-- An instance of C13: width 2 on the stereo frame `(1, 0)`, and the same effect on a
mono buffer. -/
theorem stereo_widener_witness :
    (∃ out, applyEffect (DSPProcessor.new : DSPProcessor ℚ) 1 2 (initStatics, [1, 0])
        { type := EffectType.STEREO_WIDENER, mix := 1, param1 := 2, param2 := 0,
          param3 := 0 } = some (initStatics, out) ∧
      out.length = [(1 : ℚ), 0].length ∧
      (∀ i, 1 * 2 ≤ i → out[i]? = [(1 : ℚ), 0][i]?) ∧
      (∀ f L R, f < 1 → [(1 : ℚ), 0][f * 2]? = some L → [(1 : ℚ), 0][f * 2 + 1]? = some R →
        out[f * 2]? = some ((L + R) / 2 + 2 * ((L - R) / 2)) ∧
        out[f * 2 + 1]? = some ((L + R) / 2 - 2 * ((L - R) / 2)) ∧
        ((L + R) / 2 + 2 * ((L - R) / 2)) + ((L + R) / 2 - 2 * ((L - R) / 2)) = L + R ∧
        ((2 : ℚ) = 1 →
          (L + R) / 2 + 2 * ((L - R) / 2) = L ∧ (L + R) / 2 - 2 * ((L - R) / 2) = R))) ∧
    applyEffect (DSPProcessor.new : DSPProcessor ℚ) 2 1 (initStatics, [1, 0])
        { type := EffectType.STEREO_WIDENER, mix := 1, param1 := 2, param2 := 0,
          param3 := 0 } = some (initStatics, [1, 0]) :=
  ⟨(stereo_widener (DSPProcessor.new : DSPProcessor ℚ)
      { type := EffectType.STEREO_WIDENER, mix := 1, param1 := 2, param2 := 0, param3 := 0 }
      1 2 initStatics [1, 0] rfl).1 rfl (by simp),
   (stereo_widener (DSPProcessor.new : DSPProcessor ℚ)
      { type := EffectType.STEREO_WIDENER, mix := 1, param1 := 2, param2 := 0, param3 := 0 }
      2 1 initStatics [1, 0] rfl).2 (by decide)⟩

end DSPProcessor
namespace DSPProcessor

variable {α : Type} [LinearOrderedField α]

theorem delayReadIndex_eq (di : Nat) (d : Int) (h0 : 0 ≤ d) (h1 : d ≤ 44100)
    (hdi : di < 44100) :
    delayReadIndex di d 44100 = (di + 44100 - d.toNat) % 44100 := by
  unfold delayReadIndex sizeModulus
  have hx : ((d.toNat : Nat) : Int) = d := Int.toNat_of_nonneg h0
  have hcast : (di : Int) - d + ((44100 : Nat) : Int) = ((di + 44100 - d.toNat : Nat) : Int) := by
    omega
  have hin : ((di + 44100 - d.toNat : Nat) : Int) % (2 ^ 64 : Int) =
      ((di + 44100 - d.toNat : Nat) : Int) :=
    Int.emod_eq_of_lt (by omega) (by norm_num; omega)
  rw [hcast, hin]
  norm_cast

/-- The delay loop with an effective delay of `e` samples, `1 ≤ e ≤ 44100`: sample `i`
gets mixed with the input `e` positions earlier in this buffer, or, for `i < e`, with the
content the delay line had before the call at position `(delayIndex + i - e) mod 44100`. -/
theorem delay_loop (effect : EffectParams α) (d : Int) (e count : Nat)
    (st0 : DSPStatics α) (buf0 : List α)
    (he1 : 1 ≤ e) (he2 : e ≤ 44100)
    (hr : ∀ di, di < 44100 → delayReadIndex di d 44100 = (di + 44100 - e) % 44100)
    (hdb : st0.delayBuffer.length = 44100) (hdi : st0.delayIndex < 44100)
    (hlen : count ≤ buf0.length) :
    ∃ u, forLoop count (delaySample effect d) (st0, buf0) = some u ∧
      u.2.length = buf0.length ∧
      u.1.delayBuffer.length = 44100 ∧
      u.1.delayIndex = (st0.delayIndex + count) % 44100 ∧
      u.1.filterHistory = st0.filterHistory ∧ u.1.reverbBuffer = st0.reverbBuffer ∧
      u.1.reverbIndex = st0.reverbIndex ∧
      (∀ i, count ≤ i → u.2[i]? = buf0[i]?) ∧
      (∀ i x, i < count → buf0[i]? = some x →
        ∃ dl, (if e ≤ i then buf0[i - e]?
               else st0.delayBuffer[(st0.delayIndex + i + 44100 - e) % 44100]?) = some dl ∧
          u.2[i]? = some (x + dl * effect.mix)) ∧
      (∀ m, m < count → count ≤ m + 44100 →
        u.1.delayBuffer[(st0.delayIndex + m) % 44100]? = buf0[m]?) ∧
      (∀ j, (∀ m, m < count → (st0.delayIndex + m) % 44100 ≠ j) →
        u.1.delayBuffer[j]? = st0.delayBuffer[j]?) := by
  apply forLoop_invariant (fun k (t : DSPStatics α × List α) =>
      t.2.length = buf0.length ∧
      t.1.delayBuffer.length = 44100 ∧
      t.1.delayIndex = (st0.delayIndex + k) % 44100 ∧
      t.1.filterHistory = st0.filterHistory ∧ t.1.reverbBuffer = st0.reverbBuffer ∧
      t.1.reverbIndex = st0.reverbIndex ∧
      (∀ i, k ≤ i → t.2[i]? = buf0[i]?) ∧
      (∀ i x, i < k → buf0[i]? = some x →
        ∃ dl, (if e ≤ i then buf0[i - e]?
               else st0.delayBuffer[(st0.delayIndex + i + 44100 - e) % 44100]?) = some dl ∧
          t.2[i]? = some (x + dl * effect.mix)) ∧
      (∀ m, m < k → k ≤ m + 44100 →
        t.1.delayBuffer[(st0.delayIndex + m) % 44100]? = buf0[m]?) ∧
      (∀ j, (∀ m, m < k → (st0.delayIndex + m) % 44100 ≠ j) →
        t.1.delayBuffer[j]? = st0.delayBuffer[j]?))
  · refine ⟨rfl, hdb, ?_, rfl, rfl, rfl, fun _ _ => rfl, ?_, ?_, fun _ _ => rfl⟩
    · simp only [Nat.add_zero]
      exact (Nat.mod_eq_of_lt hdi).symm
    · intro i x hi
      exact absurd hi (Nat.not_lt_zero i)
    · intro m hm
      exact absurd hm (Nat.not_lt_zero m)
  · intro k t hk ⟨hl, hdl, hidx, hf, hrb, hri, hrest, hdone, hA, hB⟩
    have hk2 : k < t.2.length := by omega
    have hkb : k < buf0.length := by omega
    have hdik : t.1.delayIndex < 44100 := by rw [hidx]; exact Nat.mod_lt _ (by norm_num)
    have hread : delayReadIndex t.1.delayIndex d t.1.delayBuffer.length =
        (t.1.delayIndex + 44100 - e) % 44100 := by
      rw [hdl]
      exact hr _ hdik
    have hxk : t.2[k]? = some buf0[k] := by
      rw [hrest k (le_refl _)]
      exact List.getElem?_eq_getElem hkb
    -- the delayed sample
    have hdelayed : ∃ dl,
        (if e ≤ k then buf0[k - e]?
         else st0.delayBuffer[(st0.delayIndex + k + 44100 - e) % 44100]?) = some dl ∧
        t.1.delayBuffer[(t.1.delayIndex + 44100 - e) % 44100]? = some dl := by
      by_cases hek : e ≤ k
      · have hm : k - e < buf0.length := by omega
        refine ⟨buf0[k - e], ?_, ?_⟩
        · rw [if_pos hek]
          exact List.getElem?_eq_getElem hm
        · have hpos : (t.1.delayIndex + 44100 - e) % 44100 =
              (st0.delayIndex + (k - e)) % 44100 := by
            rw [hidx]
            omega
          rw [hpos, hA (k - e) (by omega) (by omega)]
          exact List.getElem?_eq_getElem hm
      · have hpos : (t.1.delayIndex + 44100 - e) % 44100 =
            (st0.delayIndex + k + 44100 - e) % 44100 := by
          rw [hidx]
          omega
        have hj : (st0.delayIndex + k + 44100 - e) % 44100 < st0.delayBuffer.length := by
          rw [hdb]
          exact Nat.mod_lt _ (by norm_num)
        refine ⟨st0.delayBuffer[(st0.delayIndex + k + 44100 - e) % 44100], ?_, ?_⟩
        · rw [if_neg hek]
          exact List.getElem?_eq_getElem hj
        · rw [hpos, hB _ (by intro m hm; omega)]
          exact List.getElem?_eq_getElem hj
    obtain ⟨dl, hdl1, hdl2⟩ := hdelayed
    have hwrite : t.1.delayIndex < t.1.delayBuffer.length := by omega
    refine ⟨_, by simp only [delaySample, hread, hdl2, hxk, Option.bind_eq_bind,
      Option.some_bind, if_pos hwrite]; rfl, ?_⟩
    refine ⟨by simp [hl], by simp [hdl], ?_, hf, hrb, hri, ?_, ?_, ?_, ?_⟩
    · simp only [List.length_set, hdl, hidx]
      omega
    · intro i hi
      simp only
      rw [List.getElem?_set_ne (by omega)]
      exact hrest i (by omega)
    · intro i x hi hx
      simp only
      rcases Nat.lt_or_ge i k with hlt | hge
      · rw [List.getElem?_set_ne (by omega)]
        exact hdone i x hlt hx
      · have hik : i = k := by omega
        subst hik
        have hxx : buf0[i] = x := by
          rw [List.getElem?_eq_getElem hkb] at hx
          exact Option.some.inj hx
        refine ⟨dl, hdl1, ?_⟩
        rw [List.getElem?_set_self hk2, hxx]
    · intro m hm hmk
      simp only
      rcases Nat.lt_or_ge m k with hlt | hge
      · rw [List.getElem?_set_ne (by rw [hidx]; omega)]
        exact hA m hlt (by omega)
      · have hmk2 : m = k := by omega
        subst hmk2
        rw [← hidx, List.getElem?_set_self hwrite]
        exact (List.getElem?_eq_getElem hkb).symm
    · intro j hj
      simp only
      rw [List.getElem?_set_ne (by rw [hidx]; exact hj k (Nat.lt_succ_self k))]
      exact hB j (fun m hm => hj m (Nat.lt_succ_of_lt hm))

theorem truncToInt_of_nonneg [FloorRing α] (x : α) (h : 0 ≤ x) : truncToInt x = ⌊x⌋ := by
  simp only [truncToInt, if_pos h]

theorem delayReadIndex_effective (d : Int) (h0 : 0 ≤ d) (h1 : d ≤ 44100) (di : Nat)
    (hdi : di < 44100) :
    delayReadIndex di d 44100 =
      (di + 44100 - (if d = 0 then 44100 else d.toNat)) % 44100 := by
  rw [delayReadIndex_eq di d h0 h1 hdi]
  split_ifs with hd
  · subst hd
    simp
  · rfl

end DSPProcessor

/-! ## Audio engine -/

namespace AudioEngine

variable {α : Type} [LinearOrderedField α]

theorem fillZero_spec (buffer : List α) (count : Nat) (h : count ≤ buffer.length) :
    ∃ out, fillZero buffer count = some out ∧ out.length = buffer.length ∧
      (∀ i, i < count → out[i]? = some 0) ∧ (∀ i, count ≤ i → out[i]? = buffer[i]?) := by
  refine ⟨List.replicate count 0 ++ buffer.drop count, by simp [fillZero, h], ?_, ?_, ?_⟩
  · simp
    omega
  · intro i hi
    rw [List.getElem?_append_left (by simpa using hi)]
    simp [List.getElem?_replicate, hi]
  · intro i hi
    rw [List.getElem?_append_right (by simpa using hi)]
    simp
    congr 1
    omega

theorem copy_loop (e : AudioEngine α) (count : Nat) (output : List α)
    (h1 : count ≤ e.audioBuffer.length) (h2 : count ≤ output.length) :
    ∃ out, forLoop count (copySample e) output = some out ∧ out.length = output.length ∧
      (∀ i, i < count → ∃ x, e.audioBuffer[i]? = some x ∧ out[i]? = some (x * e.volume)) ∧
      (∀ i, count ≤ i → out[i]? = output[i]?) := by
  apply forLoop_invariant (fun k (t : List α) => t.length = output.length ∧
    (∀ i, i < k → ∃ x, e.audioBuffer[i]? = some x ∧ t[i]? = some (x * e.volume)) ∧
    (∀ i, k ≤ i → t[i]? = output[i]?))
  · exact ⟨rfl, fun i hi => absurd hi (Nat.not_lt_zero i), fun _ _ => rfl⟩
  · intro k t hk ⟨hl, hdone, hrest⟩
    have hb : k < e.audioBuffer.length := by omega
    have ht : k < t.length := by omega
    refine ⟨t.set k (e.audioBuffer[k] * e.volume), by simp only [copySample,
      List.getElem?_eq_getElem hb, Option.bind_eq_bind, Option.some_bind, if_pos ht],
      by simp [hl], ?_, ?_⟩
    · intro i hi
      rcases Nat.lt_or_ge i k with hlt | hge
      · rw [List.getElem?_set_ne (by omega)]
        exact hdone i hlt
      · have hik : i = k := by omega
        subst hik
        exact ⟨e.audioBuffer[i], List.getElem?_eq_getElem hb, List.getElem?_set_self ht⟩
    · intro i hi
      rw [List.getElem?_set_ne (by omega)]
      exact hrest i (by omega)

theorem silence_loop (start count : Nat) (output : List α)
    (h : start + count ≤ output.length) :
    ∃ out, forLoop count (fun j t => silenceSample (start + j) t) output = some out ∧
      out.length = output.length ∧
      (∀ i, i < start → out[i]? = output[i]?) ∧
      (∀ i, start ≤ i → i < start + count → out[i]? = some 0) ∧
      (∀ i, start + count ≤ i → out[i]? = output[i]?) := by
  apply forLoop_invariant (fun k (t : List α) => t.length = output.length ∧
    (∀ i, i < start → t[i]? = output[i]?) ∧
    (∀ i, start ≤ i → i < start + k → t[i]? = some 0) ∧
    (∀ i, start + k ≤ i → t[i]? = output[i]?))
  · exact ⟨rfl, fun _ _ => rfl, fun i h1 h2 => by omega, fun _ _ => rfl⟩
  · intro k t hk ⟨hl, hlow, hdone, hrest⟩
    have ht : start + k < t.length := by omega
    have hz : (0.0 : α) = 0 := by norm_num
    refine ⟨t.set (start + k) 0, by simp only [silenceSample, if_pos ht, hz], by simp [hl],
      ?_, ?_, ?_⟩
    · intro i hi
      rw [List.getElem?_set_ne (by omega)]
      exact hlow i hi
    · intro i h1 h2
      rcases Nat.lt_or_ge i (start + k) with hlt | hge
      · rw [List.getElem?_set_ne (by omega)]
        exact hdone i h1 hlt
      · have hik : i = start + k := by omega
        subst hik
        exact List.getElem?_set_self ht
    · intro i hi
      rw [List.getElem?_set_ne (by omega)]
      exact hrest i (by omega)

/-- C19. The render callback fills the whole output: with a channel count `c ≥ 1` and an
output buffer that holds the `numFrames * c` samples, `onAudioReady` succeeds, returns
`Continue`, keeps the output length and touches no sample past `numFrames * c`; when the
engine is not playing or the published buffer is empty every one of the `numFrames * c`
samples is 0; otherwise, with `k = min numFrames (len / c) * c`, which does not exceed the
length of the published buffer, `output[i] = buffer[i] * volume` for `i < k` and
`output[i] = 0` for `k ≤ i < numFrames * c`. -/
theorem onAudioReady_fills (e : AudioEngine α) (audioData : List α) (numFrames c : Nat)
    (hc : e.channelCount = (c : Int)) (hc1 : 1 ≤ c)
    (hlen : numFrames * c ≤ audioData.length) :
    ∃ out, onAudioReady e audioData numFrames = some (out, DataCallbackResult.Continue) ∧
      out.length = audioData.length ∧
      (∀ i, numFrames * c ≤ i → out[i]? = audioData[i]?) ∧
      ((e.isPlaying = false ∨ e.audioBuffer = []) →
        ∀ i, i < numFrames * c → out[i]? = some 0) ∧
      (e.isPlaying = true → e.audioBuffer ≠ [] →
        min numFrames (e.audioBuffer.length / c) * c ≤ e.audioBuffer.length ∧
        (∀ i, i < min numFrames (e.audioBuffer.length / c) * c →
          ∃ x, e.audioBuffer[i]? = some x ∧ out[i]? = some (x * e.volume)) ∧
        (∀ i, min numFrames (e.audioBuffer.length / c) * c ≤ i → i < numFrames * c →
          out[i]? = some 0)) := by
  have hcpos : (0 : Int) < (c : Int) := by exact_mod_cast hc1
  have hne : (c : Int) ≠ 0 := hcpos.ne'
  have htot : ((numFrames : Int) * (c : Int)).toNat = numFrames * c := by
    rw [← Nat.cast_mul, Int.toNat_natCast]
  have hk : min numFrames (e.audioBuffer.length / c) * c ≤ e.audioBuffer.length :=
    le_trans (Nat.mul_le_mul_right c (min_le_right _ _)) (Nat.div_mul_le_self _ _)
  have hkn : min numFrames (e.audioBuffer.length / c) * c ≤ numFrames * c :=
    Nat.mul_le_mul_right c (min_le_left _ _)
  by_cases hsil : (!e.isPlaying || e.audioBuffer.isEmpty) = true
  · obtain ⟨out, hout, hl, hz, hrest⟩ := fillZero_spec audioData (numFrames * c) hlen
    refine ⟨out, ?_, hl, hrest, fun _ => hz, ?_⟩
    · simp only [onAudioReady, hsil, if_true, hc, htot, hout, Option.map_some']
    · intro hp hb
      exfalso
      simp only [Bool.or_eq_true, Bool.not_eq_true', List.isEmpty_iff] at hsil
      rcases hsil with h | h
      · rw [hp] at h
        exact Bool.noConfusion h
      · exact hb h
  · have hcopy : ((((min numFrames (e.audioBuffer.length / c) : Nat) : Int)) * (c : Int)).toNat =
        min numFrames (e.audioBuffer.length / c) * c := by
      rw [← Nat.cast_mul, Int.toNat_natCast]
    obtain ⟨out1, hout1, hl1, hdone1, hrest1⟩ := copy_loop e
      (min numFrames (e.audioBuffer.length / c) * c) audioData hk (by omega)
    obtain ⟨out2, hout2, hl2, hlow2, hzero2, hrest2⟩ := silence_loop
      (min numFrames (e.audioBuffer.length / c) * c)
      (numFrames * c - min numFrames (e.audioBuffer.length / c) * c) out1 (by omega)
    have hadd : min numFrames (e.audioBuffer.length / c) * c +
        (numFrames * c - min numFrames (e.audioBuffer.length / c) * c) = numFrames * c := by
      omega
    rw [hadd] at hzero2 hrest2
    refine ⟨out2, ?_, by omega, ?_, ?_, ?_⟩
    · simp only [onAudioReady, hsil, hc, if_neg hne, if_pos hcpos, Int.toNat_natCast, htot,
        hcopy, hout1, hout2, Option.some_bind, Option.map_some', Bool.false_eq_true, if_false]
    · intro i hi
      rw [hrest2 i hi, hrest1 i (by omega)]
    · intro h
      exfalso
      apply hsil
      simp only [Bool.or_eq_true, Bool.not_eq_true', List.isEmpty_iff]
      exact h
    · intro _ _
      refine ⟨hk, ?_, hzero2⟩
      intro i hi
      obtain ⟨x, hx, hxo⟩ := hdone1 i hi
      exact ⟨x, hx, by rw [hlow2 i hi, hxo]⟩

/-- An instance of C19: a playing stereo engine at volume 1/2 with three published
samples, asked for two frames. -/
theorem onAudioReady_fills_witness :
    ∃ out, onAudioReady
        ({ (AudioEngine.new : AudioEngine ℚ) with
            audioBuffer := [1, 2, 3], volume := 1 / 2, isPlaying := true } : AudioEngine ℚ)
        [9, 9, 9, 9] 2 = some (out, DataCallbackResult.Continue) ∧
      out.length = [(9 : ℚ), 9, 9, 9].length ∧
      (∀ i, 2 * 2 ≤ i → out[i]? = [(9 : ℚ), 9, 9, 9][i]?) ∧
      ((true = false ∨ [(1 : ℚ), 2, 3] = []) → ∀ i, i < 2 * 2 → out[i]? = some 0) ∧
      (true = true → [(1 : ℚ), 2, 3] ≠ [] →
        min 2 ([(1 : ℚ), 2, 3].length / 2) * 2 ≤ [(1 : ℚ), 2, 3].length ∧
        (∀ i, i < min 2 ([(1 : ℚ), 2, 3].length / 2) * 2 →
          ∃ x, [(1 : ℚ), 2, 3][i]? = some x ∧ out[i]? = some (x * (1 / 2))) ∧
        (∀ i, min 2 ([(1 : ℚ), 2, 3].length / 2) * 2 ≤ i → i < 2 * 2 → out[i]? = some 0)) :=
  onAudioReady_fills
    ({ (AudioEngine.new : AudioEngine ℚ) with
        audioBuffer := [1, 2, 3], volume := 1 / 2, isPlaying := true } : AudioEngine ℚ)
    [9, 9, 9, 9] 2 2 rfl (by decide) (by simp)

theorem stdClamp_unit (v : α) : stdClamp v 0.0 1.0 = min (max v 0) 1 := by
  have h0 : (0.0 : α) = 0 := by norm_num
  have h1 : (1.0 : α) = 1 := by norm_num
  rw [h0, h1]
  unfold stdClamp
  split_ifs with ha hb
  · rw [max_eq_right ha.le, min_eq_left zero_le_one]
  · rw [max_eq_left (not_lt.mp ha), min_eq_right hb.le]
  · rw [max_eq_left (not_lt.mp ha), min_eq_left (not_lt.mp hb)]

theorem unit_clamp_mem (v : α) : 0 ≤ min (max v 0) 1 ∧ min (max v 0) 1 ≤ 1 :=
  ⟨le_min (le_max_right _ _) zero_le_one, min_le_right _ _⟩

theorem exec_volume (op : EngineOp α) (e f : AudioEngine α) (h : exec op e = some f) :
    f.volume = e.volume ∨ ∃ v, f.volume = min (max v 0) 1 := by
  cases op <;> simp only [exec, Option.some.injEq, Option.map_eq_some'] at h
  case onAudioReady audioData numFrames =>
    obtain ⟨_, _, rfl⟩ := h
    exact Or.inl rfl
  case start openResult startResult =>
    subst h
    left
    simp only [start]
    split_ifs <;> rfl
  case stop =>
    subst h
    left
    simp only [stop]
    split_ifs
    · rfl
    · cases e.audioStream <;> rfl
  case pause =>
    subst h
    left
    simp only [pause]
    cases e.audioStream with
    | none => rfl
    | some stream =>
      simp only
      split_ifs <;> rfl
  case resume =>
    subst h
    left
    simp only [resume]
    cases e.audioStream with
    | none => rfl
    | some stream =>
      simp only
      split_ifs <;> rfl
  case setSampleRate sampleRate =>
    subst h
    left
    simp only [setSampleRate]
    cases e.audioStream <;> rfl
  case setChannelCount channelCount =>
    subst h
    exact Or.inl rfl
  case setAudioFormat format =>
    subst h
    exact Or.inl rfl
  case isHighResSupported =>
    subst h
    exact Or.inl rfl
  case enableHighRes enable =>
    subst h
    left
    simp only [enableHighRes]
    split_ifs <;> rfl
  case setVolume volume =>
    subst h
    right
    exact ⟨volume, stdClamp_unit volume⟩
  case setAudioData data =>
    subst h
    exact Or.inl rfl
  case clearAudioData =>
    subst h
    exact Or.inl rfl

theorem reachable_volume (e : AudioEngine α) (h : Reachable e) :
    0 ≤ e.volume ∧ e.volume ≤ 1 := by
  induction h with
  | init =>
    simp only [AudioEngine.new]
    norm_num
  | step op e f _ hexec ih =>
    rcases exec_volume op e f hexec with hv | ⟨v, hv⟩
    · rw [hv]
      exact ih
    · rw [hv]
      exact unit_clamp_mem v

/-- C18. Volume is clamped: after `setVolume v`, `getVolume` returns `min (max v 0) 1`
and every other member of the engine is as before; the constructor sets the volume to 1;
hence in every state reachable from construction by public operations the volume lies in
`[0, 1]`. -/
theorem volume_clamped :
    (∀ (e : AudioEngine α) (v : α),
      getVolume (setVolume e v) = min (max v 0) 1 ∧
      setVolume e v = { e with volume := min (max v 0) 1 }) ∧
    (AudioEngine.new : AudioEngine α).volume = 1 ∧
    (∀ e : AudioEngine α, Reachable e → 0 ≤ e.volume ∧ e.volume ≤ 1) := by
  refine ⟨?_, ?_, reachable_volume⟩
  · intro e v
    simp only [getVolume, setVolume, stdClamp_unit, and_self]
  · simp only [AudioEngine.new]
    norm_num

/-- An instance of C18: the state reached by `setVolume 3` from construction has its
volume in `[0, 1]`. -/
theorem volume_clamped_witness :
    0 ≤ (setVolume (AudioEngine.new : AudioEngine ℚ) 3).volume ∧
    (setVolume (AudioEngine.new : AudioEngine ℚ) 3).volume ≤ 1 :=
  (volume_clamped (α := ℚ)).2.2 (setVolume AudioEngine.new 3)
    (Reachable.step (EngineOp.setVolume 3) AudioEngine.new _ Reachable.init rfl)

/-- C20, at the failing inputs. From construction, `start` (both library calls
succeeding), then `pause`, then `stop`: `stop` finds `isPlaying` false and returns at
once, so the engine still holds the stream it opened. The same happens when `start` fails
at `requestStart`: the stream has been opened, `isPlaying` is false, and `stop` keeps the
stream. In both cases `isPlaying` is false after `stop`. -/
theorem stop_keeps_paused_stream :
    (stop (pause (start (AudioEngine.new : AudioEngine ℚ) StreamResult.OK
        StreamResult.OK).1)).audioStream =
      some { channelCount := 2, format := AudioFormat.Float, sampleRate := 48000,
             calls := [StreamCall.requestStart, StreamCall.requestPause] } ∧
    (stop (pause (start (AudioEngine.new : AudioEngine ℚ) StreamResult.OK
        StreamResult.OK).1)).isPlaying = false ∧
    (stop (start (AudioEngine.new : AudioEngine ℚ) StreamResult.OK
        StreamResult.Error).1).audioStream =
      some { channelCount := 2, format := AudioFormat.Float, sampleRate := 48000,
             calls := [StreamCall.requestStart] } ∧
    (stop (start (AudioEngine.new : AudioEngine ℚ) StreamResult.OK
        StreamResult.Error).1).isPlaying = false := by
  refine ⟨?_, ?_, ?_, ?_⟩ <;> simp [stop, pause, start, AudioEngine.new]

end AudioEngine

/-! ## Visualizer: the analysis never faults on buffers of the constructed sizes -/

section VisualizerBuffers

variable {β : Type}

theorem stride_trip (d q : Nat) (hd : 0 < d) : (d * q - 0 + d - 1) / d = q := by
  have hc := Nat.mul_comm q d
  apply Nat.div_eq_of_lt_le
  · omega
  · have h1 : (q + 1) * d = q * d + d := Nat.succ_mul q d
    show d * q - 0 + d - 1 < (q + 1) * d
    omega

theorem Visualizer.bitReverse_some (n : Nat) (buffer : List β) (h : buffer.length = n) :
    ∃ b, forLoop n Visualizer.bitReverseStep buffer = some b ∧ b.length = n := by
  refine forLoop_invariant (fun _ (b : List β) => b.length = n) n _ buffer h ?_
  intro i t hi hI
  unfold Visualizer.bitReverseStep
  by_cases hj : Visualizer.reverseBits i < i
  · have h1 : i < t.length := by omega
    have h2 : Visualizer.reverseBits i < t.length := by omega
    refine ⟨(t.set i t[Visualizer.reverseBits i]).set (Visualizer.reverseBits i) t[i], ?_, ?_⟩
    · simp [hj, List.getElem?_eq_getElem h1, List.getElem?_eq_getElem h2]
    · simpa using hI
  · exact ⟨t, by simp [hj], hI⟩

theorem Visualizer.copy_waveform_some (w fftBuffer : List β) (hw : w.length = FFT_SIZE)
    (hb : fftBuffer.length = FFT_SIZE) :
    ∃ fb, forLoop FFT_SIZE
      (fun i fb => do
        let x ← w[i]?
        if i < fb.length then some (fb.set i x) else none)
      fftBuffer = some fb ∧ fb.length = FFT_SIZE := by
  refine forLoop_invariant (fun _ (fb : List β) => fb.length = FFT_SIZE) FFT_SIZE _ fftBuffer
    hb ?_
  intro i fb hi hI
  have h1 : i < w.length := by omega
  have h2 : i < fb.length := by omega
  refine ⟨fb.set i w[i], ?_, ?_⟩
  · simp [List.getElem?_eq_getElem h1, h2]
  · simpa using hI

end VisualizerBuffers

namespace Visualizer

variable {α : Type} [LinearOrderedField α]

theorem frame_index_lt (n c i ch : Nat) (hi : i < n) (hch : ch < c) : i * c + ch < n * c := by
  have h1 : (i + 1) * c ≤ n * c := Nat.mul_le_mul_right c hi
  rw [Nat.add_mul, Nat.one_mul] at h1
  omega

theorem applyWindow_some (m : SpectrumMath α) (v : Visualizer α) (buffer : List α)
    (h : buffer.length = FFT_SIZE) :
    ∃ b, applyWindow m v buffer = some b ∧ b.length = FFT_SIZE := by
  unfold applyWindow
  refine forLoop_invariant (fun _ b => b.length = FFT_SIZE) FFT_SIZE _ buffer h ?_
  intro i t hi hI
  have hlt : i < t.length := by omega
  refine ⟨t.set i (t[i] * windowValue m v.windowType i), ?_, ?_⟩
  · simp [List.getElem?_eq_getElem hlt]
  · simpa using hI

theorem butterfly_some (step pair : Nat) (wn : ComplexF α)
    (s : (List α × List (ComplexF α)) × ComplexF α)
    (h1 : pair + step < s.1.1.length) (h2 : pair + step < s.1.2.length) :
    ∃ t, butterfly step pair wn s = some t ∧ t.1.1 = s.1.1 ∧
      t.1.2.length = s.1.2.length := by
  have hp1 : pair < s.1.1.length := by omega
  have hp2 : pair < s.1.2.length := by omega
  unfold butterfly
  simp only [List.getElem?_eq_getElem h1, List.getElem?_eq_getElem hp1, Option.bind_eq_bind,
    Option.some_bind, hp2, h2, and_self, if_true]
  exact ⟨_, rfl, rfl, by simp⟩

theorem fftStage_some (m : SpectrumMath α) (n step : Nat) (s : List α × List (ComplexF α))
    (hdvd : 2 * step ∣ n) (hpos : 0 < step) (hb : s.1.length = n) (ho : s.2.length = n) :
    ∃ t, fftStage m n step s = some t ∧ t.1.length = n ∧ t.2.length = n := by
  obtain ⟨q, hq⟩ := hdvd
  have htrip : (n - 0 + 2 * step - 1) / (2 * step) = q := by
    rw [hq]
    exact stride_trip (2 * step) q (by omega)
  have hgroups : ∃ t, forLoopStride 0 n (2 * step)
      (fun group s =>
        (forLoop step
          (fun k t => butterfly step (group + k)
            { re := m.cos (-m.pi / (step : α)), im := m.sin (-m.pi / (step : α)) } t)
          (s, ({ re := 1.0, im := 0.0 } : ComplexF α))).map Prod.fst) s = some t ∧
      t.1 = s.1 ∧ t.2.length = n := by
    unfold forLoopStride
    rw [htrip]
    refine forLoop_invariant
      (fun _ (t : List α × List (ComplexF α)) => t.1 = s.1 ∧ t.2.length = n) q _ s
      ⟨rfl, ho⟩ ?_
    intro g t hg hI
    have hgroup : 0 + g * (2 * step) + 2 * step ≤ n := by
      have h1 : (g + 1) * (2 * step) ≤ q * (2 * step) := Nat.mul_le_mul_right _ hg
      rw [Nat.add_mul, Nat.one_mul] at h1
      rw [hq, Nat.mul_comm (2 * step) q]
      omega
    obtain ⟨u, hu, hIu⟩ := forLoop_invariant
      (fun _ (u : (List α × List (ComplexF α)) × ComplexF α) =>
        u.1.1 = s.1 ∧ u.1.2.length = n) step
      (fun k t => butterfly step (0 + g * (2 * step) + k)
        { re := m.cos (-m.pi / (step : α)), im := m.sin (-m.pi / (step : α)) } t)
      (t, ({ re := 1.0, im := 0.0 } : ComplexF α)) ⟨hI.1, hI.2⟩
      (by
        intro k u hk hIk
        obtain ⟨w, hw, hw1, hw2⟩ := butterfly_some step (0 + g * (2 * step) + k)
          { re := m.cos (-m.pi / (step : α)), im := m.sin (-m.pi / (step : α)) } u
          (by rw [hIk.1, hb]; omega) (by rw [hIk.2]; omega)
        exact ⟨w, hw, by rw [hw1]; exact hIk.1, by rw [hw2]; exact hIk.2⟩)
    exact ⟨u.1, by beta_reduce; rw [hu]; rfl, hIu⟩
  obtain ⟨t, ht, ht1, ht2⟩ := hgroups
  obtain ⟨fb, hfb, hfbl⟩ := forLoop_invariant (fun _ (fb : List α) => fb.length = n) n
    (fun i fb => do
      let z ← t.2[i]?
      if i < fb.length then some (fb.set i z.re) else none)
    t.1 (by rw [ht1]; exact hb)
    (by
      intro i fb hi hI
      have h1 : i < t.2.length := by omega
      have h2 : i < fb.length := by omega
      refine ⟨fb.set i t.2[i].re, ?_, ?_⟩
      · simp [List.getElem?_eq_getElem h1, h2]
      · simpa using hI)
  refine ⟨(fb, t.2), ?_, hfbl, ht2⟩
  unfold fftStage
  simp only [Option.bind_eq_bind] at hfb ⊢
  rw [ht]
  simp only [Option.some_bind]
  rw [hfb]
  rfl

theorem fftStages_some (m : SpectrumMath α) (fuel : Nat) :
    ∀ (k : Nat) (s : List α × List (ComplexF α)), 11 ≤ k + fuel →
      s.1.length = FFT_SIZE → s.2.length = FFT_SIZE →
      ∃ t, fftStages m FFT_SIZE fuel (2 ^ k) s = some t ∧
        t.1.length = FFT_SIZE ∧ t.2.length = FFT_SIZE := by
  induction fuel with
  | zero =>
    intro k s hk hb ho
    have hge : ¬ 2 ^ k < FFT_SIZE := by
      have h1 : 2 ^ 11 ≤ 2 ^ k := Nat.pow_le_pow_right (by decide) (by omega)
      have h2 : FFT_SIZE = 2 ^ 11 := by decide
      omega
    exact ⟨s, by simp [fftStages, hge], hb, ho⟩
  | succ fuel ih =>
    intro k s hk hb ho
    by_cases hlt : 2 ^ k < FFT_SIZE
    · have hk11 : k < 11 := by
        by_contra hcon
        have h1 : 2 ^ 11 ≤ 2 ^ k := Nat.pow_le_pow_right (by decide) (by omega)
        have h2 : FFT_SIZE = 2 ^ 11 := by decide
        omega
      have hdvd : 2 * 2 ^ k ∣ FFT_SIZE := by
        have h2 : FFT_SIZE = 2 ^ 11 := by decide
        rw [h2, ← pow_succ']
        exact pow_dvd_pow 2 (by omega)
      obtain ⟨t, ht, ht1, ht2⟩ := fftStage_some m FFT_SIZE (2 ^ k) s hdvd (by positivity) hb ho
      obtain ⟨u, hu, hu1, hu2⟩ := ih (k + 1) t (by omega) ht1 ht2
      refine ⟨u, ?_, hu1, hu2⟩
      have hshift : (2 ^ k) <<< 1 = 2 ^ (k + 1) := by
        rw [Nat.shiftLeft_eq, pow_one, pow_succ]
      simp only [fftStages, hlt, if_true, Option.bind_eq_bind]
      rw [ht]
      simp only [Option.some_bind]
      rw [hshift]
      exact hu
    · exact ⟨s, by simp [fftStages, hlt], hb, ho⟩

theorem bandMagnitude_some (m : SpectrumMath α) (fftBuffer : List α) (band : Nat)
    (h : fftBuffer.length = FFT_SIZE) : ∃ x, bandMagnitude m fftBuffer band = some x := by
  unfold bandMagnitude
  obtain ⟨x, hx, _⟩ := forLoop_invariant (fun _ (_ : α) => True)
    (min (band * (FFT_SIZE / 2 / SPECTRUM_BANDS) + FFT_SIZE / 2 / SPECTRUM_BANDS)
      (FFT_SIZE / 2) - band * (FFT_SIZE / 2 / SPECTRUM_BANDS))
    (fun k magnitude => do
      let bin := band * (FFT_SIZE / 2 / SPECTRUM_BANDS) + k
      let real ← fftBuffer[bin]?
      let imag ← if bin < FFT_SIZE / 2 then fftBuffer[bin + FFT_SIZE / 2]? else some 0.0
      let mag := m.sqrt (real * real + imag * imag)
      some (max magnitude mag))
    (0.0 : α) trivial
    (by
      intro k t hk _
      have hbin : band * (FFT_SIZE / 2 / SPECTRUM_BANDS) + k < FFT_SIZE / 2 := by omega
      have hhalf : FFT_SIZE / 2 + FFT_SIZE / 2 = FFT_SIZE := by decide
      have h1 : band * (FFT_SIZE / 2 / SPECTRUM_BANDS) + k < fftBuffer.length := by omega
      have h2 : band * (FFT_SIZE / 2 / SPECTRUM_BANDS) + k + FFT_SIZE / 2 < fftBuffer.length := by
        omega
      beta_reduce
      simp only [Option.bind_eq_bind, List.getElem?_eq_getElem h1, Option.some_bind, hbin,
        if_true, List.getElem?_eq_getElem h2, and_true]
      exact ⟨_, rfl⟩)
  exact ⟨x, hx⟩

theorem calculateSpectrum_some (m : SpectrumMath α) (v : Visualizer α)
    (h : v.fftBuffer.length = FFT_SIZE) :
    ∃ sp, calculateSpectrum m v = some { v with spectrum := sp } := by
  unfold calculateSpectrum
  obtain ⟨t, ht, sp, hsp⟩ := foldlM_invariant
    (fun (t : Visualizer α) => ∃ sp, t = { v with spectrum := sp })
    (fun v (band : Fin SPECTRUM_BANDS) => do
      let magnitude ← bandMagnitude m v.fftBuffer band.val
      let db := 20.0 * m.log10 (magnitude + 1e-10)
      let db := stdClamp db (-60.0) 0.0
      let value := v.smoothing * v.spectrum band + (1.0 - v.smoothing) * (db + 60.0) / 60.0
      some { v with spectrum := Function.update v.spectrum band value })
    (List.finRange SPECTRUM_BANDS) v ⟨v.spectrum, rfl⟩
    (by
      intro band _ t ht
      obtain ⟨sp, rfl⟩ := ht
      obtain ⟨x, hx⟩ := bandMagnitude_some m v.fftBuffer band.val h
      beta_reduce
      simp only [Option.bind_eq_bind, hx, Option.some_bind]
      exact ⟨_, rfl, _, rfl⟩)
  exact ⟨sp, by rw [ht, hsp]⟩

theorem performFFT_some (m : SpectrumMath α) (v : Visualizer α)
    (hb : v.fftBuffer.length = FFT_SIZE) (ho : v.fftOutput.length = FFT_SIZE) :
    ∃ sp fb fo, performFFT m v = some { v with spectrum := sp, fftBuffer := fb, fftOutput := fo } ∧
      fb.length = FFT_SIZE ∧ fo.length = FFT_SIZE := by
  obtain ⟨w, hw, hwl⟩ := applyWindow_some m v v.fftBuffer hb
  obtain ⟨p, hp, hpl⟩ := bitReverse_some FFT_SIZE w hwl
  obtain ⟨s, hs, hs1, hs2⟩ := fftStages_some m FFT_SIZE 0 (p, v.fftOutput) (by decide) hpl ho
  obtain ⟨sp, hsp⟩ := calculateSpectrum_some m { v with fftBuffer := s.1, fftOutput := s.2 } hs1
  refine ⟨sp, s.1, s.2, ?_, hs1, hs2⟩
  unfold performFFT
  simp only [Option.bind_eq_bind]
  rw [hw]
  simp only [Option.some_bind]
  rw [hp]
  simp only [Option.some_bind]
  rw [pow_zero] at hs
  rw [hs]
  simp only [Option.some_bind]
  rw [hsp]

theorem channelSum_some (input : List α) (n c i : Nat) (hi : i < n)
    (hin : n * c ≤ input.length) :
    ∃ x, forLoop c
      (fun ch sample => do
        let x ← input[i * c + ch]?
        some (sample + x))
      (0.0 : α) = some x := by
  obtain ⟨x, hx, _⟩ := forLoop_invariant (fun _ (_ : α) => True) c
    (fun ch sample => do
      let x ← input[i * c + ch]?
      some (sample + x))
    (0.0 : α) trivial
    (by
      intro ch t hch _
      have h1 : i * c + ch < input.length := by
        have := frame_index_lt n c i ch hi hch
        omega
      beta_reduce
      simp only [Option.bind_eq_bind, List.getElem?_eq_getElem h1, Option.some_bind, and_true]
      exact ⟨_, rfl⟩)
  exact ⟨x, hx⟩

theorem waveform_loop_some (input : List α) (n c : Nat) (waveform : List α) (idx : Nat)
    (hw : waveform.length = FFT_SIZE) (hidx : idx < FFT_SIZE) (hin : n * c ≤ input.length) :
    ∃ w, forLoop (min n FFT_SIZE) (waveformFrame input c) (waveform, idx) = some w ∧
      w.1.length = FFT_SIZE ∧ w.2 < FFT_SIZE := by
  refine forLoop_invariant
    (fun _ (w : List α × Nat) => w.1.length = FFT_SIZE ∧ w.2 < FFT_SIZE)
    (min n FFT_SIZE) _ (waveform, idx) ⟨hw, hidx⟩ ?_
  intro i t hi hI
  obtain ⟨x, hx⟩ := channelSum_some input n c i (by omega) hin
  have hlt : t.2 < t.1.length := by omega
  refine ⟨(t.1.set t.2 (x / (c : α)), (t.2 + 1) % FFT_SIZE), ?_, ?_, ?_⟩
  · unfold waveformFrame
    simp only [Option.bind_eq_bind] at hx ⊢
    rw [hx]
    simp only [Option.some_bind, hlt, if_true]
  · simpa using hI.1
  · exact Nat.mod_lt _ (by decide)

theorem updatePeaksFrame_some (buffer : List α) (n c i : Nat) (acc : PeakAcc α) (hi : i < n)
    (hin : n * c ≤ buffer.length) :
    ∃ acc1, updatePeaksFrame buffer c i acc = some acc1 := by
  have hsum : ∀ a : PeakAcc α, ∃ a1, forLoop c
      (fun ch a => do
        let x ← buffer[i * c + ch]?
        some { a with sum := a.sum + x * x })
      a = some a1 := by
    intro a
    obtain ⟨a1, ha1, _⟩ := forLoop_invariant (fun _ (_ : PeakAcc α) => True) c
      (fun ch a => do
        let x ← buffer[i * c + ch]?
        some { a with sum := a.sum + x * x })
      a trivial
      (by
        intro ch t hch _
        have h1 : i * c + ch < buffer.length := by
          have := frame_index_lt n c i ch hi hch
          omega
        beta_reduce
        simp only [Option.bind_eq_bind, List.getElem?_eq_getElem h1, Option.some_bind,
          and_true]
        exact ⟨_, rfl⟩)
    exact ⟨a1, ha1⟩
  unfold updatePeaksFrame
  by_cases h1 : 1 ≤ c
  · have hl : i * c < buffer.length := by
      have := frame_index_lt n c i 0 hi (by omega)
      omega
    by_cases h2 : 2 ≤ c
    · have hr : i * c + 1 < buffer.length := by
        have := frame_index_lt n c i 1 hi (by omega)
        omega
      simp only [h1, h2, if_true, Option.bind_eq_bind, List.getElem?_eq_getElem hl,
        List.getElem?_eq_getElem hr, Option.some_bind]
      exact hsum _
    · simp only [h1, h2, if_true, if_false, Option.bind_eq_bind,
        List.getElem?_eq_getElem hl, Option.some_bind]
      exact hsum _
  · have h2 : ¬ 2 ≤ c := by omega
    simp only [h1, h2, if_false, Option.bind_eq_bind, Option.some_bind]
    exact hsum _

theorem updatePeaks_loop_some (buffer : List α) (n c : Nat) (hin : n * c ≤ buffer.length) :
    ∃ acc, forLoop n (updatePeaksFrame buffer c)
      ({ leftMax := 0.0, rightMax := 0.0, sum := 0.0 } : PeakAcc α) = some acc := by
  obtain ⟨acc, hacc, _⟩ := forLoop_invariant (fun _ (_ : PeakAcc α) => True) n
    (updatePeaksFrame buffer c) { leftMax := 0.0, rightMax := 0.0, sum := 0.0 } trivial
    (by
      intro i t hi _
      obtain ⟨a, ha⟩ := updatePeaksFrame_some buffer n c i t hi hin
      exact ⟨a, ha, trivial⟩)
  exact ⟨acc, hacc⟩

/-- An enabled analyzer whose three vectors have the constructed size, on an input that
holds `n * c` samples: no step of `processAudio` faults; the peaks and the RMS are those
computed by `updatePeaks` from the accumulators of its frame loop, the waveform and the
write index are those left by the waveform loop, and the vectors keep their size. -/
theorem processAudio_run (m : SpectrumMath α) (v : Visualizer α) (st : VisualizerStatics)
    (input : List α) (n c : Nat) (hen : v.enabled = true)
    (hw : v.waveform.length = FFT_SIZE) (hb : v.fftBuffer.length = FFT_SIZE)
    (ho : v.fftOutput.length = FFT_SIZE) (hidx : st.waveformIndex < FFT_SIZE)
    (hin : n * c ≤ input.length) :
    ∃ acc w sp fb fo,
      forLoop n (updatePeaksFrame input c)
        ({ leftMax := 0.0, rightMax := 0.0, sum := 0.0 } : PeakAcc α) = some acc ∧
      forLoop (min n FFT_SIZE) (waveformFrame input c) (v.waveform, st.waveformIndex) =
        some w ∧
      w.1.length = FFT_SIZE ∧ w.2 < FFT_SIZE ∧ fb.length = FFT_SIZE ∧
      fo.length = FFT_SIZE ∧
      processAudio m v st input n c =
        some ({ v with
                leftPeak := 0.95 * v.leftPeak + (1.0 - 0.95) * acc.leftMax,
                rightPeak := 0.95 * v.rightPeak + (1.0 - 0.95) * acc.rightMax,
                rms := m.sqrt (acc.sum / ((n * c : Nat) : α)),
                waveform := w.1, spectrum := sp, fftBuffer := fb, fftOutput := fo },
              { waveformIndex := w.2 }) := by
  obtain ⟨acc, hacc⟩ := updatePeaks_loop_some input n c hin
  obtain ⟨w, hwv, hw1, hw2⟩ := waveform_loop_some input n c v.waveform st.waveformIndex hw
    hidx hin
  obtain ⟨fb0, hfb0, hfb0l⟩ := copy_waveform_some w.1 v.fftBuffer hw1 hb
  obtain ⟨sp, fb, fo, hfft, hfbl, hfol⟩ := performFFT_some m
    { v with
      leftPeak := 0.95 * v.leftPeak + (1.0 - 0.95) * acc.leftMax,
      rightPeak := 0.95 * v.rightPeak + (1.0 - 0.95) * acc.rightMax,
      rms := m.sqrt (acc.sum / ((n * c : Nat) : α)),
      waveform := w.1, fftBuffer := fb0 } hfb0l ho
  refine ⟨acc, w, sp, fb, fo, hacc, hwv, hw1, hw2, hfbl, hfol, ?_⟩
  unfold processAudio updatePeaks
  simp only [hen, Bool.not_true, Bool.false_eq_true, if_false, Option.bind_eq_bind] at hfb0 ⊢
  rw [hacc]
  simp only [Option.some_bind]
  rw [hwv]
  simp only [Option.some_bind]
  rw [hfb0]
  simp only [Option.some_bind]
  simp only [hen] at hfft
  rw [hfft]
  rfl

end Visualizer

/-! ## Zero round-trip -/

namespace DSPProcessor

variable {α : Type} [LinearOrderedField α]

theorem preampLimiterSample_new_zero :
    (DSPProcessor.new : DSPProcessor α).preampLimiterSample 0 = 0 := by
  simp [preampLimiterSample, DSPProcessor.new]

theorem processAudio_new_zero [FloorRing α] (m : MathLib α) (st : DSPStatics α)
    (input output : List α) (n c : Nat) (hzero : ∀ x ∈ input, x = 0)
    (hin : n * c ≤ input.length) (hout : n * c ≤ output.length) :
    ∃ r, processAudio m DSPProcessor.new st input output n c = some r ∧
      r.output.length = output.length ∧
      ∀ i, i < n * c → r.output[i]? = some 0 := by
  have hg := growTo_length_ge (DSPProcessor.new : DSPProcessor α).tempBuffer (n * c)
  have hcopy := stdCopy_eq_some input (growTo (DSPProcessor.new : DSPProcessor α).tempBuffer
    (n * c)) (n * c) hin hg
  have hlen1 : n * c ≤ (input.take (n * c) ++
      (growTo (DSPProcessor.new : DSPProcessor α).tempBuffer (n * c)).drop (n * c)).length := by
    simp
    omega
  obtain ⟨limited, hlim, hliml, hlimv⟩ := applyPreampAndLimiter_getElem?
    (DSPProcessor.new : DSPProcessor α) _ n c hlen1
  have hcopy2 := stdCopy_eq_some limited output (n * c) (by omega) hout
  refine ⟨{ processor := { (DSPProcessor.new : DSPProcessor α) with tempBuffer := limited },
            statics := st, input := input,
            output := limited.take (n * c) ++ output.drop (n * c) }, ?_, ?_, ?_⟩
  · unfold processAudio
    simp only [Option.bind_eq_bind]
    rw [hcopy]
    simp only [Option.some_bind]
    have hf : ∀ s, applyFilters m (DSPProcessor.new : DSPProcessor α) n c s = some s :=
      fun _ => rfl
    have he : ∀ s, applyEffects (DSPProcessor.new : DSPProcessor α) n c s = some s :=
      fun _ => rfl
    rw [hf]
    simp only [Option.some_bind]
    rw [he]
    simp only [Option.some_bind]
    rw [hlim]
    simp only [Option.some_bind]
    rw [hcopy2]
    rfl
  · simp
    omega
  · intro i hi
    have hi1 : i < input.length := by omega
    rw [List.getElem?_append_left (by simp; omega), List.getElem?_take_of_lt hi, hlimv i hi,
      List.getElem?_append_left (by simp; omega), List.getElem?_take_of_lt hi,
      List.getElem?_eq_getElem hi1, hzero _ (List.getElem_mem hi1)]
    simp only [Option.map_some', preampLimiterSample_new_zero]

end DSPProcessor

namespace Visualizer

variable {α : Type} [LinearOrderedField α]

theorem updatePeaksFrame_zero (buffer : List α) (n c i : Nat) (hi : i < n)
    (hz : ∀ j, j < n * c → buffer[j]? = some 0) :
    updatePeaksFrame buffer c i ({ leftMax := 0.0, rightMax := 0.0, sum := 0.0 } : PeakAcc α) =
      some { leftMax := 0.0, rightMax := 0.0, sum := 0.0 } := by
  have h00 : (0.0 : α) = 0 := by norm_num
  have hsum : forLoop c
      (fun ch a => do
        let x ← buffer[i * c + ch]?
        some { a with sum := a.sum + x * x })
      ({ leftMax := 0.0, rightMax := 0.0, sum := 0.0 } : PeakAcc α) =
        some { leftMax := 0.0, rightMax := 0.0, sum := 0.0 } := by
    obtain ⟨a1, ha1, hI⟩ := forLoop_invariant
      (fun _ (a : PeakAcc α) => a = { leftMax := 0.0, rightMax := 0.0, sum := 0.0 }) c
      (fun ch a => do
        let x ← buffer[i * c + ch]?
        some { a with sum := a.sum + x * x })
      { leftMax := 0.0, rightMax := 0.0, sum := 0.0 } rfl
      (by
        intro ch t hch ht
        beta_reduce
        simp only [Option.bind_eq_bind, hz _ (frame_index_lt n c i ch hi hch),
          Option.some_bind, ht, h00, mul_zero, add_zero]
        exact ⟨_, rfl, rfl⟩)
    rw [ha1, hI]
  unfold updatePeaksFrame
  by_cases h1 : 1 ≤ c
  · have hl : buffer[i * c]? = some 0 := hz _ (frame_index_lt n c i 0 hi (by omega))
    by_cases h2 : 2 ≤ c
    · have hr : buffer[i * c + 1]? = some 0 := hz _ (frame_index_lt n c i 1 hi (by omega))
      simp only [h1, h2, if_true, Option.bind_eq_bind, hl, hr, Option.some_bind, abs_zero,
        h00, max_self] at hsum ⊢
      exact hsum
    · simp only [h1, h2, if_true, if_false, Option.bind_eq_bind, hl, Option.some_bind,
        abs_zero, h00, max_self] at hsum ⊢
      exact hsum
  · have h2 : ¬ 2 ≤ c := by omega
    simp only [h1, h2, if_false, Option.bind_eq_bind, Option.some_bind] at hsum ⊢
    exact hsum

theorem updatePeaks_loop_zero (buffer : List α) (n c : Nat)
    (hz : ∀ j, j < n * c → buffer[j]? = some 0) :
    forLoop n (updatePeaksFrame buffer c)
      ({ leftMax := 0.0, rightMax := 0.0, sum := 0.0 } : PeakAcc α) =
      some { leftMax := 0.0, rightMax := 0.0, sum := 0.0 } := by
  obtain ⟨a, ha, hI⟩ := forLoop_invariant
    (fun _ (a : PeakAcc α) => a = { leftMax := 0.0, rightMax := 0.0, sum := 0.0 }) n
    (updatePeaksFrame buffer c) { leftMax := 0.0, rightMax := 0.0, sum := 0.0 } rfl
    (by
      intro i t hi ht
      rw [ht]
      exact ⟨_, updatePeaksFrame_zero buffer n c i hi hz, rfl⟩)
  rw [ha, hI]

end Visualizer

section RoundTrip

variable {α : Type} [LinearOrderedField α]

/-- C17. Zero round-trip: the freshly constructed processor (no filters, no effects,
preamp 1.0, threshold 0.95, ratio 10) on an all-zero input of `n ≥ 1` frames and
`c ∈ {1, 2}` channels succeeds and writes `n * c` zeros; the freshly constructed analyzer,
once enabled, processes that output without faulting, and afterwards `getLeftPeak`,
`getRightPeak` and `getRMS` all return 0. The divisor `n * c` of the RMS is not zero, and
the library square root is only required to map 0 to 0. -/
theorem zero_round_trip [FloorRing α] (m : SpectrumMath α) (st : DSPStatics α)
    (vst : VisualizerStatics) (input output : List α) (n c : Nat)
    (hn : 1 ≤ n) (hc : c = 1 ∨ c = 2) (hsqrt : m.sqrt 0 = 0)
    (hidx : vst.waveformIndex < FFT_SIZE) (hzero : ∀ x ∈ input, x = 0)
    (hin : n * c ≤ input.length) (hout : n * c ≤ output.length) :
    ∃ r, DSPProcessor.processAudio m.toMathLib DSPProcessor.new st input output n c = some r ∧
      (∀ i, i < n * c → r.output[i]? = some 0) ∧
      ((n * c : Nat) : α) ≠ 0 ∧
      ∃ v vst1,
        Visualizer.processAudio m (Visualizer.setEnabled Visualizer.new true) vst r.output n c =
          some (v, vst1) ∧
        v.getLeftPeak = 0 ∧ v.getRightPeak = 0 ∧ v.getRMS = 0 := by
  obtain ⟨r, hr, hrl, hrz⟩ := DSPProcessor.processAudio_new_zero m.toMathLib st input output
    n c hzero hin hout
  have hnc : 1 ≤ n * c := by
    rcases hc with rfl | rfl <;> omega
  obtain ⟨acc, w, sp, fb, fo, hacc, _, _, _, _, _, hrun⟩ := Visualizer.processAudio_run m
    (Visualizer.setEnabled (Visualizer.new : Visualizer α) true) vst r.output n c rfl
    (by simp [Visualizer.setEnabled, Visualizer.new])
    (by simp [Visualizer.setEnabled, Visualizer.new])
    (by simp [Visualizer.setEnabled, Visualizer.new]) hidx (by omega)
  rw [Visualizer.updatePeaks_loop_zero r.output n c hrz] at hacc
  have hacc1 := (Option.some.inj hacc).symm
  refine ⟨r, hr, hrz, ?_, _, _, hrun, ?_, ?_, ?_⟩
  · exact Nat.cast_ne_zero.mpr (by omega)
  · simp only [Visualizer.getLeftPeak, hacc1, Visualizer.setEnabled, Visualizer.new]
    norm_num
  · simp only [Visualizer.getRightPeak, hacc1, Visualizer.setEnabled, Visualizer.new]
    norm_num
  · simp only [Visualizer.getRMS, hacc1]
    have h00 : (0.0 : α) = 0 := by norm_num
    rw [h00, zero_div]
    exact hsqrt

/-- An instance of C17: one stereo frame of zeros, over the reals with the exact square
root. -/
theorem zero_round_trip_witness :
    ∃ r, DSPProcessor.processAudio realSpectrumMath.toMathLib DSPProcessor.new
        DSPProcessor.initStatics ([0, 0] : List ℝ) [1, 1] 1 2 = some r ∧
      (∀ i, i < 1 * 2 → r.output[i]? = some 0) ∧
      ((1 * 2 : Nat) : ℝ) ≠ 0 ∧
      ∃ v vst1,
        Visualizer.processAudio realSpectrumMath
          (Visualizer.setEnabled Visualizer.new true) Visualizer.initStatics r.output 1 2 =
          some (v, vst1) ∧
        v.getLeftPeak = 0 ∧ v.getRightPeak = 0 ∧ v.getRMS = 0 :=
  zero_round_trip realSpectrumMath DSPProcessor.initStatics Visualizer.initStatics [0, 0] [1, 1]
    1 2 (by decide) (Or.inr rfl) Real.sqrt_zero (by decide) (by simp) (by simp) (by simp)

end RoundTrip

/-! ## Pause and resume -/

namespace AudioEngine

variable {α : Type}

theorem pause_of_not_playing (e : AudioEngine α) (h : e.isPlaying = false) : pause e = e := by
  unfold pause
  cases hs : e.audioStream with
  | none => rfl
  | some stream => simp [h]

theorem resume_of_playing (e : AudioEngine α) (h : e.isPlaying = true) : resume e = e := by
  unfold resume
  cases hs : e.audioStream with
  | none => rfl
  | some stream => simp [h]

theorem pause_isPlaying (e : AudioEngine α) : (pause e).isPlaying = false ∨ pause e = e := by
  unfold pause
  cases hs : e.audioStream with
  | none => exact Or.inr rfl
  | some stream =>
    cases hp : e.isPlaying with
    | false => exact Or.inr (by simp)
    | true => exact Or.inl (by simp)

theorem resume_isPlaying (e : AudioEngine α) :
    (resume e).isPlaying = true ∨ (resume e).audioStream = none := by
  unfold resume
  cases hs : e.audioStream with
  | none => exact Or.inr hs
  | some stream =>
    cases hp : e.isPlaying with
    | false => exact Or.inl (by simp)
    | true => exact Or.inl (by simp [hp])

theorem resume_of_no_stream (e : AudioEngine α) (h : e.audioStream = none) : resume e = e := by
  unfold resume
  rw [h]

theorem pause_of_no_stream (e : AudioEngine α) (h : e.audioStream = none) : pause e = e := by
  unfold pause
  rw [h]

/-- C21. Pause and resume are idempotent: `pause` on an engine that is not playing and
`resume` on an engine that is playing return the engine state as it was, the stream and
the list of requests it has received included; hence `pause` after `pause` is `pause` and
`resume` after `resume` is `resume`, for every engine state. -/
theorem pause_resume_idempotent (e : AudioEngine α) :
    (e.isPlaying = false → pause e = e) ∧
    (e.isPlaying = true → resume e = e) ∧
    pause (pause e) = pause e ∧
    resume (resume e) = resume e := by
  refine ⟨pause_of_not_playing e, resume_of_playing e, ?_, ?_⟩
  · rcases pause_isPlaying e with h | h
    · exact pause_of_not_playing _ h
    · rw [h, h]
  · rcases resume_isPlaying e with h | h
    · exact resume_of_playing _ h
    · exact resume_of_no_stream _ h

/-- An instance of C21: the engine started and then paused is not playing, and a second
`pause` leaves it as it is, with the two requests `requestStart`, `requestPause` on its
stream. -/
theorem pause_resume_idempotent_witness :
    (pause (start (AudioEngine.new : AudioEngine ℚ) StreamResult.OK
        StreamResult.OK).1).isPlaying = false ∧
    pause (pause (start (AudioEngine.new : AudioEngine ℚ) StreamResult.OK StreamResult.OK).1) =
      pause (start (AudioEngine.new : AudioEngine ℚ) StreamResult.OK StreamResult.OK).1 ∧
    (pause (pause (start (AudioEngine.new : AudioEngine ℚ) StreamResult.OK
        StreamResult.OK).1)).audioStream =
      some { channelCount := 2, format := AudioFormat.Float, sampleRate := 48000,
             calls := [StreamCall.requestStart, StreamCall.requestPause] } :=
  ⟨by simp [pause, start, AudioEngine.new],
   (pause_resume_idempotent
      (pause (start (AudioEngine.new : AudioEngine ℚ) StreamResult.OK StreamResult.OK).1)).1
      (by simp [pause, start, AudioEngine.new]),
   by simp [pause, start, AudioEngine.new]⟩

end AudioEngine
/-! ## Disabled analyzer -/

namespace Visualizer

variable {α : Type} [LinearOrderedField α]

/-- C22. Disabled analyzer is idle: with `enabled = false`, `processAudio` returns at once,
for every input buffer, frame count and channel count, without fault: the object and the
static write index are those it was given, so the spectrum, the waveform buffer, the write
index, both peaks and the RMS are unchanged; the freshly constructed analyzer is in this
case. -/
theorem processAudio_disabled (m : SpectrumMath α) (v : Visualizer α)
    (st : VisualizerStatics) (input : List α) (numFrames numChannels : Nat) :
    (v.enabled = false →
      processAudio m v st input numFrames numChannels = some (v, st) ∧
      ∀ r, processAudio m v st input numFrames numChannels = some r →
        r.1.spectrum = v.spectrum ∧ r.1.waveform = v.waveform ∧
        r.2.waveformIndex = st.waveformIndex ∧ r.1.leftPeak = v.leftPeak ∧
        r.1.rightPeak = v.rightPeak ∧ r.1.rms = v.rms) ∧
    (Visualizer.new : Visualizer α).enabled = false ∧
    processAudio m Visualizer.new st input numFrames numChannels =
      some (Visualizer.new, st) := by
  have key : ∀ w : Visualizer α, w.enabled = false →
      processAudio m w st input numFrames numChannels = some (w, st) := by
    intro w hw
    simp [processAudio, hw]
  refine ⟨?_, rfl, key _ rfl⟩
  intro hen
  refine ⟨key v hen, ?_⟩
  intro r hr
  rw [key v hen] at hr
  cases hr
  exact ⟨rfl, rfl, rfl, rfl, rfl, rfl⟩

/-- An instance of C22: the freshly constructed analyzer, over the rationals, given one
stereo frame. -/
theorem processAudio_disabled_witness :
    processAudio (α := ℚ)
        { pi := 3, sin := fun x => x, cos := fun _ => 1, sqrt := fun x => x,
          pow := fun x _ => x, log10 := fun x => x }
        Visualizer.new initStatics [1, -1] 1 2 = some (Visualizer.new, initStatics) ∧
    ∀ r, processAudio (α := ℚ)
        { pi := 3, sin := fun x => x, cos := fun _ => 1, sqrt := fun x => x,
          pow := fun x _ => x, log10 := fun x => x }
        Visualizer.new initStatics [1, -1] 1 2 = some r →
      r.1.spectrum = (Visualizer.new : Visualizer ℚ).spectrum ∧
      r.1.waveform = (Visualizer.new : Visualizer ℚ).waveform ∧
      r.2.waveformIndex = initStatics.waveformIndex ∧
      r.1.leftPeak = (Visualizer.new : Visualizer ℚ).leftPeak ∧
      r.1.rightPeak = (Visualizer.new : Visualizer ℚ).rightPeak ∧
      r.1.rms = (Visualizer.new : Visualizer ℚ).rms :=
  (processAudio_disabled
    ({ pi := 3, sin := fun x => x, cos := fun _ => 1, sqrt := fun x => x,
       pow := fun x _ => x, log10 := fun x => x } : SpectrumMath ℚ)
    Visualizer.new initStatics [1, -1] 1 2).1 rfl

end Visualizer
/-! ## Consistency of the graphic coefficient cache -/

namespace Equalizer

variable {α : Type} [LinearOrderedField α]

theorem graphic_frequency_split (i : Fin 10) :
    (GRAPHIC_EQ_FREQUENCIES i : α) < 1000.0 ↔ (i : Nat) < 5 := by
  have h : ∀ (k : Nat) (hk : k < 10), (GRAPHIC_EQ_FREQUENCIES ⟨k, hk⟩ : α) =
      [31.25, 62.5, 125.0, 250.0, 500.0, 1000.0, 2000.0, 4000.0, 8000.0, 16000.0].getD k 0 := by
    intro k hk
    interval_cases k <;> rfl
  obtain ⟨k, hk⟩ := i
  rw [h]
  interval_cases k <;> norm_num

theorem graphicBandCoeffs_cases (m : MathLib α) (eq : Equalizer α) (i : Fin 10) :
    graphicBandCoeffs m eq i =
      if |eq.graphicEQGains i| < 0.1 then
        { b0 := 1, b1 := 0, b2 := 0, a1 := 0, a2 := 0 }
      else if (i : Nat) < 5 then
        designLowShelf m eq (GRAPHIC_EQ_FREQUENCIES i) (eq.graphicEQGains i) 1.0
      else
        designHighShelf m eq (GRAPHIC_EQ_FREQUENCIES i) (eq.graphicEQGains i) 1.0 := by
  unfold graphicBandCoeffs
  simp only [graphic_frequency_split]
  split_ifs
  · norm_num
  · rfl
  · rfl

/-- C29. The graphic coefficient cache is always consistent: in every state reachable
from construction by public operations, the cached coefficients of band `i` are the
design for `GRAPHIC_EQ_FREQUENCIES[i]`, the current gain of the band and the current
sample rate: exactly `(1, 0, 0, 0, 0)` if the gain has magnitude below 0.1, otherwise the
low-shelf design for the bands with index 0..4 and the high-shelf design for the bands
with index 5..9; the bands with index 0..4 are those below 1000 Hz; and `setSampleRate`,
on any state, stores the new rate, keeps the gains and recomputes all ten entries for the
new rate. -/
theorem graphic_cache_consistent (m : MathLib α) :
    (∀ s : Equalizer α × EqStatics α, Reachable m s → ∀ i : Fin 10,
      s.1.graphicEQCoeffs i =
        if |s.1.graphicEQGains i| < 0.1 then
          { b0 := 1, b1 := 0, b2 := 0, a1 := 0, a2 := 0 }
        else if (i : Nat) < 5 then
          designLowShelf m s.1 (GRAPHIC_EQ_FREQUENCIES i) (s.1.graphicEQGains i) 1.0
        else
          designHighShelf m s.1 (GRAPHIC_EQ_FREQUENCIES i) (s.1.graphicEQGains i) 1.0) ∧
    (∀ i : Fin 10, (GRAPHIC_EQ_FREQUENCIES i : α) < 1000 ↔ (i : Nat) < 5) ∧
    (∀ (eq : Equalizer α) (sampleRate : Int),
      (setSampleRate m eq sampleRate).sampleRate = sampleRate ∧
      (setSampleRate m eq sampleRate).graphicEQGains = eq.graphicEQGains ∧
      ∀ i : Fin 10,
        (setSampleRate m eq sampleRate).graphicEQCoeffs i =
          if |eq.graphicEQGains i| < 0.1 then
            { b0 := 1, b1 := 0, b2 := 0, a1 := 0, a2 := 0 }
          else if (i : Nat) < 5 then
            (lowShelfRaw m (omega0 m sampleRate (GRAPHIC_EQ_FREQUENCIES i))
              (eq.graphicEQGains i)).normalize
          else
            (highShelfRaw m (omega0 m sampleRate (GRAPHIC_EQ_FREQUENCIES i))
              (eq.graphicEQGains i)).normalize) := by
  refine ⟨?_, ?_, ?_⟩
  · intro s hs i
    rw [← graphicBandCoeffs_cases]
    exact reachable_cacheConsistent m s hs i
  · intro i
    have h := graphic_frequency_split (α := α) i
    have h1000 : (1000.0 : α) = 1000 := by norm_num
    rw [h1000] at h
    exact h
  · intro eq sampleRate
    have hset : setSampleRate m eq sampleRate =
        { eq with sampleRate := sampleRate,
                  graphicEQCoeffs := fun i =>
                    graphicBandCoeffs m { eq with sampleRate := sampleRate } i } := by
      simp only [setSampleRate, updateParametricEQCoeffs, updateGraphicEQCoeffs_eq]
    rw [hset]
    refine ⟨rfl, rfl, ?_⟩
    intro i
    simp only [graphicBandCoeffs_cases, designLowShelf, designHighShelf]

/-- An instance of C29 away from the constructed state: after `setGraphicEQBand(2, 6)`,
`setGraphicEQBand(7, -3)` and `setSampleRate(44100)`, over the reals, band 2 holds the
low-shelf design for 6 dB and band 7 the high-shelf design for -3 dB, both for 44100 Hz,
and band 0, whose gain is 0, holds `(1, 0, 0, 0, 0)`. -/
theorem graphic_cache_consistent_witness :
    (setSampleRate realMath
      (setGraphicEQBand realMath (setGraphicEQBand realMath (Equalizer.new realMath) 2 6) 7 (-3))
      44100).graphicEQGains 2 = 6 ∧
    (setSampleRate realMath
      (setGraphicEQBand realMath (setGraphicEQBand realMath (Equalizer.new realMath) 2 6) 7 (-3))
      44100).graphicEQGains 7 = -3 ∧
    (setSampleRate realMath
      (setGraphicEQBand realMath (setGraphicEQBand realMath (Equalizer.new realMath) 2 6) 7 (-3))
      44100).sampleRate = 44100 ∧
    (setSampleRate realMath
      (setGraphicEQBand realMath (setGraphicEQBand realMath (Equalizer.new realMath) 2 6) 7 (-3))
      44100).graphicEQCoeffs 2 =
        (lowShelfRaw realMath (omega0 realMath 44100 (GRAPHIC_EQ_FREQUENCIES 2)) 6).normalize ∧
    (setSampleRate realMath
      (setGraphicEQBand realMath (setGraphicEQBand realMath (Equalizer.new realMath) 2 6) 7 (-3))
      44100).graphicEQCoeffs 7 =
        (highShelfRaw realMath (omega0 realMath 44100 (GRAPHIC_EQ_FREQUENCIES 7))
          (-3)).normalize ∧
    (setSampleRate realMath
      (setGraphicEQBand realMath (setGraphicEQBand realMath (Equalizer.new realMath) 2 6) 7 (-3))
      44100).graphicEQCoeffs 0 = { b0 := 1, b1 := 0, b2 := 0, a1 := 0, a2 := 0 } := by
  have hs : Reachable realMath
      (setSampleRate realMath
        (setGraphicEQBand realMath (setGraphicEQBand realMath (Equalizer.new realMath) 2 6) 7
          (-3)) 44100, initStatics) :=
    Reachable.step (EqOp.setSampleRate 44100) _ _
      (Reachable.step (EqOp.setGraphicEQBand 7 (-3)) _ _
        (Reachable.step (EqOp.setGraphicEQBand 2 6) _ _ Reachable.init rfl) rfl) rfl
  have h := (graphic_cache_consistent realMath).1 _ hs
  have hg2 : (setSampleRate realMath
      (setGraphicEQBand realMath (setGraphicEQBand realMath (Equalizer.new realMath) 2 6) 7 (-3))
      44100).graphicEQGains 2 = 6 := by
    simp [setSampleRate, setGraphicEQBand, updateGraphicEQCoeffs_eq, Equalizer.new,
      updateParametricEQCoeffs, Function.update, stdClamp]
    norm_num
  have hg7 : (setSampleRate realMath
      (setGraphicEQBand realMath (setGraphicEQBand realMath (Equalizer.new realMath) 2 6) 7 (-3))
      44100).graphicEQGains 7 = -3 := by
    simp [setSampleRate, setGraphicEQBand, updateGraphicEQCoeffs_eq, Equalizer.new,
      updateParametricEQCoeffs, Function.update, stdClamp]
    norm_num
  have hg0 : (setSampleRate realMath
      (setGraphicEQBand realMath (setGraphicEQBand realMath (Equalizer.new realMath) 2 6) 7 (-3))
      44100).graphicEQGains 0 = 0 := by
    simp [setSampleRate, setGraphicEQBand, updateGraphicEQCoeffs_eq, Equalizer.new,
      updateParametricEQCoeffs, Function.update]
    norm_num
  have hsr : (setSampleRate realMath
      (setGraphicEQBand realMath (setGraphicEQBand realMath (Equalizer.new realMath) 2 6) 7 (-3))
      44100).sampleRate = 44100 :=
    ((graphic_cache_consistent realMath).2.2 _ 44100).1
  have h2 := h 2
  have h7 := h 7
  have h0 := h 0
  simp only [hg2, hg7, hg0, designLowShelf, designHighShelf, hsr] at h2 h7 h0
  refine ⟨hg2, hg7, hsr, ?_, ?_, ?_⟩
  · rw [h2, if_neg (by norm_num), if_pos (by decide)]
  · rw [h7, if_neg (by norm_num), if_neg (by decide)]
  · rw [h0, if_pos (by norm_num)]

end Equalizer
/-! ## Channel counts above two -/

section LoopFaults

variable {σ : Type}

theorem forLoop_none_of_none (n k : Nat) (body : Nat → σ → Option σ) (s : σ) (hk : k ≤ n)
    (h : forLoop k body s = none) : forLoop n body s = none := by
  induction n with
  | zero =>
    have : k = 0 := by omega
    subst this
    exact h
  | succ j ih =>
    by_cases hkj : k ≤ j
    · rw [forLoop_succ, ih hkj]
      rfl
    · have : k = j + 1 := by omega
      subst this
      exact h

/-- A loop faults if one of its iterations faults on every state that satisfies an
invariant kept by the iterations before it. -/
theorem forLoop_none (I : σ → Prop) (n k : Nat) (body : Nat → σ → Option σ) (s : σ)
    (hk : k < n) (h0 : I s) (hpres : ∀ i t u, i < k → I t → body i t = some u → I u)
    (hfail : ∀ t, I t → body k t = none) : forLoop n body s = none := by
  have hpre : ∀ j, j ≤ k → forLoop j body s = none ∨ ∃ t, forLoop j body s = some t ∧ I t := by
    intro j
    induction j with
    | zero => exact fun _ => Or.inr ⟨s, forLoop_zero body s, h0⟩
    | succ i ih =>
      intro hi
      rcases ih (by omega) with hnone | ⟨t, ht, hIt⟩
      · left
        rw [forLoop_succ, hnone]
        rfl
      · rw [forLoop_succ, ht]
        cases hb : body i t with
        | none => exact Or.inl (by simp [hb])
        | some u => exact Or.inr ⟨u, by simp [hb], hpres i t u (by omega) hIt hb⟩
  apply forLoop_none_of_none n (k + 1) body s hk
  rw [forLoop_succ]
  rcases hpre k (le_refl k) with hnone | ⟨t, ht, hIt⟩
  · rw [hnone]
    rfl
  · rw [ht]
    exact hfail t hIt

end LoopFaults

section ChannelCount

variable {α : Type} [LinearOrderedField α]

theorem biquadSample_x1_length (co : FilterCoeffs α) (numChannels frame ch : Nat)
    (t u : BiquadHistory α × List α) (h : biquadSample co numChannels frame ch t = some u) :
    u.1.x1.length = t.1.x1.length := by
  unfold biquadSample at h
  simp only [Option.bind_eq_bind, Option.bind_eq_some] at h
  obtain ⟨x0, _, x1, _, x2, _, y1, _, y2, _, hu⟩ := h
  cases hu
  simp

theorem biquadSample_channel_two (co : FilterCoeffs α) (numChannels frame : Nat)
    (t : BiquadHistory α × List α) (h : t.1.x1.length = 2) :
    biquadSample co numChannels frame 2 t = none := by
  unfold biquadSample
  have hx : t.1.x1[2]? = none := List.getElem?_eq_none (by omega)
  cases hb : t.2[frame * numChannels + 2]? with
  | none => simp [hb]
  | some x0 => simp [hb, hx]

theorem biquadLoop_many_channels (co : FilterCoeffs α) (numFrames numChannels : Nat)
    (s : BiquadHistory α × List α) (hn : 1 ≤ numFrames) (hc : 3 ≤ numChannels)
    (h : s.1.x1.length = 2) : biquadLoop co numFrames numChannels s = none := by
  unfold biquadLoop
  apply forLoop_none (fun t : BiquadHistory α × List α => t.1.x1.length = 2) numFrames 0 _ s
    (by omega) h
  · intro i t u hi
    omega
  · intro t ht
    apply forLoop_none (fun t : BiquadHistory α × List α => t.1.x1.length = 2) numChannels 2 _
      t (by omega) ht
    · intro i v u _ hv hu
      rw [biquadSample_x1_length co numChannels 0 i v u hu]
      exact hv
    · intro v hv
      exact biquadSample_channel_two co numChannels 0 v hv

end ChannelCount

namespace DSPProcessor

variable {α : Type} [LinearOrderedField α]

/-- C27, at the failing inputs. The recurrence loop keeps the histories in vectors of two
entries: with three or more channels and at least one frame, whatever the coefficients,
the buffer and the contents of the histories, the loop indexes `x1` at channel 2 and
faults; so does `applyFilters` step for every filter of a designed kind (every kind but
`BAND_PASS`), in particular on the statics as they are at program start. -/
theorem filter_history_two_channels (m : MathLib α) (sampleRate : Int)
    (numFrames numChannels : Nat) (hn : 1 ≤ numFrames) (hc : 3 ≤ numChannels) :
    (∀ (co : FilterCoeffs α) (s : BiquadHistory α × List α), s.1.x1.length = 2 →
      biquadLoop co numFrames numChannels s = none) ∧
    (∀ (filter : FilterParams α) (s : BiquadHistory α × List α),
      filter.type ≠ FilterType.BAND_PASS → s.1.x1.length = 2 →
      applyFilter m sampleRate numFrames numChannels s filter = none) ∧
    (∀ (filter : FilterParams α) (buffer : List α),
      filter.type ≠ FilterType.BAND_PASS →
      applyFilter m sampleRate numFrames numChannels
        ((initStatics : DSPStatics α).filterHistory, buffer) filter = none) := by
  have hloop : ∀ (co : FilterCoeffs α) (s : BiquadHistory α × List α), s.1.x1.length = 2 →
      biquadLoop co numFrames numChannels s = none :=
    fun co s h => biquadLoop_many_channels co numFrames numChannels s hn hc h
  have hfilter : ∀ (filter : FilterParams α) (s : BiquadHistory α × List α),
      filter.type ≠ FilterType.BAND_PASS → s.1.x1.length = 2 →
      applyFilter m sampleRate numFrames numChannels s filter = none := by
    intro filter s ht hs
    unfold applyFilter designFilter
    cases hty : filter.type <;> simp only [hloop _ s hs]
    exact absurd hty ht
  exact ⟨hloop, hfilter, fun filter buffer ht => hfilter filter _ ht rfl⟩

/-- An instance of C27: a low-pass filter over the reals on one frame of three channels,
from the statics at program start. -/
theorem filter_history_two_channels_witness :
    applyFilter realMath 48000 1 3
      ((initStatics : DSPStatics ℝ).filterHistory, [1, 2, 3])
      { type := FilterType.LOW_PASS, frequency := 1000, q := 1, gain := 0 } = none :=
  (filter_history_two_channels realMath 48000 1 3 (le_refl 1) (le_refl 3)).2.2
    { type := FilterType.LOW_PASS, frequency := 1000, q := 1, gain := 0 } [1, 2, 3]
    (by decide)

end DSPProcessor
/-! ## Shared filter history -/

namespace DSPProcessor

theorem quarter_rate_lowpass :
    designFilter realMath 48000
      { type := FilterType.LOW_PASS, frequency := 12000, q := 1 / 2, gain := 0 } =
      some { b0 := 1 / 2, b1 := 1, b2 := 1 / 2, a0 := 2, a1 := 0, a2 := 0 } := by
  have hw : omega0 realMath 48000 (12000 : ℝ) = Real.pi / 2 := by
    simp only [omega0, realMath]
    push_cast
    ring
  simp only [designFilter, lowPassRaw]
  rw [hw]
  simp only [realMath, Real.sin_pi_div_two, Real.cos_pi_div_two]
  norm_num

theorem quarter_rate_lowpass_run (h1 h2 g1 g2 x0 : ℝ) :
    applyFilter realMath 48000 1 1
      ({ x1 := [h1, 0], x2 := [h2, 0], y1 := [g1, 0], y2 := [g2, 0] }, [x0])
      { type := FilterType.LOW_PASS, frequency := 12000, q := 1 / 2, gain := 0 } =
      some ({ x1 := [x0, 0], x2 := [h1, 0], y1 := [x0 / 4 + h1 / 2 + h2 / 4, 0],
              y2 := [g1, 0] },
            [x0 / 4 + h1 / 2 + h2 / 4]) := by
  simp only [applyFilter, quarter_rate_lowpass, biquadLoop, forLoop_succ, forLoop_zero,
    Option.some_bind, biquadSample, RawCoeffs.normalize, Option.bind_eq_bind]
  simp
  ring

/-- C26, at the failing input. The processor at 48 kHz with the same low-pass filter
(12 kHz, `Q = 1/2`, normalized coefficients `(1/4, 1/2, 1/4, 0, 0)`) in two slots, on the
mono buffer `(1)` from zero history: `applyFilters` gives `9/16`, because the second slot
starts from the history the first one left (`x1 = 1`); the second filter run with its own
zero history on the output `1/4` of the first gives `1/16`. -/
theorem filter_history_shared :
    applyFilters realMath
        (addFilter
          (addFilter (DSPProcessor.new : DSPProcessor ℝ)
            { type := FilterType.LOW_PASS, frequency := 12000, q := 1 / 2, gain := 0 })
          { type := FilterType.LOW_PASS, frequency := 12000, q := 1 / 2, gain := 0 })
        1 1 (BiquadHistory.init, [1]) =
      some ({ x1 := [1 / 4, 0], x2 := [1, 0], y1 := [9 / 16, 0], y2 := [1 / 4, 0] },
            [9 / 16]) ∧
    applyFilter realMath 48000 1 1 (BiquadHistory.init, [1])
        { type := FilterType.LOW_PASS, frequency := 12000, q := 1 / 2, gain := 0 } =
      some ({ x1 := [1, 0], x2 := [0, 0], y1 := [1 / 4, 0], y2 := [0, 0] }, [1 / 4]) ∧
    applyFilter realMath 48000 1 1 (BiquadHistory.init, [1 / 4])
        { type := FilterType.LOW_PASS, frequency := 12000, q := 1 / 2, gain := 0 } =
      some ({ x1 := [1 / 4, 0], x2 := [0, 0], y1 := [1 / 16, 0], y2 := [0, 0] }, [1 / 16]) ∧
    ([9 / 16] : List ℝ) ≠ [1 / 16] := by
  have h1 := quarter_rate_lowpass_run 0 0 0 0 1
  have h2 := quarter_rate_lowpass_run 1 0 (1 / 4) 0 (1 / 4)
  have h3 := quarter_rate_lowpass_run 0 0 0 0 (1 / 4)
  norm_num at h1 h2 h3
  refine ⟨?_, ?_, ?_, by norm_num⟩
  · simp only [applyFilters, addFilter, DSPProcessor.new, List.nil_append, List.cons_append,
      List.foldlM_cons, List.foldlM_nil, BiquadHistory.init]
    rw [h1]
    simp only [Option.bind_eq_bind, Option.some_bind]
    rw [h2]
    rfl
  · simpa [BiquadHistory.init] using h1
  · simpa [BiquadHistory.init] using h3

end DSPProcessor
/-! ## Shared delay line -/

namespace DSPProcessor

theorem one_sample_delay_run (st0 : DSPStatics ℚ) (x : ℚ)
    (hdb : st0.delayBuffer.length = 44100) (hdi : st0.delayIndex < 44100) :
    ∃ st1 dl, st0.delayBuffer[(st0.delayIndex + 44100 - 1) % 44100]? = some dl ∧
      applyEffect (DSPProcessor.new : DSPProcessor ℚ) 1 1 (st0, [x])
        { type := EffectType.DELAY, mix := 1, param1 := 1 / 48000, param2 := 0, param3 := 0 } =
        some (st1, [x + dl]) ∧
      st1.delayBuffer.length = 44100 ∧
      st1.delayIndex = (st0.delayIndex + 1) % 44100 ∧
      st1.delayBuffer[st0.delayIndex]? = some x := by
  have hd : truncToInt
      (({ type := EffectType.DELAY, mix := 1, param1 := 1 / 48000, param2 := 0,
          param3 := 0 } : EffectParams ℚ).param1 *
        (((DSPProcessor.new : DSPProcessor ℚ).sampleRate : Int) : ℚ)) = 1 := by
    have hfs : (((DSPProcessor.new : DSPProcessor ℚ).sampleRate : Int) : ℚ) = 48000 := by
      simp [DSPProcessor.new]
    rw [hfs, truncToInt_of_nonneg _ (by norm_num)]
    exact Int.floor_eq_iff.mpr ⟨by norm_num, by norm_num⟩
  obtain ⟨u, hu, hlen, hdbl, hidx, -, -, -, -, hout, hwr, -⟩ := delay_loop
    ({ type := EffectType.DELAY, mix := 1, param1 := 1 / 48000, param2 := 0,
       param3 := 0 } : EffectParams ℚ)
    1 1 1 st0 [x] (le_refl _) (by norm_num)
    (fun di hdi => by
      rw [delayReadIndex_effective 1 (by norm_num) (by norm_num) di hdi]
      simp)
    hdb hdi (by simp)
  obtain ⟨dl, hdl1, hdl2⟩ := hout 0 x (by norm_num) (by simp)
  rw [if_neg (by norm_num)] at hdl1
  have hu2 : u.2 = [x + dl] := by
    apply List.ext_getElem?
    intro i
    cases i with
    | zero => simpa using hdl2
    | succ j =>
      rw [List.getElem?_eq_none (by rw [hlen]; simp), List.getElem?_eq_none (by simp)]
  refine ⟨u.1, dl, by simpa using hdl1, ?_, hdbl, hidx, ?_⟩
  · simp only [applyEffect, hd, Nat.mul_one]
    rw [hu, ← hu2]
  · have := hwr 0 (by norm_num) (by norm_num)
    rw [Nat.add_zero, Nat.mod_eq_of_lt hdi] at this
    simpa using this

/-- C28, at the failing input. Two `DELAY` effects with a delay of one sample
(`param1 = 1/48000` at 48 kHz) and `mix = 1`, on the mono buffer `(1)`, from the zeroed
delay line at program start: the first effect writes its input into slot 0 of the one
delay line and leaves the buffer `(1)`; the second effect reads that slot as its delayed
sample, so `applyEffects` gives `(2)`. Each effect run on a zeroed line of its own gives
`(1)`. -/
theorem delay_line_shared :
    (∃ st, applyEffects
        (addEffect
          (addEffect (DSPProcessor.new : DSPProcessor ℚ)
            { type := EffectType.DELAY, mix := 1, param1 := 1 / 48000, param2 := 0,
              param3 := 0 })
          { type := EffectType.DELAY, mix := 1, param1 := 1 / 48000, param2 := 0,
            param3 := 0 })
        1 1 (initStatics, [1]) = some (st, [2])) ∧
    (∃ st, applyEffect (DSPProcessor.new : DSPProcessor ℚ) 1 1 (initStatics, [1])
        { type := EffectType.DELAY, mix := 1, param1 := 1 / 48000, param2 := 0, param3 := 0 } =
        some (st, [1])) ∧
    ([2] : List ℚ) ≠ [1] := by
  have hrep : (initStatics : DSPStatics ℚ).delayBuffer.length = 44100 := by
    simp only [initStatics, List.length_replicate]
  have hidx0 : (initStatics : DSPStatics ℚ).delayIndex = 0 := rfl
  have hzero : ∀ j, j < 44100 → (initStatics : DSPStatics ℚ).delayBuffer[j]? = some 0 := by
    intro j hj
    simp only [initStatics]
    rw [List.getElem?_replicate, if_pos hj]
  obtain ⟨st1, dl1, hdl1, hrun1, hlen1, hidx1, hw1⟩ :=
    one_sample_delay_run initStatics 1 hrep (by rw [hidx0]; norm_num)
  have hdl1z : dl1 = 0 := by
    rw [hzero _ (Nat.mod_lt _ (by norm_num))] at hdl1
    exact (Option.some.inj hdl1).symm
  rw [hdl1z, add_zero] at hrun1
  rw [hidx0] at hidx1 hw1
  obtain ⟨st2, dl2, hdl2, hrun2, -, -, -⟩ :=
    one_sample_delay_run st1 1 hlen1 (by rw [hidx1]; norm_num)
  have hdl2o : dl2 = 1 := by
    rw [hidx1] at hdl2
    norm_num at hdl2
    rw [hw1] at hdl2
    exact (Option.some.inj hdl2).symm
  rw [hdl2o] at hrun2
  norm_num at hrun2
  refine ⟨⟨st2, ?_⟩, ⟨st1, hrun1⟩, by norm_num⟩
  have hp : addEffect
      (addEffect (DSPProcessor.new : DSPProcessor ℚ)
        { type := EffectType.DELAY, mix := 1, param1 := 1 / 48000, param2 := 0, param3 := 0 })
      { type := EffectType.DELAY, mix := 1, param1 := 1 / 48000, param2 := 0, param3 := 0 } =
      { (DSPProcessor.new : DSPProcessor ℚ) with
        effects :=
          [{ type := EffectType.DELAY, mix := 1, param1 := 1 / 48000, param2 := 0,
             param3 := 0 },
           { type := EffectType.DELAY, mix := 1, param1 := 1 / 48000, param2 := 0,
             param3 := 0 }] } := rfl
  rw [hp, applyEffects_eq_foldlM]
  simp only [List.foldlM_cons, List.foldlM_nil, Option.bind_eq_bind]
  rw [hrun1]
  simp only [Option.some_bind]
  rw [hrun2]
  rfl

end DSPProcessor

/-! ## Visualizer: what one call of `processAudio` computes -/

section LoopLast

variable {σ : Type}

theorem forLoop_succ_some (n : Nat) (body : Nat → σ → Option σ) (s t : σ)
    (h : forLoop (n + 1) body s = some t) :
    ∃ u, forLoop n body s = some u ∧ body n u = some t := by
  rw [forLoop_succ] at h
  exact Option.bind_eq_some.mp h

end LoopLast

namespace Visualizer

variable {α : Type} [LinearOrderedField α]

theorem calculateSpectrum_step (m : SpectrumMath α) (v : Visualizer α)
    (band : Fin SPECTRUM_BANDS) (h : v.fftBuffer.length = FFT_SIZE) :
    (do
      let magnitude ← bandMagnitude m v.fftBuffer band.val
      let db := 20.0 * m.log10 (magnitude + 1e-10)
      let db := stdClamp db (-60.0) 0.0
      let value := v.smoothing * v.spectrum band + (1.0 - v.smoothing) * (db + 60.0) / 60.0
      some { v with spectrum := Function.update v.spectrum band value }) =
      some { v with
        spectrum := Function.update v.spectrum band
          (bandValue m v.smoothing (v.spectrum band)
            ((bandMagnitude m v.fftBuffer band.val).getD 0)) } := by
  obtain ⟨mag, hmag⟩ := bandMagnitude_some m v.fftBuffer band.val h
  simp only [Option.bind_eq_bind, hmag, Option.some_bind, Option.getD_some, bandValue]

theorem calculateSpectrum_fold (m : SpectrumMath α) (v0 : Visualizer α)
    (f : Visualizer α → Fin SPECTRUM_BANDS → Option (Visualizer α))
    (hf : ∀ (v : Visualizer α) (band : Fin SPECTRUM_BANDS), v.fftBuffer = v0.fftBuffer →
      f v band = some { v with
        spectrum := Function.update v.spectrum band
          (bandValue m v.smoothing (v.spectrum band)
            ((bandMagnitude m v.fftBuffer band.val).getD 0)) })
    (l : List (Fin SPECTRUM_BANDS)) :
    ∀ (sp : Fin SPECTRUM_BANDS → α), l.Nodup → (∀ b ∈ l, sp b = v0.spectrum b) →
      l.foldlM f { v0 with spectrum := sp } =
      some { v0 with
        spectrum := fun b =>
          if b ∈ l then
            bandValue m v0.smoothing (v0.spectrum b)
              ((bandMagnitude m v0.fftBuffer b.val).getD 0)
          else sp b } := by
  induction l with
  | nil =>
    intro sp _ _
    simp
  | cons x xs ih =>
    intro sp hnd hsp
    rw [List.foldlM_cons, hf { v0 with spectrum := sp } x rfl]
    simp only [Option.bind_eq_bind, Option.some_bind]
    have hx : x ∉ xs := (List.nodup_cons.mp hnd).1
    rw [ih _ (List.nodup_cons.mp hnd).2
      (fun b hb => by
        rw [Function.update_noteq (fun (hbx : b = x) => hx (hbx ▸ hb))]
        exact hsp b (List.mem_cons_of_mem _ hb))]
    congr 2
    funext b
    by_cases hbx : b = x
    · subst hbx
      simp only [List.mem_cons, true_or, if_true, hx, if_false, Function.update_same,
        hsp b (List.mem_cons_self _ _)]
    · simp only [List.mem_cons, hbx, false_or, Function.update_noteq hbx]

/-- The band loop of `calculateSpectrum` stores in every band the smoothed, normalized
level of the band magnitude, and touches no other member. -/
theorem calculateSpectrum_eq (m : SpectrumMath α) (v : Visualizer α)
    (h : v.fftBuffer.length = FFT_SIZE) :
    calculateSpectrum m v =
      some { v with
        spectrum := fun b =>
          bandValue m v.smoothing (v.spectrum b)
            ((bandMagnitude m v.fftBuffer b.val).getD 0) } := by
  unfold calculateSpectrum
  have hfold := calculateSpectrum_fold m v _
    (fun w band hw => calculateSpectrum_step m w band (by rw [hw]; exact h))
    (List.finRange SPECTRUM_BANDS) v.spectrum (List.nodup_finRange _) (fun _ _ => rfl)
  have hv : ({ v with spectrum := v.spectrum } : Visualizer α) = v := rfl
  rw [hv] at hfold
  rw [hfold]
  congr 2
  funext b
  simp only [List.mem_finRange, if_true]

theorem bandValue_mem (m : SpectrumMath α) (s old magnitude : α) (hs0 : 0 ≤ s) (hs1 : s ≤ 1)
    (h0 : 0 ≤ old) (h1 : old ≤ 1) :
    0 ≤ bandValue m s old magnitude ∧ bandValue m s old magnitude ≤ 1 := by
  have hc : ∀ x : α, -60 ≤ stdClamp x (-60.0) 0.0 ∧ stdClamp x (-60.0) 0.0 ≤ 0 := by
    intro x
    unfold stdClamp
    split_ifs with ha hb
    · norm_num
    · norm_num
    · exact ⟨by have := not_lt.mp ha; norm_num at this; exact this,
        by have := not_lt.mp hb; norm_num at this; exact this⟩
  obtain ⟨hc0, hc1⟩ := hc (20.0 * m.log10 (magnitude + 1e-10))
  unfold bandValue
  simp only
  set d := stdClamp (20.0 * m.log10 (magnitude + 1e-10)) (-60.0) 0.0 with hd
  have h60 : (60.0 : α) = 60 := by norm_num
  have h10 : (1.0 : α) = 1 := by norm_num
  rw [h60, h10]
  have hq0 : 0 ≤ (d + 60) / 60 := div_nonneg (by linarith) (by norm_num)
  have hq1 : (d + 60) / 60 ≤ 1 := by
    rw [div_le_one (by norm_num)]
    linarith
  have heq : s * old + (1 - s) * (d + 60) / 60 = s * old + (1 - s) * ((d + 60) / 60) := by
    ring
  rw [heq]
  constructor
  · have := mul_nonneg hs0 h0
    have := mul_nonneg (sub_nonneg.mpr hs1) hq0
    linarith
  · have ha : s * old ≤ s * 1 := mul_le_mul_of_nonneg_left h1 hs0
    have hb : (1 - s) * ((d + 60) / 60) ≤ (1 - s) * 1 :=
      mul_le_mul_of_nonneg_left hq1 (sub_nonneg.mpr hs1)
    linarith

theorem performFFT_spec (m : SpectrumMath α) (v : Visualizer α)
    (hb : v.fftBuffer.length = FFT_SIZE) (ho : v.fftOutput.length = FFT_SIZE) :
    ∃ fb fo, fb.length = FFT_SIZE ∧ fo.length = FFT_SIZE ∧
      performFFT m v =
        some { v with
          spectrum := fun b =>
            bandValue m v.smoothing (v.spectrum b) ((bandMagnitude m fb b.val).getD 0),
          fftBuffer := fb, fftOutput := fo } := by
  obtain ⟨w, hw, hwl⟩ := applyWindow_some m v v.fftBuffer hb
  obtain ⟨p, hp, hpl⟩ := bitReverse_some FFT_SIZE w hwl
  obtain ⟨s, hs, hs1, hs2⟩ := fftStages_some m FFT_SIZE 0 (p, v.fftOutput) (by decide) hpl ho
  refine ⟨s.1, s.2, hs1, hs2, ?_⟩
  unfold performFFT
  simp only [Option.bind_eq_bind]
  rw [hw]
  simp only [Option.some_bind]
  rw [hp]
  simp only [Option.some_bind]
  rw [pow_zero] at hs
  rw [hs]
  simp only [Option.some_bind]
  rw [calculateSpectrum_eq m _ hs1]

/-- An enabled analyzer of the constructed sizes, on an input that holds `n * c` samples:
`processAudio` succeeds; peaks and RMS come from the accumulators of the frame loop of
`updatePeaks`, waveform and write index from the waveform loop, and every spectrum band is
the smoothed, normalized level of the band magnitude of the transformed buffer. -/
theorem processAudio_spec (m : SpectrumMath α) (v : Visualizer α) (st : VisualizerStatics)
    (input : List α) (n c : Nat) (hen : v.enabled = true) (hok : SizesOK (v, st))
    (hin : n * c ≤ input.length) :
    ∃ acc w fb fo,
      forLoop n (updatePeaksFrame input c)
        ({ leftMax := 0.0, rightMax := 0.0, sum := 0.0 } : PeakAcc α) = some acc ∧
      forLoop (min n FFT_SIZE) (waveformFrame input c) (v.waveform, st.waveformIndex) =
        some w ∧
      w.1.length = FFT_SIZE ∧ w.2 < FFT_SIZE ∧ fb.length = FFT_SIZE ∧
      fo.length = FFT_SIZE ∧
      processAudio m v st input n c =
        some ({ v with
                leftPeak := 0.95 * v.leftPeak + (1.0 - 0.95) * acc.leftMax,
                rightPeak := 0.95 * v.rightPeak + (1.0 - 0.95) * acc.rightMax,
                rms := m.sqrt (acc.sum / ((n * c : Nat) : α)),
                waveform := w.1,
                spectrum := fun b =>
                  bandValue m v.smoothing (v.spectrum b)
                    ((bandMagnitude m fb b.val).getD 0),
                fftBuffer := fb, fftOutput := fo },
              { waveformIndex := w.2 }) := by
  obtain ⟨hw, hb, ho, hidx⟩ := hok
  obtain ⟨acc, hacc⟩ := updatePeaks_loop_some input n c hin
  obtain ⟨w, hwv, hw1, hw2⟩ := waveform_loop_some input n c v.waveform st.waveformIndex hw
    hidx hin
  obtain ⟨fb0, hfb0, hfb0l⟩ := copy_waveform_some w.1 v.fftBuffer hw1 hb
  obtain ⟨fb, fo, hfbl, hfol, hfft⟩ := performFFT_spec m
    { v with
      leftPeak := 0.95 * v.leftPeak + (1.0 - 0.95) * acc.leftMax,
      rightPeak := 0.95 * v.rightPeak + (1.0 - 0.95) * acc.rightMax,
      rms := m.sqrt (acc.sum / ((n * c : Nat) : α)),
      waveform := w.1, fftBuffer := fb0 } hfb0l ho
  refine ⟨acc, w, fb, fo, hacc, hwv, hw1, hw2, hfbl, hfol, ?_⟩
  unfold processAudio updatePeaks
  simp only [hen, Bool.not_true, Bool.false_eq_true, if_false, Option.bind_eq_bind] at hfb0 ⊢
  rw [hacc]
  simp only [Option.some_bind]
  rw [hwv]
  simp only [Option.some_bind]
  rw [hfb0]
  simp only [Option.some_bind]
  simp only [hen] at hfft
  rw [hfft]
  rfl

theorem updatePeaksFrame_reads (buffer : List α) (c i : Nat) (acc a : PeakAcc α)
    (h : updatePeaksFrame buffer (c + 1) i acc = some a) :
    i * (c + 1) + c < buffer.length := by
  have hsum : ∀ a2 : PeakAcc α,
      forLoop (c + 1)
        (fun ch a => do
          let x ← buffer[i * (c + 1) + ch]?
          some { a with sum := a.sum + x * x })
        a2 = some a → i * (c + 1) + c < buffer.length := by
    intro a2 h3
    obtain ⟨u, _, hu⟩ := forLoop_succ_some c _ a2 a h3
    simp only [Option.bind_eq_bind, Option.bind_eq_some] at hu
    obtain ⟨x, hx, _⟩ := hu
    exact (List.getElem?_eq_some.mp hx).1
  unfold updatePeaksFrame at h
  have h1 : 1 ≤ c + 1 := by omega
  by_cases h2 : 2 ≤ c + 1
  · simp only [h1, h2, if_true, Option.bind_eq_bind, Option.bind_eq_some] at h hsum
    obtain ⟨_, _, _, _, _, _, a4, _, h3⟩ := h
    exact hsum a4 h3
  · simp only [h1, h2, if_true, if_false, Option.bind_eq_bind, Option.bind_eq_some] at h hsum
    obtain ⟨_, _, _, _, a3, _, h3⟩ := h
    exact hsum a3 h3

theorem updatePeaks_loop_length (buffer : List α) (n c : Nat) (acc0 acc : PeakAcc α)
    (h : forLoop n (updatePeaksFrame buffer c) acc0 = some acc) : n * c ≤ buffer.length := by
  cases n with
  | zero => simp
  | succ k =>
    cases c with
    | zero => simp
    | succ d =>
      obtain ⟨u, _, hu⟩ := forLoop_succ_some k _ acc0 acc h
      have := updatePeaksFrame_reads buffer d k u acc hu
      rw [Nat.add_mul, Nat.one_mul]
      omega

theorem processAudio_success_length (m : SpectrumMath α) (v : Visualizer α)
    (st : VisualizerStatics) (input : List α) (n c : Nat)
    (t : Visualizer α × VisualizerStatics) (hen : v.enabled = true)
    (h : processAudio m v st input n c = some t) : n * c ≤ input.length := by
  unfold processAudio updatePeaks at h
  simp only [hen, Bool.not_true, Bool.false_eq_true, if_false, Option.bind_eq_bind,
    Option.bind_eq_some] at h
  obtain ⟨_, ⟨acc, hacc, _⟩, _⟩ := h
  exact updatePeaks_loop_length input n c _ acc hacc

theorem exec_sizes (m : SpectrumMath α) (op : VisualizerOp α)
    (s t : Visualizer α × VisualizerStatics) (hs : SizesOK s) (h : exec m op s = some t) :
    SizesOK t := by
  cases op <;> simp only [exec, Option.some.injEq] at h
  case processAudio input n c =>
    cases hen : s.1.enabled with
    | false =>
      have : processAudio m s.1 s.2 input n c = some (s.1, s.2) := by
        simp [processAudio, hen]
      rw [this] at h
      cases h
      exact hs
    | true =>
      have hin := processAudio_success_length m s.1 s.2 input n c t hen h
      obtain ⟨acc, w, fb, fo, -, -, hw1, hw2, hfb, hfo, hrun⟩ :=
        processAudio_spec m s.1 s.2 input n c hen hs hin
      rw [hrun] at h
      cases h
      exact ⟨hw1, hfb, hfo, hw2⟩
  all_goals
    subst h
    exact hs

theorem reachable_sizes (m : SpectrumMath α) (s : Visualizer α × VisualizerStatics)
    (h : Reachable m s) : SizesOK s := by
  induction h with
  | init =>
    refine ⟨?_, ?_, ?_, ?_⟩
    · simp only [Visualizer.new, List.length_replicate]
    · simp only [Visualizer.new, List.length_replicate]
    · simp only [Visualizer.new, List.length_replicate]
    · show initStatics.waveformIndex < FFT_SIZE
      decide
  | step op s t _ hexec ih => exact exec_sizes m op s t ih hexec

end Visualizer
/-! ## Peak and RMS readings -/

section RunningMax

variable {α : Type} [LinearOrderedField α]

theorem running_max_step (f : Nat → α) (hf : ∀ i, 0 ≤ f i) (k : Nat) (M : α)
    (h : (∀ i, i < k → f i ≤ M) ∧ (k = 0 → M = 0) ∧ (0 < k → ∃ i, i < k ∧ M = f i)) :
    (∀ i, i < k + 1 → f i ≤ max M (f k)) ∧ (k + 1 = 0 → max M (f k) = 0) ∧
      (0 < k + 1 → ∃ i, i < k + 1 ∧ max M (f k) = f i) := by
  obtain ⟨h1, h2, h3⟩ := h
  refine ⟨?_, fun hk => absurd hk (Nat.succ_ne_zero k), fun _ => ?_⟩
  · intro i hi
    rcases Nat.lt_succ_iff_lt_or_eq.mp hi with hlt | heq
    · exact le_trans (h1 i hlt) (le_max_left _ _)
    · rw [heq]
      exact le_max_right _ _
  · rcases le_total M (f k) with hle | hle
    · exact ⟨k, Nat.lt_succ_self k, max_eq_right hle⟩
    · rcases Nat.eq_zero_or_pos k with hk0 | hkpos
      · have hM : M = 0 := h2 hk0
        have : f k = 0 := le_antisymm (by rw [← hM]; exact hle) (hf k)
        exact ⟨k, Nat.lt_succ_self k, by rw [max_eq_left hle, hM, this]⟩
      · obtain ⟨i, hi, hMi⟩ := h3 hkpos
        exact ⟨i, Nat.lt_succ_of_lt hi, by rw [max_eq_left hle, hMi]⟩

end RunningMax

namespace Visualizer

variable {α : Type} [LinearOrderedField α]

theorem square_sum_loop (buffer : List α) (n c i : Nat) (a0 : PeakAcc α) (hi : i < n)
    (hin : n * c ≤ buffer.length) :
    forLoop c
      (fun ch a => do
        let x ← buffer[i * c + ch]?
        some { a with sum := a.sum + x * x })
      a0 =
      some { a0 with
        sum := a0.sum +
          ∑ ch ∈ Finset.range c, buffer.getD (i * c + ch) 0 * buffer.getD (i * c + ch) 0 } := by
  obtain ⟨t, ht, hI⟩ := forLoop_invariant
    (fun k (a : PeakAcc α) => a = { a0 with
      sum := a0.sum +
        ∑ ch ∈ Finset.range k, buffer.getD (i * c + ch) 0 * buffer.getD (i * c + ch) 0 })
    c
    (fun ch a => do
      let x ← buffer[i * c + ch]?
      some { a with sum := a.sum + x * x })
    a0 (by simp)
    (by
      intro ch t hch ht
      have h1 : i * c + ch < buffer.length := by
        have := frame_index_lt n c i ch hi hch
        omega
      beta_reduce
      simp only [Option.bind_eq_bind, List.getElem?_eq_getElem h1, Option.some_bind, ht,
        Finset.sum_range_succ, List.getD_eq_getElem?_getD, Option.getD_some]
      exact ⟨_, rfl, by rw [add_assoc]⟩)
  rw [ht, hI]

theorem updatePeaksFrame_eq (buffer : List α) (n c i : Nat) (acc : PeakAcc α) (hc : 1 ≤ c)
    (hi : i < n) (hin : n * c ≤ buffer.length) :
    updatePeaksFrame buffer c i acc =
      some { leftMax := max acc.leftMax |buffer.getD (i * c) 0|,
             rightMax := if 2 ≤ c then max acc.rightMax |buffer.getD (i * c + 1) 0|
               else acc.rightMax,
             sum := acc.sum +
               ∑ ch ∈ Finset.range c,
                 buffer.getD (i * c + ch) 0 * buffer.getD (i * c + ch) 0 } := by
  have hl : i * c < buffer.length := by
    have := frame_index_lt n c i 0 hi (by omega)
    omega
  unfold updatePeaksFrame
  by_cases h2 : 2 ≤ c
  · have hr : i * c + 1 < buffer.length := by
      have := frame_index_lt n c i 1 hi (by omega)
      omega
    simp only [hc, h2, if_true, Option.bind_eq_bind, List.getElem?_eq_getElem hl,
      List.getElem?_eq_getElem hr, Option.some_bind, List.getD_eq_getElem?_getD,
      Option.getD_some]
    have := square_sum_loop buffer n c i
      { acc with leftMax := max acc.leftMax |buffer[i * c]|,
                 rightMax := max acc.rightMax |buffer[i * c + 1]| } hi hin
    simp only [Option.bind_eq_bind, List.getD_eq_getElem?_getD] at this
    rw [this]
  · simp only [hc, h2, if_true, if_false, Option.bind_eq_bind, List.getElem?_eq_getElem hl,
      Option.some_bind, List.getD_eq_getElem?_getD, Option.getD_some]
    have := square_sum_loop buffer n c i
      { acc with leftMax := max acc.leftMax |buffer[i * c]| } hi hin
    simp only [Option.bind_eq_bind, List.getD_eq_getElem?_getD] at this
    rw [this]

/-- The accumulators of the frame loop of `updatePeaks`, for at least one channel:
`leftMax` is the largest `|x[i*c]|`, `rightMax` the largest `|x[i*c+1]|` (0 for mono), and
`sum` the sum of the squares of the `n * c` samples. -/
theorem updatePeaks_loop_spec (buffer : List α) (n c : Nat) (hc : 1 ≤ c)
    (hin : n * c ≤ buffer.length) :
    ∃ acc, forLoop n (updatePeaksFrame buffer c)
        ({ leftMax := 0.0, rightMax := 0.0, sum := 0.0 } : PeakAcc α) = some acc ∧
      ((∀ i, i < n → |buffer.getD (i * c) 0| ≤ acc.leftMax) ∧ (n = 0 → acc.leftMax = 0) ∧
        (0 < n → ∃ i, i < n ∧ acc.leftMax = |buffer.getD (i * c) 0|)) ∧
      (2 ≤ c → (∀ i, i < n → |buffer.getD (i * c + 1) 0| ≤ acc.rightMax) ∧
        (n = 0 → acc.rightMax = 0) ∧
        (0 < n → ∃ i, i < n ∧ acc.rightMax = |buffer.getD (i * c + 1) 0|)) ∧
      (c = 1 → acc.rightMax = 0) ∧
      acc.sum = ∑ j ∈ Finset.range (n * c), buffer.getD j 0 * buffer.getD j 0 := by
  have h00 : (0.0 : α) = 0 := by norm_num
  refine forLoop_invariant
    (fun k (acc : PeakAcc α) =>
      ((∀ i, i < k → |buffer.getD (i * c) 0| ≤ acc.leftMax) ∧ (k = 0 → acc.leftMax = 0) ∧
        (0 < k → ∃ i, i < k ∧ acc.leftMax = |buffer.getD (i * c) 0|)) ∧
      (2 ≤ c → (∀ i, i < k → |buffer.getD (i * c + 1) 0| ≤ acc.rightMax) ∧
        (k = 0 → acc.rightMax = 0) ∧
        (0 < k → ∃ i, i < k ∧ acc.rightMax = |buffer.getD (i * c + 1) 0|)) ∧
      (c = 1 → acc.rightMax = 0) ∧
      acc.sum = ∑ j ∈ Finset.range (k * c), buffer.getD j 0 * buffer.getD j 0)
    n _ _ ?_ ?_
  · refine ⟨⟨fun i hi => absurd hi (Nat.not_lt_zero i), fun _ => h00,
      fun h => absurd h (Nat.lt_irrefl 0)⟩,
      fun _ => ⟨fun i hi => absurd hi (Nat.not_lt_zero i), fun _ => h00,
        fun h => absurd h (Nat.lt_irrefl 0)⟩, fun _ => h00, ?_⟩
    simp [h00]
  · intro k acc hk hI
    obtain ⟨hL, hR, hR1, hS⟩ := hI
    refine ⟨_, updatePeaksFrame_eq buffer n c k acc hc hk hin, ?_, ?_, ?_, ?_⟩
    · exact running_max_step (fun i => |buffer.getD (i * c) 0|) (fun _ => abs_nonneg _) k
        acc.leftMax hL
    · intro h2
      simp only [h2, if_true]
      exact running_max_step (fun i => |buffer.getD (i * c + 1) 0|) (fun _ => abs_nonneg _) k
        acc.rightMax (hR h2)
    · intro h1
      have h2 : ¬ 2 ≤ c := by omega
      simp only [h2, if_false]
      exact hR1 h1
    · simp only
      rw [hS, Nat.add_mul, Nat.one_mul, Finset.sum_range_add]

/-- C24. Peak and RMS readings: for an enabled analyzer of the constructed sizes and a
buffer of `n ≥ 1` frames and `c ≥ 1` channels, `processAudio` succeeds and afterwards
`leftPeak = 0.95 * old + 0.05 * L` with `L` the largest `|x[i*c]|`,
`rightPeak = 0.95 * old + 0.05 * R` with `R` the largest `|x[i*c+1]|` when `c ≥ 2` and
`R = 0` when `c = 1`, and `rms = sqrt((sum of the squares of the n*c samples) / (n*c))`,
an expression of the current buffer alone; if every sample has magnitude at most 1, a peak
that was in `[0, 1]` stays in `[0, 1]`. -/
theorem peak_rms_readings (m : SpectrumMath α) (v : Visualizer α) (st : VisualizerStatics)
    (input : List α) (n c : Nat) (hen : v.enabled = true) (hok : SizesOK (v, st))
    (hn : 1 ≤ n) (hc : 1 ≤ c) (hin : n * c ≤ input.length) :
    ∃ t L R, processAudio m v st input n c = some t ∧
      (∀ i, i < n → |input.getD (i * c) 0| ≤ L) ∧
      (∃ i, i < n ∧ L = |input.getD (i * c) 0|) ∧
      (2 ≤ c → (∀ i, i < n → |input.getD (i * c + 1) 0| ≤ R) ∧
        ∃ i, i < n ∧ R = |input.getD (i * c + 1) 0|) ∧
      (c = 1 → R = 0) ∧
      t.1.getLeftPeak = 0.95 * v.leftPeak + 0.05 * L ∧
      t.1.getRightPeak = 0.95 * v.rightPeak + 0.05 * R ∧
      t.1.getRMS =
        m.sqrt ((∑ j ∈ Finset.range (n * c), input.getD j 0 * input.getD j 0) /
          ((n * c : Nat) : α)) ∧
      ((∀ j, j < n * c → |input.getD j 0| ≤ 1) →
        (0 ≤ v.leftPeak → v.leftPeak ≤ 1 → 0 ≤ t.1.getLeftPeak ∧ t.1.getLeftPeak ≤ 1) ∧
        (0 ≤ v.rightPeak → v.rightPeak ≤ 1 →
          0 ≤ t.1.getRightPeak ∧ t.1.getRightPeak ≤ 1)) := by
  obtain ⟨acc, w, fb, fo, hacc, -, -, -, -, -, hrun⟩ :=
    processAudio_spec m v st input n c hen hok hin
  obtain ⟨acc2, hacc2, ⟨hL1, -, hL3⟩, hR, hR1, hS⟩ := updatePeaks_loop_spec input n c hc hin
  rw [hacc] at hacc2
  cases hacc2
  have hnpos : 0 < n := by omega
  have h05 : (1.0 : α) - 0.95 = 0.05 := by norm_num
  have hLnn : 0 ≤ acc.leftMax := by
    obtain ⟨i, _, hi⟩ := hL3 hnpos
    rw [hi]
    exact abs_nonneg _
  have hRnn : 0 ≤ acc.rightMax := by
    by_cases h2 : 2 ≤ c
    · obtain ⟨i, _, hi⟩ := (hR h2).2.2 hnpos
      rw [hi]
      exact abs_nonneg _
    · rw [hR1 (by omega)]
  refine ⟨_, acc.leftMax, acc.rightMax, hrun, hL1, hL3 hnpos,
    fun h2 => ⟨(hR h2).1, (hR h2).2.2 hnpos⟩, hR1, ?_, ?_, ?_, ?_⟩
  · simp only [getLeftPeak, h05]
  · simp only [getRightPeak, h05]
  · simp only [getRMS, hS]
  · intro hbound
    have hL1le : acc.leftMax ≤ 1 := by
      obtain ⟨i, hi, hLi⟩ := hL3 hnpos
      rw [hLi]
      exact hbound _ (by have := frame_index_lt n c i 0 hi (by omega); omega)
    have hR1le : acc.rightMax ≤ 1 := by
      by_cases h2 : 2 ≤ c
      · obtain ⟨i, hi, hRi⟩ := (hR h2).2.2 hnpos
        rw [hRi]
        exact hbound _ (frame_index_lt n c i 1 hi (by omega))
      · rw [hR1 (by omega)]
        exact zero_le_one
    simp only [getLeftPeak, getRightPeak, h05]
    constructor
    · intro h0 h1
      constructor
      · have := mul_nonneg (by norm_num : (0 : α) ≤ 0.95) h0
        have := mul_nonneg (by norm_num : (0 : α) ≤ 0.05) hLnn
        linarith
      · have : (0.95 : α) * v.leftPeak ≤ 0.95 * 1 :=
          mul_le_mul_of_nonneg_left h1 (by norm_num)
        have : (0.05 : α) * acc.leftMax ≤ 0.05 * 1 :=
          mul_le_mul_of_nonneg_left hL1le (by norm_num)
        linarith
    · intro h0 h1
      constructor
      · have := mul_nonneg (by norm_num : (0 : α) ≤ 0.95) h0
        have := mul_nonneg (by norm_num : (0 : α) ≤ 0.05) hRnn
        linarith
      · have : (0.95 : α) * v.rightPeak ≤ 0.95 * 1 :=
          mul_le_mul_of_nonneg_left h1 (by norm_num)
        have : (0.05 : α) * acc.rightMax ≤ 0.05 * 1 :=
          mul_le_mul_of_nonneg_left hR1le (by norm_num)
        linarith

end Visualizer

namespace Visualizer

/-- An instance of C24: the enabled fresh analyzer, over the reals, on the stereo frame
`(3, -4)`. -/
theorem peak_rms_readings_witness :
    ∃ t L R, processAudio realSpectrumMath (setEnabled (Visualizer.new : Visualizer ℝ) true)
        initStatics [3, -4] 1 2 = some t ∧
      (∀ i, i < 1 → |([3, -4] : List ℝ).getD (i * 2) 0| ≤ L) ∧
      (∃ i, i < 1 ∧ L = |([3, -4] : List ℝ).getD (i * 2) 0|) ∧
      (2 ≤ 2 → (∀ i, i < 1 → |([3, -4] : List ℝ).getD (i * 2 + 1) 0| ≤ R) ∧
        ∃ i, i < 1 ∧ R = |([3, -4] : List ℝ).getD (i * 2 + 1) 0|) ∧
      (2 = 1 → R = 0) ∧
      t.1.getLeftPeak = 0.95 * (setEnabled (Visualizer.new : Visualizer ℝ) true).leftPeak +
        0.05 * L ∧
      t.1.getRightPeak = 0.95 * (setEnabled (Visualizer.new : Visualizer ℝ) true).rightPeak +
        0.05 * R ∧
      t.1.getRMS =
        realSpectrumMath.sqrt
          ((∑ j ∈ Finset.range (1 * 2),
              ([3, -4] : List ℝ).getD j 0 * ([3, -4] : List ℝ).getD j 0) /
            ((1 * 2 : Nat) : ℝ)) ∧
      ((∀ j, j < 1 * 2 → |([3, -4] : List ℝ).getD j 0| ≤ 1) →
        (0 ≤ (setEnabled (Visualizer.new : Visualizer ℝ) true).leftPeak →
          (setEnabled (Visualizer.new : Visualizer ℝ) true).leftPeak ≤ 1 →
          0 ≤ t.1.getLeftPeak ∧ t.1.getLeftPeak ≤ 1) ∧
        (0 ≤ (setEnabled (Visualizer.new : Visualizer ℝ) true).rightPeak →
          (setEnabled (Visualizer.new : Visualizer ℝ) true).rightPeak ≤ 1 →
          0 ≤ t.1.getRightPeak ∧ t.1.getRightPeak ≤ 1)) :=
  peak_rms_readings realSpectrumMath (setEnabled (Visualizer.new : Visualizer ℝ) true)
    initStatics [3, -4] 1 2 rfl
    (reachable_sizes realSpectrumMath _
      (Reachable.step (VisualizerOp.setEnabled true) _ _ Reachable.init rfl))
    (le_refl 1) (by decide) (by simp)

end Visualizer
/-! ## Normalized spectrum -/

namespace Visualizer

variable {α : Type} [LinearOrderedField α]

theorem exec_normalized (m : SpectrumMath α) (op : VisualizerOp α)
    (s t : Visualizer α × VisualizerStatics) (hsz : SizesOK s)
    (hs : 0 ≤ s.1.smoothing ∧ s.1.smoothing ≤ 1 ∧
      ∀ b, 0 ≤ s.1.spectrum b ∧ s.1.spectrum b ≤ 1)
    (h : exec m op s = some t) :
    0 ≤ t.1.smoothing ∧ t.1.smoothing ≤ 1 ∧ ∀ b, 0 ≤ t.1.spectrum b ∧ t.1.spectrum b ≤ 1 := by
  cases op <;> simp only [exec, Option.some.injEq] at h
  case processAudio input n c =>
    cases hen : s.1.enabled with
    | false =>
      have : processAudio m s.1 s.2 input n c = some (s.1, s.2) := by
        simp [processAudio, hen]
      rw [this] at h
      cases h
      exact hs
    | true =>
      have hin := processAudio_success_length m s.1 s.2 input n c t hen h
      obtain ⟨acc, w, fb, fo, -, -, -, -, -, -, hrun⟩ :=
        processAudio_spec m s.1 s.2 input n c hen hsz hin
      rw [hrun] at h
      cases h
      exact ⟨hs.1, hs.2.1, fun b =>
        bandValue_mem m _ _ _ hs.1 hs.2.1 (hs.2.2 b).1 (hs.2.2 b).2⟩
  case setSmoothing x =>
    subst h
    simp only [setSmoothing, AudioEngine.stdClamp_unit]
    exact ⟨(AudioEngine.unit_clamp_mem x).1, (AudioEngine.unit_clamp_mem x).2, hs.2.2⟩
  all_goals
    subst h
    exact hs

theorem reachable_normalized (m : SpectrumMath α) (s : Visualizer α × VisualizerStatics)
    (h : Reachable m s) :
    0 ≤ s.1.smoothing ∧ s.1.smoothing ≤ 1 ∧ ∀ b, 0 ≤ s.1.spectrum b ∧ s.1.spectrum b ≤ 1 := by
  induction h with
  | init =>
    simp only [Visualizer.new]
    norm_num
  | step op s t hr hexec ih => exact exec_normalized m op s t (reachable_sizes m s hr) ih hexec

/-- C23, amended. Spectrum values are normalized in exact arithmetic: in every state
reachable from construction by `setSmoothing` (any argument), `setWindowType`,
`setEnabled`, `setSampleRate` and `processAudio` (any buffers), the smoothing factor is in
`[0, 1]` and, without rounding, each of the 64 band values is in `[0, 1]`. On a reachable
enabled state and a buffer that holds `n * c` samples, `processAudio` succeeds and sets
every band to
`s * old + (1 - s) * (clamp(dB, -60, 0) + 60) / 60`, where
`dB = 20 * log10(magnitude + 1e-10)` and `magnitude` is the band magnitude of the
transformed buffer; with `s = 0` this is `(clamp(dB, -60, 0) + 60) / 60`, in which the
previous band value does not occur. -/
theorem spectrum_normalized (m : SpectrumMath α) :
    (∀ s : Visualizer α × VisualizerStatics, Reachable m s →
      0 ≤ s.1.smoothing ∧ s.1.smoothing ≤ 1 ∧
      ∀ b, 0 ≤ s.1.getSpectrum b ∧ s.1.getSpectrum b ≤ 1) ∧
    (∀ (s : Visualizer α × VisualizerStatics) (input : List α) (n c : Nat),
      Reachable m s → s.1.enabled = true → n * c ≤ input.length →
      ∃ t, processAudio m s.1 s.2 input n c = some t ∧
        ∀ b : Fin SPECTRUM_BANDS, ∃ magnitude,
          bandMagnitude m t.1.fftBuffer b.val = some magnitude ∧
          t.1.spectrum b =
            s.1.smoothing * s.1.spectrum b +
              (1.0 - s.1.smoothing) *
                (stdClamp (20.0 * m.log10 (magnitude + 1e-10)) (-60.0) 0.0 + 60.0) / 60.0 ∧
          (s.1.smoothing = 0 →
            t.1.spectrum b =
              (stdClamp (20.0 * m.log10 (magnitude + 1e-10)) (-60.0) 0.0 + 60.0) / 60.0)) := by
  refine ⟨fun s hs => reachable_normalized m s hs, ?_⟩
  intro s input n c hr hen hin
  obtain ⟨acc, w, fb, fo, -, -, -, -, hfb, -, hrun⟩ :=
    processAudio_spec m s.1 s.2 input n c hen (reachable_sizes m s hr) hin
  refine ⟨_, hrun, ?_⟩
  intro b
  obtain ⟨mag, hmag⟩ := bandMagnitude_some m fb b.val hfb
  refine ⟨mag, hmag, ?_, ?_⟩
  · simp only [hmag, Option.getD_some, bandValue]
  · intro hs0
    simp only [hmag, Option.getD_some, bandValue, hs0]
    norm_num

/-- An instance of the amended C23 on an update: the enabled analyzer with smoothing `1/4`,
over the reals, processes the stereo frame `(3, -4)`; every band gets the value of the
formula, and in the state after the call the smoothing factor and all bands are in
`[0, 1]`. -/
theorem spectrum_normalized_witness :
    ∃ t, processAudio realSpectrumMath
        (setSmoothing (setEnabled (Visualizer.new : Visualizer ℝ) true) (1 / 4))
        initStatics [3, -4] 1 2 = some t ∧
      (0 ≤ t.1.smoothing ∧ t.1.smoothing ≤ 1 ∧
        ∀ b, 0 ≤ t.1.getSpectrum b ∧ t.1.getSpectrum b ≤ 1) ∧
      ∀ b : Fin SPECTRUM_BANDS, ∃ magnitude,
        bandMagnitude realSpectrumMath t.1.fftBuffer b.val = some magnitude ∧
        t.1.spectrum b =
          (setSmoothing (setEnabled (Visualizer.new : Visualizer ℝ) true) (1 / 4)).smoothing *
              (setSmoothing (setEnabled (Visualizer.new : Visualizer ℝ) true)
                (1 / 4)).spectrum b +
            (1.0 -
                (setSmoothing (setEnabled (Visualizer.new : Visualizer ℝ) true)
                  (1 / 4)).smoothing) *
              (stdClamp (20.0 * realSpectrumMath.log10 (magnitude + 1e-10)) (-60.0) 0.0 + 60.0) /
                60.0 ∧
        ((setSmoothing (setEnabled (Visualizer.new : Visualizer ℝ) true)
            (1 / 4)).smoothing = 0 →
          t.1.spectrum b =
            (stdClamp (20.0 * realSpectrumMath.log10 (magnitude + 1e-10)) (-60.0) 0.0 + 60.0) /
              60.0) := by
  have hs : Reachable realSpectrumMath
      (setSmoothing (setEnabled (Visualizer.new : Visualizer ℝ) true) (1 / 4), initStatics) :=
    Reachable.step (VisualizerOp.setSmoothing (1 / 4)) _ _
      (Reachable.step (VisualizerOp.setEnabled true) _ _ Reachable.init rfl) rfl
  obtain ⟨t, ht, hform⟩ := (spectrum_normalized realSpectrumMath).2
    (setSmoothing (setEnabled (Visualizer.new : Visualizer ℝ) true) (1 / 4), initStatics)
    [3, -4] 1 2 hs rfl (by simp)
  exact ⟨t, ht,
    (spectrum_normalized realSpectrumMath).1 t
      (Reachable.step (VisualizerOp.processAudio [3, -4] 1 2) _ t hs ht),
    hform⟩

end Visualizer
/-! ## The permutation step of the transform -/

section SwapLoop

variable {β : Type}

/-- A loop that swaps position `i` with position `r i` whenever `r i < i`, for a map `r`
that is an involution where it stays below `n`, leaves at every position `p` the element
that was at `r p`, or the element that was at `p` when `r p` falls outside the buffer. -/
theorem swap_loop (r : Nat → Nat) (n : Nat) (hinv : ∀ p, p < n → r p < n → r (r p) = p)
    (buf : List β) (hlen : buf.length = n) :
    ∃ out,
      forLoop n
        (fun i b =>
          if r i < i then do
            let a ← b[i]?
            let c ← b[r i]?
            some ((b.set i c).set (r i) a)
          else some b)
        buf = some out ∧
      out.length = n ∧
      ∀ p, p < n → out[p]? = buf[if r p < n then r p else p]? := by
  obtain ⟨out, hout, hI1, hI2⟩ := forLoop_invariant
    (fun k (b : List β) => b.length = n ∧
      ∀ p, p < n →
        b[p]? = buf[if (r p < p ∧ p < k) ∨ (p < r p ∧ r p < k) then r p else p]?)
    n
    (fun i b =>
      if r i < i then do
        let a ← b[i]?
        let c ← b[r i]?
        some ((b.set i c).set (r i) a)
      else some b)
    buf
    ⟨hlen, fun p _ => by
      have hc : ¬ ((r p < p ∧ p < 0) ∨ (p < r p ∧ r p < 0)) := by omega
      rw [if_neg hc]⟩
    (by
      intro k b hk hI
      obtain ⟨hbl, hb⟩ := hI
      by_cases hj : r k < k
      · have h1 : k < b.length := by omega
        have h2 : r k < b.length := by omega
        have hrr : r (r k) = k := hinv k hk (by omega)
        refine ⟨(b.set k b[r k]).set (r k) b[k], ?_, ?_, ?_⟩
        · simp only [hj, if_true, Option.bind_eq_bind, List.getElem?_eq_getElem h1,
            List.getElem?_eq_getElem h2, Option.some_bind]
        · simpa using hbl
        · intro p hp
          have hfact : r p = k → p = r k := by
            intro h
            have := hinv p hp (by omega)
            rw [h] at this
            exact this.symm
          by_cases hpj : p = r k
          · subst hpj
            rw [List.getElem?_set_self (by simpa using h2), ← List.getElem?_eq_getElem h1,
              hb k hk]
            have hc1 : ¬ ((r k < k ∧ k < k) ∨ (k < r k ∧ r k < k)) := by omega
            have hc2 : (r (r k) < r k ∧ r k < k + 1) ∨ (r k < r (r k) ∧ r (r k) < k + 1) := by
              rw [hrr]
              omega
            rw [if_neg hc1, if_pos hc2, hrr]
          · by_cases hpk : p = k
            · subst hpk
              rw [List.getElem?_set_ne (Ne.symm hpj), List.getElem?_set_self h1,
                ← List.getElem?_eq_getElem h2, hb (r p) (by omega)]
              have hc1 : ¬ ((r (r p) < r p ∧ r p < p) ∨ (r p < r (r p) ∧ r (r p) < p)) := by
                rw [hrr]
                omega
              have hc2 : (r p < p ∧ p < p + 1) ∨ (p < r p ∧ r p < p + 1) := by omega
              rw [if_neg hc1, if_pos hc2]
            · rw [List.getElem?_set_ne (Ne.symm hpj), List.getElem?_set_ne (Ne.symm hpk),
                hb p hp]
              have hc : ((r p < p ∧ p < k + 1) ∨ (p < r p ∧ r p < k + 1)) ↔
                  ((r p < p ∧ p < k) ∨ (p < r p ∧ r p < k)) := by
                constructor
                · intro h
                  rcases h with ⟨ha, hb2⟩ | ⟨ha, hb2⟩
                  · exact Or.inl ⟨ha, by omega⟩
                  · have : r p ≠ k := fun h => hpj (hfact h)
                    exact Or.inr ⟨ha, by omega⟩
                · intro h
                  omega
              simp only [hc]
      · refine ⟨b, by simp only [hj, if_false], hbl, ?_⟩
        intro p hp
        have hfact : r p = k → p = r k := by
          intro h
          have := hinv p hp (by omega)
          rw [h] at this
          exact this.symm
        rw [hb p hp]
        have hc : ((r p < p ∧ p < k + 1) ∨ (p < r p ∧ r p < k + 1)) ↔
            ((r p < p ∧ p < k) ∨ (p < r p ∧ r p < k)) := by
          constructor
          · intro h
            rcases h with ⟨ha, hb2⟩ | ⟨ha, hb2⟩
            · have : p ≠ k := by
                intro hpk
                rw [hpk] at ha
                exact hj ha
              exact Or.inl ⟨ha, by omega⟩
            · have : r p ≠ k := by
                intro hrk
                have := hfact hrk
                omega
              exact Or.inr ⟨ha, by omega⟩
          · intro h
            omega
        simp only [hc])
  refine ⟨out, hout, hI1, ?_⟩
  intro p hp
  rw [hI2 p hp]
  by_cases h1 : r p < n
  · by_cases h2 : r p = p
    · have hc : ¬ ((r p < p ∧ p < n) ∨ (p < r p ∧ r p < n)) := by omega
      rw [if_neg hc, if_pos h1, h2]
    · have hc : (r p < p ∧ p < n) ∨ (p < r p ∧ r p < n) := by omega
      rw [if_pos hc, if_pos h1]
  · have hc : ¬ ((r p < p ∧ p < n) ∨ (p < r p ∧ r p < n)) := by omega
    rw [if_neg hc, if_neg h1]

end SwapLoop

namespace Visualizer

theorem reverseBits_involutive_aux :
    ∀ a, a < 64 → ∀ b, b < 32 → reverseBits (32 * a + b) < 2048 →
      reverseBits (reverseBits (32 * a + b)) = 32 * a + b := by
  decide

theorem reverseBits_spec_aux :
    ∀ a, a < 64 → ∀ b, b < 32 →
      reverseBits (32 * a + b) = 32 * bitReversal 11 (32 * a + b) := by
  decide

theorem reverseBits_involutive (p : Nat) (hp : p < FFT_SIZE) (h : reverseBits p < FFT_SIZE) :
    reverseBits (reverseBits p) = p := by
  have h2048 : FFT_SIZE = 2048 := rfl
  have hdecomp : 32 * (p / 32) + p % 32 = p := Nat.div_add_mod p 32
  have := reverseBits_involutive_aux (p / 32) (by omega) (p % 32) (Nat.mod_lt _ (by norm_num))
  rw [hdecomp] at this
  exact this (by omega)

theorem reverseBits_spec (p : Nat) (hp : p < FFT_SIZE) :
    reverseBits p = 32 * bitReversal 11 p := by
  have h2048 : FFT_SIZE = 2048 := rfl
  have hdecomp : 32 * (p / 32) + p % 32 = p := Nat.div_add_mod p 32
  have := reverseBits_spec_aux (p / 32) (by omega) (p % 32) (Nat.mod_lt _ (by norm_num))
  rw [hdecomp] at this
  exact this

end Visualizer

section BitReversal

variable {β : Type}

/-- The permutation loop of `performFFT` on a buffer of `FFT_SIZE` elements: position `p`
receives the element that was at `reverseBits p`, the 16-round reversal, when that index
is inside the buffer, and keeps its own element otherwise. -/
theorem Visualizer.bitReverse_loop (buf : List β) (h : buf.length = FFT_SIZE) :
    ∃ out, forLoop FFT_SIZE Visualizer.bitReverseStep buf = some out ∧
      out.length = FFT_SIZE ∧
      ∀ p, p < FFT_SIZE →
        out[p]? = buf[if Visualizer.reverseBits p < FFT_SIZE then Visualizer.reverseBits p
          else p]? :=
  swap_loop Visualizer.reverseBits FFT_SIZE Visualizer.reverseBits_involutive buf h

/-- C30, at the failing input. On every buffer of `FFT_SIZE = 2048` elements the
permutation loop succeeds, but its inner loop reverses 16 index bits, not 11: the index it
computes is `32 * rev11(p)`, so position `p` receives the element of position
`32 * rev11(p)` when that is below 2048 and keeps its own element otherwise. Position 1
keeps its element, where the 11-bit reversal has it receive the element of position
`rev11(1) = 1024`: on the buffer `0, 1, ..., 2047` position 1 holds 1 after the step, not
1024. Applying the loop twice gives the buffer back. -/
theorem bit_reversal_sixteen_rounds (buf : List β) (h : buf.length = FFT_SIZE) :
    ∃ out, forLoop FFT_SIZE Visualizer.bitReverseStep buf = some out ∧
      out.length = FFT_SIZE ∧
      (∀ p, p < FFT_SIZE →
        Visualizer.reverseBits p = 32 * bitReversal 11 p ∧
        out[p]? = buf[if 32 * bitReversal 11 p < FFT_SIZE then 32 * bitReversal 11 p
          else p]?) ∧
      out[1]? = buf[1]? ∧ bitReversal 11 1 = 1024 ∧
      forLoop FFT_SIZE Visualizer.bitReverseStep out = some buf := by
  obtain ⟨out, hout, hlen, hperm⟩ := Visualizer.bitReverse_loop buf h
  obtain ⟨out2, hout2, hlen2, hperm2⟩ := Visualizer.bitReverse_loop out hlen
  refine ⟨out, hout, hlen, ?_, ?_, by decide, ?_⟩
  · intro p hp
    refine ⟨Visualizer.reverseBits_spec p hp, ?_⟩
    rw [hperm p hp, Visualizer.reverseBits_spec p hp]
  · have h1 : (1 : Nat) < FFT_SIZE := by decide
    rw [hperm 1 h1]
    have h2 : ¬ Visualizer.reverseBits 1 < FFT_SIZE := by decide
    rw [if_neg h2]
  · have heq : out2 = buf := by
      apply List.ext_getElem?
      intro p
      by_cases hp : p < FFT_SIZE
      · rw [hperm2 p hp]
        by_cases hr : Visualizer.reverseBits p < FFT_SIZE
        · rw [if_pos hr, hperm _ hr, Visualizer.reverseBits_involutive p hp hr, if_pos hp]
        · rw [if_neg hr, hperm p hp, if_neg hr]
      · rw [List.getElem?_eq_none (by omega), List.getElem?_eq_none (by omega)]
    rw [hout2, heq]

/-- An instance of C30: the buffer `0, 1, ..., 2047`; position 1 holds 1 after the step,
and `rev11(1) = 1024`. -/
theorem bit_reversal_sixteen_rounds_witness :
    ∃ out, forLoop FFT_SIZE Visualizer.bitReverseStep (List.range FFT_SIZE) = some out ∧
      out[1]? = some 1 ∧ bitReversal 11 1 = 1024 := by
  obtain ⟨out, hout, -, -, h1, h2, -⟩ :=
    bit_reversal_sixteen_rounds (List.range FFT_SIZE) (List.length_range FFT_SIZE)
  refine ⟨out, hout, ?_, h2⟩
  rw [h1, List.getElem?_range (by decide)]

end BitReversal
/-! ## The transform on a unit impulse -/

namespace Visualizer

variable {α : Type} [LinearOrderedField α]

theorem applyWindow_rectangular (m : SpectrumMath α) (v : Visualizer α) (buffer : List α)
    (h1 : v.windowType ≠ 1) (h2 : v.windowType ≠ 2) (h : buffer.length = FFT_SIZE) :
    applyWindow m v buffer = some buffer := by
  unfold applyWindow
  obtain ⟨t, ht, hI⟩ := forLoop_invariant (fun _ (b : List α) => b = buffer) FFT_SIZE
    (fun i buf => do
      let x ← buf[i]?
      some (buf.set i (x * windowValue m v.windowType i)))
    buffer rfl
    (by
      intro i t hi ht
      subst ht
      have hlt : i < t.length := by omega
      have hw : windowValue m v.windowType i = 1 := by
        simp only [windowValue, h1, h2, if_false]
        norm_num
      beta_reduce
      simp only [Option.bind_eq_bind, List.getElem?_eq_getElem hlt, Option.some_bind, hw,
        mul_one, DSPProcessor.set_getElem_same t i hlt]
      exact ⟨_, rfl, rfl⟩)
  rw [ht, hI]

theorem reverseBits_zero : reverseBits 0 = 0 := by decide

theorem bitReverse_impulse (buf : List α) (h : buf.length = FFT_SIZE)
    (himp : ∀ p, p < FFT_SIZE → buf[p]? = some (if p < 1 then 1 else 0)) :
    forLoop FFT_SIZE bitReverseStep buf = some buf := by
  obtain ⟨out, hout, hlen, hperm⟩ := bitReverse_loop buf h
  have heq : out = buf := by
    apply List.ext_getElem?
    intro p
    by_cases hp : p < FFT_SIZE
    · rw [hperm p hp]
      by_cases hr : reverseBits p < FFT_SIZE
      · rw [if_pos hr, himp _ hr, himp p hp]
        have hiff : reverseBits p < 1 ↔ p < 1 := by
          constructor
          · intro h0
            have h00 : reverseBits p = 0 := by omega
            have := reverseBits_involutive p hp hr
            rw [h00, reverseBits_zero] at this
            omega
          · intro h0
            have h00 : p = 0 := by omega
            rw [h00, reverseBits_zero]
            exact Nat.zero_lt_one
        simp only [hiff]
      · rw [if_neg hr]
    · rw [List.getElem?_eq_none (by omega), List.getElem?_eq_none (by omega)]
  rw [hout, heq]

/-- One butterfly whose upper input is 0: both outputs get the lower input as their real
part. -/
theorem butterfly_upper_zero (step pair : Nat) (wn : ComplexF α)
    (s : (List α × List (ComplexF α)) × ComplexF α) (c : α)
    (hhi : s.1.1[pair + step]? = some 0) (hlo : s.1.1[pair]? = some c)
    (h2 : pair + step < s.1.2.length) :
    ∃ X Y w, X.re = c ∧ Y.re = c ∧
      butterfly step pair wn s =
        some ((s.1.1, (s.1.2.set pair X).set (pair + step) Y), w) := by
  have hp2 : pair < s.1.2.length := by omega
  unfold butterfly
  simp only [hhi, hlo, Option.bind_eq_bind, Option.some_bind, hp2, h2, and_self, if_true]
  have h00 : (0.0 : α) = 0 := by norm_num
  refine ⟨_, _, _, ?_, ?_, rfl⟩
  · simp [ComplexF.add, ComplexF.mul, h00]
  · simp [ComplexF.sub, ComplexF.mul, h00]

theorem fftStage_block (m : SpectrumMath α) (n step : Nat) (s : List α × List (ComplexF α))
    (hdvd : 2 * step ∣ n) (hpos : 0 < step) (hb : s.1.length = n) (ho : s.2.length = n)
    (hind : ∀ p, p < n → s.1[p]? = some (if p < step then 1 else 0)) :
    ∃ t, fftStage m n step s = some t ∧ t.1.length = n ∧ t.2.length = n ∧
      ∀ p, p < n → t.1[p]? = some (if p < 2 * step then 1 else 0) := by
  obtain ⟨q, hq⟩ := hdvd
  have htrip : (n - 0 + 2 * step - 1) / (2 * step) = q := by
    rw [hq]
    exact stride_trip (2 * step) q (by omega)
  have hgroups : ∃ t, forLoopStride 0 n (2 * step)
      (fun group s =>
        (forLoop step
          (fun k t => butterfly step (group + k)
            { re := m.cos (-m.pi / (step : α)), im := m.sin (-m.pi / (step : α)) } t)
          (s, ({ re := 1.0, im := 0.0 } : ComplexF α))).map Prod.fst) s = some t ∧
      t.1 = s.1 ∧ t.2.length = n ∧
      ∀ p, p < q * (2 * step) →
        ∃ z, t.2[p]? = some z ∧ z.re = (if p < 2 * step then 1 else 0) := by
    unfold forLoopStride
    rw [htrip]
    refine forLoop_invariant
      (fun g (t : List α × List (ComplexF α)) => t.1 = s.1 ∧ t.2.length = n ∧
        ∀ p, p < g * (2 * step) →
          ∃ z, t.2[p]? = some z ∧ z.re = (if p < 2 * step then 1 else 0)) q _ s
      ⟨rfl, ho, fun p hp => by omega⟩ ?_
    intro g t hg hI
    obtain ⟨hI1, hI2, hI3⟩ := hI
    have hgroup : 0 + g * (2 * step) + 2 * step ≤ n := by
      have h1 : (g + 1) * (2 * step) ≤ q * (2 * step) := Nat.mul_le_mul_right _ hg
      rw [Nat.add_mul, Nat.one_mul] at h1
      rw [hq, Nat.mul_comm (2 * step) q]
      omega
    have hG : 0 + g * (2 * step) = 0 ∨ 2 * step ≤ 0 + g * (2 * step) := by
      rcases Nat.eq_zero_or_pos g with h0 | h0
      · left
        rw [h0]
        simp
      · right
        have := Nat.mul_le_mul_right (2 * step) h0
        omega
    generalize hGdef : 0 + g * (2 * step) = G at hgroup hG
    have hGg : g * (2 * step) = G := by omega
    obtain ⟨u, hu, hJ1, hJ2, hJ3⟩ := forLoop_invariant
      (fun k (u : (List α × List (ComplexF α)) × ComplexF α) =>
        u.1.1 = s.1 ∧ u.1.2.length = n ∧
        ∀ p, (p < G ∨ (G ≤ p ∧ p < G + k) ∨ (G + step ≤ p ∧ p < G + step + k)) →
          ∃ z, u.1.2[p]? = some z ∧ z.re = (if p < 2 * step then 1 else 0)) step
      (fun k t => butterfly step (G + k)
        { re := m.cos (-m.pi / (step : α)), im := m.sin (-m.pi / (step : α)) } t)
      (t, ({ re := 1.0, im := 0.0 } : ComplexF α))
      ⟨hI1, hI2, fun p hp => hI3 p (by omega)⟩
      (by
        intro k u hk hJ
        obtain ⟨hJ1, hJ2, hJ3⟩ := hJ
        have hhi : u.1.1[G + k + step]? = some 0 := by
          rw [hJ1, hind _ (by omega), if_neg (by omega)]
        have hlo : u.1.1[G + k]? = some (if G + k < step then 1 else 0) := by
          rw [hJ1, hind _ (by omega)]
        obtain ⟨X, Y, w, hX, hY, hbf⟩ := butterfly_upper_zero step (G + k)
          { re := m.cos (-m.pi / (step : α)), im := m.sin (-m.pi / (step : α)) } u _ hhi hlo
          (by omega)
        refine ⟨_, hbf, hJ1, by simpa using hJ2, ?_⟩
        intro p hp
        have hlen1 : G + k < u.1.2.length := by omega
        have hlen2 : G + k + step < (u.1.2.set (G + k) X).length := by
          rw [List.length_set]
          omega
        by_cases hp1 : p = G + k + step
        · refine ⟨Y, ?_, ?_⟩
          · rw [hp1]
            exact List.getElem?_set_self hlen2
          · rw [hY, hp1]
            have hiff : G + k + step < 2 * step ↔ G + k < step := by omega
            simp only [hiff]
        · by_cases hp2 : p = G + k
          · refine ⟨X, ?_, ?_⟩
            · rw [List.getElem?_set_ne (Ne.symm hp1), hp2]
              exact List.getElem?_set_self hlen1
            · rw [hX, hp2]
              have hiff : G + k < 2 * step ↔ G + k < step := by omega
              simp only [hiff]
          · obtain ⟨z, hz1, hz2⟩ := hJ3 p (by omega)
            refine ⟨z, ?_, hz2⟩
            show ((u.1.2.set (G + k) X).set (G + k + step) Y)[p]? = some z
            rw [List.getElem?_set_ne (Ne.symm hp1), List.getElem?_set_ne (Ne.symm hp2)]
            exact hz1)
    refine ⟨u.1, ?_, hJ1, hJ2, ?_⟩
    · beta_reduce
      rw [hu]
      rfl
    · intro p hp
      apply hJ3 p
      rw [Nat.add_mul, Nat.one_mul, hGg] at hp
      omega
  obtain ⟨t, ht, ht1, ht2, ht3⟩ := hgroups
  have hqn : q * (2 * step) = n := by rw [hq, Nat.mul_comm]
  obtain ⟨fb, hfb, hfbl, hfbv⟩ := forLoop_invariant
    (fun i (fb : List α) => fb.length = n ∧
      ∀ p, p < i → fb[p]? = some (if p < 2 * step then 1 else 0)) n
    (fun i fb => do
      let z ← t.2[i]?
      if i < fb.length then some (fb.set i z.re) else none)
    t.1 ⟨by rw [ht1]; exact hb, fun p hp => by omega⟩
    (by
      intro i fb hi hI
      obtain ⟨hI1, hI2⟩ := hI
      obtain ⟨z, hz1, hz2⟩ := ht3 i (by omega)
      have h2 : i < fb.length := by omega
      refine ⟨fb.set i z.re, ?_, by simpa using hI1, ?_⟩
      · simp [hz1, h2]
      · intro p hp
        by_cases hpi : p = i
        · rw [hpi, List.getElem?_set_self h2, hz2]
        · rw [List.getElem?_set_ne (Ne.symm hpi)]
          exact hI2 p (by omega))
  refine ⟨(fb, t.2), ?_, hfbl, ht2, hfbv⟩
  unfold fftStage
  simp only [Option.bind_eq_bind] at hfb ⊢
  rw [ht]
  simp only [Option.some_bind]
  rw [hfb]
  rfl

theorem fftStages_impulse (m : SpectrumMath α) (fuel : Nat) :
    ∀ (k : Nat) (s : List α × List (ComplexF α)), 11 ≤ k + fuel →
      s.1.length = FFT_SIZE → s.2.length = FFT_SIZE →
      (∀ p, p < FFT_SIZE → s.1[p]? = some (if p < 2 ^ k then 1 else 0)) →
      ∃ t, fftStages m FFT_SIZE fuel (2 ^ k) s = some t ∧
        t.1.length = FFT_SIZE ∧ t.2.length = FFT_SIZE ∧
        ∀ p, p < FFT_SIZE → t.1[p]? = some 1 := by
  have h2 : FFT_SIZE = 2 ^ 11 := by decide
  induction fuel with
  | zero =>
    intro k s hk hb ho hind
    have hge : ¬ 2 ^ k < FFT_SIZE := by
      have h1 : 2 ^ 11 ≤ 2 ^ k := Nat.pow_le_pow_right (by decide) (by omega)
      omega
    refine ⟨s, by simp [fftStages, hge], hb, ho, ?_⟩
    intro p hp
    rw [hind p hp, if_pos (by omega)]
  | succ fuel ih =>
    intro k s hk hb ho hind
    by_cases hlt : 2 ^ k < FFT_SIZE
    · have hk11 : k < 11 := by
        by_contra hcon
        have h1 : 2 ^ 11 ≤ 2 ^ k := Nat.pow_le_pow_right (by decide) (by omega)
        omega
      have hdvd : 2 * 2 ^ k ∣ FFT_SIZE := by
        rw [h2, ← pow_succ']
        exact pow_dvd_pow 2 (by omega)
      obtain ⟨t, ht, ht1, ht2, ht3⟩ :=
        fftStage_block m FFT_SIZE (2 ^ k) s hdvd (by positivity) hb ho hind
      obtain ⟨u, hu, hu1, hu2, hu3⟩ := ih (k + 1) t (by omega) ht1 ht2
        (by
          intro p hp
          rw [ht3 p hp, pow_succ'])
      refine ⟨u, ?_, hu1, hu2, hu3⟩
      have hshift : (2 ^ k) <<< 1 = 2 ^ (k + 1) := by
        rw [Nat.shiftLeft_eq, pow_one, pow_succ]
      simp only [fftStages, hlt, if_true, Option.bind_eq_bind]
      rw [ht]
      simp only [Option.some_bind]
      rw [hshift]
      exact hu
    · refine ⟨s, by simp [fftStages, hlt], hb, ho, ?_⟩
      intro p hp
      rw [hind p hp, if_pos (by omega)]

/-- The transform of the unit impulse with the rectangular window: `performFFT` succeeds
and leaves 1 in every entry of `fftBuffer_`. -/
theorem performFFT_impulse (m : SpectrumMath α) (v : Visualizer α)
    (h1 : v.windowType ≠ 1) (h2 : v.windowType ≠ 2)
    (hb : v.fftBuffer.length = FFT_SIZE) (ho : v.fftOutput.length = FFT_SIZE)
    (himp : ∀ p, p < FFT_SIZE → v.fftBuffer[p]? = some (if p < 1 then 1 else 0)) :
    ∃ sp fb fo,
      performFFT m v = some { v with spectrum := sp, fftBuffer := fb, fftOutput := fo } ∧
      fb.length = FFT_SIZE ∧ ∀ p, p < FFT_SIZE → fb[p]? = some 1 := by
  have hw := applyWindow_rectangular m v v.fftBuffer h1 h2 hb
  have hp := bitReverse_impulse v.fftBuffer hb himp
  obtain ⟨s, hs, hs1, hs2, hs3⟩ := fftStages_impulse m FFT_SIZE 0 (v.fftBuffer, v.fftOutput)
    (by decide) hb ho (by simpa using himp)
  have hfinal : performFFT m v =
      some { v with
        spectrum := fun b =>
          bandValue m v.smoothing (v.spectrum b) ((bandMagnitude m s.1 b.val).getD 0),
        fftBuffer := s.1, fftOutput := s.2 } := by
    unfold performFFT
    simp only [Option.bind_eq_bind]
    rw [hw]
    simp only [Option.some_bind]
    rw [hp]
    simp only [Option.some_bind]
    rw [pow_zero] at hs
    rw [hs]
    simp only [Option.some_bind]
    exact calculateSpectrum_eq m _ hs1
  exact ⟨_, s.1, s.2, hfinal, hs1, hs3⟩

theorem binMagnitude_ones (m : SpectrumMath α) (fb : List α)
    (hones : ∀ p, p < FFT_SIZE → fb[p]? = some 1) (k : Nat) (hk : k < FFT_SIZE / 2) :
    binMagnitude m fb k = some (m.sqrt (1 * 1 + 1 * 1)) := by
  have hhalf : FFT_SIZE / 2 + FFT_SIZE / 2 = FFT_SIZE := by decide
  unfold binMagnitude
  simp only [hk, if_true, hones k (by omega), hones (k + FFT_SIZE / 2) (by omega),
    Option.bind_eq_bind, Option.some_bind]

end Visualizer

section ReferenceImpulse

variable {α : Type} [LinearOrderedField α]

theorem referenceDFT_impulse (m : MathLib α) (hcos : m.cos 0 = 1) (hsin : m.sin 0 = 0)
    (hsqrt : m.sqrt 1 = 1) (x : List α) (hx : 0 < x.length)
    (himp : ∀ p, p < x.length → x[p]? = some (if p < 1 then 1 else 0)) (k : Nat) :
    referenceDFTMagnitude m x k = 1 := by
  have hre : ∑ n ∈ Finset.range x.length,
      x.getD n 0 * m.cos (2 * m.pi * (k : α) * (n : α) / (x.length : α)) = 1 := by
    rw [Finset.sum_eq_single 0]
    · rw [List.getD_eq_getElem?_getD, himp 0 hx]
      simp [hcos]
    · intro n hn hn0
      rw [List.getD_eq_getElem?_getD, himp n (Finset.mem_range.mp hn),
        if_neg (by omega)]
      simp
    · intro h0
      exact absurd (Finset.mem_range.mpr hx) h0
  have him : ∑ n ∈ Finset.range x.length,
      -(x.getD n 0 * m.sin (2 * m.pi * (k : α) * (n : α) / (x.length : α))) = 0 := by
    apply Finset.sum_eq_zero
    intro n hn
    rw [List.getD_eq_getElem?_getD, himp n (Finset.mem_range.mp hn)]
    by_cases hn0 : n = 0
    · subst hn0
      simp [hsin]
    · rw [if_neg (by omega)]
      simp
  unfold referenceDFTMagnitude
  simp only [hre, him]
  norm_num
  exact hsqrt

end ReferenceImpulse
section CopyValue

variable {β : Type}

theorem Visualizer.copy_waveform_value (w fftBuffer : List β) (hw : w.length = FFT_SIZE)
    (hb : fftBuffer.length = FFT_SIZE) :
    ∃ fb, forLoop FFT_SIZE
      (fun i fb => do
        let x ← w[i]?
        if i < fb.length then some (fb.set i x) else none)
      fftBuffer = some fb ∧ fb.length = FFT_SIZE ∧
      ∀ p, p < FFT_SIZE → fb[p]? = w[p]? := by
  obtain ⟨fb, hfb, hl, hv⟩ := forLoop_invariant
    (fun k (fb : List β) => fb.length = FFT_SIZE ∧ ∀ p, p < k → fb[p]? = w[p]?) FFT_SIZE
    (fun i fb => do
      let x ← w[i]?
      if i < fb.length then some (fb.set i x) else none)
    fftBuffer ⟨hb, fun p hp => absurd hp (Nat.not_lt_zero p)⟩
    (by
      intro i fb hi hI
      obtain ⟨hI1, hI2⟩ := hI
      have h1 : i < w.length := by omega
      have h2 : i < fb.length := by omega
      refine ⟨fb.set i w[i], ?_, by simpa using hI1, ?_⟩
      · simp [List.getElem?_eq_getElem h1, h2]
      · intro p hp
        by_cases hpi : p = i
        · rw [hpi, List.getElem?_set_self h2, List.getElem?_eq_getElem h1]
        · rw [List.getElem?_set_ne (Ne.symm hpi)]
          exact hI2 p (by omega))
  exact ⟨fb, hfb, hl, hv⟩

end CopyValue

namespace Visualizer

variable {α : Type} [LinearOrderedField α]

/-- An enabled analyzer with the rectangular window, a zeroed waveform and write index 0,
given the single mono sample 1: the waveform becomes the unit impulse, and the transform
leaves 1 in every entry of `fftBuffer_`. -/
theorem processAudio_impulse (m : SpectrumMath α) (v : Visualizer α) (hen : v.enabled = true)
    (h1 : v.windowType ≠ 1) (h2 : v.windowType ≠ 2)
    (hw : v.waveform.length = FFT_SIZE) (hb : v.fftBuffer.length = FFT_SIZE)
    (ho : v.fftOutput.length = FFT_SIZE)
    (hzero : ∀ p, p < FFT_SIZE → v.waveform[p]? = some 0) :
    ∃ t, processAudio m v { waveformIndex := 0 } [1] 1 1 = some t ∧
      t.1.waveform.length = FFT_SIZE ∧
      (∀ p, p < FFT_SIZE → t.1.waveform[p]? = some (if p < 1 then 1 else 0)) ∧
      ∀ p, p < FFT_SIZE → t.1.fftBuffer[p]? = some 1 := by
  have hpos : 0 < FFT_SIZE := by decide
  have hmin : min 1 FFT_SIZE = 1 := by decide
  obtain ⟨acc, hacc⟩ := updatePeaks_loop_some ([1] : List α) 1 1 (by simp)
  have hwv : forLoop (min 1 FFT_SIZE) (waveformFrame ([1] : List α) 1) (v.waveform, 0) =
      some (v.waveform.set 0 1, 1 % FFT_SIZE) := by
    rw [hmin, forLoop_succ, forLoop_zero]
    simp only [Option.some_bind, waveformFrame, forLoop_succ, forLoop_zero, Option.bind_eq_bind,
      hw, hpos, if_true]
    norm_num
  have hw1 : (v.waveform.set 0 1).length = FFT_SIZE := by
    rw [List.length_set]
    exact hw
  have hwval : ∀ p, p < FFT_SIZE →
      (v.waveform.set 0 1)[p]? = some (if p < 1 then 1 else 0) := by
    intro p hp
    by_cases hp0 : p = 0
    · subst hp0
      rw [List.getElem?_set_self (by rw [hw]; exact hpos)]
      simp
    · rw [List.getElem?_set_ne (Ne.symm hp0), if_neg (by omega)]
      exact hzero p hp
  obtain ⟨fb0, hcopy, hfb0l, hfb0v⟩ := copy_waveform_value (v.waveform.set 0 1) v.fftBuffer
    hw1 hb
  obtain ⟨sp, fb, fo, ht, htl, htv⟩ := performFFT_impulse m
    { v with
      leftPeak := 0.95 * v.leftPeak + (1.0 - 0.95) * acc.leftMax,
      rightPeak := 0.95 * v.rightPeak + (1.0 - 0.95) * acc.rightMax,
      rms := m.sqrt (acc.sum / ((1 * 1 : Nat) : α)),
      waveform := v.waveform.set 0 1, fftBuffer := fb0 }
    h1 h2 hfb0l ho (fun p hp => by rw [hfb0v p hp]; exact hwval p hp)
  refine ⟨({ v with
      leftPeak := 0.95 * v.leftPeak + (1.0 - 0.95) * acc.leftMax,
      rightPeak := 0.95 * v.rightPeak + (1.0 - 0.95) * acc.rightMax,
      rms := m.sqrt (acc.sum / ((1 * 1 : Nat) : α)),
      waveform := v.waveform.set 0 1, spectrum := sp, fftBuffer := fb, fftOutput := fo },
    { waveformIndex := 1 % FFT_SIZE }), ?_, hw1, hwval, htv⟩
  unfold processAudio updatePeaks
  simp only [hen, Bool.not_true, Bool.false_eq_true, if_false, Option.bind_eq_bind] at hcopy ⊢
  rw [hacc]
  simp only [Option.some_bind]
  rw [hwv]
  simp only [Option.some_bind]
  rw [hcopy]
  simp only [Option.some_bind]
  simp only [hen] at ht
  rw [ht]
  rfl

end Visualizer
namespace Visualizer

variable {α : Type} [LinearOrderedField α]

theorem running_max_constant (r : α) (n : Nat) (body : Nat → α → Option α) (hn : 0 < n)
    (hbody : ∀ k x, k < n → body k x = some (max x r)) :
    forLoop n body 0.0 = some (max 0.0 r) := by
  obtain ⟨x, hx, hI⟩ := forLoop_invariant
    (fun k (x : α) => (k = 0 → x = 0.0) ∧ (0 < k → x = max 0.0 r)) n body (0.0 : α)
    ⟨fun _ => rfl, fun h => absurd h (Nat.lt_irrefl 0)⟩
    (by
      intro k x hk hI
      refine ⟨_, hbody k x hk, fun h => absurd h (Nat.succ_ne_zero k), fun _ => ?_⟩
      rcases Nat.eq_zero_or_pos k with h0 | h0
      · rw [hI.1 h0]
      · rw [hI.2 h0, max_assoc, max_self])
  rw [hx, hI.2 hn]

theorem bandMagnitude_ones (m : SpectrumMath α) (fb : List α)
    (hones : ∀ p, p < FFT_SIZE → fb[p]? = some 1) (band : Nat) (hband : band < SPECTRUM_BANDS) :
    bandMagnitude m fb band = some (max 0.0 (m.sqrt (1 * 1 + 1 * 1))) := by
  have hbins : 1024 / SPECTRUM_BANDS = 16 := by decide
  have hhalf : FFT_SIZE / 2 = 1024 := by decide
  have h64 : SPECTRUM_BANDS = 64 := rfl
  have h2048 : FFT_SIZE = 2048 := rfl
  unfold bandMagnitude
  simp only [hhalf, hbins]
  apply running_max_constant
  · omega
  · intro k x hk
    have hbin : band * 16 + k < 1024 := by omega
    simp only [Option.bind_eq_bind, hones (band * 16 + k) (by omega), Option.some_bind, hbin,
      if_true, hones (band * 16 + k + 1024) (by omega)]

end Visualizer

section TransformImpulse

/-- C25, at the failing input. The enabled fresh analyzer over the reals, with the
rectangular window (`setWindowType(0)`), given the single mono sample 1: the analysed
window is the unit impulse `(1, 0, ..., 0)`, whose `N`-point DFT has magnitude 1 in every
bin; `processAudio` succeeds, but the transform leaves 1 in every entry of `fftBuffer_`,
and the magnitude that `calculateSpectrum` computes is `sqrt(1 * 1 + 1 * 1) = sqrt 2` for
every bin `k < N / 2` and for every band, not 1. -/
theorem transform_impulse_magnitude :
    ∃ t, Visualizer.processAudio realSpectrumMath
        (Visualizer.setWindowType (Visualizer.setEnabled (Visualizer.new : Visualizer ℝ) true)
          0)
        Visualizer.initStatics [1] 1 1 = some t ∧
      t.1.waveform.length = FFT_SIZE ∧
      (∀ p, p < FFT_SIZE → t.1.waveform[p]? = some (if p < 1 then 1 else 0)) ∧
      (∀ p, p < FFT_SIZE → t.1.fftBuffer[p]? = some 1) ∧
      (∀ k, k < FFT_SIZE / 2 →
        Visualizer.binMagnitude realSpectrumMath t.1.fftBuffer k = some (Real.sqrt 2) ∧
        referenceDFTMagnitude realMath t.1.waveform k = 1) ∧
      (∀ band, band < SPECTRUM_BANDS →
        Visualizer.bandMagnitude realSpectrumMath t.1.fftBuffer band = some (Real.sqrt 2)) ∧
      Real.sqrt 2 ≠ 1 := by
  have h2 : Real.sqrt (1 * 1 + 1 * 1) = Real.sqrt 2 := by norm_num
  obtain ⟨t, ht, hwl, hwv, hfb⟩ := Visualizer.processAudio_impulse realSpectrumMath
    (Visualizer.setWindowType (Visualizer.setEnabled (Visualizer.new : Visualizer ℝ) true) 0)
    rfl (by show (0 : Int) ≠ 1; decide) (by show (0 : Int) ≠ 2; decide)
    (by simp only [Visualizer.setWindowType, Visualizer.setEnabled, Visualizer.new,
      List.length_replicate])
    (by simp only [Visualizer.setWindowType, Visualizer.setEnabled, Visualizer.new,
      List.length_replicate])
    (by simp only [Visualizer.setWindowType, Visualizer.setEnabled, Visualizer.new,
      List.length_replicate])
    (by
      intro p hp
      simp only [Visualizer.setWindowType, Visualizer.setEnabled, Visualizer.new]
      rw [List.getElem?_replicate, if_pos hp])
  refine ⟨t, ht, hwl, hwv, hfb, ?_, ?_, ?_⟩
  · intro k hk
    constructor
    · rw [Visualizer.binMagnitude_ones realSpectrumMath t.1.fftBuffer hfb k hk]
      exact congrArg some h2
    · exact referenceDFT_impulse realMath Real.cos_zero Real.sin_zero Real.sqrt_one
        t.1.waveform (by rw [hwl]; decide) (by rw [hwl]; exact hwv) k
  · intro band hband
    rw [Visualizer.bandMagnitude_ones realSpectrumMath t.1.fftBuffer hfb band hband]
    have h00 : (0.0 : ℝ) = 0 := by norm_num
    have : max (0.0 : ℝ) (realSpectrumMath.sqrt (1 * 1 + 1 * 1)) = Real.sqrt 2 := by
      rw [h00]
      show max 0 (Real.sqrt (1 * 1 + 1 * 1)) = Real.sqrt 2
      rw [h2]
      exact max_eq_right (Real.sqrt_nonneg 2)
    rw [this]
  · intro h
    have := Real.sqrt_eq_one.mp h
    norm_num at this

end TransformImpulse

/-! ## Waveform circular buffer -/

namespace Visualizer

variable {α : Type} [LinearOrderedField α]

/-- The channel loop of the waveform update adds up the samples of frame `i`, starting
from `0.0f`. -/
theorem channelSum_value (input : List α) (n c i : Nat) (hi : i < n)
    (hin : n * c ≤ input.length) :
    forLoop c
      (fun ch sample => do
        let x ← input[i * c + ch]?
        some (sample + x))
      (0.0 : α) = some (∑ ch ∈ Finset.range c, input.getD (i * c + ch) 0) := by
  have h00 : (0.0 : α) = 0 := by norm_num
  have key : ∀ k, k ≤ c → forLoop k
      (fun ch sample => do
        let x ← input[i * c + ch]?
        some (sample + x))
      (0.0 : α) = some (∑ ch ∈ Finset.range k, input.getD (i * c + ch) 0) := by
    intro k
    induction k with
    | zero =>
      intro _
      rw [forLoop_zero, Finset.sum_range_zero, h00]
    | succ k ih =>
      intro hk
      have h1 : i * c + k < input.length := by
        have := frame_index_lt n c i k hi (by omega)
        omega
      rw [forLoop_succ, ih (by omega), Finset.sum_range_succ]
      simp only [Option.bind_eq_bind, Option.some_bind, List.getElem?_eq_getElem h1,
        List.getD_eq_getElem?_getD, Option.getD_some]
  exact key c (le_refl c)

/-- The waveform loop as a circular write: after `min n FFT_SIZE` iterations from the write
index `p` the index is `(p + min n FFT_SIZE) % FFT_SIZE`, position `(p + i) % FFT_SIZE`
holds the channel average of frame `i`, and every other position is as before. -/
theorem waveform_loop_spec (input : List α) (n c : Nat) (waveform : List α) (p : Nat)
    (hw : waveform.length = FFT_SIZE) (hp : p < FFT_SIZE) (hin : n * c ≤ input.length) :
    ∃ w, forLoop (min n FFT_SIZE) (waveformFrame input c) (waveform, p) = some w ∧
      w.1.length = FFT_SIZE ∧ w.2 = (p + min n FFT_SIZE) % FFT_SIZE ∧
      (∀ i, i < min n FFT_SIZE →
        w.1[(p + i) % FFT_SIZE]? =
          some ((∑ ch ∈ Finset.range c, input.getD (i * c + ch) 0) / (c : α))) ∧
      (∀ j, (∀ i, i < min n FFT_SIZE → j ≠ (p + i) % FFT_SIZE) → w.1[j]? = waveform[j]?) := by
  have hF : FFT_SIZE = 2048 := rfl
  refine forLoop_invariant
    (fun k (w : List α × Nat) => w.1.length = FFT_SIZE ∧ w.2 = (p + k) % FFT_SIZE ∧
      (∀ i, i < k →
        w.1[(p + i) % FFT_SIZE]? =
          some ((∑ ch ∈ Finset.range c, input.getD (i * c + ch) 0) / (c : α))) ∧
      (∀ j, (∀ i, i < k → j ≠ (p + i) % FFT_SIZE) → w.1[j]? = waveform[j]?))
    (min n FFT_SIZE) _ (waveform, p) ?_ ?_
  · refine ⟨hw, ?_, ?_, ?_⟩
    · show p = (p + 0) % FFT_SIZE
      rw [Nat.add_zero, Nat.mod_eq_of_lt hp]
    · intro i hi
      omega
    · intro j _
      rfl
  · intro k t hk hI
    obtain ⟨hlen, hidx, hval, hrest⟩ := hI
    have hx := channelSum_value input n c k (by omega) hin
    have hlt : t.2 < t.1.length := by
      rw [hidx, hlen]
      exact Nat.mod_lt _ (by decide)
    refine ⟨(t.1.set t.2 ((∑ ch ∈ Finset.range c, input.getD (k * c + ch) 0) / (c : α)),
      (t.2 + 1) % FFT_SIZE), ?_, ?_, ?_, ?_, ?_⟩
    · unfold waveformFrame
      simp only [Option.bind_eq_bind] at hx ⊢
      rw [hx]
      simp only [Option.some_bind, hlt, if_true]
    · simpa using hlen
    · show (t.2 + 1) % FFT_SIZE = (p + (k + 1)) % FFT_SIZE
      rw [hidx, hF]
      omega
    · intro i hi
      show (t.1.set t.2 _)[(p + i) % FFT_SIZE]? = _
      by_cases hik : i = k
      · subst hik
        rw [← hidx, List.getElem?_set_self hlt]
      · have hne : t.2 ≠ (p + i) % FFT_SIZE := by
          rw [hidx, hF]
          rw [hF] at hk
          omega
        rw [List.getElem?_set_ne hne]
        exact hval i (by omega)
    · intro j hj
      show (t.1.set t.2 _)[j]? = _
      have hne : t.2 ≠ j := by
        rw [hidx]
        exact fun h => hj k (Nat.lt_succ_self k) h.symm
      rw [List.getElem?_set_ne hne]
      exact hrest j (fun i hi => hj i (Nat.lt_succ_of_lt hi))

/-- C31. Waveform circular buffer: for an enabled analyzer whose vectors have their
constructed size and whose write index `p` is below 2048, and a buffer of `n ≥ 0` frames of
`c ≥ 1` channels, `processAudio` returns; with `k = min n 2048` it stores at position
`(p + i) mod 2048`, for each `i < k`, the channel average `(Σ_ch x[i*c+ch]) / c`, leaves
every other waveform position as it was, sets the write index to `(p + k) mod 2048` and
keeps the waveform length 2048; and in every state reachable from construction the write
index is below 2048 and the waveform has length 2048. -/
theorem waveform_circular_buffer (m : SpectrumMath α) (v : Visualizer α)
    (st : VisualizerStatics) (input : List α) (n c : Nat) (hen : v.enabled = true)
    (hok : SizesOK (v, st)) (_hc : 1 ≤ c) (hin : n * c ≤ input.length) :
    (∃ v1 st1, processAudio m v st input n c = some (v1, st1) ∧
      v1.waveform.length = FFT_SIZE ∧
      st1.waveformIndex = (st.waveformIndex + min n FFT_SIZE) % FFT_SIZE ∧
      (∀ i, i < min n FFT_SIZE →
        v1.waveform[(st.waveformIndex + i) % FFT_SIZE]? =
          some ((∑ ch ∈ Finset.range c, input.getD (i * c + ch) 0) / (c : α))) ∧
      (∀ j, (∀ i, i < min n FFT_SIZE → j ≠ (st.waveformIndex + i) % FFT_SIZE) →
        v1.waveform[j]? = v.waveform[j]?)) ∧
    (∀ s, Reachable m s → s.2.waveformIndex < FFT_SIZE ∧ s.1.waveform.length = FFT_SIZE) := by
  constructor
  · obtain ⟨acc, w, fb, fo, _, hw, _, _, _, _, hrun⟩ :=
      processAudio_spec m v st input n c hen hok hin
    obtain ⟨w2, hw2, hlen, hidx, hval, hrest⟩ :=
      waveform_loop_spec input n c v.waveform st.waveformIndex hok.1 hok.2.2.2 hin
    rw [hw] at hw2
    cases hw2
    exact ⟨_, _, hrun, hlen, hidx, hval, hrest⟩
  · intro s hs
    have h := reachable_sizes m s hs
    exact ⟨h.2.2.2, h.1⟩

/-- An instance of C31 with wrap-around: the enabled fresh analyzer with the write index at
2047, on two mono frames `3, -4`; the averages go to positions 2047 and 0 and the index
becomes 1. -/
theorem waveform_circular_buffer_witness :
    ∃ v1 st1, processAudio realSpectrumMath (setEnabled (Visualizer.new : Visualizer ℝ) true)
        { waveformIndex := 2047 } [3, -4] 2 1 = some (v1, st1) ∧
      v1.waveform.length = FFT_SIZE ∧
      st1.waveformIndex = (2047 + min 2 FFT_SIZE) % FFT_SIZE ∧
      (∀ i, i < min 2 FFT_SIZE →
        v1.waveform[(2047 + i) % FFT_SIZE]? =
          some ((∑ ch ∈ Finset.range 1, ([3, -4] : List ℝ).getD (i * 1 + ch) 0) /
            ((1 : Nat) : ℝ))) ∧
      (∀ j, (∀ i, i < min 2 FFT_SIZE → j ≠ (2047 + i) % FFT_SIZE) →
        v1.waveform[j]? = (setEnabled (Visualizer.new : Visualizer ℝ) true).waveform[j]?) :=
  (waveform_circular_buffer realSpectrumMath (setEnabled (Visualizer.new : Visualizer ℝ) true)
    { waveformIndex := 2047 } [3, -4] 2 1 rfl
    ⟨by simp only [Visualizer.new, setEnabled, List.length_replicate],
      by simp only [Visualizer.new, setEnabled, List.length_replicate],
      by simp only [Visualizer.new, setEnabled, List.length_replicate],
      by decide⟩
    (le_refl 1) (by simp)).1

end Visualizer

/-! ## Characteristic gains of the designs -/

section GainLemmas

variable {α : Type} [LinearOrderedField α]

end GainLemmas

section DesignGains

end DesignGains

section DesignGainsClaim

end DesignGainsClaim

/-! ## The 0 dB peaking filter -/

section CallsLemmas

variable {α : Type}

/-- Successive calls of a method that leaves every admitted buffer as it was and keeps an
invariant of the histories return the buffers they were given. -/
theorem successiveCalls_transparent
    (method : Nat → Nat → BiquadHistory α × List α → Option (BiquadHistory α × List α))
    (Inv : BiquadHistory α → Prop) (P : List α × Nat × Nat → Prop)
    (hstep : ∀ call h, P call → Inv h →
      ∃ h', method call.2.1 call.2.2 (h, call.1) = some (h', call.1) ∧ Inv h') :
    ∀ (calls : List (List α × Nat × Nat)) (h : BiquadHistory α),
      (∀ call ∈ calls, P call) → Inv h →
      ∃ h', successiveCalls method calls h = some (h', calls.map (fun call => call.1)) ∧
        Inv h' := by
  intro calls
  induction calls with
  | nil =>
    intro h _ hI
    exact ⟨h, rfl, hI⟩
  | cons call rest ih =>
    intro h hP hI
    obtain ⟨h1, hrun, hI1⟩ := hstep call h (hP call (List.mem_cons_self _ _)) hI
    obtain ⟨h2, hrest, hI2⟩ := ih h1 (fun c hc => hP c (List.mem_cons_of_mem _ hc)) hI1
    refine ⟨h2, ?_, hI2⟩
    simp only [successiveCalls, Option.bind_eq_bind, hrun, Option.some_bind, hrest,
      List.map_cons]

end CallsLemmas

section Transparent

variable {α : Type} [LinearOrderedField α]

/-- With `b0 = 1`, `b1 = a1`, `b2 = a2` and input and output histories that agree, one
step of the recurrence stores the sample it read and keeps the histories in agreement. -/
theorem biquadSample_transparent (co : FilterCoeffs α) (hb0 : co.b0 = 1) (hb1 : co.b1 = co.a1)
    (hb2 : co.b2 = co.a2) (numChannels frame ch : Nat) (s : BiquadHistory α × List α)
    (hch : ch < 2) (hidx : frame * numChannels + ch < s.2.length)
    (h1 : s.1.x1.length = 2) (h2 : s.1.x2.length = 2)
    (e1 : s.1.x1 = s.1.y1) (e2 : s.1.x2 = s.1.y2) :
    ∃ h, biquadSample co numChannels frame ch s = some (h, s.2) ∧
      h.x1.length = 2 ∧ h.x2.length = 2 ∧ h.x1 = h.y1 ∧ h.x2 = h.y2 := by
  have c1 : ch < s.1.x1.length := by omega
  have c2 : ch < s.1.x2.length := by omega
  have c3 : ch < s.1.y1.length := by rw [← e1]; exact c1
  have c4 : ch < s.1.y2.length := by rw [← e2]; exact c2
  have g1 : s.1.y1[ch] = s.1.x1[ch] := by simp only [e1]
  have g2 : s.1.y2[ch] = s.1.x2[ch] := by simp only [e2]
  have hy : co.b0 * s.2[frame * numChannels + ch] + co.b1 * s.1.x1[ch] + co.b2 * s.1.x2[ch] -
      co.a1 * s.1.y1[ch] - co.a2 * s.1.y2[ch] = s.2[frame * numChannels + ch] := by
    rw [hb0, hb1, hb2, g1, g2]
    ring
  refine ⟨{ x2 := s.1.x2.set ch s.1.x1[ch], x1 := s.1.x1.set ch s.2[frame * numChannels + ch],
            y2 := s.1.y2.set ch s.1.y1[ch], y1 := s.1.y1.set ch s.2[frame * numChannels + ch] },
    ?_, ?_, ?_, ?_, ?_⟩
  · simp only [biquadSample, List.getElem?_eq_getElem hidx, List.getElem?_eq_getElem c1,
      List.getElem?_eq_getElem c2, List.getElem?_eq_getElem c3, List.getElem?_eq_getElem c4,
      Option.bind_eq_bind, Option.some_bind, hy, DSPProcessor.set_getElem_same _ _ hidx]
  · simpa using h1
  · simpa using h2
  · show s.1.x1.set ch _ = s.1.y1.set ch _
    rw [e1]
  · show s.1.x2.set ch _ = s.1.y2.set ch _
    simp only [g1]
    rw [e2]

/-- The recurrence loop of such a filter leaves a mono or stereo buffer as it was and
keeps the histories in agreement. -/
theorem biquadLoop_transparent (co : FilterCoeffs α) (hb0 : co.b0 = 1) (hb1 : co.b1 = co.a1)
    (hb2 : co.b2 = co.a2) (numFrames numChannels : Nat) (h : BiquadHistory α) (buf : List α)
    (hnc : numChannels ≤ 2) (hlen : numFrames * numChannels ≤ buf.length)
    (h1 : h.x1.length = 2) (h2 : h.x2.length = 2) (e1 : h.x1 = h.y1) (e2 : h.x2 = h.y2) :
    ∃ h', biquadLoop co numFrames numChannels (h, buf) = some (h', buf) ∧
      h'.x1.length = 2 ∧ h'.x2.length = 2 ∧ h'.x1 = h'.y1 ∧ h'.x2 = h'.y2 := by
  have key := forLoop_invariant
    (fun _ (t : BiquadHistory α × List α) => t.2 = buf ∧ t.1.x1.length = 2 ∧
      t.1.x2.length = 2 ∧ t.1.x1 = t.1.y1 ∧ t.1.x2 = t.1.y2) numFrames
    (fun frame s1 =>
      forLoop numChannels (fun ch s2 => biquadSample co numChannels frame ch s2) s1)
    (h, buf) ⟨rfl, h1, h2, e1, e2⟩
    (by
      intro frame t hframe ht
      refine forLoop_invariant
        (fun _ (t : BiquadHistory α × List α) => t.2 = buf ∧ t.1.x1.length = 2 ∧
          t.1.x2.length = 2 ∧ t.1.x1 = t.1.y1 ∧ t.1.x2 = t.1.y2) numChannels _ t ht ?_
      intro ch u hch hu
      have hidx : frame * numChannels + ch < u.2.length := by
        have := Visualizer.frame_index_lt numFrames numChannels frame ch hframe hch
        rw [hu.1]
        omega
      obtain ⟨h', hrun, g⟩ := biquadSample_transparent co hb0 hb1 hb2 numChannels frame ch u
        (by omega) hidx hu.2.1 hu.2.2.1 hu.2.2.2.1 hu.2.2.2.2
      exact ⟨(h', u.2), hrun, hu.1, g⟩)
  obtain ⟨t, ht, hbuf, g⟩ := key
  refine ⟨t.1, ?_, g⟩
  unfold biquadLoop
  rw [ht, ← hbuf]

end Transparent

section TransparentClaim

theorem applyFilters_transparent (fs : Int) (f q : ℝ) (hfs : 0 < fs) (hf : 0 < f)
    (hny : f < (fs : ℝ) / 2) (hq : 0 < q) (p : DSPProcessor ℝ) (hsr : p.sampleRate = fs)
    (hfl : ∀ flt ∈ p.filters, flt.type = FilterType.BAND_PASS ∨
      flt = { type := FilterType.PEAKING, frequency := f, q := q, gain := 0 })
    (numFrames numChannels : Nat) (h : BiquadHistory ℝ) (buf : List ℝ)
    (hnc : numChannels ≤ 2) (hlen : numFrames * numChannels ≤ buf.length)
    (h1 : h.x1.length = 2) (h2 : h.x2.length = 2) (e1 : h.x1 = h.y1) (e2 : h.x2 = h.y2) :
    ∃ h', DSPProcessor.applyFilters realMath p numFrames numChannels (h, buf) =
        some (h', buf) ∧
      h'.x1.length = 2 ∧ h'.x2.length = 2 ∧ h'.x1 = h'.y1 ∧ h'.x2 = h'.y2 := by
  have hex := (raw_flat_exact _ q (omega0_pos fs f hfs hf) (omega0_lt_pi fs f hfs hny) hq).1
  obtain ⟨t, ht, hbuf, g⟩ := foldlM_invariant
    (fun t : BiquadHistory ℝ × List ℝ => t.2 = buf ∧ t.1.x1.length = 2 ∧
      t.1.x2.length = 2 ∧ t.1.x1 = t.1.y1 ∧ t.1.x2 = t.1.y2)
    (DSPProcessor.applyFilter realMath p.sampleRate numFrames numChannels) p.filters (h, buf)
    ⟨rfl, h1, h2, e1, e2⟩
    (by
      intro flt hmem t ht
      rcases hfl flt hmem with hbp | hpk
      · refine ⟨t, ?_, ht⟩
        simp only [DSPProcessor.applyFilter, DSPProcessor.designFilter, hbp]
      · subst hpk
        obtain ⟨h', hrun, g⟩ := biquadLoop_transparent _ hex.1 hex.2.1 hex.2.2 numFrames
          numChannels t.1 t.2 hnc (by rw [ht.1]; exact hlen) ht.2.1 ht.2.2.1 ht.2.2.2.1
          ht.2.2.2.2
        refine ⟨(h', t.2), ?_, ht.1, g⟩
        simp only [DSPProcessor.applyFilter, DSPProcessor.designFilter, hsr]
        exact hrun)
  refine ⟨t.1, ?_, g⟩
  unfold DSPProcessor.applyFilters
  rw [ht, ← hbuf]

theorem applyParametricEQ_transparent (fs : Int) (f q : ℝ) (hfs : 0 < fs) (hf : 0 < f)
    (hny : f < (fs : ℝ) / 2) (hq : 0 < q) (eq : Equalizer ℝ) (hsr : eq.sampleRate = fs)
    (hbands : ∀ b ∈ eq.parametricBands, b.enabled = true →
      b = { frequency := f, q := q, gain := 0, enabled := true })
    (numFrames numChannels : Nat) (h : BiquadHistory ℝ) (buf : List ℝ)
    (hnc : numChannels ≤ 2) (hlen : numFrames * numChannels ≤ buf.length)
    (h1 : h.x1.length = 2) (h2 : h.x2.length = 2) (e1 : h.x1 = h.y1) (e2 : h.x2 = h.y2) :
    ∃ h', Equalizer.applyParametricEQ realMath eq numFrames numChannels (h, buf) =
        some (h', buf) ∧
      h'.x1.length = 2 ∧ h'.x2.length = 2 ∧ h'.x1 = h'.y1 ∧ h'.x2 = h'.y2 := by
  have hex := (raw_flat_exact _ q (omega0_pos fs f hfs hf) (omega0_lt_pi fs f hfs hny) hq).1
  obtain ⟨t, ht, hbuf, g⟩ := foldlM_invariant
    (fun t : BiquadHistory ℝ × List ℝ => t.2 = buf ∧ t.1.x1.length = 2 ∧
      t.1.x2.length = 2 ∧ t.1.x1 = t.1.y1 ∧ t.1.x2 = t.1.y2)
    (fun acc (band : ParametricBand ℝ) =>
      if !band.enabled then some acc
      else
        let coeffs := Equalizer.designPeaking realMath eq band.frequency band.gain band.q
        biquadLoop coeffs numFrames numChannels acc)
    eq.parametricBands (h, buf) ⟨rfl, h1, h2, e1, e2⟩
    (by
      intro band hmem t ht
      by_cases hen : band.enabled = true
      · have hb := hbands band hmem hen
        subst hb
        obtain ⟨h', hrun, g⟩ := biquadLoop_transparent _ hex.1 hex.2.1 hex.2.2 numFrames
          numChannels t.1 t.2 hnc (by rw [ht.1]; exact hlen) ht.2.1 ht.2.2.1 ht.2.2.2.1
          ht.2.2.2.2
        refine ⟨(h', t.2), ?_, ht.1, g⟩
        simp only [Equalizer.designPeaking, hsr, Bool.not_true, Bool.false_eq_true, if_false]
        exact hrun
      · refine ⟨t, ?_, ht⟩
        simp only [Bool.not_eq_true] at hen
        simp only [hen, Bool.not_false, if_true])
  refine ⟨t.1, ?_, g⟩
  unfold Equalizer.applyParametricEQ
  rw [ht, ← hbuf]

/-- C33. A 0 dB peaking filter passes the signal exactly, in real arithmetic. For a sample
rate `fs > 0`, `0 < f < fs / 2` and `Q > 0`, the `PEAKING` design of
`DSPProcessor::applyFilters` and `Equalizer::designPeaking` give, for the gain 0, normalized
coefficients with `b0 = 1`, `b1 = a1` and `b2 = a2`. When that filter is the only active one
(every other entry of `filters_` is of the kind the switch skips; every other parametric
band is disabled), then from the zero histories every sequence of successive calls of
`applyFilters`, and of `applyParametricEQ`, on mono or stereo buffers that hold their
`numFrames * numChannels` samples returns each buffer as it was given, and the histories
after the last call satisfy `x1 = y1` and `x2 = y2`; the last call may stop after any number
of frames, so this holds after every frame. -/
theorem peaking_zero_gain_transparent (fs : Int) (f q : ℝ) (hfs : 0 < fs) (hf : 0 < f)
    (hny : f < (fs : ℝ) / 2) (hq : 0 < q) :
    (∃ raw, DSPProcessor.designFilter realMath fs
        { type := FilterType.PEAKING, frequency := f, q := q, gain := 0 } = some raw ∧
      raw.normalize.b0 = 1 ∧ raw.normalize.b1 = raw.normalize.a1 ∧
      raw.normalize.b2 = raw.normalize.a2) ∧
    (∀ eq : Equalizer ℝ, eq.sampleRate = fs →
      (Equalizer.designPeaking realMath eq f 0 q).b0 = 1 ∧
      (Equalizer.designPeaking realMath eq f 0 q).b1 =
        (Equalizer.designPeaking realMath eq f 0 q).a1 ∧
      (Equalizer.designPeaking realMath eq f 0 q).b2 =
        (Equalizer.designPeaking realMath eq f 0 q).a2) ∧
    (∀ (p : DSPProcessor ℝ) (calls : List (List ℝ × Nat × Nat)), p.sampleRate = fs →
      (∀ flt ∈ p.filters, flt.type = FilterType.BAND_PASS ∨
        flt = { type := FilterType.PEAKING, frequency := f, q := q, gain := 0 }) →
      (∀ call ∈ calls, call.2.2 ≤ 2 ∧ call.2.1 * call.2.2 ≤ call.1.length) →
      ∃ h, successiveCalls (DSPProcessor.applyFilters realMath p) calls BiquadHistory.init =
          some (h, calls.map (fun call => call.1)) ∧
        h.x1 = h.y1 ∧ h.x2 = h.y2) ∧
    (∀ (eq : Equalizer ℝ) (calls : List (List ℝ × Nat × Nat)), eq.sampleRate = fs →
      (∀ b ∈ eq.parametricBands, b.enabled = true →
        b = { frequency := f, q := q, gain := 0, enabled := true }) →
      (∀ call ∈ calls, call.2.2 ≤ 2 ∧ call.2.1 * call.2.2 ≤ call.1.length) →
      ∃ h, successiveCalls (Equalizer.applyParametricEQ realMath eq) calls BiquadHistory.init =
          some (h, calls.map (fun call => call.1)) ∧
        h.x1 = h.y1 ∧ h.x2 = h.y2) := by
  have hex := (raw_flat_exact _ q (omega0_pos fs f hfs hf) (omega0_lt_pi fs f hfs hny) hq).1
  refine ⟨⟨_, rfl, hex⟩, ?_, ?_, ?_⟩
  · intro eq heq
    simp only [Equalizer.designPeaking, heq]
    exact hex
  · intro p calls hsr hfl hcalls
    obtain ⟨h, hrun, _, _, g1, g2⟩ := successiveCalls_transparent
      (DSPProcessor.applyFilters realMath p)
      (fun h => h.x1.length = 2 ∧ h.x2.length = 2 ∧ h.x1 = h.y1 ∧ h.x2 = h.y2)
      (fun call => call.2.2 ≤ 2 ∧ call.2.1 * call.2.2 ≤ call.1.length)
      (fun call h hP hI => applyFilters_transparent fs f q hfs hf hny hq p hsr hfl call.2.1
        call.2.2 h call.1 hP.1 hP.2 hI.1 hI.2.1 hI.2.2.1 hI.2.2.2)
      calls BiquadHistory.init hcalls ⟨rfl, rfl, rfl, rfl⟩
    exact ⟨h, hrun, g1, g2⟩
  · intro eq calls hsr hbands hcalls
    obtain ⟨h, hrun, _, _, g1, g2⟩ := successiveCalls_transparent
      (Equalizer.applyParametricEQ realMath eq)
      (fun h => h.x1.length = 2 ∧ h.x2.length = 2 ∧ h.x1 = h.y1 ∧ h.x2 = h.y2)
      (fun call => call.2.2 ≤ 2 ∧ call.2.1 * call.2.2 ≤ call.1.length)
      (fun call h hP hI => applyParametricEQ_transparent fs f q hfs hf hny hq eq hsr hbands
        call.2.1 call.2.2 h call.1 hP.1 hP.2 hI.1 hI.2.1 hI.2.2.1 hI.2.2.2)
      calls BiquadHistory.init hcalls ⟨rfl, rfl, rfl, rfl⟩
    exact ⟨h, hrun, g1, g2⟩

/-- An instance of C33: at 48 kHz, one 0 dB peaking filter at 8 kHz with Q = 1, two
successive calls on the stereo frame `(3, -4)` and on the two mono frames `5, 6`. -/
theorem peaking_zero_gain_transparent_witness :
    ∃ h, successiveCalls
        (DSPProcessor.applyFilters realMath
          { (DSPProcessor.new : DSPProcessor ℝ) with
            sampleRate := 48000,
            filters := [{ type := FilterType.PEAKING, frequency := 8000, q := 1, gain := 0 }] })
        [([3, -4], 1, 2), ([5, 6], 2, 1)] BiquadHistory.init =
          some (h, [[3, -4], [5, 6]]) ∧
      h.x1 = h.y1 ∧ h.x2 = h.y2 :=
  (peaking_zero_gain_transparent 48000 8000 1 (by norm_num) (by norm_num) (by norm_num)
    (by norm_num)).2.2.1
    { (DSPProcessor.new : DSPProcessor ℝ) with
      sampleRate := 48000,
      filters := [{ type := FilterType.PEAKING, frequency := 8000, q := 1, gain := 0 }] }
    [([3, -4], 1, 2), ([5, 6], 2, 1)] rfl
    (by
      intro flt hflt
      right
      simpa using hflt)
    (by
      intro call hcall
      simp only [List.mem_cons, List.mem_singleton, List.mem_nil_iff, or_false] at hcall
      rcases hcall with rfl | rfl <;> simp)

end TransparentClaim

/-! ## Block-size independence -/

section LoopSplit

variable {σ : Type}

/-- A counted loop of `a + b` iterations is the loop of the first `a` iterations followed by
the loop of the next `b`. -/
theorem forLoop_add (a b : Nat) (body : Nat → σ → Option σ) (s : σ) :
    forLoop (a + b) body s =
      (forLoop a body s).bind (fun t => forLoop b (fun j => body (a + j)) t) := by
  induction b with
  | zero =>
    simp only [Nat.add_zero, forLoop_zero]
    cases forLoop a body s <;> rfl
  | succ k ih =>
    rw [← Nat.add_assoc, forLoop_succ, ih]
    cases forLoop a body s with
    | none => rfl
    | some t =>
      simp only [Option.some_bind]
      rw [forLoop_succ]

/-- Two loops whose iterations correspond under a transformation of the state have
corresponding results. -/
theorem forLoop_map (app : σ → σ) (n : Nat) (body1 body2 : Nat → σ → Option σ)
    (h : ∀ i, i < n → ∀ t, body1 i (app t) = (body2 i t).map app) (s : σ) :
    forLoop n body1 (app s) = (forLoop n body2 s).map app := by
  induction n with
  | zero => simp only [forLoop_zero, Option.map_some']
  | succ k ih =>
    rw [forLoop_succ, forLoop_succ, ih (fun i hi => h i (Nat.lt_succ_of_lt hi))]
    cases forLoop k body2 s with
    | none => rfl
    | some t =>
      simp only [Option.map_some', Option.some_bind]
      exact h k (Nat.lt_succ_self k) t

end LoopSplit

section BlockSplit

variable {α : Type} [LinearOrderedField α]

/-- The recurrence step for frame `k + j` of a buffer that starts with `k` whole frames
`pre` is the step for frame `j` of the rest of the buffer. -/
theorem biquadSample_prepend (co : FilterCoeffs α) (pre : List α) (k numChannels j ch : Nat)
    (hpre : pre.length = k * numChannels) (t : BiquadHistory α × List α) :
    biquadSample co numChannels (k + j) ch (t.1, pre ++ t.2) =
      (biquadSample co numChannels j ch t).map (fun r => (r.1, pre ++ r.2)) := by
  have hidx : (k + j) * numChannels + ch = pre.length + (j * numChannels + ch) := by
    rw [hpre]
    ring
  have hle : pre.length ≤ pre.length + (j * numChannels + ch) := Nat.le_add_right _ _
  simp only [biquadSample, hidx, List.getElem?_append_right hle, Nat.add_sub_cancel_left,
    Option.bind_eq_bind, List.set_append_right _ _ hle]
  cases t.2[j * numChannels + ch]? <;> cases t.1.x1[ch]? <;> cases t.1.x2[ch]? <;>
    cases t.1.y1[ch]? <;> cases t.1.y2[ch]? <;> rfl

/-- The recurrence over `nA + nB` frames of `A ++ B`, where `A` holds `nA` frames, is the
recurrence over `A` followed by the recurrence over `B` from the histories that `A` left. -/
theorem biquadLoop_split (co : FilterCoeffs α) (nA nB numChannels : Nat)
    (h h1 : BiquadHistory α) (A A1 B : List α) (hA : A.length = nA * numChannels)
    (hA1 : A1.length = nA * numChannels)
    (hrun : biquadLoop co nA numChannels (h, A) = some (h1, A1)) :
    biquadLoop co (nA + nB) numChannels (h, A ++ B) =
      (biquadLoop co nB numChannels (h1, B)).map (fun r => (r.1, A1 ++ r.2)) := by
  have happ := (biquadLoop_append co B nA numChannels (h, A) (le_of_eq hA.symm)).1
  rw [hrun] at happ
  simp only [Option.map_some'] at happ
  unfold biquadLoop at happ ⊢
  rw [forLoop_add, happ]
  simp only [Option.some_bind]
  refine forLoop_map (fun r : BiquadHistory α × List α => (r.1, A1 ++ r.2)) nB _ _ ?_ (h1, B)
  intro j _ t
  refine forLoop_map (fun r : BiquadHistory α × List α => (r.1, A1 ++ r.2)) numChannels _ _
    ?_ t
  intro ch _ u
  exact biquadSample_prepend co A1 nA numChannels j ch hA1 u

end BlockSplit

namespace DSPProcessor

variable {α : Type} [LinearOrderedField α]

theorem applyFilters_single (m : MathLib α) (p : DSPProcessor α) (flt : FilterParams α)
    (hp : p.filters = [flt]) (numFrames numChannels : Nat) (s : BiquadHistory α × List α) :
    applyFilters m p numFrames numChannels s =
      applyFilter m p.sampleRate numFrames numChannels s flt := by
  unfold applyFilters
  rw [hp, List.foldlM_cons]
  cases applyFilter m p.sampleRate numFrames numChannels s flt <;> rfl

/-- C34. Block-size independence of a single filter: for a processor whose filter list
holds one filter, a channel count of 1 or 2, histories of two entries and two buffers `A`
of `nA` frames and `B` of `nB` frames, `applyFilters` on `A` and then, from the histories
that call left, on `B` both return, and `applyFilters` on `A ++ B` with `nA + nB` frames
returns the concatenation of the two outputs and the same final histories. -/
theorem block_size_independence (m : MathLib α) (p : DSPProcessor α) (flt : FilterParams α)
    (hp : p.filters = [flt]) (c nA nB : Nat) (h : BiquadHistory α) (A B : List α)
    (hc : c = 1 ∨ c = 2) (hA : A.length = nA * c) (hB : B.length = nB * c)
    (h1 : h.x1.length = 2) (h2 : h.x2.length = 2) (h3 : h.y1.length = 2)
    (h4 : h.y2.length = 2) :
    ∃ hA1 A1 hB1 B1,
      applyFilters m p nA c (h, A) = some (hA1, A1) ∧
      applyFilters m p nB c (hA1, B) = some (hB1, B1) ∧
      applyFilters m p (nA + nB) c (h, A ++ B) = some (hB1, A1 ++ B1) := by
  have hc2 : c ≤ 2 := by omega
  simp only [applyFilters_single m p flt hp, applyFilter]
  cases hd : designFilter m p.sampleRate flt with
  | none => exact ⟨h, A, h, B, rfl, rfl, rfl⟩
  | some raw =>
    obtain ⟨u, hu, hl, g1, g2, g3, g4⟩ := biquadLoop_shape raw.normalize nA c (h, A) hc2
      (le_of_eq hA.symm) h1 h2 h3 h4
    obtain ⟨w, hw, _⟩ := biquadLoop_shape raw.normalize nB c (u.1, B) hc2
      (le_of_eq hB.symm) g1 g2 g3 g4
    refine ⟨u.1, u.2, w.1, w.2, hu, hw, ?_⟩
    simp only
    rw [biquadLoop_split raw.normalize nA nB c h u.1 A u.2 B hA (by rw [hl]; exact hA) hu, hw]
    rfl

/-- An instance of C34: one low-pass filter (1 kHz, Q = 1) at 48 kHz on the stereo frame
`(3, -4)` followed by the stereo frame `(5, 6)`, from the zero histories. -/
theorem block_size_independence_witness :
    ∃ hA1 A1 hB1 B1,
      applyFilters realMath
          { (DSPProcessor.new : DSPProcessor ℝ) with
            filters := [{ type := FilterType.LOW_PASS, frequency := 1000, q := 1, gain := 0 }] }
          1 2 (BiquadHistory.init, [3, -4]) = some (hA1, A1) ∧
      applyFilters realMath
          { (DSPProcessor.new : DSPProcessor ℝ) with
            filters := [{ type := FilterType.LOW_PASS, frequency := 1000, q := 1, gain := 0 }] }
          1 2 (hA1, [5, 6]) = some (hB1, B1) ∧
      applyFilters realMath
          { (DSPProcessor.new : DSPProcessor ℝ) with
            filters := [{ type := FilterType.LOW_PASS, frequency := 1000, q := 1, gain := 0 }] }
          (1 + 1) 2 (BiquadHistory.init, [3, -4] ++ [5, 6]) = some (hB1, A1 ++ B1) :=
  block_size_independence realMath
    { (DSPProcessor.new : DSPProcessor ℝ) with
      filters := [{ type := FilterType.LOW_PASS, frequency := 1000, q := 1, gain := 0 }] }
    { type := FilterType.LOW_PASS, frequency := 1000, q := 1, gain := 0 } rfl 2 1 1
    BiquadHistory.init [3, -4] [5, 6] (Or.inr rfl) rfl rfl rfl rfl rfl rfl

end DSPProcessor

/-! ## Rounding -/

section Rounding

theorem roundHalfEven_eq (q : ℚ) (n : Int)
    (h : |q - n| < 1 / 2 ∨ (|q - n| = 1 / 2 ∧ n % 2 = 0)) : roundHalfEven q = n := by
  unfold roundHalfEven
  rcases le_or_lt (n : ℚ) q with hle | hlt
  · -- q ≥ n
    have habs : |q - n| = q - n := abs_of_nonneg (by linarith)
    rcases h with h | ⟨h, hev⟩
    · rw [habs] at h
      have hf : ⌊q⌋ = n := Int.floor_eq_iff.mpr ⟨hle, by linarith⟩
      simp only [hf]
      rw [if_pos h]
    · rw [habs] at h
      have hf : ⌊q⌋ = n := Int.floor_eq_iff.mpr ⟨hle, by linarith⟩
      simp only [hf]
      rw [if_neg (by linarith), if_neg (by linarith), if_pos hev]
  · have habs : |q - n| = n - q := by rw [abs_of_neg (by linarith)]; ring
    rcases h with h | ⟨h, hev⟩
    · rw [habs] at h
      have hf : ⌊q⌋ = n - 1 :=
        Int.floor_eq_iff.mpr ⟨by push_cast; linarith, by push_cast; linarith⟩
      simp only [hf]
      push_cast
      rw [if_neg (by linarith), if_pos (by linarith)]
      ring
    · rw [habs] at h
      have hf : ⌊q⌋ = n - 1 :=
        Int.floor_eq_iff.mpr ⟨by push_cast; linarith, by push_cast; linarith⟩
      simp only [hf]
      push_cast
      have hodd : ¬ (n - 1) % 2 = 0 := by omega
      rw [if_neg (by linarith), if_neg (by linarith), if_neg hodd]
      ring

/-- Evaluation of a rounding: for `2 ^ k ≤ |x| < 2 ^ (k + 1)` with `k` not below the least
normal exponent, the result is `n * 2 ^ (k - (p - 1))` for the integer `n` nearest to
`x / 2 ^ (k - (p - 1))` (the even one at a tie). -/
theorem roundBinary_eq (p : Nat) (emin : Int) (x : ℚ) (k n : Int) (hk : emin ≤ k)
    (hlo : (2 : ℚ) ^ k ≤ x ∨ (2 : ℚ) ^ k ≤ -x)
    (hhi : -(2 : ℚ) ^ (k + 1) < x ∧ x < (2 : ℚ) ^ (k + 1))
    (hn : (-(1 / 2) < x / 2 ^ (k - ((p : Int) - 1)) - n ∧
        x / 2 ^ (k - ((p : Int) - 1)) - n < 1 / 2) ∨
      ((x / 2 ^ (k - ((p : Int) - 1)) - n = 1 / 2 ∨
        x / 2 ^ (k - ((p : Int) - 1)) - n = -(1 / 2)) ∧ n % 2 = 0)) :
    roundBinary p emin x = n * 2 ^ (k - ((p : Int) - 1)) := by
  have hlo2 : (2 : ℚ) ^ k ≤ |x| := by
    rcases hlo with h | h
    · exact le_trans h (le_abs_self x)
    · exact le_trans h (neg_le_abs x)
  have hhi2 : |x| < (2 : ℚ) ^ (k + 1) := abs_lt.mpr hhi
  have hn2 : |x / 2 ^ (k - ((p : Int) - 1)) - n| < 1 / 2 ∨
      (|x / 2 ^ (k - ((p : Int) - 1)) - n| = 1 / 2 ∧ n % 2 = 0) := by
    rcases hn with h | ⟨h, hev⟩
    · exact Or.inl (abs_lt.mpr h)
    · refine Or.inr ⟨?_, hev⟩
      rcases h with h | h
      · rw [h]
        norm_num
      · rw [h]
        norm_num [abs_of_neg]
  have hpos : 0 < |x| := lt_of_lt_of_le (by positivity) hlo2
  have h1 : k ≤ Int.log 2 |x| :=
    (Int.zpow_le_iff_le_log (by norm_num) hpos).mp (by exact_mod_cast hlo2)
  have h2 : Int.log 2 |x| < k + 1 :=
    (Int.lt_zpow_iff_log_lt (by norm_num) hpos).mp (by exact_mod_cast hhi2)
  have hlog : Int.log 2 |x| = k := by omega
  unfold roundBinary
  simp only [hlog, max_eq_left hk]
  rw [roundHalfEven_eq _ n hn2]

theorem roundBinary_zero (p : Nat) (emin : Int) : roundBinary p emin 0 = 0 := by
  simp [roundBinary, roundHalfEven]

theorem roundF32_zero : roundF32 0 = 0 := roundBinary_zero 24 (-126)

end Rounding

section RoundingBounds

theorem roundHalfEven_nonneg (q : ℚ) (h : 0 ≤ q) : 0 ≤ roundHalfEven q := by
  have hf : 0 ≤ ⌊q⌋ := Int.floor_nonneg.mpr h
  unfold roundHalfEven
  simp only
  split_ifs <;> omega

theorem roundHalfEven_le (q : ℚ) (N : Int) (h : q ≤ N) : roundHalfEven q ≤ N := by
  have hfq : (⌊q⌋ : ℚ) ≤ q := Int.floor_le q
  have hfN : ⌊q⌋ ≤ N := by exact_mod_cast hfq.trans h
  have hlt : ¬ q - ⌊q⌋ < 1 / 2 → ⌊q⌋ < N := by
    intro h1
    have : (⌊q⌋ : ℚ) < N := by linarith
    exact_mod_cast this
  unfold roundHalfEven
  simp only
  split_ifs with h1 h2 h3
  · exact hfN
  · have := hlt h1
    omega
  · exact hfN
  · have := hlt h1
    omega

/-- A rounding does not leave an interval `[0, 2 ^ j]` whose upper end is a value of the
format. -/
theorem roundBinary_mem (p : Nat) (emin j : Int) (x : ℚ) (hp : 1 ≤ p) (hj : emin ≤ j)
    (h0 : 0 ≤ x) (h1 : x ≤ 2 ^ j) : 0 ≤ roundBinary p emin x ∧ roundBinary p emin x ≤ 2 ^ j := by
  rcases eq_or_lt_of_le h0 with hz | hpos
  · rw [← hz, roundBinary_zero]
    exact ⟨le_refl _, by positivity⟩
  · have habs : |x| = x := abs_of_pos hpos
    have hlog : Int.log 2 |x| ≤ j := by
      rw [habs]
      have hlt : x < (2 : ℚ) ^ (j + 1) :=
        lt_of_le_of_lt h1 (zpow_lt_zpow_right₀ (by norm_num) (by omega))
      have := (Int.lt_zpow_iff_log_lt (b := 2) (by norm_num) hpos).mp (by exact_mod_cast hlt)
      omega
    have he : max (Int.log 2 |x|) emin - ((p : Int) - 1) ≤ j := by
      have : max (Int.log 2 |x|) emin ≤ j := max_le hlog hj
      omega
    unfold roundBinary
    simp only
    generalize max (Int.log 2 |x|) emin - ((p : Int) - 1) = e at he
    have hg : (0 : ℚ) < 2 ^ e := by positivity
    have hq0 : 0 ≤ x / 2 ^ e := by positivity
    obtain ⟨n, hn⟩ : ∃ n : Nat, j - e = n := ⟨(j - e).toNat, by omega⟩
    have hN : ((2 ^ n : Int) : ℚ) = 2 ^ j / 2 ^ e := by
      rw [← zpow_sub₀ (by norm_num), hn]
      push_cast
      rw [zpow_natCast]
    have hqN : x / 2 ^ e ≤ ((2 ^ n : Int) : ℚ) := by
      rw [hN]
      exact div_le_div_of_nonneg_right h1 hg.le
    have hr0 := roundHalfEven_nonneg _ hq0
    have hrN := roundHalfEven_le _ _ hqN
    constructor
    · have : (0 : ℚ) ≤ (roundHalfEven (x / 2 ^ e) : ℚ) := by exact_mod_cast hr0
      positivity
    · have h2 : (roundHalfEven (x / 2 ^ e) : ℚ) ≤ ((2 ^ n : Int) : ℚ) := by exact_mod_cast hrN
      calc (roundHalfEven (x / 2 ^ e) : ℚ) * 2 ^ e ≤ ((2 ^ n : Int) : ℚ) * 2 ^ e :=
            mul_le_mul_of_nonneg_right h2 hg.le
        _ = 2 ^ j := by
            rw [hN]
            field_simp

theorem roundF32_one_add (a : ℚ) (h0 : 0 ≤ a) (h1 : a ≤ 2 ^ (-25 : Int)) :
    roundF32 (1 + a) = 1 := by
  have h2 : (2 : ℚ) ^ (-25 : Int) = 1 / 33554432 := by norm_num
  rw [h2] at h1
  rw [roundF32, roundBinary_eq 24 (-126) _ 0 8388608 (by norm_num)
    (Or.inl (by norm_num; linarith)) (by constructor <;> norm_num <;> linarith)
    (Or.inl (by constructor <;> norm_num <;> linarith))]
  norm_num

theorem roundF32_one_sub (a : ℚ) (h0 : 0 ≤ a) (h1 : a ≤ 2 ^ (-25 : Int)) :
    roundF32 (1 - a) = 1 := by
  have h2 : (2 : ℚ) ^ (-25 : Int) = 1 / 33554432 := by norm_num
  rw [h2] at h1
  rcases eq_or_lt_of_le h0 with hz | hpos
  · rw [← hz, sub_zero]
    have := roundF32_one_add 0 (le_refl _) (by positivity)
    rwa [add_zero] at this
  · rw [roundF32, roundBinary_eq 24 (-126) _ (-1) 16777216 (by norm_num)
      (Or.inl (by norm_num; linarith)) (by constructor <;> norm_num <;> linarith)
      (by
        rcases eq_or_lt_of_le h1 with he | hl
        · right
          refine ⟨Or.inr ?_, by norm_num⟩
          rw [he]
          norm_num
        · left
          constructor <;> norm_num <;> linarith)]
    norm_num

end RoundingBounds

/-! ## The limiter effect in binary32 -/

section LimiterRounding

theorem roundF32_limiter_threshold : roundF32 0.95 = 15938355 / 16777216 := by
  rw [roundF32, roundBinary_eq 24 (-126) _ (-1) 15938355 (by norm_num) (by norm_num)
    (by norm_num) (by norm_num)]
  norm_num

theorem roundF32_limiter_sample : roundF32 1.3 = 5452595 / 4194304 := by
  rw [roundF32, roundBinary_eq 24 (-126) _ 0 10905190 (by norm_num) (by norm_num)
    (by norm_num) (by norm_num)]
  norm_num

theorem roundF32_limiter_gain :
    roundF32 ((15938355 / 16777216) / (5452595 / 4194304)) = 6130137 / 8388608 := by
  rw [roundF32, roundBinary_eq 24 (-126) _ (-1) 12260274 (by norm_num) (by norm_num)
    (by norm_num) (by norm_num)]
  norm_num

theorem roundF32_limiter_product :
    roundF32 (5452595 / 4194304 * (6130137 / 8388608)) = 3984589 / 4194304 := by
  rw [roundF32, roundBinary_eq 24 (-126) _ (-1) 15938356 (by norm_num) (by norm_num)
    (by norm_num) (by norm_num)]
  norm_num

theorem roundF32_limiter_gain_second :
    roundF32 ((15938355 / 16777216) / (3984589 / 4194304)) = 16777215 / 16777216 := by
  rw [roundF32, roundBinary_eq 24 (-126) _ (-1) 16777215 (by norm_num) (by norm_num)
    (by norm_num) (by norm_num)]
  norm_num

theorem roundF32_limiter_product_second :
    roundF32 (3984589 / 4194304 * (16777215 / 16777216)) = 15938355 / 16777216 := by
  rw [roundF32, roundBinary_eq 24 (-126) _ (-1) 15938355 (by norm_num) (by norm_num)
    (by norm_num) (by norm_num)]
  norm_num

end LimiterRounding

namespace DSPProcessor

/-- C12 as stated fails in the arithmetic of the code. With the threshold `0.95f` and the
sample `1.3f`, the `LIMITER` loop computes `gain = 0.95f / 1.3f`, rounded to
`6130137 / 2 ^ 23`, and the product `1.3f * gain`, rounded to `3984589 / 2 ^ 22`
(0.95000005), which is above the threshold `15938355 / 2 ^ 24` (0.94999999); and a second
pass over that output changes it, to the threshold itself. -/
theorem limiter_effect_counterexample :
    limiterCaseF32 (setLimiterThreshold DSPProcessor.new (roundF32 0.95)) 1 1 [roundF32 1.3] =
      some [3984589 / 4194304] ∧
    roundF32 0.95 = 15938355 / 16777216 ∧
    (15938355 / 16777216 : ℚ) < |3984589 / 4194304| ∧
    limiterCaseF32 (setLimiterThreshold DSPProcessor.new (roundF32 0.95)) 1 1
      [3984589 / 4194304] = some [15938355 / 16777216] ∧
    (3984589 / 4194304 : ℚ) ≠ 15938355 / 16777216 := by
  have hx : |(5452595 / 4194304 : ℚ)| = 5452595 / 4194304 := abs_of_pos (by norm_num)
  have hy : |(3984589 / 4194304 : ℚ)| = 3984589 / 4194304 := abs_of_pos (by norm_num)
  refine ⟨?_, roundF32_limiter_threshold, ?_, ?_, by norm_num⟩
  · simp only [limiterCaseF32, setLimiterThreshold, Nat.mul_one, forLoop_succ, forLoop_zero,
      Option.some_bind, limiterSampleF32, roundF32_limiter_threshold, roundF32_limiter_sample,
      List.getElem?_cons_zero, Option.bind_eq_bind, hx]
    rw [if_pos (by norm_num), roundF32_limiter_gain, roundF32_limiter_product]
    rfl
  · rw [hy]
    norm_num
  · simp only [limiterCaseF32, setLimiterThreshold, Nat.mul_one, forLoop_succ, forLoop_zero,
      Option.some_bind, limiterSampleF32, roundF32_limiter_threshold,
      List.getElem?_cons_zero, Option.bind_eq_bind, hy]
    rw [if_pos (by norm_num), roundF32_limiter_gain_second, roundF32_limiter_product_second]
    rfl

end DSPProcessor

/-! ## The band value in binary32 -/

section BandRounding

theorem roundF32_band_smoothing : roundF32 0.0308108572 = 16541453 / 536870912 := by
  rw [roundF32, roundBinary_eq 24 (-126) _ (-6) 16541453 (by norm_num) (by norm_num)
    (by norm_num) (by norm_num)]
  norm_num

theorem roundF32_band_epsilon : roundF32 (1e-10) = 14411519 / 144115188075855872 := by
  rw [roundF32, roundBinary_eq 24 (-126) _ (-34) 14411519 (by norm_num) (by norm_num)
    (by norm_num) (by norm_num)]
  norm_num

theorem roundF32_band_magnitude : roundF32 (144115188090267391 / 144115188075855872) = 1 := by
  rw [roundF32, roundBinary_eq 24 (-126) _ 0 8388608 (by norm_num) (by norm_num)
    (by norm_num) (by norm_num)]
  norm_num

theorem roundF32_band_sixty : roundF32 60 = 60 := by
  rw [roundF32, roundBinary_eq 24 (-126) _ 5 15728640 (by norm_num) (by norm_num)
    (by norm_num) (by norm_num)]
  norm_num

theorem roundF32_band_one : roundF32 1 = 1 := by
  rw [roundF32, roundBinary_eq 24 (-126) _ 0 8388608 (by norm_num) (by norm_num)
    (by norm_num) (by norm_num)]
  norm_num

theorem roundF32_band_old : roundF32 (16541453 / 536870912) = 16541453 / 536870912 := by
  rw [roundF32, roundBinary_eq 24 (-126) _ (-6) 16541453 (by norm_num) (by norm_num)
    (by norm_num) (by norm_num)]
  norm_num

theorem roundF32_band_rest : roundF32 (520329459 / 536870912) = 2032537 / 2097152 := by
  rw [roundF32, roundBinary_eq 24 (-126) _ (-1) 16260296 (by norm_num) (by norm_num)
    (by norm_num) (by norm_num)]
  norm_num

theorem roundF32_band_scaled : roundF32 (30488055 / 524288) = 3811007 / 65536 := by
  rw [roundF32, roundBinary_eq 24 (-126) _ 5 15244028 (by norm_num) (by norm_num)
    (by norm_num) (by norm_num)]
  norm_num

theorem roundF32_band_level : roundF32 (3811007 / 3932160) = 16260297 / 16777216 := by
  rw [roundF32, roundBinary_eq 24 (-126) _ (-1) 16260297 (by norm_num) (by norm_num)
    (by norm_num) (by norm_num)]
  norm_num

theorem roundF32_band_sum : roundF32 (536870957 / 536870912) = 8388609 / 8388608 := by
  rw [roundF32, roundBinary_eq 24 (-126) _ 0 8388609 (by norm_num) (by norm_num)
    (by norm_num) (by norm_num)]
  norm_num

end BandRounding

namespace Visualizer

/-- C23 as stated fails in the arithmetic of the code. Take a band of magnitude 1, for
which `magnitude + 1e-10f` is `1.0f`, and any library with `log10f(1.0f) = 0`, so that the
level is 0 dB. With smoothing 0 and the constructed band value 0 the band loop stores
exactly 1. With the smoothing factor `0.0308108572f = 16541453 / 2 ^ 29`, which
`setSmoothing` stores as it is, and the band value 1, the loop rounds `1.0f - s`, the
product with 60 (a tie, to even), the quotient by 60 and the sum, and stores
`8388609 / 2 ^ 23` (1.00000012), which is above 1. -/
theorem spectrum_normalized_counterexample :
    (setSmoothing (Visualizer.new : Visualizer ℚ) (roundF32 0.0308108572)).smoothing =
      16541453 / 536870912 ∧
    (∀ m : SpectrumMath ℚ, m.log10 1 = 0 →
      bandValueF32 m 0 0 1 = 1 ∧
      bandValueF32 m (16541453 / 536870912) 1 1 = 8388609 / 8388608) ∧
    ¬ (8388609 / 8388608 : ℚ) ≤ 1 := by
  refine ⟨?_, ?_, by norm_num⟩
  · simp only [setSmoothing, roundF32_band_smoothing, stdClamp]
    norm_num
  · intro m hm
    constructor
    · simp only [bandValueF32, roundF32_band_epsilon]
      norm_num [stdClamp, roundF32_band_magnitude, roundF32_band_sixty, roundF32_band_one,
        roundF32_zero, hm]
    · simp only [bandValueF32, roundF32_band_epsilon]
      norm_num [stdClamp, roundF32_band_magnitude, roundF32_band_sixty, roundF32_band_one,
        roundF32_band_old, roundF32_band_rest, roundF32_band_scaled, roundF32_band_level,
        roundF32_band_sum, roundF32_zero, hm]

end Visualizer

/-! ## The low-pass design in binary32 -/

section DesignRounding

theorem roundF64_two_pi :
    roundF64 (884279719003555 / 140737488355328) = 884279719003555 / 140737488355328 := by
  rw [roundF64, roundBinary_eq 53 (-1022) _ 2 7074237752028440 (by norm_num) (by norm_num)
    (by norm_num) (by norm_num)]
  norm_num

theorem roundF64_two_pi_f :
    roundF64 (110534964875444375 / 17592186044416) = 6908435304715273 / 1099511627776 := by
  rw [roundF64, roundBinary_eq 53 (-1022) _ 12 6908435304715273 (by norm_num) (by norm_num)
    (by norm_num) (by norm_num)]
  norm_num

theorem roundF64_omega :
    roundF64 (6908435304715273 / 52776558133248000) = 4716158501352293 / 36028797018963968 := by
  rw [roundF64, roundBinary_eq 53 (-1022) _ (-3) 4716158501352293 (by norm_num) (by norm_num)
    (by norm_num) (by norm_num)]
  norm_num

theorem roundF32_omega : roundF32 (4716158501352293 / 36028797018963968) = 4392265 / 33554432 := by
  rw [roundF32, roundBinary_eq 24 (-126) _ (-3) 8784530 (by norm_num) (by norm_num)
    (by norm_num) (by norm_num)]
  norm_num

theorem roundF32_two_q : roundF32 6000000 = 6000000 := by
  rw [roundF32, roundBinary_eq 24 (-126) _ 22 12000000 (by norm_num) (by norm_num)
    (by norm_num) (by norm_num)]
  norm_num

end DesignRounding

section DesignCounterexample

/-- C4 as stated fails in the arithmetic of the code. For the low-pass filter of 1 kHz
with `Q = 3000000` at 48 kHz, `w0` is the `float` `4392265 / 2 ^ 25` (0.13089970). Whatever
`float` between 0 and `5/32` the library returns for `sinf(w0)` (the sine of that angle
is 0.1305), `alpha = sinf(w0) / (2.0f * Q)` is at most `2 ^ -25`, so `1.0f + alpha` and
`1.0f - alpha` both round to 1: `a0 = 1`, `a2 = 1`, and the normalized `a2` is 1, not
below 1. The last conjunct is the instance with the library values
`sinf(w0) = 8759465 / 2 ^ 26` and `cosf(w0) = 16633685 / 2 ^ 24`. -/
theorem designed_filters_stable_counterexample :
    omega0F32 48000 1000 = 4392265 / 33554432 ∧
    (∀ m : MathLib ℚ, 0 ≤ m.sin (omega0F32 48000 1000) →
      m.sin (omega0F32 48000 1000) ≤ 5 / 32 →
      (lowPassRawF32 m (omega0F32 48000 1000) 3000000).a0 = 1 ∧
      (lowPassRawF32 m (omega0F32 48000 1000) 3000000).a2 = 1 ∧
      (lowPassRawF32 m (omega0F32 48000 1000) 3000000).normalizeF32.a2 = 1 ∧
      ¬ |(lowPassRawF32 m (omega0F32 48000 1000) 3000000).normalizeF32.a2| < 1) ∧
    ¬ |(lowPassRawF32
      { pi := M_PI, sin := fun _ => 8759465 / 67108864, cos := fun _ => 16633685 / 16777216,
        sqrt := fun x => x, pow := fun x _ => x }
      (omega0F32 48000 1000) 3000000).normalizeF32.a2| < 1 := by
  have hw : omega0F32 48000 1000 = 4392265 / 33554432 := by
    simp only [omega0F32, M_PI]
    norm_num [roundF64_two_pi, roundF64_two_pi_f, roundF64_omega, roundF32_omega]
  have key : ∀ m : MathLib ℚ, 0 ≤ m.sin (omega0F32 48000 1000) →
      m.sin (omega0F32 48000 1000) ≤ 5 / 32 →
      (lowPassRawF32 m (omega0F32 48000 1000) 3000000).a0 = 1 ∧
      (lowPassRawF32 m (omega0F32 48000 1000) 3000000).a2 = 1 ∧
      (lowPassRawF32 m (omega0F32 48000 1000) 3000000).normalizeF32.a2 = 1 ∧
      ¬ |(lowPassRawF32 m (omega0F32 48000 1000) 3000000).normalizeF32.a2| < 1 := by
    intro m hs0 hs1
    have h2q : roundF32 (2 * 3000000) = 6000000 := by
      norm_num [roundF32_two_q]
    have hq : m.sin (omega0F32 48000 1000) / 6000000 ≤ 2 ^ (-25 : Int) := by
      have h2 : (2 : ℚ) ^ (-25 : Int) = 1 / 33554432 := by norm_num
      rw [h2, div_le_iff₀ (by norm_num)]
      linarith
    obtain ⟨ha0, ha1⟩ := roundBinary_mem 24 (-126) (-25)
      (m.sin (omega0F32 48000 1000) / 6000000) (by norm_num) (by norm_num)
      (by positivity) hq
    have e0 : (lowPassRawF32 m (omega0F32 48000 1000) 3000000).a0 = 1 := by
      simp only [lowPassRawF32, h2q]
      exact roundF32_one_add _ ha0 ha1
    have e2 : (lowPassRawF32 m (omega0F32 48000 1000) 3000000).a2 = 1 := by
      simp only [lowPassRawF32, h2q]
      exact roundF32_one_sub _ ha0 ha1
    have en : (lowPassRawF32 m (omega0F32 48000 1000) 3000000).normalizeF32.a2 = 1 := by
      simp only [RawCoeffs.normalizeF32, e0, e2]
      norm_num [roundF32_band_one]
    refine ⟨e0, e2, en, ?_⟩
    rw [en]
    norm_num
  refine ⟨hw, key, ?_⟩
  exact (key _ (by norm_num) (by norm_num)).2.2.2

end DesignCounterexample

/-! ## The delay amount in binary32 -/

section DelayRounding

theorem roundF32_rate : roundF32 48000 = 48000 := by
  rw [roundF32, roundBinary_eq 24 (-126) _ 15 12288000 (by norm_num) (by norm_num)
    (by norm_num) (by norm_num)]
  norm_num

theorem roundF32_delay_param_short : roundF32 (1 / 80000) = 13743895 / 1099511627776 := by
  rw [roundF32, roundBinary_eq 24 (-126) _ (-17) 13743895 (by norm_num) (by norm_num)
    (by norm_num) (by norm_num)]
  norm_num

theorem roundF32_delay_product_short :
    roundF32 (5153960625 / 8589934592) = 10066329 / 16777216 := by
  rw [roundF32, roundBinary_eq 24 (-126) _ (-1) 10066329 (by norm_num) (by norm_num)
    (by norm_num) (by norm_num)]
  norm_num

theorem roundF32_delay_param_long : roundF32 (25 / 24) = 8738133 / 8388608 := by
  rw [roundF32, roundBinary_eq 24 (-126) _ 0 8738133 (by norm_num) (by norm_num)
    (by norm_num) (by norm_num)]
  norm_num

theorem roundF32_delay_product_long : roundF32 (3276799875 / 65536) = 50000 := by
  rw [roundF32, roundBinary_eq 24 (-126) _ 15 12800000 (by norm_num) (by norm_num)
    (by norm_num) (by norm_num)]
  norm_num

theorem roundF32_delay_param_unit : roundF32 (1 / 48000) = 5726623 / 274877906944 := by
  rw [roundF32, roundBinary_eq 24 (-126) _ (-16) 11453246 (by norm_num) (by norm_num)
    (by norm_num) (by norm_num)]
  norm_num

theorem roundF32_delay_product_unit : roundF32 (2147483625 / 2147483648) = 1 := by
  rw [roundF32, roundBinary_eq 24 (-126) _ (-1) 16777216 (by norm_num) (by norm_num)
    (by norm_num) (by norm_num)]
  norm_num

end DelayRounding

namespace DSPProcessor

/-- C16 as stated fails. At 48 kHz, `param1 = 1.0f / 80000.0f` makes the rounded product
`param1 * sampleRate_` equal to `10066329 / 2 ^ 24` (0.59999996), which the cast truncates
to a delay of 0 samples, not 1: on the mono buffer `(1, 1)` the second output is 1, not
`1 + mix * 1`. And `param1 = 25.0f / 24.0f` makes the rounded product 50000, which is not
clamped: at write index 5900 the code reads slot 0, where the clamped delay of 44100 samples
would read slot 5900. -/
theorem delay_amount_counterexample :
    roundF32 (roundF32 (1 / 80000) *
      roundF32 (((DSPProcessor.new : DSPProcessor ℚ).sampleRate : Int) : ℚ)) =
        10066329 / 16777216 ∧
    (1 / 2 : ℚ) ≤ 10066329 / 16777216 ∧
    delaySamplesF32
      { type := EffectType.DELAY, mix := 1, param1 := roundF32 (1 / 80000), param2 := 0,
        param3 := 0 }
      (DSPProcessor.new : DSPProcessor ℚ).sampleRate = 0 ∧
    (∃ st out, delayCase (DSPProcessor.new : DSPProcessor ℚ) 2 1 (initStatics, [1, 1])
        { type := EffectType.DELAY, mix := 1, param1 := roundF32 (1 / 80000), param2 := 0,
          param3 := 0 } = some (st, out) ∧
      out[1]? = some 1 ∧ (1 : ℚ) ≠ 1 + 1 * 1) ∧
    delaySamplesF32
      { type := EffectType.DELAY, mix := 1, param1 := roundF32 (25 / 24), param2 := 0,
        param3 := 0 }
      (DSPProcessor.new : DSPProcessor ℚ).sampleRate = 50000 ∧
    delayReadIndex 5900 50000 44100 = 0 ∧ delayReadIndex 5900 44100 44100 = 5900 := by
  have hfs : (((DSPProcessor.new : DSPProcessor ℚ).sampleRate : Int) : ℚ) = 48000 := by
    simp [DSPProcessor.new]
  have hprod : roundF32 (roundF32 (1 / 80000) * roundF32 (48000 : ℚ)) =
      10066329 / 16777216 := by
    rw [roundF32_rate, roundF32_delay_param_short]
    norm_num [roundF32_delay_product_short]
  have hd0 : delaySamplesF32
      { type := EffectType.DELAY, mix := 1, param1 := roundF32 (1 / 80000), param2 := 0,
        param3 := 0 }
      (DSPProcessor.new : DSPProcessor ℚ).sampleRate = 0 := by
    simp only [delaySamplesF32, hfs, hprod]
    rw [truncToInt_of_nonneg _ (by norm_num)]
    exact Int.floor_eq_iff.mpr ⟨by norm_num, by norm_num⟩
  have hprod2 : roundF32 (roundF32 (25 / 24) * roundF32 (48000 : ℚ)) = 50000 := by
    rw [roundF32_rate, roundF32_delay_param_long]
    norm_num [roundF32_delay_product_long]
  rw [hfs]
  refine ⟨hprod, by norm_num, hd0, ?_, ?_, by decide, by decide⟩
  · have hrep : (initStatics : DSPStatics ℚ).delayBuffer.length = 44100 := by
      simp only [initStatics, List.length_replicate]
    have hloop := delay_loop
      ({ type := EffectType.DELAY, mix := 1, param1 := roundF32 (1 / 80000), param2 := 0,
         param3 := 0 } : EffectParams ℚ)
      0 44100 2 initStatics [1, 1] (by norm_num) (le_refl _)
      (fun di hdi => by
        rw [delayReadIndex_effective 0 (le_refl _) (by norm_num) di hdi]
        simp)
      hrep (by simp only [initStatics]; norm_num) (by simp)
    obtain ⟨u, hu, -, -, -, -, -, -, -, hout, -, -⟩ := hloop
    refine ⟨u.1, u.2, ?_, ?_, by norm_num⟩
    · simp only [delayCase, hd0, Nat.mul_one]
      exact hu
    · obtain ⟨dl, hdl1, hdl2⟩ := hout 1 1 (by norm_num) (by simp)
      have hdl0 : dl = 0 := by
        rw [if_neg (by norm_num)] at hdl1
        simp only [initStatics] at hdl1
        rw [List.getElem?_replicate] at hdl1
        split_ifs at hdl1
        exact (Option.some.inj hdl1).symm
      rw [hdl2, hdl0]
      norm_num
  · simp only [delaySamplesF32, hfs, hprod2]
    rw [truncToInt_of_nonneg _ (by norm_num)]
    exact Int.floor_eq_iff.mpr ⟨by norm_num, by norm_num⟩

/-- C16, amended. Delay amount: the `DELAY` case computes `d` as the truncation of the
binary32 product `param1 * sampleRate_` (no rounding to nearest, no clamp). When that
product is in `[0, 44101)`, `d = ⌊product⌋` is in `0..44100`; on a delay line of 44100
samples the effect returns, leaves the buffer length and the other statics as they were,
advances the write index by the `numFrames * numChannels` samples it processes, and sets
output `i` to `input i + delayed * mix`, where `delayed` is the sample written `e` samples
earlier with `e = d` for `1 ≤ d` and `e = 44100` for `d = 0`: the input `i - e` of this
buffer when `e ≤ i`, and otherwise what the delay line held before the call at position
`(delayIndex + i - e) mod 44100`. Every processed input `m` is stored in the delay line at
position `(delayIndex + m) mod 44100` (the last 44100 of them remain), and no other slot
changes. The sample values are in exact arithmetic. -/
theorem delay_effect_amount (p : DSPProcessor ℚ) (effect : EffectParams ℚ)
    (numFrames numChannels : Nat) (st : DSPStatics ℚ) (buffer : List ℚ)
    (h0 : 0 ≤ roundF32 (effect.param1 * roundF32 (p.sampleRate : ℚ)))
    (h1 : roundF32 (effect.param1 * roundF32 (p.sampleRate : ℚ)) < 44101)
    (hdb : st.delayBuffer.length = 44100) (hdi : st.delayIndex < 44100)
    (hlen : numFrames * numChannels ≤ buffer.length) :
    delaySamplesF32 effect p.sampleRate =
      ⌊roundF32 (effect.param1 * roundF32 (p.sampleRate : ℚ))⌋ ∧
    0 ≤ delaySamplesF32 effect p.sampleRate ∧ delaySamplesF32 effect p.sampleRate ≤ 44100 ∧
    ∃ e st2 out,
      e = (if delaySamplesF32 effect p.sampleRate = 0 then 44100
           else (delaySamplesF32 effect p.sampleRate).toNat) ∧
      delayCase p numFrames numChannels (st, buffer) effect = some (st2, out) ∧
      out.length = buffer.length ∧
      st2.delayBuffer.length = 44100 ∧
      st2.delayIndex = (st.delayIndex + numFrames * numChannels) % 44100 ∧
      st2.filterHistory = st.filterHistory ∧ st2.reverbBuffer = st.reverbBuffer ∧
      st2.reverbIndex = st.reverbIndex ∧
      (∀ i, numFrames * numChannels ≤ i → out[i]? = buffer[i]?) ∧
      (∀ i x, i < numFrames * numChannels → buffer[i]? = some x →
        ∃ dl, (if e ≤ i then buffer[i - e]?
               else st.delayBuffer[(st.delayIndex + i + 44100 - e) % 44100]?) = some dl ∧
          out[i]? = some (x + dl * effect.mix)) ∧
      (∀ m, m < numFrames * numChannels → numFrames * numChannels ≤ m + 44100 →
        st2.delayBuffer[(st.delayIndex + m) % 44100]? = buffer[m]?) ∧
      (∀ j, (∀ m, m < numFrames * numChannels → (st.delayIndex + m) % 44100 ≠ j) →
        st2.delayBuffer[j]? = st.delayBuffer[j]?) := by
  have htr : delaySamplesF32 effect p.sampleRate =
      ⌊roundF32 (effect.param1 * roundF32 (p.sampleRate : ℚ))⌋ := truncToInt_of_nonneg _ h0
  have hd0 : 0 ≤ delaySamplesF32 effect p.sampleRate := by
    rw [htr]
    exact Int.floor_nonneg.mpr h0
  have hd1 : delaySamplesF32 effect p.sampleRate ≤ 44100 := by
    have : ⌊roundF32 (effect.param1 * roundF32 (p.sampleRate : ℚ))⌋ < 44101 := by
      rw [Int.floor_lt]
      exact_mod_cast h1
    rw [htr]
    omega
  have he1 : 1 ≤ (if delaySamplesF32 effect p.sampleRate = 0 then 44100
      else (delaySamplesF32 effect p.sampleRate).toNat) := by
    split_ifs with h
    · norm_num
    · omega
  have he2 : (if delaySamplesF32 effect p.sampleRate = 0 then 44100
      else (delaySamplesF32 effect p.sampleRate).toNat) ≤ 44100 := by
    split_ifs with h
    · exact le_refl _
    · omega
  obtain ⟨u, hu, hl, hdl, hidx, hfh, hrb, hri, hrest, hout, hstore, hkeep⟩ := delay_loop effect
    (delaySamplesF32 effect p.sampleRate) _ (numFrames * numChannels) st buffer he1 he2
    (fun di hdi2 => delayReadIndex_effective _ hd0 hd1 di hdi2) hdb hdi hlen
  exact ⟨htr, hd0, hd1, _, u.1, u.2, rfl, hu, hl, hdl, hidx, hfh, hrb, hri, hrest, hout,
    hstore, hkeep⟩

/-- An instance of the amended C16: at 48 kHz, `param1 = 1.0f / 48000.0f` is below
`1 / 48000`, but the product rounds to 1, so the delay is one sample; on the mono buffer
`(3, -4, 5)` with mix `1/2`, from the statics at program start. -/
theorem delay_effect_amount_witness :
    roundF32 (roundF32 (1 / 48000) *
      roundF32 (((DSPProcessor.new : DSPProcessor ℚ).sampleRate : Int) : ℚ)) = 1 ∧
    roundF32 (1 / 48000) * (48000 : ℚ) < 1 ∧
    delaySamplesF32
      { type := EffectType.DELAY, mix := 1 / 2, param1 := roundF32 (1 / 48000), param2 := 0,
        param3 := 0 }
      (DSPProcessor.new : DSPProcessor ℚ).sampleRate = 1 ∧
    ∃ e st2 out,
      e = (if delaySamplesF32
              { type := EffectType.DELAY, mix := 1 / 2, param1 := roundF32 (1 / 48000),
                param2 := 0, param3 := 0 }
              (DSPProcessor.new : DSPProcessor ℚ).sampleRate = 0 then 44100
           else (delaySamplesF32
              { type := EffectType.DELAY, mix := 1 / 2, param1 := roundF32 (1 / 48000),
                param2 := 0, param3 := 0 }
              (DSPProcessor.new : DSPProcessor ℚ).sampleRate).toNat) ∧
      delayCase (DSPProcessor.new : DSPProcessor ℚ) 3 1 (initStatics, [3, -4, 5])
        { type := EffectType.DELAY, mix := 1 / 2, param1 := roundF32 (1 / 48000), param2 := 0,
          param3 := 0 } = some (st2, out) ∧
      out.length = [(3 : ℚ), -4, 5].length ∧
      st2.delayBuffer.length = 44100 ∧
      st2.delayIndex = ((initStatics : DSPStatics ℚ).delayIndex + 3 * 1) % 44100 ∧
      st2.filterHistory = (initStatics : DSPStatics ℚ).filterHistory ∧
      st2.reverbBuffer = (initStatics : DSPStatics ℚ).reverbBuffer ∧
      st2.reverbIndex = (initStatics : DSPStatics ℚ).reverbIndex ∧
      (∀ i, 3 * 1 ≤ i → out[i]? = [(3 : ℚ), -4, 5][i]?) ∧
      (∀ i x, i < 3 * 1 → [(3 : ℚ), -4, 5][i]? = some x →
        ∃ dl, (if e ≤ i then [(3 : ℚ), -4, 5][i - e]?
               else (initStatics : DSPStatics ℚ).delayBuffer[
                 ((initStatics : DSPStatics ℚ).delayIndex + i + 44100 - e) % 44100]?) =
            some dl ∧
          out[i]? = some (x + dl * (1 / 2))) ∧
      (∀ m, m < 3 * 1 → 3 * 1 ≤ m + 44100 →
        st2.delayBuffer[((initStatics : DSPStatics ℚ).delayIndex + m) % 44100]? =
          [(3 : ℚ), -4, 5][m]?) ∧
      (∀ j,
        (∀ m, m < 3 * 1 → ((initStatics : DSPStatics ℚ).delayIndex + m) % 44100 ≠ j) →
        st2.delayBuffer[j]? = (initStatics : DSPStatics ℚ).delayBuffer[j]?) := by
  have hfs : (((DSPProcessor.new : DSPProcessor ℚ).sampleRate : Int) : ℚ) = 48000 := by
    simp [DSPProcessor.new]
  have hprod : roundF32 (roundF32 (1 / 48000) * roundF32 (48000 : ℚ)) = 1 := by
    rw [roundF32_rate, roundF32_delay_param_unit]
    norm_num [roundF32_delay_product_unit]
  have hthm := delay_effect_amount (DSPProcessor.new : DSPProcessor ℚ)
    { type := EffectType.DELAY, mix := 1 / 2, param1 := roundF32 (1 / 48000), param2 := 0,
      param3 := 0 }
    3 1 initStatics [3, -4, 5]
    (by simp only [hfs, hprod]; norm_num) (by simp only [hfs, hprod]; norm_num)
    (by simp only [initStatics, List.length_replicate])
    (by simp only [initStatics]; norm_num) (by simp)
  refine ⟨by rw [hfs]; exact hprod, ?_, ?_, hthm.2.2.2⟩
  · rw [roundF32_delay_param_unit]
    norm_num
  · rw [hthm.1]
    simp only [hfs, hprod]
    exact Int.floor_eq_iff.mpr ⟨by norm_num, by norm_num⟩

end DSPProcessor

end AudioCore
